import Mathlib

/-!
Verification development for the dragontoothmg chess move generator.

The Go sources are shallowly embedded:
* `types.go`   : board representation, move encoding, piece bookkeeping
* `apply.go`   : `MakeMove` / `MakeSimpleMove` / `MakeSpecialMove` / `Restore`
* `util.go`    : `recomputeBoardHash`, `IsCapture`, `ParseMove`, `AlgebraicToIndex`
* the move generator file : `GenerateLegalMoves2`, `generatePinnedMoves`,
  `pawnPushes`, `pawnCaptures`, `knightMoves`, `rookMoves`, `bishopMoves`,
  `queenMoves`, `kingPushes`, `kingMoves`, `countAttacks`

64-bit machine integers are embedded as `Nat` with explicit reduction
modulo `2 ^ 64` wherever Go wraps; 8/16-bit quantities likewise use
`% 256` / `% 65536`.  Mutation is embedded by explicit state passing:
every Go method that writes to the board becomes a Lean function
returning the new board.  Functions in the source that provisionally
edit the board and revert (king-danger computation, en-passant legality
probing) are embedded faithfully: they return the board obtained after
the final reverting writes, so that the claim that these edits restore
the state is a real theorem, not a triviality of the embedding.
-/

namespace Dragontooth

/-- 2^64, the modulus of the Go `uint64` type. -/
def U64 : Nat := 18446744073709551616

/-- Embedding of the Go expression `uint64(1) << pos`.  Go defines shifts by
64 or more to produce 0, which `% U64` reproduces. -/
def bitU (pos : Nat) : Nat := (1 <<< pos) % U64

/-- Embedding of the Go unary complement `^x` on `uint64`. -/
def compl64 (x : Nat) : Nat := x ^^^ (U64 - 1)

/-- Ascending list of set-bit indices of a 64-bit word; the Go sources iterate
set bits in this order via `bits.TrailingZeros64` and clear-lowest-bit. -/
def bitIndices (x : Nat) : List Nat :=
  (List.range 64).filter (fun i => x.testBit i)

/-- Embedding of `bits.TrailingZeros64` for 64-bit words (returns 64 on 0). -/
def lowestSetBit (x : Nat) : Nat :=
  match bitIndices x with
  | [] => 64
  | i :: _ => i

/-- Embedding of `bits.OnesCount64` for 64-bit words. -/
def popCount64 (x : Nat) : Nat := (bitIndices x).length

/-- The Go `ColorT` type: `White = 0`, `Black = 1`. -/
inductive ColorT where
  | White
  | Black
deriving DecidableEq, Repr

open ColorT

/-- Numeric value of a color, as used in Go arithmetic such as
`b.Fullmoveno += uint16(ourCol)`. -/
def colorVal : ColorT → Nat
  | White => 0
  | Black => 1

/-- Embedding of `oppColor` from types.go (`Black ^ color`). -/
def oppColor : ColorT → ColorT
  | White => Black
  | Black => White

/-- The Go `CastleRightsT` type: `Queenside = 0`, `Kingside = 1`. -/
inductive CastleRightsT where
  | Queenside
  | Kingside
deriving DecidableEq, Repr

open CastleRightsT

/-- Numeric value of a castling side. -/
def sideVal : CastleRightsT → Nat
  | Queenside => 0
  | Kingside => 1

/-- Embedding of `toFlag` from types.go. -/
def toFlag (side : CastleRightsT) : Nat := 1 <<< sideVal side

/-- The Go `Piece` type; constants `Nothing = 0 .. King = 6`, and the
pseudo-index `All = 7` used to address the union bitboard slot. -/
inductive Piece where
  | Nothing
  | Pawn
  | Knight
  | Bishop
  | Rook
  | Queen
  | King
  | AllPieces
deriving DecidableEq, Repr

open Piece

/-- Numeric value of a piece constant. -/
def pieceVal : Piece → Nat
  | Nothing => 0
  | Pawn => 1
  | Knight => 2
  | Bishop => 3
  | Rook => 4
  | Queen => 5
  | King => 6
  | AllPieces => 7

/-- Inverse of `pieceVal` on 0..7 (used to decode the move promotion field). -/
def pieceOfNat : Nat → Piece
  | 0 => Nothing
  | 1 => Pawn
  | 2 => Knight
  | 3 => Bishop
  | 4 => Rook
  | 5 => Queen
  | 6 => King
  | _ => AllPieces

/-- The Go `Bitboards` type `[NPiecesWithAll]uint64`: one 64-bit word per
piece-kind slot (index 0 is the unused `Nothing` slot, index 7 is `All`). -/
structure Bitboards where
  BNothing : Nat
  Pawns : Nat
  Knights : Nat
  Bishops : Nat
  Rooks : Nat
  Queens : Nat
  Kings : Nat
  BAll : Nat
deriving DecidableEq, Repr

/-- Read slot `p` of a `Bitboards` value (Go `bb[piece]`). -/
def Bitboards.get (bb : Bitboards) (p : Piece) : Nat :=
  match p with
  | Nothing => bb.BNothing
  | Pawn => bb.Pawns
  | Knight => bb.Knights
  | Bishop => bb.Bishops
  | Rook => bb.Rooks
  | Queen => bb.Queens
  | King => bb.Kings
  | AllPieces => bb.BAll

/-- Write slot `p` of a `Bitboards` value (Go `bb[piece] = v`). -/
def Bitboards.set (bb : Bitboards) (p : Piece) (v : Nat) : Bitboards :=
  match p with
  | Nothing => { bb with BNothing := v }
  | Pawn => { bb with Pawns := v }
  | Knight => { bb with Knights := v }
  | Bishop => { bb with Bishops := v }
  | Rook => { bb with Rooks := v }
  | Queen => { bb with Queens := v }
  | King => { bb with Kings := v }
  | AllPieces => { bb with BAll := v }

/-- The Go `Board` type from types.go. -/
structure Board where
  Colortomove : ColorT
  enpassant : Nat
  Halfmoveclock : Nat
  castleW : Nat
  castleB : Nat
  Fullmoveno : Nat
  bbW : Bitboards
  bbB : Bitboards
  pieces : List Piece
  hash : Nat
deriving DecidableEq, Repr

/-- Read the `Bitboards` of a color (Go `b.Bbs[c]`). -/
def Board.bbs (b : Board) (c : ColorT) : Bitboards :=
  match c with
  | White => b.bbW
  | Black => b.bbB

/-- Write the `Bitboards` of a color. -/
def Board.setBbs (b : Board) (c : ColorT) (bb : Bitboards) : Board :=
  match c with
  | White => { b with bbW := bb }
  | Black => { b with bbB := bb }

/-- Read slot (c, p) of the board's bitboards (Go `b.Bbs[c][p]`). -/
def Board.bb (b : Board) (c : ColorT) (p : Piece) : Nat :=
  (b.bbs c).get p

/-- Write slot (c, p) of the board's bitboards (Go `b.Bbs[c][p] = v`). -/
def Board.setBb (b : Board) (c : ColorT) (p : Piece) (v : Nat) : Board :=
  b.setBbs c ((b.bbs c).set p v)

/-- Read the castling-rights flags of a color (Go `b.castlerights[c]`). -/
def Board.castlerights (b : Board) (c : ColorT) : Nat :=
  match c with
  | White => b.castleW
  | Black => b.castleB

/-- Write the castling-rights flags of a color. -/
def Board.setCastlerights (b : Board) (c : ColorT) (v : Nat) : Board :=
  match c with
  | White => { b with castleW := v }
  | Black => { b with castleB := v }

/-- Embedding of `b.PieceAt(pos)` / `b.pieces[pos]` from types.go. -/
def Board.PieceAt (b : Board) (pos : Nat) : Piece :=
  b.pieces.getD pos Nothing

/-- Write entry `pos` of the board's piece-square array. -/
def Board.setPieceAt (b : Board) (pos : Nat) (p : Piece) : Board :=
  { b with pieces := b.pieces.set pos p }

/-- Embedding of `canCastle` from types.go. -/
def Board.canCastle (b : Board) (c : ColorT) (side : CastleRightsT) : Bool :=
  b.castlerights c &&& toFlag side != 0

/-- Embedding of `weCanCastle` from types.go. -/
def Board.weCanCastle (b : Board) (side : CastleRightsT) : Bool :=
  b.canCastle b.Colortomove side

/-- Embedding of `oppCanCastle` from types.go. -/
def Board.oppCanCastle (b : Board) (side : CastleRightsT) : Bool :=
  b.canCastle (oppColor b.Colortomove) side

/-- Embedding of `isWhitePieceAt` from types.go. -/
def Board.isWhitePieceAt (b : Board) (pos : Nat) : Bool :=
  b.bbW.BAll &&& bitU pos != 0

/-- Embedding of `isBlackPieceAt` from types.go. -/
def Board.isBlackPieceAt (b : Board) (pos : Nat) : Bool :=
  b.bbB.BAll &&& bitU pos != 0

/-! ### Move encoding (types.go)

A move is a 16-bit word: bits 0-5 destination, bits 6-11 source,
bits 12-14 promotion piece, bit 15 the "simple" hint. -/

/-- A move, as in types.go a 16-bit word. -/
abbrev Move := Nat

namespace Move

/-- `m.To()` from types.go. -/
def To (m : Move) : Nat := m &&& 0x3F

/-- `m.From()` from types.go. -/
def Src (m : Move) : Nat := (m &&& 0xFC0) >>> 6

/-- `m.Promote()` from types.go (decoded to a `Piece`). -/
def Promote (m : Move) : Piece := pieceOfNat ((m &&& 0x7000) >>> 12)

/-- `m.IsSimple()` from types.go. -/
def IsSimple (m : Move) : Bool := m &&& 0x8000 != 0

/-- `m.Setto(s)` from types.go (`*m & ^0x3F | s` in 16 bits). -/
def Setto (m : Move) (s : Nat) : Move := (m &&& 0xFFC0) ||| s

/-- `m.Setfrom(s)` from types.go. -/
def Setfrom (m : Move) (s : Nat) : Move := (m &&& 0xF03F) ||| (s <<< 6)

/-- `m.Setpromote(p)` from types.go. -/
def Setpromote (m : Move) (p : Piece) : Move :=
  (m &&& 0x8FFF) ||| (pieceVal p <<< 12)

end Move

/-- The generator's move construction `var move Move;
move.Setfrom(f).Setto(t)` starting from the zero value. -/
def mkMoveFT (f t : Nat) : Move := (Move.Setfrom 0 f).Setto t

/-- Move construction with a promotion piece. -/
def mkMoveFTP (f t : Nat) (p : Piece) : Move := (mkMoveFT f t).Setpromote p

/-! ### Precomputed masks and tables

The mask and magic tables (`onlyRank`, `onlyFile`, `knightMasks`,
`kingMasks`, the magic rook/bishop tables and the Zobrist constants) are
build-time constants of the repository that are not among the provided
source files; they are modelled from the spec (sections 4.1-4.3). -/

/-- Modelled from the spec: `only_rank[0..7]`, the eight ranks as bitboards. -/
def onlyRank (r : Nat) : Nat := 0xFF <<< (8 * r)

/-- Modelled from the spec: `only_file[0..7]`, the eight files as bitboards. -/
def onlyFile (f : Nat) : Nat := 0x0101010101010101 <<< f

/-- The all-ones 64-bit word, the generator's `everything` constant. -/
def everything : Nat := U64 - 1

/-- The square reached from `s` by `j` steps of the direction `(df, dr)`
(file and rank deltas), if it is on the board. -/
def offsetSquare (s : Nat) (df dr : Int) (j : Nat) : Option Nat :=
  let f : Int := (s % 8 : Nat) + df * j
  let r : Int := (s / 8 : Nat) + dr * j
  if 0 ≤ f ∧ f ≤ 7 ∧ 0 ≤ r ∧ r ≤ 7 then some (r * 8 + f).toNat else none

/-- Bitboard of the on-board squares one step in each given direction. -/
def maskFromOffsets (s : Nat) (offs : List (Int × Int)) : Nat :=
  offs.foldr
    (fun d acc =>
      match offsetSquare s d.1 d.2 1 with
      | some t => bitU t ||| acc
      | none => acc) 0

/-- Modelled from the spec: `knight_mask[64]`, squares a knight on `s`
attacks. -/
def knightMasks (s : Nat) : Nat :=
  maskFromOffsets s [(1, 2), (2, 1), (2, -1), (1, -2), (-1, -2), (-2, -1), (-2, 1), (-1, 2)]

/-- Modelled from the spec: `king_mask[64]`, squares a king on `s` attacks. -/
def kingMasks (s : Nat) : Nat :=
  maskFromOffsets s [(1, 0), (1, 1), (0, 1), (-1, 1), (-1, 0), (-1, -1), (0, -1), (1, -1)]

/-- The on-board squares on the ray from `s` in direction `(df, dr)`,
nearest first (steps 1 through 7). -/
def raySquares (s : Nat) (df dr : Int) : List Nat :=
  (List.range 7).filterMap (fun j => offsetSquare s df dr (j + 1))

/-- Prefix of a ray up to and including the first occupied square. -/
def upToBlocker (occ : Nat) : List Nat → List Nat
  | [] => []
  | x :: xs => if occ.testBit x then [x] else x :: upToBlocker occ xs

/-- Bitboard with the bits of the listed squares set. -/
def bitsOf (l : List Nat) : Nat := l.foldr (fun i acc => bitU i ||| acc) 0

/-- Sliding attack along one ray: all empty squares up to and including the
first blocker (spec section 4.2). -/
def rayAttack (s : Nat) (df dr : Int) (occ : Nat) : Nat :=
  bitsOf (upToBlocker occ (raySquares s df dr))

/-- Modelled from the spec: the magic-table lookup
`magicMovesRook[s][(occ & mask) * magic >> shift]`.  Per spec section 4.2 it
returns, on every ray from `s`, the empty squares up to and including the
first blocker. -/
def CalculateRookMoveBitboard (s occ : Nat) : Nat :=
  rayAttack s 1 0 occ ||| rayAttack s (-1) 0 occ |||
  rayAttack s 0 1 occ ||| rayAttack s 0 (-1) occ

/-- Modelled from the spec: the bishop magic-table lookup, as
`CalculateRookMoveBitboard` but on the four diagonal rays. -/
def CalculateBishopMoveBitboard (s occ : Nat) : Nat :=
  rayAttack s 1 1 occ ||| rayAttack s 1 (-1) occ |||
  rayAttack s (-1) 1 occ ||| rayAttack s (-1) (-1) occ

/-! ### Zobrist constants (spec section 4.3)

Modelled from the spec: the constants are 64-bit values drawn from a fixed
seeded PRNG; their particular values are build constants not present in the
provided sources, so an explicit deterministic mixing function stands in for
them.  No theorem below depends on the values, only on every mutator and
`recomputeBoardHash` using the same constants. -/

/-- A fixed 64-bit mixing function standing in for the seeded PRNG stream. -/
def zmix (n : Nat) : Nat := (n * 0x9E3779B97F4A7C15 + 0x85EBCA6B) % U64

/-- Modelled from the spec: `pieceSquareZobristC[12][64]`, indexed by
`{WP..WK, BP..BK}` then square. -/
def pieceSquareZobristC (i sq : Nat) : Nat := zmix (64 * i + sq + 1)

/-- Modelled from the spec: `castleRightsZobristC[2][2]`. -/
def castleRightsZobristC (c : ColorT) (side : CastleRightsT) : Nat :=
  zmix (1000 + 2 * colorVal c + sideVal side)

/-- Modelled from the spec: `whiteToMoveZobristC`. -/
def whiteToMoveZobristC : Nat := zmix 2000

/-! ### Piece bookkeeping (types.go) -/

/-- Embedding of `addPiece` from types.go.  The Go method receives pointers
to a piece bitboard and an `All` bitboard; every call site passes the slot
`slot` and the `All` slot of one color `c`, embedded here explicitly. -/
def Board.addPieceAt (b : Board) (piece : Piece) (pos : Nat) (c : ColorT) (slot : Piece) : Board :=
  let b1 := b.setBb c slot (b.bb c slot ||| bitU pos)
  let b2 := b1.setBb c AllPieces (b1.bb c AllPieces ||| bitU pos)
  b2.setPieceAt pos piece

/-- Embedding of `removePiece` from types.go. -/
def Board.removePieceAt (b : Board) (piece : Piece) (pos : Nat) (c : ColorT) (slot : Piece) : Board :=
  let b1 := b.setBb c slot (b.bb c slot &&& compl64 (bitU pos))
  let b2 := b1.setBb c AllPieces (b1.bb c AllPieces &&& compl64 (bitU pos))
  b2.setPieceAt pos Nothing

/-- Embedding of `movePiece` from types.go: remove `piece` at `from` in slot
`slotFrom`, then add `destPiece` at `to` in slot `slotTo`. -/
def Board.movePieceAt (b : Board) (piece destPiece : Piece) (fromLoc toLoc : Nat)
    (c : ColorT) (slotFrom slotTo : Piece) : Board :=
  (b.removePieceAt piece fromLoc c slotFrom).addPieceAt destPiece toLoc c slotTo

/-- Embedding of `flipCastleRights` from types.go (flag flip plus hash
update). -/
def Board.flipCastleRightsF (b : Board) (c : ColorT) (side : CastleRightsT) : Board :=
  let b1 := b.setCastlerights c (b.castlerights c ^^^ toFlag side)
  { b1 with hash := b1.hash ^^^ castleRightsZobristC c side }

/-- Embedding of `flipOurCastleRights` from types.go. -/
def Board.flipOurCastleRights (b : Board) (side : CastleRightsT) : Board :=
  b.flipCastleRightsF b.Colortomove side

/-- Embedding of `flipOppCastleRights` from types.go. -/
def Board.flipOppCastleRights (b : Board) (side : CastleRightsT) : Board :=
  b.flipCastleRightsF (oppColor b.Colortomove) side

/-- Embedding of `IsCapture` from util.go. -/
def IsCapture (m : Move) (b : Board) : Bool :=
  let toBit := bitU m.To
  if toBit &&& b.bbW.BAll != 0 || toBit &&& b.bbB.BAll != 0 then true
  else
    let fromBit := bitU m.Src
    let originIsPawn := fromBit &&& b.bbW.Pawns != 0 || fromBit &&& b.bbB.Pawns != 0
    originIsPawn && (toBit &&& bitU b.enpassant != 0)

/-- Per-square contribution to the from-scratch hash, as in the loop body of
`recomputeBoardHash` (util.go): white pieces use index `piece - 1`, black
pieces `piece + 5`. -/
def squareHash (b : Board) (i : Nat) : Nat :=
  if b.isWhitePieceAt i then pieceSquareZobristC (pieceVal (b.PieceAt i) - 1) i
  else if b.isBlackPieceAt i then pieceSquareZobristC (pieceVal (b.PieceAt i) + 5) i
  else 0

/-- Embedding of `recomputeBoardHash` from util.go. -/
def recomputeBoardHash (b : Board) : Nat :=
  let h0 : Nat := if b.Colortomove = White then whiteToMoveZobristC else 0
  let h1 := if b.canCastle White Kingside then h0 ^^^ castleRightsZobristC White Kingside else h0
  let h2 := if b.canCastle White Queenside then h1 ^^^ castleRightsZobristC White Queenside else h1
  let h3 := if b.canCastle Black Kingside then h2 ^^^ castleRightsZobristC Black Kingside else h2
  let h4 := if b.canCastle Black Queenside then h3 ^^^ castleRightsZobristC Black Queenside else h3
  let h5 := h4 ^^^ b.enpassant
  (List.range 64).foldr (fun i acc => squareHash b i ^^^ acc) h5

/-! ### Attack queries (generator file) -/

/-- Embedding of `countAttacks` from the generator file: counts attacks on
`origin` by the pieces of `byBlack`'s side, aborting early once the count
reaches `abortEarly`; also returns the blocker-destination mask. -/
def countAttacks (b : Board) (byBlack : Bool) (origin : Nat) (abortEarly : Nat) : Nat × Nat :=
  let oppPieces := if byBlack then b.bbB else b.bbW
  let allPieces := b.bbW.BAll ||| b.bbB.BAll
  let knightAttackers := knightMasks origin &&& oppPieces.Knights
  let n1 := popCount64 knightAttackers
  let bd1 := knightAttackers
  if abortEarly ≤ n1 then (n1, bd1) else
  let originDiagRays := CalculateBishopMoveBitboard origin allPieces
  let diagAttackers := originDiagRays &&& (oppPieces.Bishops ||| oppPieces.Queens)
  let n2 := n1 + popCount64 diagAttackers
  let bd2 := bd1 ||| diagAttackers
  if abortEarly ≤ n2 then (n2, bd2) else
  let bd3 := (bitIndices diagAttackers).foldl
    (fun acc a => acc ||| (CalculateBishopMoveBitboard a allPieces &&& originDiagRays)) bd2
  let originOrthoRays := CalculateRookMoveBitboard origin allPieces
  let orthoAttackers := originOrthoRays &&& (oppPieces.Rooks ||| oppPieces.Queens)
  let n3 := n2 + popCount64 orthoAttackers
  let bd4 := bd3 ||| orthoAttackers
  if abortEarly ≤ n3 then (n3, bd4) else
  let bd5 := (bitIndices orthoAttackers).foldl
    (fun acc a => acc ||| (CalculateRookMoveBitboard a allPieces &&& originOrthoRays)) bd4
  let kingAttackers := kingMasks origin &&& oppPieces.Kings
  let n4 := n3 + popCount64 kingAttackers
  let bd6 := bd5 ||| kingAttackers
  if abortEarly ≤ n4 then (n4, bd6) else
  let pawnMask :=
    if byBlack then
      (bitU (origin + 7) &&& compl64 (onlyFile 7)) |||
      (bitU (origin + 9) &&& compl64 (onlyFile 0))
    else
      (bitU ((origin + 256 - 7) % 256) &&& compl64 (onlyFile 0)) |||
      (bitU ((origin + 256 - 9) % 256) &&& compl64 (onlyFile 7))
  let pawnAttackers := pawnMask &&& oppPieces.Pawns
  (n4 + popCount64 pawnAttackers, bd6 ||| pawnAttackers)

/-- Embedding of `UnderDirectAttack` from the generator file. -/
def Board.UnderDirectAttack (b : Board) (byBlack : Bool) (origin : Nat) : Bool :=
  decide (1 ≤ (countAttacks b byBlack origin 1).1)

/-- Embedding of `anyUnderDirectAttack` from the generator file. -/
def Board.anyUnderDirectAttack (b : Board) (byBlack : Bool) (squares : List Nat) : Bool :=
  squares.any (fun v => b.UnderDirectAttack byBlack v)

/-- Embedding of `OurKingInCheck` from the generator file. -/
def Board.OurKingInCheck (b : Board) : Bool :=
  let origin := lowestSetBit ((b.bbs b.Colortomove).Kings)
  decide (1 ≤ (countAttacks b (b.Colortomove == White) origin 1).1)

/-- The abort-free attacker count: `countAttacks` with a threshold no count
can reach, hence with every early return disabled. -/
def attackCount (b : Board) (byBlack : Bool) (origin : Nat) : Nat :=
  (countAttacks b byBlack origin U64).1

/-! ### Consistency

The spec's section 3 invariants 1-6 on a position, as a decidable
predicate, together with the numeric range constraints of the Go field
types.  Invariant 5 is taken with the en-passant target square empty, as
implied by a pawn having just passed over it. -/

/-- Pairwise disjointness of the six piece-kind bitboards. -/
def Bitboards.disjointKinds (bb : Bitboards) : Bool :=
  bb.Pawns &&& bb.Knights == 0 && bb.Pawns &&& bb.Bishops == 0 &&
  bb.Pawns &&& bb.Rooks == 0 && bb.Pawns &&& bb.Queens == 0 &&
  bb.Pawns &&& bb.Kings == 0 && bb.Knights &&& bb.Bishops == 0 &&
  bb.Knights &&& bb.Rooks == 0 && bb.Knights &&& bb.Queens == 0 &&
  bb.Knights &&& bb.Kings == 0 && bb.Bishops &&& bb.Rooks == 0 &&
  bb.Bishops &&& bb.Queens == 0 && bb.Bishops &&& bb.Kings == 0 &&
  bb.Rooks &&& bb.Queens == 0 && bb.Rooks &&& bb.Kings == 0 &&
  bb.Queens &&& bb.Kings == 0

/-- Well-formedness of one color's bitboards: ranges, zero `Nothing` slot,
union slot correct, kinds disjoint, exactly one king. -/
def Bitboards.okB (bb : Bitboards) : Bool :=
  bb.BNothing == 0 && bb.Pawns < U64 && bb.Knights < U64 && bb.Bishops < U64 &&
  bb.Rooks < U64 && bb.Queens < U64 && bb.Kings < U64 && bb.BAll < U64 &&
  bb.BAll == (bb.Pawns ||| bb.Knights ||| bb.Bishops ||| bb.Rooks ||| bb.Queens ||| bb.Kings) &&
  bb.disjointKinds && popCount64 bb.Kings == 1

/-- Agreement of `pieces[i]` with the bitboards at square `i` (spec
invariant 3). -/
def pieceSquareOkB (b : Board) (i : Nat) : Bool :=
  match b.PieceAt i with
  | Nothing => !(b.bbW.BAll ||| b.bbB.BAll).testBit i
  | AllPieces => false
  | k => ((b.bbW.get k) ||| (b.bbB.get k)).testBit i

/-- The en-passant component of consistency (spec invariant 5, with the
target square required empty). -/
def epOkB (b : Board) : Bool :=
  b.enpassant == 0 ||
  (match b.Colortomove with
   | White =>
     40 ≤ b.enpassant && b.enpassant ≤ 47 &&
     b.bbB.Pawns.testBit (b.enpassant - 8) &&
     !(b.bbW.BAll ||| b.bbB.BAll).testBit b.enpassant
   | Black =>
     16 ≤ b.enpassant && b.enpassant ≤ 23 &&
     b.bbW.Pawns.testBit (b.enpassant + 8) &&
     !(b.bbW.BAll ||| b.bbB.BAll).testBit b.enpassant)

/-- Castle rights imply king and rook on their home squares (spec
invariant 6). -/
def castleOkB (b : Board) : Bool :=
  (!(b.canCastle White Kingside) || (b.bbW.Kings.testBit 4 && b.bbW.Rooks.testBit 7)) &&
  (!(b.canCastle White Queenside) || (b.bbW.Kings.testBit 4 && b.bbW.Rooks.testBit 0)) &&
  (!(b.canCastle Black Kingside) || (b.bbB.Kings.testBit 60 && b.bbB.Rooks.testBit 63)) &&
  (!(b.canCastle Black Queenside) || (b.bbB.Kings.testBit 60 && b.bbB.Rooks.testBit 56))

/-- Consistency of a board: spec section 3 invariants 1-6 plus the numeric
ranges of the Go field types. -/
def consistentB (b : Board) : Bool :=
  b.bbW.okB && b.bbB.okB &&
  b.bbW.BAll &&& b.bbB.BAll == 0 &&
  b.pieces.length == 64 &&
  (List.range 64).all (fun i => pieceSquareOkB b i) &&
  epOkB b && castleOkB b &&
  b.castleW < 4 && b.castleB < 4 &&
  b.enpassant < 256 && b.Halfmoveclock < 256 &&
  b.Fullmoveno < 65536 && b.hash < U64

/-! ### Exact float32 model for the diagonal-pin slope test

`generatePinnedMoves` compares two `float32` slopes.  Both numerators
(`float32(p)/8 - float32(c)/8`) and denominators
(`float32(p%8) - float32(c%8)`) are computed exactly in `float32` for
squares `0..63` (each intermediate is a small multiple of `1/8`), so the
single rounding step is the final division, modelled here exactly: a
correctly rounded (to nearest, ties to even) binary significand of 24 bits,
with IEEE rules for division by zero.  A `float32` value is represented
canonically by sign, significand in `[2^23, 2^24)`, and exponent, so that
value equality coincides with representation equality. -/

/-- An exact-model `float32` result of the slope division. -/
inductive F32 where
  | nan
  | inf (neg : Bool)
  | val (neg : Bool) (mant : Nat) (ex : Int)
deriving DecidableEq, Repr

/-- IEEE `==` on the modelled values (`NaN` equals nothing; the only zero is
canonical, matching `+0 == -0`). -/
def F32.feq : F32 → F32 → Bool
  | F32.nan, _ => false
  | _, F32.nan => false
  | F32.inf s1, F32.inf s2 => s1 == s2
  | F32.val n1 m1 e1, F32.val n2 m2 e2 => n1 == n2 && m1 == m2 && e1 == e2
  | _, _ => false

/-- Does `2 ^ k ≤ a / d` hold, for positive naturals `a, d` and `k : Int`? -/
def lePow2Div (k : Int) (a d : Nat) : Bool :=
  if 0 ≤ k then d * 2 ^ k.toNat ≤ a else d ≤ a * 2 ^ (-k).toNat

/-- Largest `k` in `[-40, 40]` with `2 ^ k ≤ a / d` (the binade of the
quotient; the slope quotients of the pin test all lie well inside this
range). -/
def floorLog2Div (a d : Nat) : Int :=
  ((List.range 81).map (fun i => (i : Int) - 40)).foldl
    (fun acc k => if lePow2Div k a d then k else acc) (-40)

/-- Round `a / d` (positive) to a 24-bit significand, nearest, ties to even:
returns the pair (significand, exponent) with value `mant * 2 ^ ex`. -/
def roundSig (a d : Nat) : Nat × Int :=
  let k := floorLog2Div a d
  let num := if 0 ≤ 23 - k then a * 2 ^ (23 - k).toNat else a
  let den := if 0 ≤ 23 - k then d else d * 2 ^ (k - 23).toNat
  let q := num / den
  let r := num % den
  let mant := if 2 * r < den then q else if den < 2 * r then q + 1
    else if q % 2 == 0 then q else q + 1
  if mant == 2 ^ 24 then (2 ^ 23, k - 22) else (mant, k - 23)

/-- Exact `float32` division of the integers `n / d`. -/
def f32divInt (n d : Int) : F32 :=
  if d = 0 then
    if n = 0 then F32.nan else F32.inf (decide (n < 0))
  else if n = 0 then F32.val false 0 0
  else
    let neg := decide ((n < 0) ≠ (d < 0))
    let md := roundSig n.natAbs d.natAbs
    F32.val neg md.1 md.2

/-- The `float32` slope from square `c` to square `x` as computed in
`generatePinnedMoves`: `(float32(x)/8 - float32(c)/8) / (float32(x%8) -
float32(c%8))`, whose exact real value is `(x - c) / (8 * (x%8 - c%8))`. -/
def slopeF32 (x c : Nat) : F32 :=
  f32divInt ((x : Int) - (c : Int)) (8 * (((x % 8 : Nat) : Int) - ((c % 8 : Nat) : Int)))

/-! ### Move generation (the generator file) -/

/-- The generator file's `promoRankBbs`. -/
def promoRankBbs : ColorT → Nat
  | White => onlyRank 7
  | Black => onlyRank 0

/-- The generator file's `doublePushRankBBs`. -/
def doublePushRankBBs : ColorT → Nat
  | White => onlyRank 3
  | Black => onlyRank 4

/-- The generator file's `pawnPushDirections`. -/
def pawnPushDirections : ColorT → Int
  | White => 1
  | Black => -1

/-- The generator file's `oneRankBacks`. -/
def oneRankBacks : ColorT → Int
  | White => -8
  | Black => 8

/-- Conversion of a Go `int` value to `uint8` (two's-complement wrap). -/
def u8ofInt (i : Int) : Nat := (i % 256).toNat

/-- Embedding of `genMovesFromTargets` from the generator file. -/
def genMovesFromTargets (origin : Nat) (targets : Nat) : List Move :=
  (bitIndices targets).map (fun t => mkMoveFT origin t)

/-- One iteration of the orthogonal-slider pin loop of
`generatePinnedMoves`, processing the opposing slider on square `c`;
state is (moves emitted so far, pinned bitboard so far). -/
def pinOrthoStep (b : Board) (allowDest : Nat) (ourKingIdx : Nat)
    (kingOrthoTargets allPieces : Nat) (st : List Move × Nat) (c : Nat) : List Move × Nat :=
  let ourPieces := b.bbs b.Colortomove
  let oppPieces := b.bbs (oppColor b.Colortomove)
  let rookTargets := CalculateRookMoveBitboard c allPieces &&& compl64 oppPieces.BAll
  let pinnedPiece := rookTargets &&& kingOrthoTargets &&& ourPieces.BAll
  if pinnedPiece == 0 then st
  else
    let pinnedPieceIdx := lowestSetBit pinnedPiece
    let sameRank := pinnedPieceIdx / 8 == ourKingIdx / 8 && pinnedPieceIdx / 8 == c / 8
    let sameFile := pinnedPieceIdx % 8 == ourKingIdx % 8 && pinnedPieceIdx % 8 == c % 8
    if !sameRank && !sameFile then st
    else
      let pinned' := st.2 ||| pinnedPiece
      if pinnedPiece &&& ourPieces.Pawns != 0 then
        if sameFile then
          let dir := pawnPushDirections b.Colortomove
          let t0 := bitU (u8ofInt ((pinnedPieceIdx : Int) + 8 * dir)) &&& compl64 allPieces
          let t1 := if t0 != 0 then
              t0 ||| (bitU (u8ofInt ((pinnedPieceIdx : Int) + 16 * dir)) &&&
                compl64 allPieces &&& doublePushRankBBs b.Colortomove)
            else t0
          (st.1 ++ genMovesFromTargets pinnedPieceIdx (t1 &&& allowDest), pinned')
        else (st.1, pinned')
      else if pinnedPiece &&& ourPieces.Rooks == 0 && pinnedPiece &&& ourPieces.Queens == 0 then
        (st.1, pinned')
      else
        let pinnedPieceAllMoves :=
          CalculateRookMoveBitboard pinnedPieceIdx allPieces &&& compl64 ourPieces.BAll
        let pinnedTargets :=
          pinnedPieceAllMoves &&& (rookTargets ||| kingOrthoTargets ||| bitU c) &&& allowDest
        (st.1 ++ genMovesFromTargets pinnedPieceIdx pinnedTargets, pinned')

/-- One iteration of the diagonal-slider pin loop of `generatePinnedMoves`,
processing the opposing slider on square `c`. -/
def pinDiagStep (b : Board) (allowDest : Nat) (ourKingIdx : Nat)
    (kingDiagTargets allPieces : Nat) (st : List Move × Nat) (c : Nat) : List Move × Nat :=
  let ourPieces := b.bbs b.Colortomove
  let oppPieces := b.bbs (oppColor b.Colortomove)
  let bishopTargets := CalculateBishopMoveBitboard c allPieces &&& compl64 oppPieces.BAll
  let pinnedPiece := bishopTargets &&& kingDiagTargets &&& ourPieces.BAll
  if pinnedPiece == 0 then st
  else
    let pinnedPieceIdx := lowestSetBit pinnedPiece
    if !(F32.feq (slopeF32 pinnedPieceIdx c) (slopeF32 ourKingIdx c)) then st
    else
      let pinned' := st.2 ||| pinnedPiece
      if pinnedPiece &&& ourPieces.Pawns != 0 then
        if bitU c &&& allowDest != 0 then
          if (b.Colortomove == White && pinnedPieceIdx / 8 + 1 == c / 8) ||
             (b.Colortomove == Black && pinnedPieceIdx / 8 == c / 8 + 1) then
            if bitU c &&& promoRankBbs b.Colortomove != 0 then
              (st.1 ++ [Knight, Bishop, Rook, Queen].map (fun p => mkMoveFTP pinnedPieceIdx c p),
               pinned')
            else (st.1 ++ [mkMoveFT pinnedPieceIdx c], pinned')
          else (st.1, pinned')
        else (st.1, pinned')
      else if pinnedPiece &&& ourPieces.Bishops == 0 && pinnedPiece &&& ourPieces.Queens == 0 then
        (st.1, pinned')
      else
        let pinnedPieceAllMoves :=
          CalculateBishopMoveBitboard pinnedPieceIdx allPieces &&& compl64 ourPieces.BAll
        let pinnedTargets :=
          pinnedPieceAllMoves &&& (bishopTargets ||| kingDiagTargets ||| bitU c) &&& allowDest
        (st.1 ++ genMovesFromTargets pinnedPieceIdx pinnedTargets, pinned')

/-- Embedding of `generatePinnedMoves` from the generator file: emits moves
of absolutely pinned pieces and returns (moves, bitboard of pinned pieces). -/
def generatePinnedMoves (b : Board) (allowDest : Nat) : List Move × Nat :=
  let ourPieces := b.bbs b.Colortomove
  let oppPieces := b.bbs (oppColor b.Colortomove)
  let ourKingIdx := lowestSetBit ourPieces.Kings
  let allPieces := oppPieces.BAll ||| ourPieces.BAll
  let kingOrthoTargets := CalculateRookMoveBitboard ourKingIdx allPieces
  let stO := (bitIndices (oppPieces.Rooks ||| oppPieces.Queens)).foldl
    (pinOrthoStep b allowDest ourKingIdx kingOrthoTargets allPieces) ([], 0)
  let kingDiagTargets := CalculateBishopMoveBitboard ourKingIdx allPieces
  (bitIndices (oppPieces.Bishops ||| oppPieces.Queens)).foldl
    (pinDiagStep b allowDest ourKingIdx kingDiagTargets allPieces) stO

/-- Embedding of `pawnPushBitboards` from the generator file. -/
def pawnPushBitboards (b : Board) (nonpinned : Nat) : Nat × Nat :=
  let free := compl64 b.bbW.BAll &&& compl64 b.bbB.BAll
  let ourPawns := (b.bbs b.Colortomove).Pawns
  match b.Colortomove with
  | White =>
    let movable := ourPawns &&& nonpinned
    let targets := ((movable <<< 8) % U64) &&& free
    (targets, ((targets <<< 8) % U64) &&& onlyRank 3 &&& free)
  | Black =>
    let movable := ourPawns &&& nonpinned
    let targets := (movable >>> 8) &&& free
    (targets, (targets >>> 8) &&& onlyRank 4 &&& free)

/-- Embedding of `pawnPushes` from the generator file. -/
def pawnPushes (b : Board) (nonpinned allowDest : Nat) : List Move :=
  let td := pawnPushBitboards b nonpinned
  let oneRankBack := oneRankBacks b.Colortomove
  let targets := td.1 &&& allowDest
  let doubleTargets := td.2 &&& allowDest
  let singles := (bitIndices targets).flatMap (fun target =>
    let canPromote : Bool := match b.Colortomove with
      | White => decide (56 ≤ target)
      | Black => decide (target ≤ 7)
    let mv := mkMoveFT (u8ofInt ((target : Int) + oneRankBack)) target
    if canPromote then [Knight, Bishop, Rook, Queen].map (fun p => mv.Setpromote p)
    else [mv])
  let doubles := (bitIndices doubleTargets).map (fun t2 =>
    mkMoveFT (u8ofInt (Int.ofNat t2 + 2 * oneRankBack)) t2)
  singles ++ doubles

/-- Embedding of `pawnCaptureBitboards` from the generator file. -/
def pawnCaptureBitboards (b : Board) (nonpinned : Nat) : Nat × Nat :=
  let notHFile : Nat := 0x7F7F7F7F7F7F7F7F
  let notAFile : Nat := 0xFEFEFEFEFEFEFEFE
  let oppPieces := b.bbs (oppColor b.Colortomove)
  let targets0 := oppPieces.BAll
  let targets := if 0 < b.enpassant then targets0 ||| bitU b.enpassant else targets0
  let ourpawns := (b.bbs b.Colortomove).Pawns &&& nonpinned
  match b.Colortomove with
  | White => (((ourpawns <<< 9) % U64) &&& notAFile &&& targets,
              ((ourpawns <<< 7) % U64) &&& notHFile &&& targets)
  | Black => ((ourpawns >>> 7) &&& notAFile &&& targets,
              (ourpawns >>> 9) &&& notHFile &&& targets)

/-- The provisional en-passant board edit performed inside `pawnCaptures`:
remove our pawn at `fromSq`, put it on `toSq`, remove the opposing pawn at
`enemySq`. -/
def epEdit (b : Board) (fromSq toSq enemySq : Nat) : Board :=
  let our := b.Colortomove
  let opp := oppColor our
  let b1 := b.setBb our Pawn (b.bb our Pawn &&& compl64 (bitU fromSq))
  let b2 := b1.setBb our AllPieces (b1.bb our AllPieces &&& compl64 (bitU fromSq))
  let b3 := b2.setBb our Pawn (b2.bb our Pawn ||| bitU toSq)
  let b4 := b3.setBb our AllPieces (b3.bb our AllPieces ||| bitU toSq)
  let b5 := b4.setBb opp Pawn (b4.bb opp Pawn &&& compl64 (bitU enemySq))
  b5.setBb opp AllPieces (b5.bb opp AllPieces &&& compl64 (bitU enemySq))

/-- The reverting writes after the provisional en-passant edit. -/
def epRevert (b : Board) (fromSq toSq enemySq : Nat) : Board :=
  let our := b.Colortomove
  let opp := oppColor our
  let b1 := b.setBb our Pawn (b.bb our Pawn ||| bitU fromSq)
  let b2 := b1.setBb our AllPieces (b1.bb our AllPieces ||| bitU fromSq)
  let b3 := b2.setBb our Pawn (b2.bb our Pawn &&& compl64 (bitU toSq))
  let b4 := b3.setBb our AllPieces (b3.bb our AllPieces &&& compl64 (bitU toSq))
  let b5 := b4.setBb opp Pawn (b4.bb opp Pawn ||| bitU enemySq)
  b5.setBb opp AllPieces (b5.bb opp AllPieces ||| bitU enemySq)

/-- One candidate square of one direction of `pawnCaptures`; state is
(moves so far, current board).  For an en-passant candidate the board is
provisionally edited, the check test run, and the edit reverted, exactly as
in the source. -/
def pawnCapStep (dir : Nat) (st : List Move × Board) (target : Nat) : List Move × Board :=
  let b := st.2
  let fromSq := match b.Colortomove with
    | White => u8ofInt ((target : Int) - (9 - dir * 2))
    | Black => u8ofInt ((target : Int) + (9 - dir * 2))
  let canPromote : Bool := match b.Colortomove with
    | White => decide (56 ≤ target)
    | Black => decide (target ≤ 7)
  let mv := mkMoveFT fromSq target
  if target == b.enpassant && b.enpassant != 0 then
    let enemySq := u8ofInt ((target : Int) + oneRankBacks b.Colortomove)
    let bEdited := epEdit b fromSq target enemySq
    let kingInCheck := bEdited.OurKingInCheck
    let bReverted := epRevert bEdited fromSq target enemySq
    if kingInCheck then (st.1, bReverted)
    else if canPromote then
      (st.1 ++ [Knight, Bishop, Rook, Queen].map (fun p => mv.Setpromote p), bReverted)
    else (st.1 ++ [mv], bReverted)
  else
    if canPromote then
      (st.1 ++ [Knight, Bishop, Rook, Queen].map (fun p => mv.Setpromote p), b)
    else (st.1 ++ [mv], b)

/-- Embedding of `pawnCaptures` from the generator file, threading the board
through the provisional en-passant edits. -/
def pawnCaptures (b : Board) (nonpinned allowDest0 : Nat) : List Move × Board :=
  let ew := pawnCaptureBitboards b nonpinned
  let allowDest := if 0 < b.enpassant then allowDest0 ||| bitU b.enpassant else allowDest0
  let east := ew.1 &&& allowDest
  let west := ew.2 &&& allowDest
  let dirbbs := match b.Colortomove with
    | White => [(0, east), (1, west)]
    | Black => [(0, west), (1, east)]
  dirbbs.foldl
    (fun st db => (bitIndices db.2).foldl (pawnCapStep db.1) st)
    ([], b)

/-- Embedding of `knightMoves` from the generator file. -/
def knightMoves (b : Board) (nonpinned allowDest : Nat) : List Move :=
  let ourPieces := b.bbs b.Colortomove
  (bitIndices (ourPieces.Knights &&& nonpinned)).flatMap (fun s =>
    genMovesFromTargets s (knightMasks s &&& compl64 ourPieces.BAll &&& allowDest))

/-- Embedding of `rookMoves` from the generator file. -/
def rookMoves (b : Board) (nonpinned allowDest : Nat) : List Move :=
  let ourPieces := b.bbs b.Colortomove
  let allPieces := b.bbW.BAll ||| b.bbB.BAll
  (bitIndices (ourPieces.Rooks &&& nonpinned)).flatMap (fun s =>
    genMovesFromTargets s
      (CalculateRookMoveBitboard s allPieces &&& compl64 ourPieces.BAll &&& allowDest))

/-- Embedding of `bishopMoves` from the generator file. -/
def bishopMoves (b : Board) (nonpinned allowDest : Nat) : List Move :=
  let ourPieces := b.bbs b.Colortomove
  let allPieces := b.bbW.BAll ||| b.bbB.BAll
  (bitIndices (ourPieces.Bishops &&& nonpinned)).flatMap (fun s =>
    genMovesFromTargets s
      (CalculateBishopMoveBitboard s allPieces &&& compl64 ourPieces.BAll &&& allowDest))

/-- Embedding of `queenMoves` from the generator file (diagonal then
orthogonal targets per queen). -/
def queenMoves (b : Board) (nonpinned allowDest : Nat) : List Move :=
  let ourPieces := b.bbs b.Colortomove
  let allPieces := b.bbW.BAll ||| b.bbB.BAll
  (bitIndices (ourPieces.Queens &&& nonpinned)).flatMap (fun s =>
    genMovesFromTargets s
      (CalculateBishopMoveBitboard s allPieces &&& compl64 ourPieces.BAll &&& allowDest) ++
    genMovesFromTargets s
      (CalculateRookMoveBitboard s allPieces &&& compl64 ourPieces.BAll &&& allowDest))

/-- The board with the moving side's king lifted off the bitboards, as
`kingPushes` temporarily produces to compute king-danger squares. -/
def kingDangerBoard (b : Board) : Board :=
  let our := b.Colortomove
  let loc := lowestSetBit ((b.bbs our).Kings)
  let b1 := b.setBb our King 0
  b1.setBb our AllPieces (b1.bb our AllPieces &&& compl64 (bitU loc))

/-- Embedding of `kingPushes` from the generator file: non-castle king moves
filtered by the attacked-after-king-leaves test; the king is removed from
the bitboards for the tests and written back afterwards, and the returned
board is the one after those reverting writes. -/
def kingPushes (b : Board) (allowDest : Nat) : List Move × Board :=
  let our := b.Colortomove
  let ourBbs := b.bbs our
  let ourKingLocation := lowestSetBit ourBbs.Kings
  let noFriendlyPieces := compl64 ourBbs.BAll
  let oldKings := ourBbs.Kings
  let bEdited := kingDangerBoard b
  let targets := kingMasks ourKingLocation &&& noFriendlyPieces &&& allowDest
  let moves := (bitIndices targets).filterMap (fun t =>
    if bEdited.UnderDirectAttack (b.Colortomove == White) t then none
    else some (mkMoveFT ourKingLocation t))
  let b1 := bEdited.setBb our King oldKings
  let bReverted := b1.setBb our AllPieces (b1.bb our AllPieces ||| bitU ourKingLocation)
  (moves, bReverted)

/-- Embedding of `kingMoves` from the generator file: castling moves (when
enabled) followed by the non-castle pushes. -/
def kingMoves (b : Board) (allowDest : Nat) (includeCastling : Bool) : List Move × Board :=
  let ourBbs := b.bbs b.Colortomove
  let castleMoves : List Move :=
    if includeCastling then
      let ourKingLocation := lowestSetBit ourBbs.Kings
      let allPieces := b.bbW.BAll ||| b.bbB.BAll
      let canQK : Bool × Bool := match b.Colortomove with
        | White =>
          let kingsideClear := allPieces &&& (bitU 5 ||| bitU 6) == 0
          let queensideClear := allPieces &&& (bitU 3 ||| bitU 2 ||| bitU 1) == 0
          (b.canCastle White Queenside && queensideClear &&
             !(b.anyUnderDirectAttack true [2, 3]),
           b.canCastle White Kingside && kingsideClear &&
             !(b.anyUnderDirectAttack true [5, 6]))
        | Black =>
          let kingsideClear := allPieces &&& (bitU 61 ||| bitU 62) == 0
          let queensideClear := allPieces &&& (bitU 57 ||| bitU 58 ||| bitU 59) == 0
          (b.canCastle Black Queenside && queensideClear &&
             !(b.anyUnderDirectAttack false [58, 59]),
           b.canCastle Black Kingside && kingsideClear &&
             !(b.anyUnderDirectAttack false [61, 62]))
      (if canQK.2 then [mkMoveFT ourKingLocation ((ourKingLocation + 2) % 256)] else []) ++
      (if canQK.1 then [mkMoveFT ourKingLocation ((ourKingLocation + 254) % 256)] else [])
    else []
  let pk := kingPushes b allowDest
  (castleMoves ++ pk.1, pk.2)

/-- Result of `GenerateLegalMoves2`: the move list, the in-check flag, and
the board as left behind by the generator's mutate-and-revert edits. -/
structure GenResult where
  moves : List Move
  incheck : Bool
  board : Board
deriving DecidableEq, Repr

/-- Embedding of `GenerateLegalMoves2` from the generator file. -/
def GenerateLegalMoves2 (b : Board) (onlyCapturesPromosCheckEvasion : Bool) : GenResult :=
  let ourCol := b.Colortomove
  let ourPieces := b.bbs ourCol
  let kingLocation := lowestSetBit ourPieces.Kings
  let ca := countAttacks b (ourCol == White) kingLocation 2
  let kingAttackers := ca.1
  let blockerDestinations := ca.2
  if 2 ≤ kingAttackers then
    let kp := kingPushes b everything
    ⟨kp.1, true, kp.2⟩
  else if kingAttackers == 1 then
    let pm := generatePinnedMoves b blockerDestinations
    let nonpinned := compl64 pm.2
    let ppMoves := pawnPushes b nonpinned blockerDestinations
    let pc := pawnCaptures b nonpinned blockerDestinations
    let knMoves := knightMoves pc.2 nonpinned blockerDestinations
    let rMoves := rookMoves pc.2 nonpinned blockerDestinations
    let biMoves := bishopMoves pc.2 nonpinned blockerDestinations
    let qMoves := queenMoves pc.2 nonpinned blockerDestinations
    let kp := kingPushes pc.2 everything
    ⟨pm.1 ++ ppMoves ++ pc.1 ++ knMoves ++ rMoves ++ biMoves ++ qMoves ++ kp.1, true, kp.2⟩
  else
    let oppCol := oppColor ourCol
    let allowDest := if onlyCapturesPromosCheckEvasion then (b.bbs oppCol).BAll else everything
    let pm := generatePinnedMoves b allowDest
    let nonpinned := compl64 pm.2
    let promoDest := promoRankBbs ourCol
    let ppMoves := pawnPushes b nonpinned (allowDest ||| promoDest)
    let pc := pawnCaptures b nonpinned allowDest
    let knMoves := knightMoves pc.2 nonpinned allowDest
    let rMoves := rookMoves pc.2 nonpinned allowDest
    let biMoves := bishopMoves pc.2 nonpinned allowDest
    let qMoves := queenMoves pc.2 nonpinned allowDest
    let km := kingMoves pc.2 allowDest (!onlyCapturesPromosCheckEvasion)
    ⟨pm.1 ++ ppMoves ++ pc.1 ++ knMoves ++ rMoves ++ biMoves ++ qMoves ++ km.1, false, km.2⟩

/-- Embedding of `GenerateLegalMoves` from the generator file. -/
def GenerateLegalMoves (b : Board) : List Move :=
  (GenerateLegalMoves2 b false).moves

/-! ### Make / unmake (apply.go) -/

/-- The generator file's `epDeltas`: add to the e.p. square to find the
captured pawn. -/
def epDeltas : ColorT → Int
  | White => -8
  | Black => 8

/-- `startingRankBbs` from apply.go. -/
def startingRankBbs : ColorT → Nat
  | White => onlyRank 0
  | Black => onlyRank 7

/-- `piecesPawnZobristIndexes` from apply.go. -/
def piecesPawnZobristIndexes : ColorT → Nat
  | White => 0
  | Black => 6

/-- The Go `BoardSaveT` take-back record from apply.go. -/
structure BoardSaveT where
  Enpassant : Nat
  Halfmoveclock : Nat
  CastlerightsW : Nat
  CastlerightsB : Nat
  FromLoc : Nat
  ToLoc : Nat
  CaptureLoc : Nat
  FromPiece : Piece
  ToPiece : Piece
  CapturePiece : Piece
  FromBb : Nat
  ToBb : Nat
  CaptureBb : Nat
  OurRookFrom : Nat
  OurRookTo : Nat
  OurRookBb : Nat
  OurAllBb : Nat
  OppAllBb : Nat
  Hash : Nat
deriving DecidableEq, Repr

/-- Embedding of `Restore` from apply.go. -/
def Restore (b : Board) (bs : BoardSaveT) : Board :=
  let oppCol := b.Colortomove
  let ourCol := oppColor oppCol
  let b1 := { b with
    Colortomove := ourCol,
    enpassant := bs.Enpassant,
    Halfmoveclock := bs.Halfmoveclock,
    Fullmoveno := (b.Fullmoveno + 65536 - colorVal ourCol) % 65536,
    castleW := bs.CastlerightsW,
    castleB := bs.CastlerightsB }
  let b2 := (b1.setBb ourCol bs.ToPiece bs.ToBb).setPieceAt bs.ToLoc Nothing
  let b3 := (b2.setBb oppCol bs.CapturePiece bs.CaptureBb).setPieceAt bs.CaptureLoc bs.CapturePiece
  let b4 := (b3.setBb ourCol bs.FromPiece bs.FromBb).setPieceAt bs.FromLoc bs.FromPiece
  let b5 := b4.setBb ourCol Rook bs.OurRookBb
  let maybeRook := b5.PieceAt bs.OurRookTo
  let b6 := (b5.setPieceAt bs.OurRookTo Nothing).setPieceAt bs.OurRookFrom maybeRook
  let b7 := (b6.setBb ourCol AllPieces bs.OurAllBb).setBb oppCol AllPieces bs.OppAllBb
  { b7 with hash := bs.Hash }

/-- The castle-rights stripping for a king move, shared by both make
functions in apply.go: clear each of our rights that is still held. -/
def stripKingRights (b : Board) : Board :=
  let x := if b.weCanCastle Kingside then b.flipOurCastleRights Kingside else b
  if x.weCanCastle Queenside then x.flipOurCastleRights Queenside else x

/-- The castle-rights stripping for a rook move, shared by both make
functions in apply.go. -/
def stripRookRights (b : Board) (fromBit : Nat) : Board :=
  let ourStartingRankBb := startingRankBbs b.Colortomove
  if b.weCanCastle Kingside && fromBit &&& onlyFile 7 != 0 &&
      fromBit &&& ourStartingRankBb != 0 then
    b.flipOurCastleRights Kingside
  else if b.weCanCastle Queenside && fromBit &&& onlyFile 0 != 0 &&
      fromBit &&& ourStartingRankBb != 0 then
    b.flipOurCastleRights Queenside
  else b

/-- The opponent castle-rights stripping after their rook is captured on a
home square, shared by both make functions in apply.go. -/
def stripCapturedRookRights (b : Board) (toLoc toBit : Nat) : Board :=
  let oppStartingRankBb := startingRankBbs (oppColor b.Colortomove)
  if toLoc % 8 == 7 && toBit &&& oppStartingRankBb != 0 && b.oppCanCastle Kingside then
    b.flipOppCastleRights Kingside
  else if toLoc % 8 == 0 && toBit &&& oppStartingRankBb != 0 && b.oppCanCastle Queenside then
    b.flipOppCastleRights Queenside
  else b

/-- Removal of an ordinarily captured piece together with its hash update
(apply.go): clear the piece and `All` bits, clear `pieces[to]`, XOR the
piece-square constant. -/
def removeCapturedPiece (b : Board) (capturedPieceType : Piece) (toLoc : Nat) : Board :=
  let oppCol := oppColor b.Colortomove
  let x := b.removePieceAt capturedPieceType toLoc oppCol capturedPieceType
  { x with hash := x.hash ^^^
      pieceSquareZobristC (piecesPawnZobristIndexes oppCol + (pieceVal capturedPieceType - 1)) toLoc }

/-- Moving the piece from `fromLoc` to `toLoc` (with promotion landing kind
`promoted`) together with the two hash updates, shared by both make
functions in apply.go. -/
def applyPieceMove (b : Board) (pieceType promoted : Piece) (fromLoc toLoc : Nat) : Board :=
  let ourCol := b.Colortomove
  let ourIdx := piecesPawnZobristIndexes ourCol
  let x := b.movePieceAt pieceType promoted fromLoc toLoc ourCol pieceType promoted
  { x with hash := x.hash ^^^
      pieceSquareZobristC (pieceVal pieceType - 1 + ourIdx) fromLoc ^^^
      pieceSquareZobristC (pieceVal promoted - 1 + ourIdx) toLoc }

/-- The castling rook movement of `MakeSpecialMove` (apply.go). -/
def applyCastleRook (b : Board) (cs oldRookLoc newRookLoc : Nat) : Board :=
  if cs != 0 then
    let ourCol := b.Colortomove
    let ourIdx := piecesPawnZobristIndexes ourCol
    let x := b.movePieceAt Rook Rook oldRookLoc newRookLoc ourCol Rook Rook
    { x with hash := x.hash ^^^
        pieceSquareZobristC (ourIdx + (pieceVal Rook - 1)) oldRookLoc ^^^
        pieceSquareZobristC (ourIdx + (pieceVal Rook - 1)) newRookLoc }
  else b

/-- The en-passant pawn removal of `MakeSpecialMove` (apply.go). -/
def applyEpCapture (b : Board) (isEp : Bool) (epOpponentPawnLocation : Nat) : Board :=
  if isEp then
    let oppCol := oppColor b.Colortomove
    let x := b.removePieceAt Pawn epOpponentPawnLocation oppCol Pawn
    { x with hash := x.hash ^^^
        pieceSquareZobristC (piecesPawnZobristIndexes oppCol) epOpponentPawnLocation }
  else b

/-- The halfmove-clock update of `MakeSpecialMove` (apply.go): reset on a
capture or pawn move, otherwise the wrapping 8-bit increment. -/
def applyHalfmoveClock (b : Board) (m : Move) (pieceType : Piece) : Board :=
  if IsCapture m b || pieceType == Pawn then { b with Halfmoveclock := 0 }
  else { b with Halfmoveclock := (b.Halfmoveclock + 1) % 256 }

/-- The en-passant-square update of `MakeSpecialMove` (apply.go): set behind
a double push, otherwise clear. -/
def applyEpSquare (b : Board) (pieceType : Piece) (fromLoc toLoc : Nat) : Board :=
  let epDelta := epDeltas b.Colortomove
  if pieceType == Pawn && (toLoc : Int) + 2 * epDelta == (fromLoc : Int) then
    { b with enpassant := u8ofInt ((toLoc : Int) + epDelta) }
  else { b with enpassant := 0 }

/-- The promotion switch of apply.go: the piece kind that lands on the
destination square. -/
def promotedKind (m : Move) (pieceType : Piece) : Piece :=
  match m.Promote with
  | Queen => Queen
  | Knight => Knight
  | Rook => Rook
  | Bishop => Bishop
  | _ => pieceType

/-- The `castleStatus` computation of `MakeSpecialMove` (apply.go); 1 is
castling short, 2 long (Go uses -1), 0 none.  The comparisons are the Go
ones: a `uint8` subtraction against 2 and an `int` subtraction against -2. -/
def castleStatusOf (pieceType : Piece) (fromLoc toLoc : Nat) : Nat :=
  if pieceType == King then
    if (toLoc + 256 - fromLoc) % 256 == 2 then 1
    else if (toLoc : Int) - (fromLoc : Int) == -2 then 2
    else 0
  else 0

set_option maxHeartbeats 1000000 in
/-- Embedding of `MakeSimpleMove` from apply.go. -/
def MakeSimpleMove (b0 : Board) (m : Move) : Board × BoardSaveT :=
  let ourCol := b0.Colortomove
  let oppCol := oppColor ourCol
  let fromLoc := m.Src
  let toLoc := m.To
  let fromBit := bitU fromLoc
  let toBit := bitU toLoc
  let fromPiece := b0.PieceAt fromLoc
  let capturePiece := b0.PieceAt toLoc
  let bs : BoardSaveT := {
    Enpassant := b0.enpassant
    Halfmoveclock := b0.Halfmoveclock
    CastlerightsW := b0.castleW
    CastlerightsB := b0.castleB
    FromLoc := fromLoc
    ToLoc := toLoc
    CaptureLoc := toLoc
    FromPiece := fromPiece
    ToPiece := fromPiece
    CapturePiece := capturePiece
    FromBb := b0.bb ourCol fromPiece
    ToBb := b0.bb ourCol fromPiece
    CaptureBb := b0.bb oppCol capturePiece
    OurRookFrom := 0
    OurRookTo := 0
    OurRookBb := b0.bb ourCol Rook
    OurAllBb := b0.bb ourCol AllPieces
    OppAllBb := b0.bb oppCol AllPieces
    Hash := b0.hash }
  let b1 := { b0 with
    Fullmoveno := (b0.Fullmoveno + colorVal ourCol) % 65536,
    Halfmoveclock := (b0.Halfmoveclock + 1) % 256 }
  let b2 := { b1 with hash := b1.hash ^^^ b1.enpassant, enpassant := 0 }
  let b3 :=
    if fromPiece == Pawn then
      let x := { b2 with Halfmoveclock := 0 }
      let epDelta := epDeltas ourCol
      if (toLoc : Int) + 2 * epDelta == (fromLoc : Int) then
        { x with enpassant := u8ofInt ((toLoc : Int) + epDelta) }
      else x
    else if fromPiece == King then stripKingRights b2
    else if fromPiece == Rook then stripRookRights b2 fromBit
    else b2
  let b4 := { b3 with hash := b3.hash ^^^ b3.enpassant }
  let b5 :=
    if capturePiece != Nothing then
      let x := removeCapturedPiece { b4 with Halfmoveclock := 0 } capturePiece toLoc
      if capturePiece == Rook then stripCapturedRookRights x toLoc toBit else x
    else b4
  let b6 := applyPieceMove b5 fromPiece fromPiece fromLoc toLoc
  ({ b6 with Colortomove := oppColor b6.Colortomove, hash := b6.hash ^^^ whiteToMoveZobristC }, bs)

set_option maxHeartbeats 1000000 in
/-- Embedding of `MakeSpecialMove` from apply.go. -/
def MakeSpecialMove (b0 : Board) (m : Move) : Board × BoardSaveT :=
  let ourCol := b0.Colortomove
  let oppCol := oppColor ourCol
  let epDelta := epDeltas ourCol
  let fromLoc := m.Src
  let toLoc := m.To
  let fromBitboard := bitU fromLoc
  let toBitboard := bitU toLoc
  let pieceType := b0.PieceAt fromLoc
  let b1 := { b0 with Fullmoveno := (b0.Fullmoveno + colorVal ourCol) % 65536 }
  let b2 := applyHalfmoveClock b1 m pieceType
  let cs := castleStatusOf pieceType fromLoc toLoc
  let oldRookLoc := if cs == 1 then (toLoc + 1) % 256 else if cs == 2 then (toLoc + 254) % 256 else 0
  let newRookLoc := if cs == 1 then (toLoc + 255) % 256 else if cs == 2 then (toLoc + 1) % 256 else 0
  let b3 := if pieceType == King then stripKingRights b2 else b2
  let b4 := if pieceType == Rook then stripRookRights b3 fromBitboard else b3
  let b5 := applyCastleRook b4 cs oldRookLoc newRookLoc
  let oldEpCaptureSquare := b5.enpassant
  let isEp := pieceType == Pawn && toLoc == oldEpCaptureSquare && oldEpCaptureSquare != 0
  let epOpponentPawnLocation := u8ofInt ((oldEpCaptureSquare : Int) + epDelta)
  let b6 := applyEpCapture b5 isEp epOpponentPawnLocation
  let b7 := applyEpSquare b6 pieceType fromLoc toLoc
  let promotedToPieceType := promotedKind m pieceType
  let capturedPieceType := b7.PieceAt toLoc
  let b8 :=
    if capturedPieceType != Nothing then removeCapturedPiece b7 capturedPieceType toLoc
    else b7
  let b10 := applyPieceMove b8 pieceType promotedToPieceType fromLoc toLoc
  let b11 :=
    if capturedPieceType == Rook then stripCapturedRookRights b10 toLoc toBitboard
    else b10
  let b12 := { b11 with hash := b11.hash ^^^ whiteToMoveZobristC, Colortomove := oppColor b11.Colortomove }
  let b13 := { b12 with hash := b12.hash ^^^ oldEpCaptureSquare ^^^ b12.enpassant }
  let bs : BoardSaveT := {
    Enpassant := b0.enpassant
    Halfmoveclock := b0.Halfmoveclock
    CastlerightsW := b0.castleW
    CastlerightsB := b0.castleB
    FromLoc := fromLoc
    ToLoc := toLoc
    CaptureLoc := if isEp then epOpponentPawnLocation else toLoc
    FromPiece := pieceType
    ToPiece := promotedToPieceType
    CapturePiece := if capturedPieceType != Nothing then capturedPieceType
      else if isEp then Pawn else Nothing
    FromBb := b0.bb ourCol pieceType
    ToBb := b7.bb ourCol promotedToPieceType
    CaptureBb := if capturedPieceType != Nothing then b7.bb oppCol capturedPieceType
      else if isEp then b5.bb oppCol Pawn else 0
    OurRookFrom := if cs != 0 then oldRookLoc else 0
    OurRookTo := if cs != 0 then newRookLoc else 0
    OurRookBb := b0.bb ourCol Rook
    OurAllBb := b0.bb ourCol AllPieces
    OppAllBb := b0.bb oppCol AllPieces
    Hash := b0.hash }
  (b13, bs)

/-- Embedding of `MakeMove` from apply.go. -/
def MakeMove (b : Board) (m : Move) : Board × BoardSaveT :=
  if m.IsSimple then MakeSimpleMove b m else MakeSpecialMove b m

/-! ### Move-string parsing (util.go)

Strings are embedded as lists of bytes.  `strings.ToLower` is embedded in
its ASCII range (the only range exercised by the parsing claims, which are
stated over ASCII inputs). -/

/-- ASCII lowercasing of one byte, the restriction of `strings.ToLower`
used by `AlgebraicToIndex`. -/
def toLowerByte (c : Nat) : Nat := if 65 ≤ c && c ≤ 90 then c + 32 else c

/-- Embedding of `AlgebraicToIndex` from util.go (`none` is the error
return). -/
def AlgebraicToIndex (alg : List Nat) : Option Nat :=
  let firstchar := toLowerByte (alg.getD 0 0)
  if firstchar < 97 || 104 < firstchar || alg.getD 1 0 < 49 || 56 < alg.getD 1 0 then
    none
  else
    some ((firstchar - 97) + (alg.getD 1 0 - 49) * 8)

/-- Embedding of `ParseMove` from util.go (`none` is the error return). -/
def ParseMove (movestr : List Nat) : Option Move :=
  if movestr = [48, 48, 48, 48] then some 0
  else if movestr.length < 4 || 5 < movestr.length then none
  else
    match AlgebraicToIndex (movestr.take 2), AlgebraicToIndex ((movestr.drop 2).take 2) with
    | some f, some t =>
      let mv := (Move.Setto 0 t).Setfrom f
      if movestr.length == 5 then
        let p := movestr.getD 4 0
        if p == 110 then some (mv.Setpromote Knight)
        else if p == 98 then some (mv.Setpromote Bishop)
        else if p == 113 then some (mv.Setpromote Queen)
        else if p == 114 then some (mv.Setpromote Rook)
        else none
      else some mv
    | _, _ => none

/-! ### Concrete positions -/

/-- The standard initial position, before hash initialization. -/
def startBoard0 : Board := {
  Colortomove := White
  enpassant := 0
  Halfmoveclock := 0
  castleW := 3
  castleB := 3
  Fullmoveno := 1
  bbW := {
    BNothing := 0
    Pawns := 0xFF00
    Knights := 0x42
    Bishops := 0x24
    Rooks := 0x81
    Queens := 0x8
    Kings := 0x10
    BAll := 0xFFFF }
  bbB := {
    BNothing := 0
    Pawns := 0xFF000000000000
    Knights := 0x4200000000000000
    Bishops := 0x2400000000000000
    Rooks := 0x8100000000000000
    Queens := 0x800000000000000
    Kings := 0x1000000000000000
    BAll := 0xFFFF000000000000 }
  pieces :=
    [Rook, Knight, Bishop, Queen, King, Bishop, Knight, Rook,
     Pawn, Pawn, Pawn, Pawn, Pawn, Pawn, Pawn, Pawn,
     Nothing, Nothing, Nothing, Nothing, Nothing, Nothing, Nothing, Nothing,
     Nothing, Nothing, Nothing, Nothing, Nothing, Nothing, Nothing, Nothing,
     Nothing, Nothing, Nothing, Nothing, Nothing, Nothing, Nothing, Nothing,
     Nothing, Nothing, Nothing, Nothing, Nothing, Nothing, Nothing, Nothing,
     Pawn, Pawn, Pawn, Pawn, Pawn, Pawn, Pawn, Pawn,
     Rook, Knight, Bishop, Queen, King, Bishop, Knight, Rook]
  hash := 0 }

/-- The standard initial position with its Zobrist hash, as `ParseFen`
produces boards (hash recomputed from scratch at creation). -/
def startBoard : Board := { startBoard0 with hash := recomputeBoardHash startBoard0 }


/-! ## Basic bit-level lemmas -/

theorem U64_eq : U64 = 2 ^ 64 := by norm_num [U64]

theorem U64_pos : 0 < U64 := by norm_num [U64]

theorem testBit_bitU (i j : Nat) :
    (bitU i).testBit j = (decide (j < 64) && decide (i = j)) := by
  have h : bitU i = 2 ^ i % 2 ^ 64 := by
    rw [bitU, U64_eq, Nat.shiftLeft_eq, one_mul]
  rw [h, Nat.testBit_mod_two_pow, Nat.testBit_two_pow]

theorem bitU_lt (i : Nat) : bitU i < U64 := Nat.mod_lt _ U64_pos

theorem testBit_compl64 (x j : Nat) :
    (compl64 x).testBit j = (x.testBit j ^^ decide (j < 64)) := by
  have h : U64 - 1 = 2 ^ 64 - 1 := by norm_num [U64]
  rw [compl64, Nat.testBit_xor, h, Nat.testBit_two_pow_sub_one]

theorem testBit_of_lt_U64 {x : Nat} (hx : x < U64) {j : Nat} (hj : 64 ≤ j) :
    x.testBit j = false :=
  Nat.testBit_eq_false_of_lt (lt_of_lt_of_le (U64_eq ▸ hx) (Nat.pow_le_pow_right (by norm_num) hj))

theorem compl64_lt {x : Nat} (hx : x < U64) : compl64 x < U64 := by
  rw [compl64, U64_eq]
  rw [U64_eq] at hx
  exact Nat.xor_lt_two_pow hx (by norm_num)

theorem or_lt_U64 {x y : Nat} (hx : x < U64) (hy : y < U64) : x ||| y < U64 := by
  rw [U64_eq] at hx hy ⊢
  exact Nat.or_lt_two_pow hx hy

theorem xor_lt_U64 {x y : Nat} (hx : x < U64) (hy : y < U64) : x ^^^ y < U64 := by
  rw [U64_eq] at hx hy ⊢
  exact Nat.xor_lt_two_pow hx hy

theorem and_lt_U64 (x : Nat) {y : Nat} (hy : y < U64) : x &&& y < U64 := by
  rw [U64_eq] at hy ⊢
  exact Nat.and_lt_two_pow x hy

theorem mem_bitIndices {x i : Nat} : i ∈ bitIndices x ↔ i < 64 ∧ x.testBit i = true := by
  simp [bitIndices, List.mem_filter, List.mem_range]

theorem bitIndices_nil_iff {x : Nat} (hx : x < U64) : bitIndices x = [] ↔ x = 0 := by
  constructor
  · intro h
    apply Nat.eq_of_testBit_eq
    intro i
    cases hb : x.testBit i
    · simp [Nat.zero_testBit]
    · rcases lt_or_ge i 64 with hi | hi
      · have : i ∈ bitIndices x := mem_bitIndices.mpr ⟨hi, hb⟩
        simp [h] at this
      · exact absurd hb (by simp [testBit_of_lt_U64 hx hi])
  · intro h
    subst h
    simp [bitIndices, Nat.zero_testBit]

theorem lowestSetBit_mem {x : Nat} (hx : x ≠ 0) (hlt : x < U64) :
    lowestSetBit x < 64 ∧ x.testBit (lowestSetBit x) = true := by
  unfold lowestSetBit
  cases h : bitIndices x with
  | nil => exact absurd ((bitIndices_nil_iff hlt).mp h) hx
  | cons a l =>
    have : a ∈ bitIndices x := by simp [h]
    exact mem_bitIndices.mp this

/-- A single-bit word (popcount 1) is `bitU` of its lowest set bit. -/
theorem single_bit_eq {x : Nat} (hlt : x < U64) (h1 : popCount64 x = 1) :
    x = bitU (lowestSetBit x) ∧ lowestSetBit x < 64 := by
  unfold popCount64 at h1
  cases h : bitIndices x with
  | nil => simp [h] at h1
  | cons a l =>
    cases l with
    | cons b t => simp [h] at h1
    | nil =>
      have ha : a ∈ bitIndices x := by simp [h]
      have ha' := mem_bitIndices.mp ha
      have hl : lowestSetBit x = a := by simp [lowestSetBit, h]
      refine ⟨Nat.eq_of_testBit_eq fun i => ?_, hl ▸ ha'.1⟩
      rw [hl, testBit_bitU]
      rcases lt_or_ge i 64 with hi | hi
      · by_cases hia : a = i
        · subst hia
          simp [ha'.2, hi]
        · simp only [decide_eq_true hi, Bool.true_and]
          cases hbi : x.testBit i
          · simp [hia]
          · have : i ∈ bitIndices x := mem_bitIndices.mpr ⟨hi, hbi⟩
            rw [h] at this
            simp at this
            exact absurd this.symm hia
      · simp [testBit_of_lt_U64 hlt hi, Nat.not_lt.mpr hi]

/-! ## Frame and access lemmas for the board operations -/

theorem Bitboards.get_set (bb : Bitboards) (p : Piece) (v : Nat) (q : Piece) :
    (bb.set p v).get q = if p = q then v else bb.get q := by
  cases p <;> cases q <;> simp [Bitboards.set, Bitboards.get]

theorem Board.bbs_setBbs (b : Board) (c : ColorT) (bb : Bitboards) (c' : ColorT) :
    (b.setBbs c bb).bbs c' = if c = c' then bb else b.bbs c' := by
  cases c <;> cases c' <;> simp [Board.setBbs, Board.bbs]

theorem Board.bb_setBb (b : Board) (c : ColorT) (p : Piece) (v : Nat) (c' : ColorT) (p' : Piece) :
    (b.setBb c p v).bb c' p' = if c = c' ∧ p = p' then v else b.bb c' p' := by
  cases c <;> cases c' <;>
    simp [Board.setBb, Board.bb, Board.bbs_setBbs, Bitboards.get_set]

theorem Board.castlerights_setCastlerights (b : Board) (c : ColorT) (v : Nat) (c' : ColorT) :
    (b.setCastlerights c v).castlerights c' = if c = c' then v else b.castlerights c' := by
  cases c <;> cases c' <;> simp [Board.setCastlerights, Board.castlerights]


/-! Base frame lemmas: which fields each primitive write leaves unchanged. -/

@[simp] theorem Board.Colortomove_setBbs (b : Board) (c : ColorT) (bb : Bitboards) :
    (b.setBbs c bb).Colortomove = b.Colortomove := by cases c <;> rfl

@[simp] theorem Board.enpassant_setBbs (b : Board) (c : ColorT) (bb : Bitboards) :
    (b.setBbs c bb).enpassant = b.enpassant := by cases c <;> rfl

@[simp] theorem Board.Halfmoveclock_setBbs (b : Board) (c : ColorT) (bb : Bitboards) :
    (b.setBbs c bb).Halfmoveclock = b.Halfmoveclock := by cases c <;> rfl

@[simp] theorem Board.castleW_setBbs (b : Board) (c : ColorT) (bb : Bitboards) :
    (b.setBbs c bb).castleW = b.castleW := by cases c <;> rfl

@[simp] theorem Board.castleB_setBbs (b : Board) (c : ColorT) (bb : Bitboards) :
    (b.setBbs c bb).castleB = b.castleB := by cases c <;> rfl

@[simp] theorem Board.Fullmoveno_setBbs (b : Board) (c : ColorT) (bb : Bitboards) :
    (b.setBbs c bb).Fullmoveno = b.Fullmoveno := by cases c <;> rfl

@[simp] theorem Board.hash_setBbs (b : Board) (c : ColorT) (bb : Bitboards) :
    (b.setBbs c bb).hash = b.hash := by cases c <;> rfl

@[simp] theorem Board.pieces_setBbs (b : Board) (c : ColorT) (bb : Bitboards) :
    (b.setBbs c bb).pieces = b.pieces := by cases c <;> rfl

@[simp] theorem Board.Colortomove_setCastlerights (b : Board) (c : ColorT) (v : Nat) :
    (b.setCastlerights c v).Colortomove = b.Colortomove := by cases c <;> rfl

@[simp] theorem Board.enpassant_setCastlerights (b : Board) (c : ColorT) (v : Nat) :
    (b.setCastlerights c v).enpassant = b.enpassant := by cases c <;> rfl

@[simp] theorem Board.Halfmoveclock_setCastlerights (b : Board) (c : ColorT) (v : Nat) :
    (b.setCastlerights c v).Halfmoveclock = b.Halfmoveclock := by cases c <;> rfl

@[simp] theorem Board.Fullmoveno_setCastlerights (b : Board) (c : ColorT) (v : Nat) :
    (b.setCastlerights c v).Fullmoveno = b.Fullmoveno := by cases c <;> rfl

@[simp] theorem Board.hash_setCastlerights (b : Board) (c : ColorT) (v : Nat) :
    (b.setCastlerights c v).hash = b.hash := by cases c <;> rfl

@[simp] theorem Board.pieces_setCastlerights (b : Board) (c : ColorT) (v : Nat) :
    (b.setCastlerights c v).pieces = b.pieces := by cases c <;> rfl

@[simp] theorem Board.bbs_setCastlerights (b : Board) (c : ColorT) (v : Nat) (c' : ColorT) :
    (b.setCastlerights c v).bbs c' = b.bbs c' := by cases c <;> cases c' <;> rfl

@[simp] theorem Board.Colortomove_setPieceAt (b : Board) (i : Nat) (p : Piece) :
    (b.setPieceAt i p).Colortomove = b.Colortomove := rfl

@[simp] theorem Board.enpassant_setPieceAt (b : Board) (i : Nat) (p : Piece) :
    (b.setPieceAt i p).enpassant = b.enpassant := rfl

@[simp] theorem Board.Halfmoveclock_setPieceAt (b : Board) (i : Nat) (p : Piece) :
    (b.setPieceAt i p).Halfmoveclock = b.Halfmoveclock := rfl

@[simp] theorem Board.castleW_setPieceAt (b : Board) (i : Nat) (p : Piece) :
    (b.setPieceAt i p).castleW = b.castleW := rfl

@[simp] theorem Board.castleB_setPieceAt (b : Board) (i : Nat) (p : Piece) :
    (b.setPieceAt i p).castleB = b.castleB := rfl

@[simp] theorem Board.Fullmoveno_setPieceAt (b : Board) (i : Nat) (p : Piece) :
    (b.setPieceAt i p).Fullmoveno = b.Fullmoveno := rfl

@[simp] theorem Board.hash_setPieceAt (b : Board) (i : Nat) (p : Piece) :
    (b.setPieceAt i p).hash = b.hash := rfl

@[simp] theorem Board.bbs_setPieceAt (b : Board) (i : Nat) (p : Piece) (c : ColorT) :
    (b.setPieceAt i p).bbs c = b.bbs c := by cases c <;> rfl

@[simp] theorem Board.pieces_length_setPieceAt (b : Board) (i : Nat) (p : Piece) :
    (b.setPieceAt i p).pieces.length = b.pieces.length := by
  simp [Board.setPieceAt]

@[simp] theorem Board.Colortomove_setBb (b : Board) (c : ColorT) (p : Piece) (v : Nat) :
    (b.setBb c p v).Colortomove = b.Colortomove := by simp [Board.setBb]

@[simp] theorem Board.enpassant_setBb (b : Board) (c : ColorT) (p : Piece) (v : Nat) :
    (b.setBb c p v).enpassant = b.enpassant := by simp [Board.setBb]

@[simp] theorem Board.Halfmoveclock_setBb (b : Board) (c : ColorT) (p : Piece) (v : Nat) :
    (b.setBb c p v).Halfmoveclock = b.Halfmoveclock := by simp [Board.setBb]

@[simp] theorem Board.castleW_setBb (b : Board) (c : ColorT) (p : Piece) (v : Nat) :
    (b.setBb c p v).castleW = b.castleW := by simp [Board.setBb]

@[simp] theorem Board.castleB_setBb (b : Board) (c : ColorT) (p : Piece) (v : Nat) :
    (b.setBb c p v).castleB = b.castleB := by simp [Board.setBb]

@[simp] theorem Board.Fullmoveno_setBb (b : Board) (c : ColorT) (p : Piece) (v : Nat) :
    (b.setBb c p v).Fullmoveno = b.Fullmoveno := by simp [Board.setBb]

@[simp] theorem Board.hash_setBb (b : Board) (c : ColorT) (p : Piece) (v : Nat) :
    (b.setBb c p v).hash = b.hash := by simp [Board.setBb]

@[simp] theorem Board.pieces_setBb (b : Board) (c : ColorT) (p : Piece) (v : Nat) :
    (b.setBb c p v).pieces = b.pieces := by simp [Board.setBb]

theorem Board.PieceAt_setPieceAt (b : Board) (i : Nat) (p : Piece) (j : Nat) :
    (b.setPieceAt i p).PieceAt j = if i = j ∧ i < b.pieces.length then p else b.PieceAt j := by
  unfold Board.setPieceAt Board.PieceAt
  simp only [List.getD_eq_getElem?_getD, List.getElem?_set]
  by_cases h1 : i = j
  · subst h1
    by_cases h2 : i < b.pieces.length
    · simp [h2]
    · simp [h2, List.getElem?_eq_none (Nat.le_of_not_lt h2)]
  · simp [h1]

@[simp] theorem Board.PieceAt_setBb (b : Board) (c : ColorT) (p : Piece) (v : Nat) (j : Nat) :
    (b.setBb c p v).PieceAt j = b.PieceAt j := by
  simp [Board.PieceAt]

@[simp] theorem Board.Colortomove_addPieceAt (b : Board) (pc : Piece) (pos : Nat) (c : ColorT) (slot : Piece) :
    (b.addPieceAt pc pos c slot).Colortomove = b.Colortomove := by simp [Board.addPieceAt]

@[simp] theorem Board.enpassant_addPieceAt (b : Board) (pc : Piece) (pos : Nat) (c : ColorT) (slot : Piece) :
    (b.addPieceAt pc pos c slot).enpassant = b.enpassant := by simp [Board.addPieceAt]

@[simp] theorem Board.Halfmoveclock_addPieceAt (b : Board) (pc : Piece) (pos : Nat) (c : ColorT) (slot : Piece) :
    (b.addPieceAt pc pos c slot).Halfmoveclock = b.Halfmoveclock := by simp [Board.addPieceAt]

@[simp] theorem Board.castleW_addPieceAt (b : Board) (pc : Piece) (pos : Nat) (c : ColorT) (slot : Piece) :
    (b.addPieceAt pc pos c slot).castleW = b.castleW := by simp [Board.addPieceAt]

@[simp] theorem Board.castleB_addPieceAt (b : Board) (pc : Piece) (pos : Nat) (c : ColorT) (slot : Piece) :
    (b.addPieceAt pc pos c slot).castleB = b.castleB := by simp [Board.addPieceAt]

@[simp] theorem Board.Fullmoveno_addPieceAt (b : Board) (pc : Piece) (pos : Nat) (c : ColorT) (slot : Piece) :
    (b.addPieceAt pc pos c slot).Fullmoveno = b.Fullmoveno := by simp [Board.addPieceAt]

@[simp] theorem Board.hash_addPieceAt (b : Board) (pc : Piece) (pos : Nat) (c : ColorT) (slot : Piece) :
    (b.addPieceAt pc pos c slot).hash = b.hash := by simp [Board.addPieceAt]

@[simp] theorem Board.pieces_length_addPieceAt (b : Board) (pc : Piece) (pos : Nat) (c : ColorT) (slot : Piece) :
    (b.addPieceAt pc pos c slot).pieces.length = b.pieces.length := by
  simp [Board.addPieceAt, Board.setPieceAt, Board.setBb]

@[simp] theorem Board.Colortomove_removePieceAt (b : Board) (pc : Piece) (pos : Nat) (c : ColorT) (slot : Piece) :
    (b.removePieceAt pc pos c slot).Colortomove = b.Colortomove := by simp [Board.removePieceAt]

@[simp] theorem Board.enpassant_removePieceAt (b : Board) (pc : Piece) (pos : Nat) (c : ColorT) (slot : Piece) :
    (b.removePieceAt pc pos c slot).enpassant = b.enpassant := by simp [Board.removePieceAt]

@[simp] theorem Board.Halfmoveclock_removePieceAt (b : Board) (pc : Piece) (pos : Nat) (c : ColorT) (slot : Piece) :
    (b.removePieceAt pc pos c slot).Halfmoveclock = b.Halfmoveclock := by simp [Board.removePieceAt]

@[simp] theorem Board.castleW_removePieceAt (b : Board) (pc : Piece) (pos : Nat) (c : ColorT) (slot : Piece) :
    (b.removePieceAt pc pos c slot).castleW = b.castleW := by simp [Board.removePieceAt]

@[simp] theorem Board.castleB_removePieceAt (b : Board) (pc : Piece) (pos : Nat) (c : ColorT) (slot : Piece) :
    (b.removePieceAt pc pos c slot).castleB = b.castleB := by simp [Board.removePieceAt]

@[simp] theorem Board.Fullmoveno_removePieceAt (b : Board) (pc : Piece) (pos : Nat) (c : ColorT) (slot : Piece) :
    (b.removePieceAt pc pos c slot).Fullmoveno = b.Fullmoveno := by simp [Board.removePieceAt]

@[simp] theorem Board.hash_removePieceAt (b : Board) (pc : Piece) (pos : Nat) (c : ColorT) (slot : Piece) :
    (b.removePieceAt pc pos c slot).hash = b.hash := by simp [Board.removePieceAt]

@[simp] theorem Board.pieces_length_removePieceAt (b : Board) (pc : Piece) (pos : Nat) (c : ColorT) (slot : Piece) :
    (b.removePieceAt pc pos c slot).pieces.length = b.pieces.length := by
  simp [Board.removePieceAt, Board.setPieceAt, Board.setBb]

@[simp] theorem Board.Colortomove_movePieceAt (b : Board) (pc qc : Piece) (f t : Nat) (c : ColorT) (s1 s2 : Piece) :
    (b.movePieceAt pc qc f t c s1 s2).Colortomove = b.Colortomove := by simp [Board.movePieceAt, Board.addPieceAt, Board.removePieceAt]

@[simp] theorem Board.enpassant_movePieceAt (b : Board) (pc qc : Piece) (f t : Nat) (c : ColorT) (s1 s2 : Piece) :
    (b.movePieceAt pc qc f t c s1 s2).enpassant = b.enpassant := by simp [Board.movePieceAt, Board.addPieceAt, Board.removePieceAt]

@[simp] theorem Board.Halfmoveclock_movePieceAt (b : Board) (pc qc : Piece) (f t : Nat) (c : ColorT) (s1 s2 : Piece) :
    (b.movePieceAt pc qc f t c s1 s2).Halfmoveclock = b.Halfmoveclock := by simp [Board.movePieceAt, Board.addPieceAt, Board.removePieceAt]

@[simp] theorem Board.castleW_movePieceAt (b : Board) (pc qc : Piece) (f t : Nat) (c : ColorT) (s1 s2 : Piece) :
    (b.movePieceAt pc qc f t c s1 s2).castleW = b.castleW := by simp [Board.movePieceAt, Board.addPieceAt, Board.removePieceAt]

@[simp] theorem Board.castleB_movePieceAt (b : Board) (pc qc : Piece) (f t : Nat) (c : ColorT) (s1 s2 : Piece) :
    (b.movePieceAt pc qc f t c s1 s2).castleB = b.castleB := by simp [Board.movePieceAt, Board.addPieceAt, Board.removePieceAt]

@[simp] theorem Board.Fullmoveno_movePieceAt (b : Board) (pc qc : Piece) (f t : Nat) (c : ColorT) (s1 s2 : Piece) :
    (b.movePieceAt pc qc f t c s1 s2).Fullmoveno = b.Fullmoveno := by simp [Board.movePieceAt, Board.addPieceAt, Board.removePieceAt]

@[simp] theorem Board.hash_movePieceAt (b : Board) (pc qc : Piece) (f t : Nat) (c : ColorT) (s1 s2 : Piece) :
    (b.movePieceAt pc qc f t c s1 s2).hash = b.hash := by simp [Board.movePieceAt, Board.addPieceAt, Board.removePieceAt]

@[simp] theorem Board.pieces_length_movePieceAt (b : Board) (pc qc : Piece) (f t : Nat) (c : ColorT) (s1 s2 : Piece) :
    (b.movePieceAt pc qc f t c s1 s2).pieces.length = b.pieces.length := by
  simp [Board.movePieceAt, Board.addPieceAt, Board.removePieceAt, Board.setPieceAt, Board.setBb]

@[simp] theorem Board.Colortomove_flipCastleRightsF (b : Board) (c : ColorT) (s : CastleRightsT) :
    (b.flipCastleRightsF c s).Colortomove = b.Colortomove := by
  simp [Board.flipCastleRightsF]

@[simp] theorem Board.enpassant_flipCastleRightsF (b : Board) (c : ColorT) (s : CastleRightsT) :
    (b.flipCastleRightsF c s).enpassant = b.enpassant := by simp [Board.flipCastleRightsF]

@[simp] theorem Board.Halfmoveclock_flipCastleRightsF (b : Board) (c : ColorT) (s : CastleRightsT) :
    (b.flipCastleRightsF c s).Halfmoveclock = b.Halfmoveclock := by simp [Board.flipCastleRightsF]

@[simp] theorem Board.Fullmoveno_flipCastleRightsF (b : Board) (c : ColorT) (s : CastleRightsT) :
    (b.flipCastleRightsF c s).Fullmoveno = b.Fullmoveno := by simp [Board.flipCastleRightsF]

@[simp] theorem Board.pieces_flipCastleRightsF (b : Board) (c : ColorT) (s : CastleRightsT) :
    (b.flipCastleRightsF c s).pieces = b.pieces := by simp [Board.flipCastleRightsF]

@[simp] theorem Board.bbW_setCastlerights (b : Board) (c : ColorT) (v : Nat) :
    (b.setCastlerights c v).bbW = b.bbW := by cases c <;> rfl

@[simp] theorem Board.bbB_setCastlerights (b : Board) (c : ColorT) (v : Nat) :
    (b.setCastlerights c v).bbB = b.bbB := by cases c <;> rfl

@[simp] theorem Board.bbs_flipCastleRightsF (b : Board) (c : ColorT) (s : CastleRightsT) (c' : ColorT) :
    (b.flipCastleRightsF c s).bbs c' = b.bbs c' := by
  cases c' <;> simp [Board.flipCastleRightsF, Board.bbs]

theorem Board.hash_flipCastleRightsF (b : Board) (c : ColorT) (s : CastleRightsT) :
    (b.flipCastleRightsF c s).hash = b.hash ^^^ castleRightsZobristC c s := by
  simp [Board.flipCastleRightsF]

theorem Board.castlerights_flipCastleRightsF (b : Board) (c : ColorT) (s : CastleRightsT) (c' : ColorT) :
    (b.flipCastleRightsF c s).castlerights c' =
      if c = c' then b.castlerights c' ^^^ toFlag s else b.castlerights c' := by
  cases c <;> cases c' <;> simp [Board.flipCastleRightsF, Board.setCastlerights, Board.castlerights]


/-! ## Castle-rights monotonicity (towards claim C9) -/

/-- Bitwise subset on flag words. -/
def natSubset (x y : Nat) : Prop := x &&& y = x

theorem natSubset_refl (x : Nat) : natSubset x x := Nat.and_self x

theorem natSubset_trans {x y z : Nat} (h1 : natSubset x y) (h2 : natSubset y z) :
    natSubset x z := by
  unfold natSubset at *
  apply Nat.eq_of_testBit_eq
  intro i
  have e1 := congrArg (fun t => t.testBit i) h1
  have e2 := congrArg (fun t => t.testBit i) h2
  simp only [Nat.testBit_and] at e1 e2 ⊢
  cases hx : x.testBit i <;> cases hy : y.testBit i <;> cases hz : z.testBit i <;>
    simp_all

theorem natSubset_xor_flag {x : Nat} {k : Nat} (h : x.testBit k = true) :
    natSubset (x ^^^ 2 ^ k) x := by
  unfold natSubset
  apply Nat.eq_of_testBit_eq
  intro i
  simp only [Nat.testBit_and, Nat.testBit_xor, Nat.testBit_two_pow]
  by_cases hik : k = i
  · subst hik
    simp [h]
  · simp [hik]

theorem toFlag_eq_pow (s : CastleRightsT) : toFlag s = 2 ^ sideVal s := by
  cases s <;> rfl

theorem canCastle_testBit {b : Board} {c : ColorT} {s : CastleRightsT}
    (h : b.canCastle c s = true) : (b.castlerights c).testBit (sideVal s) = true := by
  unfold Board.canCastle at h
  rw [toFlag_eq_pow] at h
  rw [Nat.and_two_pow] at h
  cases hb : (b.castlerights c).testBit (sideVal s)
  · rw [hb] at h
    simp at h
  · rfl

/-- Both colors' castle rights of `b'` are a subset of those of `b`. -/
def CRle (b' b : Board) : Prop :=
  natSubset b'.castleW b.castleW ∧ natSubset b'.castleB b.castleB

theorem CRle_refl (b : Board) : CRle b b := ⟨natSubset_refl _, natSubset_refl _⟩

theorem CRle_trans {b1 b2 b3 : Board} (h1 : CRle b1 b2) (h2 : CRle b2 b3) : CRle b1 b3 :=
  ⟨natSubset_trans h1.1 h2.1, natSubset_trans h1.2 h2.2⟩

theorem CRle.of_eq {b' b : Board} (hW : b'.castleW = b.castleW) (hB : b'.castleB = b.castleB) :
    CRle b' b := ⟨hW ▸ natSubset_refl _, hB ▸ natSubset_refl _⟩

theorem castlerights_val (b : Board) : b.castlerights White = b.castleW ∧
    b.castlerights Black = b.castleB := ⟨rfl, rfl⟩

theorem CRle_flipCastleRightsF {b : Board} {c : ColorT} {s : CastleRightsT}
    (h : b.canCastle c s = true) : CRle (b.flipCastleRightsF c s) b := by
  have ht := canCastle_testBit h
  have key : natSubset (b.castlerights c ^^^ toFlag s) (b.castlerights c) := by
    rw [toFlag_eq_pow]
    exact natSubset_xor_flag ht
  have hW := Board.castlerights_flipCastleRightsF b c s White
  have hB := Board.castlerights_flipCastleRightsF b c s Black
  simp only [Board.castlerights] at hW hB
  cases c
  · simp only [reduceIte] at hW hB
    exact ⟨by rw [hW]; exact key, by rw [hB]; exact natSubset_refl _⟩
  · simp only [reduceIte] at hW hB
    exact ⟨by rw [hW]; exact natSubset_refl _, by rw [hB]; exact key⟩

theorem CRle_flipOur {b : Board} {s : CastleRightsT} (h : b.weCanCastle s = true) :
    CRle (b.flipOurCastleRights s) b :=
  CRle_flipCastleRightsF h

theorem CRle_flipOpp {b : Board} {s : CastleRightsT} (h : b.oppCanCastle s = true) :
    CRle (b.flipOppCastleRights s) b :=
  CRle_flipCastleRightsF h

theorem CRle_stripKingRights (b : Board) : CRle (stripKingRights b) b := by
  unfold stripKingRights
  lift_lets
  extract_lets x
  have h1 : CRle x b := by
    unfold x
    split
    · exact CRle_flipOur (by assumption)
    · exact CRle_refl b
  split
  · exact CRle_trans (CRle_flipOur (by assumption)) h1
  · exact h1

theorem CRle_stripRookRights (b : Board) (fb : Nat) : CRle (stripRookRights b fb) b := by
  unfold stripRookRights
  lift_lets
  extract_lets r
  split
  · exact CRle_flipOur (by simp_all)
  · split
    · exact CRle_flipOur (by simp_all)
    · exact CRle_refl b

theorem CRle_stripCapturedRookRights (b : Board) (tl tb : Nat) :
    CRle (stripCapturedRookRights b tl tb) b := by
  unfold stripCapturedRookRights
  lift_lets
  extract_lets r
  split
  · exact CRle_flipOpp (by simp_all)
  · split
    · exact CRle_flipOpp (by simp_all)
    · exact CRle_refl b


@[simp] theorem Board.castleW_removeCapturedPiece (b : Board) (p : Piece) (t : Nat) :
    (removeCapturedPiece b p t).castleW = b.castleW := by simp [removeCapturedPiece]

@[simp] theorem Board.castleB_removeCapturedPiece (b : Board) (p : Piece) (t : Nat) :
    (removeCapturedPiece b p t).castleB = b.castleB := by simp [removeCapturedPiece]

@[simp] theorem Board.castleW_applyPieceMove (b : Board) (p q : Piece) (f t : Nat) :
    (applyPieceMove b p q f t).castleW = b.castleW := by simp [applyPieceMove]

@[simp] theorem Board.castleB_applyPieceMove (b : Board) (p q : Piece) (f t : Nat) :
    (applyPieceMove b p q f t).castleB = b.castleB := by simp [applyPieceMove]

@[simp] theorem Board.castleW_applyCastleRook (b : Board) (cs o n : Nat) :
    (applyCastleRook b cs o n).castleW = b.castleW := by simp [applyCastleRook]; split <;> simp

@[simp] theorem Board.castleB_applyCastleRook (b : Board) (cs o n : Nat) :
    (applyCastleRook b cs o n).castleB = b.castleB := by simp [applyCastleRook]; split <;> simp

@[simp] theorem Board.castleW_applyEpCapture (b : Board) (e : Bool) (l : Nat) :
    (applyEpCapture b e l).castleW = b.castleW := by simp [applyEpCapture]; split <;> simp

@[simp] theorem Board.castleB_applyEpCapture (b : Board) (e : Bool) (l : Nat) :
    (applyEpCapture b e l).castleB = b.castleB := by simp [applyEpCapture]; split <;> simp

@[simp] theorem Board.castleW_applyHalfmoveClock (b : Board) (m : Move) (p : Piece) :
    (applyHalfmoveClock b m p).castleW = b.castleW := by simp [applyHalfmoveClock]; split <;> simp

@[simp] theorem Board.castleB_applyHalfmoveClock (b : Board) (m : Move) (p : Piece) :
    (applyHalfmoveClock b m p).castleB = b.castleB := by simp [applyHalfmoveClock]; split <;> simp

@[simp] theorem Board.castleW_applyEpSquare (b : Board) (p : Piece) (f t : Nat) :
    (applyEpSquare b p f t).castleW = b.castleW := by simp [applyEpSquare]; split <;> simp

@[simp] theorem Board.castleB_applyEpSquare (b : Board) (p : Piece) (f t : Nat) :
    (applyEpSquare b p f t).castleB = b.castleB := by simp [applyEpSquare]; split <;> simp



theorem CRle_MakeSpecialMove (b0 : Board) (m : Move) : CRle (MakeSpecialMove b0 m).1 b0 := by
  unfold MakeSpecialMove
  lift_lets
  extract_lets ourCol oppCol epDelta fromLoc toLoc fromBitboard toBitboard pieceType
    b1 b2 cs oldRookLoc newRookLoc b3 b4 b5 oldEp isEp epLoc b6 b7 promoted captured
    b8 b10 b11 b12 b13 bs
  suffices h : CRle b13 b0 by exact CRle_trans (CRle.of_eq rfl rfl) h
  have g2 : CRle b2 b0 := CRle.of_eq (by simp [b2, b1]) (by simp [b2, b1])
  have g4 : CRle b4 b0 := by
    have g3 : CRle b3 b2 := by
      unfold b3
      split
      · exact CRle_stripKingRights b2
      · exact CRle_refl b2
    have g4' : CRle b4 b3 := by
      unfold b4
      split
      · exact CRle_stripRookRights b3 fromBitboard
      · exact CRle_refl b3
    exact CRle_trans (CRle_trans g4' g3) g2
  have g8 : CRle b8 b0 := by
    have e7 : CRle b7 b4 :=
      CRle.of_eq (by simp [b7, b6, b5]) (by simp [b7, b6, b5])
    have e8 : CRle b8 b7 := by
      unfold b8
      split
      · exact CRle.of_eq (by simp) (by simp)
      · exact CRle_refl b7
    exact CRle_trans (CRle_trans e8 e7) g4
  have g11 : CRle b11 b0 := by
    have e10 : CRle b10 b8 := CRle.of_eq (by simp [b10]) (by simp [b10])
    have e11 : CRle b11 b10 := by
      unfold b11
      split
      · exact CRle_stripCapturedRookRights b10 toLoc toBitboard
      · exact CRle_refl b10
    exact CRle_trans (CRle_trans e11 e10) g8
  exact CRle_trans (CRle.of_eq (by simp [b13, b12]) (by simp [b13, b12])) g11

theorem CRle_MakeSimpleMove (b0 : Board) (m : Move) : CRle (MakeSimpleMove b0 m).1 b0 := by
  unfold MakeSimpleMove
  lift_lets
  extract_lets ourCol oppCol fromLoc toLoc fromBit toBit fromPiece capturePiece bs
    b1 b2 xp epDelta b3 b4 xc b5 b6
  suffices h : CRle b6 b0 by exact CRle_trans (CRle.of_eq rfl rfl) h
  have g2 : CRle b2 b0 := CRle.of_eq (by simp [b2, b1]) (by simp [b2, b1])
  have g3 : CRle b3 b0 := by
    have e3 : CRle b3 b2 := by
      unfold b3
      split
      · split
        · exact CRle.of_eq (by simp [xp]) (by simp [xp])
        · exact CRle.of_eq (by simp [xp]) (by simp [xp])
      · split
        · exact CRle_stripKingRights b2
        · split
          · exact CRle_stripRookRights b2 fromBit
          · exact CRle_refl b2
    exact CRle_trans e3 g2
  have g5 : CRle b5 b0 := by
    have h4 : CRle b4 b0 := CRle_trans (CRle.of_eq (by simp [b4]) (by simp [b4])) g3
    have hxc : CRle xc b4 := CRle.of_eq (by simp [xc]) (by simp [xc])
    have e5 : CRle b5 b4 := by
      unfold b5
      split
      · split
        · exact CRle_trans (CRle_stripCapturedRookRights xc toLoc toBit) hxc
        · exact hxc
      · exact CRle_refl b4
    exact CRle_trans e5 h4
  exact CRle_trans (CRle.of_eq (by simp [b6]) (by simp [b6])) g5


/-! ## Concrete test positions -/

/-- The position 8/8/8/K2pP2r/8/8/8/7k w - d6 0 1 of the spec: the en-passant capture e5d6 would expose the white king on a5 to the rook on h5. -/
def epPinBoard : Board := {
  Colortomove := White
  enpassant := 43
  Halfmoveclock := 0
  castleW := 0
  castleB := 0
  Fullmoveno := 1
  bbW := {
    BNothing := 0
    Pawns := 0x1000000000
    Knights := 0x0
    Bishops := 0x0
    Rooks := 0x0
    Queens := 0x0
    Kings := 0x100000000
    BAll := 0x1100000000 }
  bbB := {
    BNothing := 0
    Pawns := 0x800000000
    Knights := 0x0
    Bishops := 0x0
    Rooks := 0x8000000000
    Queens := 0x0
    Kings := 0x80
    BAll := 0x8800000080 }
  pieces :=
    [Nothing, Nothing, Nothing, Nothing, Nothing, Nothing, Nothing, King,
     Nothing, Nothing, Nothing, Nothing, Nothing, Nothing, Nothing, Nothing,
     Nothing, Nothing, Nothing, Nothing, Nothing, Nothing, Nothing, Nothing,
     Nothing, Nothing, Nothing, Nothing, Nothing, Nothing, Nothing, Nothing,
     King, Nothing, Nothing, Pawn, Pawn, Nothing, Nothing, Rook,
     Nothing, Nothing, Nothing, Nothing, Nothing, Nothing, Nothing, Nothing,
     Nothing, Nothing, Nothing, Nothing, Nothing, Nothing, Nothing, Nothing,
     Nothing, Nothing, Nothing, Nothing, Nothing, Nothing, Nothing, Nothing]
  hash := 0 }

/-- White Kf4 Pe5, black Bc7 pd5 Kh1, en passant d6: the pawn e5 is diagonally pinned by the bishop on c7 along c7-d6-e5-f4, and the en-passant capture e5xd6 stays on that diagonal, so it is legal; the provisional check test passes, yet the pawn is excluded from pawn-capture generation as pinned. -/
def diagPinEpBoard : Board := {
  Colortomove := White
  enpassant := 43
  Halfmoveclock := 0
  castleW := 0
  castleB := 0
  Fullmoveno := 1
  bbW := {
    BNothing := 0
    Pawns := 0x1000000000
    Knights := 0x0
    Bishops := 0x0
    Rooks := 0x0
    Queens := 0x0
    Kings := 0x20000000
    BAll := 0x1020000000 }
  bbB := {
    BNothing := 0
    Pawns := 0x800000000
    Knights := 0x0
    Bishops := 0x4000000000000
    Rooks := 0x0
    Queens := 0x0
    Kings := 0x80
    BAll := 0x4000800000080 }
  pieces :=
    [Nothing, Nothing, Nothing, Nothing, Nothing, Nothing, Nothing, King,
     Nothing, Nothing, Nothing, Nothing, Nothing, Nothing, Nothing, Nothing,
     Nothing, Nothing, Nothing, Nothing, Nothing, Nothing, Nothing, Nothing,
     Nothing, Nothing, Nothing, Nothing, Nothing, King, Nothing, Nothing,
     Nothing, Nothing, Nothing, Pawn, Pawn, Nothing, Nothing, Nothing,
     Nothing, Nothing, Nothing, Nothing, Nothing, Nothing, Nothing, Nothing,
     Nothing, Nothing, Bishop, Nothing, Nothing, Nothing, Nothing, Nothing,
     Nothing, Nothing, Nothing, Nothing, Nothing, Nothing, Nothing, Nothing]
  hash := 0 }

/-- A quiet position with the halfmove clock at its 8-bit maximum 255; the knight move b1c3 is neither a capture nor a pawn move. -/
def clockBoard : Board := {
  Colortomove := White
  enpassant := 0
  Halfmoveclock := 255
  castleW := 0
  castleB := 0
  Fullmoveno := 1
  bbW := {
    BNothing := 0
    Pawns := 0x0
    Knights := 0x2
    Bishops := 0x0
    Rooks := 0x0
    Queens := 0x0
    Kings := 0x10
    BAll := 0x12 }
  bbB := {
    BNothing := 0
    Pawns := 0x0
    Knights := 0x0
    Bishops := 0x0
    Rooks := 0x0
    Queens := 0x0
    Kings := 0x1000000000000000
    BAll := 0x1000000000000000 }
  pieces :=
    [Nothing, Knight, Nothing, Nothing, King, Nothing, Nothing, Nothing,
     Nothing, Nothing, Nothing, Nothing, Nothing, Nothing, Nothing, Nothing,
     Nothing, Nothing, Nothing, Nothing, Nothing, Nothing, Nothing, Nothing,
     Nothing, Nothing, Nothing, Nothing, Nothing, Nothing, Nothing, Nothing,
     Nothing, Nothing, Nothing, Nothing, Nothing, Nothing, Nothing, Nothing,
     Nothing, Nothing, Nothing, Nothing, Nothing, Nothing, Nothing, Nothing,
     Nothing, Nothing, Nothing, Nothing, Nothing, Nothing, Nothing, Nothing,
     Nothing, Nothing, Nothing, Nothing, King, Nothing, Nothing, Nothing]
  hash := 0 }

/-- White king e1 in double check from the rook on e8 and the knight on f3. -/
def doubleCheckBoard : Board := {
  Colortomove := White
  enpassant := 0
  Halfmoveclock := 0
  castleW := 0
  castleB := 0
  Fullmoveno := 1
  bbW := {
    BNothing := 0
    Pawns := 0x0
    Knights := 0x0
    Bishops := 0x0
    Rooks := 0x0
    Queens := 0x0
    Kings := 0x10
    BAll := 0x10 }
  bbB := {
    BNothing := 0
    Pawns := 0x0
    Knights := 0x200000
    Bishops := 0x0
    Rooks := 0x1000000000000000
    Queens := 0x0
    Kings := 0x100000000000000
    BAll := 0x1100000000200000 }
  pieces :=
    [Nothing, Nothing, Nothing, Nothing, King, Nothing, Nothing, Nothing,
     Nothing, Nothing, Nothing, Nothing, Nothing, Nothing, Nothing, Nothing,
     Nothing, Nothing, Nothing, Nothing, Nothing, Knight, Nothing, Nothing,
     Nothing, Nothing, Nothing, Nothing, Nothing, Nothing, Nothing, Nothing,
     Nothing, Nothing, Nothing, Nothing, Nothing, Nothing, Nothing, Nothing,
     Nothing, Nothing, Nothing, Nothing, Nothing, Nothing, Nothing, Nothing,
     Nothing, Nothing, Nothing, Nothing, Nothing, Nothing, Nothing, Nothing,
     King, Nothing, Nothing, Nothing, Rook, Nothing, Nothing, Nothing]
  hash := 0 }

/-- White Ka1 Pb2 Pc3, black Bd4 Kh8: both pawns lie strictly between king and bishop on the a1-d4 diagonal, but neither is classified as pinned because neither is visible from both ends through the occupancy. -/
def diagBlockBoard : Board := {
  Colortomove := White
  enpassant := 0
  Halfmoveclock := 0
  castleW := 0
  castleB := 0
  Fullmoveno := 1
  bbW := {
    BNothing := 0
    Pawns := 0x40200
    Knights := 0x0
    Bishops := 0x0
    Rooks := 0x0
    Queens := 0x0
    Kings := 0x1
    BAll := 0x40201 }
  bbB := {
    BNothing := 0
    Pawns := 0x0
    Knights := 0x0
    Bishops := 0x8000000
    Rooks := 0x0
    Queens := 0x0
    Kings := 0x8000000000000000
    BAll := 0x8000000008000000 }
  pieces :=
    [King, Nothing, Nothing, Nothing, Nothing, Nothing, Nothing, Nothing,
     Nothing, Pawn, Nothing, Nothing, Nothing, Nothing, Nothing, Nothing,
     Nothing, Nothing, Pawn, Nothing, Nothing, Nothing, Nothing, Nothing,
     Nothing, Nothing, Nothing, Bishop, Nothing, Nothing, Nothing, Nothing,
     Nothing, Nothing, Nothing, Nothing, Nothing, Nothing, Nothing, Nothing,
     Nothing, Nothing, Nothing, Nothing, Nothing, Nothing, Nothing, Nothing,
     Nothing, Nothing, Nothing, Nothing, Nothing, Nothing, Nothing, Nothing,
     Nothing, Nothing, Nothing, Nothing, Nothing, Nothing, Nothing, King]
  hash := 0 }

/-- The position rnbqkbnr/ppp1pppp/8/3pP3/8/8/PPPP1PPP/RNBQKBNR w KQkq d6 0 3 of the spec, where the en-passant capture e5d6 is legal. -/
def epLegalBoard : Board := {
  Colortomove := White
  enpassant := 43
  Halfmoveclock := 0
  castleW := 3
  castleB := 3
  Fullmoveno := 3
  bbW := {
    BNothing := 0
    Pawns := 0x100000ef00
    Knights := 0x42
    Bishops := 0x24
    Rooks := 0x81
    Queens := 0x8
    Kings := 0x10
    BAll := 0x100000efff }
  bbB := {
    BNothing := 0
    Pawns := 0xf7000800000000
    Knights := 0x4200000000000000
    Bishops := 0x2400000000000000
    Rooks := 0x8100000000000000
    Queens := 0x800000000000000
    Kings := 0x1000000000000000
    BAll := 0xfff7000800000000 }
  pieces :=
    [Rook, Knight, Bishop, Queen, King, Bishop, Knight, Rook,
     Pawn, Pawn, Pawn, Pawn, Nothing, Pawn, Pawn, Pawn,
     Nothing, Nothing, Nothing, Nothing, Nothing, Nothing, Nothing, Nothing,
     Nothing, Nothing, Nothing, Nothing, Nothing, Nothing, Nothing, Nothing,
     Nothing, Nothing, Nothing, Pawn, Pawn, Nothing, Nothing, Nothing,
     Nothing, Nothing, Nothing, Nothing, Nothing, Nothing, Nothing, Nothing,
     Pawn, Pawn, Pawn, Nothing, Pawn, Pawn, Pawn, Pawn,
     Rook, Knight, Bishop, Queen, King, Bishop, Knight, Rook]
  hash := 0 }


/-! ## Halfmove-clock characterization (towards claim C7) -/

theorem IsCapture_fields {m : Move} {b b' : Board} (h1 : b'.bbW = b.bbW)
    (h2 : b'.bbB = b.bbB) (h3 : b'.enpassant = b.enpassant) :
    IsCapture m b' = IsCapture m b := by
  simp [IsCapture, h1, h2, h3]

@[simp] theorem Board.Colortomove_stripKingRights (b : Board) :
    (stripKingRights b).Colortomove = b.Colortomove := by
  simp only [stripKingRights, Board.flipOurCastleRights, Board.flipOppCastleRights]
  split_ifs <;> simp

@[simp] theorem Board.enpassant_stripKingRights (b : Board) :
    (stripKingRights b).enpassant = b.enpassant := by
  simp only [stripKingRights, Board.flipOurCastleRights, Board.flipOppCastleRights]
  split_ifs <;> simp

@[simp] theorem Board.Halfmoveclock_stripKingRights (b : Board) :
    (stripKingRights b).Halfmoveclock = b.Halfmoveclock := by
  simp only [stripKingRights, Board.flipOurCastleRights, Board.flipOppCastleRights]
  split_ifs <;> simp

@[simp] theorem Board.Fullmoveno_stripKingRights (b : Board) :
    (stripKingRights b).Fullmoveno = b.Fullmoveno := by
  simp only [stripKingRights, Board.flipOurCastleRights, Board.flipOppCastleRights]
  split_ifs <;> simp

@[simp] theorem Board.pieces_stripKingRights (b : Board) :
    (stripKingRights b).pieces = b.pieces := by
  simp only [stripKingRights, Board.flipOurCastleRights, Board.flipOppCastleRights]
  split_ifs <;> simp

@[simp] theorem Board.Colortomove_stripRookRights (b : Board) (fb : Nat) :
    (stripRookRights b fb).Colortomove = b.Colortomove := by
  simp only [stripRookRights, Board.flipOurCastleRights, Board.flipOppCastleRights]
  split_ifs <;> simp

@[simp] theorem Board.enpassant_stripRookRights (b : Board) (fb : Nat) :
    (stripRookRights b fb).enpassant = b.enpassant := by
  simp only [stripRookRights, Board.flipOurCastleRights, Board.flipOppCastleRights]
  split_ifs <;> simp

@[simp] theorem Board.Halfmoveclock_stripRookRights (b : Board) (fb : Nat) :
    (stripRookRights b fb).Halfmoveclock = b.Halfmoveclock := by
  simp only [stripRookRights, Board.flipOurCastleRights, Board.flipOppCastleRights]
  split_ifs <;> simp

@[simp] theorem Board.Fullmoveno_stripRookRights (b : Board) (fb : Nat) :
    (stripRookRights b fb).Fullmoveno = b.Fullmoveno := by
  simp only [stripRookRights, Board.flipOurCastleRights, Board.flipOppCastleRights]
  split_ifs <;> simp

@[simp] theorem Board.pieces_stripRookRights (b : Board) (fb : Nat) :
    (stripRookRights b fb).pieces = b.pieces := by
  simp only [stripRookRights, Board.flipOurCastleRights, Board.flipOppCastleRights]
  split_ifs <;> simp

@[simp] theorem Board.Colortomove_stripCapturedRookRights (b : Board) (t u : Nat) :
    (stripCapturedRookRights b t u).Colortomove = b.Colortomove := by
  simp only [stripCapturedRookRights, Board.flipOurCastleRights, Board.flipOppCastleRights]
  split_ifs <;> simp

@[simp] theorem Board.enpassant_stripCapturedRookRights (b : Board) (t u : Nat) :
    (stripCapturedRookRights b t u).enpassant = b.enpassant := by
  simp only [stripCapturedRookRights, Board.flipOurCastleRights, Board.flipOppCastleRights]
  split_ifs <;> simp

@[simp] theorem Board.Halfmoveclock_stripCapturedRookRights (b : Board) (t u : Nat) :
    (stripCapturedRookRights b t u).Halfmoveclock = b.Halfmoveclock := by
  simp only [stripCapturedRookRights, Board.flipOurCastleRights, Board.flipOppCastleRights]
  split_ifs <;> simp

@[simp] theorem Board.Fullmoveno_stripCapturedRookRights (b : Board) (t u : Nat) :
    (stripCapturedRookRights b t u).Fullmoveno = b.Fullmoveno := by
  simp only [stripCapturedRookRights, Board.flipOurCastleRights, Board.flipOppCastleRights]
  split_ifs <;> simp

@[simp] theorem Board.pieces_stripCapturedRookRights (b : Board) (t u : Nat) :
    (stripCapturedRookRights b t u).pieces = b.pieces := by
  simp only [stripCapturedRookRights, Board.flipOurCastleRights, Board.flipOppCastleRights]
  split_ifs <;> simp

theorem Halfmoveclock_MakeSpecialMove (b0 : Board) (m : Move) :
    (MakeSpecialMove b0 m).1.Halfmoveclock =
      if IsCapture m b0 || b0.PieceAt m.Src == Pawn then 0
      else (b0.Halfmoveclock + 1) % 256 := by
  unfold MakeSpecialMove
  lift_lets
  extract_lets ourCol oppCol epDelta fromLoc toLoc fromBitboard toBitboard pieceType
    b1 b2 cs oldRookLoc newRookLoc b3 b4 b5 oldEp isEp epLoc b6 b7 promoted captured
    b8 b10 b11 b12 b13 bs
  show b13.Halfmoveclock = _
  have h13 : b13.Halfmoveclock = b2.Halfmoveclock := by
    have e11 : b11.Halfmoveclock = b10.Halfmoveclock := by unfold b11; split <;> simp
    have e8 : b8.Halfmoveclock = b7.Halfmoveclock := by unfold b8; split <;> simp [removeCapturedPiece]
    have e3 : b3.Halfmoveclock = b2.Halfmoveclock := by unfold b3; split <;> simp
    have e4 : b4.Halfmoveclock = b3.Halfmoveclock := by unfold b4; split <;> simp
    have e5 : b5.Halfmoveclock = b4.Halfmoveclock := by
      unfold b5 applyCastleRook
      split <;> simp
    have e6 : b6.Halfmoveclock = b5.Halfmoveclock := by
      unfold b6 applyEpCapture
      split <;> simp [Board.removePieceAt]
    have e7 : b7.Halfmoveclock = b6.Halfmoveclock := by
      unfold b7 applyEpSquare
      lift_lets
      extract_lets d
      split <;> simp
    have e10 : b10.Halfmoveclock = b8.Halfmoveclock := by
      unfold b10
      simp [applyPieceMove]
    simp [b13, b12, e11, e10, e8, e7, e6, e5, e4, e3]
  rw [h13]
  have hcap : IsCapture m b1 = IsCapture m b0 := IsCapture_fields (by simp [b1]) (by simp [b1]) (by simp [b1])
  have hcond : (IsCapture m b1 || pieceType == Pawn)
      = (IsCapture m b0 || b0.PieceAt m.Src == Pawn) := by
    rw [hcap]
  have : b2.Halfmoveclock =
      if IsCapture m b0 || b0.PieceAt m.Src == Pawn then 0 else (b0.Halfmoveclock + 1) % 256 := by
    unfold b2 applyHalfmoveClock
    rw [hcond]
    split <;> simp [b1]
  exact this

theorem Halfmoveclock_MakeSimpleMove (b0 : Board) (m : Move) :
    (MakeSimpleMove b0 m).1.Halfmoveclock =
      if b0.PieceAt m.To != Nothing || b0.PieceAt m.Src == Pawn then 0
      else (b0.Halfmoveclock + 1) % 256 := by
  unfold MakeSimpleMove
  lift_lets
  extract_lets ourCol oppCol fromLoc toLoc fromBit toBit fromPiece capturePiece bs
    b1 b2 xp epDelta b3 b4 xc b5 b6
  show b6.Halfmoveclock = _
  have e6 : b6.Halfmoveclock = b5.Halfmoveclock := by unfold b6; simp [applyPieceMove]
  have e3 : b3.Halfmoveclock =
      (if b0.PieceAt m.Src == Pawn then 0 else (b0.Halfmoveclock + 1) % 256) := by
    unfold b3
    by_cases hp : (fromPiece == Pawn) = true
    · rw [if_pos hp]
      have : (b0.PieceAt m.Src == Pawn) = true := hp
      rw [if_pos this]
      split <;> simp [xp, b2, b1]
    · rw [if_neg hp]
      have : (b0.PieceAt m.Src == Pawn) = false := by
        cases h : (b0.PieceAt m.Src == Pawn)
        · rfl
        · exact absurd h hp
      rw [this]
      simp only [Bool.false_eq_true, if_false]
      split
      · simp [b2, b1]
      · split
        · simp [b2, b1]
        · simp [b2, b1]
  by_cases hc : (capturePiece != Nothing) = true
  · have hcap : (b0.PieceAt m.To != Nothing) = true := hc
    rw [e6]
    have e5 : b5.Halfmoveclock = 0 := by
      unfold b5
      rw [if_pos hc]
      split <;> simp [xc, removeCapturedPiece]
    rw [e5, hcap]
    simp
  · have hcap : (b0.PieceAt m.To != Nothing) = false := by
      cases h : (capturePiece != Nothing)
      · rfl
      · exact absurd h hc
    have e5 : b5.Halfmoveclock = b3.Halfmoveclock := by
      unfold b5
      rw [if_neg hc]
    rw [e6, e5, e3, hcap]
    simp


/-! ## Claims C3, C7, C9 -/

/-- C3: on the standard initial position, `GenerateLegalMoves2 false`
returns exactly 20 moves with no duplicates: the 16 pawn pushes (the 8
single pushes a2a3..h2h3 and the 8 double pushes a2a4..h2h4) and the 4
knight moves b1a3, b1c3, g1f3, g1h3, and reports in-check false.
(`mkMoveFT f t` is the move with source square f and destination t.) -/
theorem claim_C3 :
    (GenerateLegalMoves2 startBoard false).moves =
      [mkMoveFT 8 16, mkMoveFT 9 17, mkMoveFT 10 18, mkMoveFT 11 19,
       mkMoveFT 12 20, mkMoveFT 13 21, mkMoveFT 14 22, mkMoveFT 15 23,
       mkMoveFT 8 24, mkMoveFT 9 25, mkMoveFT 10 26, mkMoveFT 11 27,
       mkMoveFT 12 28, mkMoveFT 13 29, mkMoveFT 14 30, mkMoveFT 15 31,
       mkMoveFT 1 16, mkMoveFT 1 18, mkMoveFT 6 21, mkMoveFT 6 23] ∧
    (GenerateLegalMoves2 startBoard false).moves.Nodup ∧
    (GenerateLegalMoves2 startBoard false).incheck = false :=
  ⟨by decide, by decide, by decide⟩

/-- C7 counterexample: in a consistent position with the halfmove clock at
its maximum 255, the knight move b1c3 (no capture, not a pawn move) leaves
the clock at 0 after `MakeMove`: the 8-bit clock wraps back to 0 by
incrementing, contradicting the claimed saturation at 255. -/
theorem claim_C7_counterexample :
    consistentB clockBoard = true ∧
    IsCapture (mkMoveFT 1 18) clockBoard = false ∧
    clockBoard.PieceAt 1 = Knight ∧
    clockBoard.Halfmoveclock = 255 ∧
    (MakeMove clockBoard (mkMoveFT 1 18)).1.Halfmoveclock = 0 ∧
    (MakeMove clockBoard (mkMoveFT 1 18)).1.Halfmoveclock ≠ 255 := by
  refine ⟨by decide, by decide, by decide, by decide, by decide, by decide⟩

/-- C7 (amended): `MakeMove` sets the halfmove clock to 0 when the move is a
capture or a pawn move (on the simple path a capture is an occupied
destination square; on the special path `IsCapture` also covers en passant),
and otherwise increments it modulo 256 - the 8-bit clock wraps from 255 back
to 0 rather than saturating. -/
theorem claim_C7 (b : Board) (m : Move) :
    (MakeMove b m).1.Halfmoveclock =
      if (if m.IsSimple then b.PieceAt m.To != Nothing || b.PieceAt m.Src == Pawn
          else IsCapture m b || b.PieceAt m.Src == Pawn)
      then 0 else (b.Halfmoveclock + 1) % 256 := by
  unfold MakeMove
  by_cases h : m.IsSimple = true
  · rw [if_pos h]
    simp only [h, if_true]
    exact Halfmoveclock_MakeSimpleMove b m
  · rw [if_neg h]
    have h' : m.IsSimple = false := by
      cases hh : m.IsSimple
      · rfl
      · exact absurd hh h
    simp only [h', Bool.false_eq_true, if_false]
    exact Halfmoveclock_MakeSpecialMove b m

/-- C9: a move application (`MakeMove`, on either the simple or the special
path) never sets a castle right that was not already held: the rights flags
of each color after the move are a bitwise subset of the flags before it. -/
theorem claim_C9 (b : Board) (m : Move) :
    (MakeMove b m).1.castleW &&& b.castleW = (MakeMove b m).1.castleW ∧
    (MakeMove b m).1.castleB &&& b.castleB = (MakeMove b m).1.castleB := by
  unfold MakeMove
  split
  · exact ⟨(CRle_MakeSimpleMove b m).1, (CRle_MakeSimpleMove b m).2⟩
  · exact ⟨(CRle_MakeSpecialMove b m).1, (CRle_MakeSpecialMove b m).2⟩


/-! ## Move-encoding arithmetic -/

theorem shiftRight_and_distrib (a b n : Nat) : (a &&& b) >>> n = (a >>> n) &&& (b >>> n) := by
  apply Nat.eq_of_testBit_eq
  intro i
  simp [Nat.testBit_shiftRight, Nat.testBit_and]

theorem shiftRight_or_distrib (a b n : Nat) : (a ||| b) >>> n = (a >>> n) ||| (b >>> n) := by
  apply Nat.eq_of_testBit_eq
  intro i
  simp [Nat.testBit_shiftRight, Nat.testBit_or]

theorem shiftLeft_or_eq_add {a t : Nat} (n : Nat) (ht : t < 2 ^ n) :
    (a <<< n) ||| t = a * 2 ^ n + t := by
  have hdiv : ((a <<< n) ||| t) >>> n = a := by
    rw [shiftRight_or_distrib, Nat.shiftLeft_shiftRight, Nat.shiftRight_eq_div_pow,
      Nat.div_eq_of_lt ht, Nat.or_zero]
  have hmod : ((a <<< n) ||| t) % 2 ^ n = t := by
    have h1 : ((a <<< n) ||| t) &&& (2 ^ n - 1) = ((a <<< n) &&& (2 ^ n - 1)) ||| (t &&& (2 ^ n - 1)) := by
      rw [Nat.and_comm, Nat.and_or_distrib_left, Nat.and_comm (2 ^ n - 1) (a <<< n),
        Nat.and_comm (2 ^ n - 1) t]
    have h2 : (a <<< n) &&& (2 ^ n - 1) = 0 := by
      rw [Nat.and_pow_two_sub_one_eq_mod, Nat.shiftLeft_eq, Nat.mul_mod_left]
    have h3 : t &&& (2 ^ n - 1) = t := by
      rw [Nat.and_pow_two_sub_one_eq_mod, Nat.mod_eq_of_lt ht]
    rw [← Nat.and_pow_two_sub_one_eq_mod, h1, h2, h3, Nat.zero_or]
  have := Nat.div_add_mod ((a <<< n) ||| t) (2 ^ n)
  rw [Nat.shiftRight_eq_div_pow] at hdiv
  rw [hdiv, hmod] at this
  rw [← this]
  ring

theorem and_shiftLeft_of_lt {a b n : Nat} (ha : a < 2 ^ n) : a &&& (b <<< n) = 0 := by
  apply Nat.eq_of_testBit_eq
  intro i
  rw [Nat.testBit_and, Nat.testBit_shiftLeft, Nat.zero_testBit]
  rcases lt_or_ge i n with h | h
  · simp [Nat.not_le.mpr h]
  · have : a.testBit i = false :=
      Nat.testBit_eq_false_of_lt (lt_of_lt_of_le ha (Nat.pow_le_pow_right (by norm_num) h))
    simp [this]

theorem and_mask_of_lt {a w n : Nat} (ha : a < 2 ^ n) (hw : n ≤ w) :
    a &&& (2 ^ w - 1) = a := by
  rw [Nat.and_pow_two_sub_one_eq_mod]
  exact Nat.mod_eq_of_lt (lt_of_lt_of_le ha (Nat.pow_le_pow_right (by norm_num) hw))

theorem mkMoveFT_eq {f t : Nat} (hf : f < 64) (ht : t < 64) :
    mkMoveFT f t = f * 64 + t := by
  unfold mkMoveFT Move.Setfrom Move.Setto
  rw [Nat.zero_and, Nat.zero_or]
  have h1 : (f <<< 6) &&& 0xFFC0 = f <<< 6 := by
    have e : (0xFFC0 : Nat) = (2 ^ 10 - 1) <<< 6 := by decide
    rw [e]
    apply Nat.eq_of_testBit_eq
    intro i
    simp only [Nat.testBit_and, Nat.testBit_shiftLeft, Nat.testBit_two_pow_sub_one]
    rcases lt_or_ge i 6 with h | h
    · simp [Nat.not_le.mpr h]
    · rcases lt_or_ge (i - 6) 10 with h2 | h2
      · simp [h, h2]
      · have hfp : f < 2 ^ (i - 6) := by
          have h10 : (2 : Nat) ^ 10 ≤ 2 ^ (i - 6) := Nat.pow_le_pow_right (by norm_num) h2
          omega
        have : f.testBit (i - 6) = false := Nat.testBit_eq_false_of_lt hfp
        simp [this]
  rw [h1, shiftLeft_or_eq_add 6 (by omega)]
  norm_num

theorem mkMoveFT_lt {f t : Nat} (hf : f < 64) (ht : t < 64) : mkMoveFT f t < 4096 := by
  have p : f * 64 + t < 4096 := by omega
  exact lt_of_eq_of_lt (mkMoveFT_eq hf ht) p

theorem Setpromote_eq {mv : Nat} (hmv : mv < 4096) (p : Piece) :
    Move.Setpromote mv p = pieceVal p * 4096 + mv := by
  unfold Move.Setpromote
  have h1 : mv &&& 0x8FFF = mv := by
    have e : (0x8FFF : Nat) = (2 ^ 12 - 1) ||| (1 <<< 15) := by decide
    rw [e, Nat.and_or_distrib_left, and_mask_of_lt (by simpa using hmv) (le_refl 12),
      and_shiftLeft_of_lt (lt_trans (by simpa using hmv) (by norm_num)), Nat.or_zero]
  rw [h1, Nat.or_comm, shiftLeft_or_eq_add 12 (by simpa using hmv)]
  norm_num

/-- The value of every move the generator emits: a promotion value 0..7, a
source and a destination square. -/
theorem moveVal_To {pv f t : Nat} (hp : pv ≤ 7) (hf : f < 64) (ht : t < 64) :
    Move.To (pv * 4096 + (f * 64 + t)) = t := by
  unfold Move.To
  have e : (0x3F : Nat) = 2 ^ 6 - 1 := by norm_num
  rw [e, Nat.and_pow_two_sub_one_eq_mod]
  omega

theorem moveVal_Src {pv f t : Nat} (hp : pv ≤ 7) (hf : f < 64) (ht : t < 64) :
    Move.Src (pv * 4096 + (f * 64 + t)) = f := by
  unfold Move.Src
  have e : (0xFC0 : Nat) = (2 ^ 6 - 1) <<< 6 := by decide
  rw [e, shiftRight_and_distrib, Nat.shiftLeft_shiftRight]
  rw [Nat.shiftRight_eq_div_pow]
  rw [Nat.and_pow_two_sub_one_eq_mod]
  have : (pv * 4096 + (f * 64 + t)) / 2 ^ 6 = pv * 64 + f := by omega
  rw [this]
  omega

theorem moveVal_PromoteNat {pv f t : Nat} (hp : pv ≤ 7) (hf : f < 64) (ht : t < 64) :
    ((pv * 4096 + (f * 64 + t)) &&& 0x7000) >>> 12 = pv := by
  have e : (0x7000 : Nat) = (2 ^ 3 - 1) <<< 12 := by decide
  rw [e, shiftRight_and_distrib, Nat.shiftLeft_shiftRight, Nat.shiftRight_eq_div_pow,
    Nat.and_pow_two_sub_one_eq_mod]
  have : (pv * 4096 + (f * 64 + t)) / 2 ^ 12 = pv := by omega
  rw [this]
  omega

theorem moveVal_IsSimple {pv f t : Nat} (hp : pv ≤ 7) (hf : f < 64) (ht : t < 64) :
    Move.IsSimple (pv * 4096 + (f * 64 + t)) = false := by
  unfold Move.IsSimple
  have e : (0x8000 : Nat) = 2 ^ 15 := by decide
  rw [e, Nat.and_two_pow]
  have : (pv * 4096 + (f * 64 + t)).testBit 15 = false :=
    Nat.testBit_eq_false_of_lt (by norm_num; omega)
  rw [this]
  simp

theorem mkMoveFT_To {f t : Nat} (hf : f < 64) (ht : t < 64) : (mkMoveFT f t).To = t := by
  have h := @moveVal_To 0 f t (by norm_num) hf ht
  rw [mkMoveFT_eq hf ht]
  simpa using h

theorem mkMoveFT_Src {f t : Nat} (hf : f < 64) (ht : t < 64) : (mkMoveFT f t).Src = f := by
  have h := @moveVal_Src 0 f t (by norm_num) hf ht
  rw [mkMoveFT_eq hf ht]
  simpa using h

theorem mkMoveFT_Promote {f t : Nat} (hf : f < 64) (ht : t < 64) :
    (mkMoveFT f t).Promote = Nothing := by
  unfold Move.Promote
  rw [mkMoveFT_eq hf ht]
  have h := @moveVal_PromoteNat 0 f t (by norm_num) hf ht
  simp only [Nat.zero_mul, Nat.zero_add] at h
  rw [h]
  rfl

theorem mkMoveFT_IsSimple {f t : Nat} (hf : f < 64) (ht : t < 64) :
    (mkMoveFT f t).IsSimple = false := by
  have h := @moveVal_IsSimple 0 f t (by norm_num) hf ht
  rw [mkMoveFT_eq hf ht]
  simpa using h

theorem mkMoveFTP_eq {f t : Nat} (hf : f < 64) (ht : t < 64) (p : Piece) :
    mkMoveFTP f t p = pieceVal p * 4096 + (f * 64 + t) := by
  unfold mkMoveFTP
  rw [Setpromote_eq (mkMoveFT_lt hf ht), mkMoveFT_eq hf ht]

theorem pieceVal_le (p : Piece) : pieceVal p ≤ 7 := by cases p <;> simp [pieceVal]

theorem mkMoveFTP_To {f t : Nat} (hf : f < 64) (ht : t < 64) (p : Piece) :
    (mkMoveFTP f t p).To = t := by
  rw [mkMoveFTP_eq hf ht]
  exact moveVal_To (pieceVal_le p) hf ht

theorem mkMoveFTP_Src {f t : Nat} (hf : f < 64) (ht : t < 64) (p : Piece) :
    (mkMoveFTP f t p).Src = f := by
  rw [mkMoveFTP_eq hf ht]
  exact moveVal_Src (pieceVal_le p) hf ht

theorem mkMoveFTP_Promote {f t : Nat} (hf : f < 64) (ht : t < 64) (p : Piece) :
    (mkMoveFTP f t p).Promote = pieceOfNat (pieceVal p) := by
  unfold Move.Promote
  rw [mkMoveFTP_eq hf ht]
  rw [moveVal_PromoteNat (pieceVal_le p) hf ht]

theorem mkMoveFTP_IsSimple {f t : Nat} (hf : f < 64) (ht : t < 64) (p : Piece) :
    (mkMoveFTP f t p).IsSimple = false := by
  rw [mkMoveFTP_eq hf ht]
  exact moveVal_IsSimple (pieceVal_le p) hf ht


/-! ## Claim C8: move-string parsing -/

/-- A two-character square with the file letter accepted case-insensitively
(as `AlgebraicToIndex` lowercases it) and the rank digit 1-8. -/
def squareCharsOk (c1 c2 : Nat) : Prop :=
  (97 ≤ toLowerByte c1 ∧ toLowerByte c1 ≤ 104) ∧ (49 ≤ c2 ∧ c2 ≤ 56)

instance (c1 c2 : Nat) : Decidable (squareCharsOk c1 c2) := by
  unfold squareCharsOk
  infer_instance

theorem AlgebraicToIndex_isSome (l : List Nat) :
    (AlgebraicToIndex l).isSome = true ↔ squareCharsOk (l.getD 0 0) (l.getD 1 0) := by
  unfold AlgebraicToIndex squareCharsOk
  lift_lets
  extract_lets fc
  split
  · rename_i h
    simp only [Option.isSome_none, Bool.false_eq_true, false_iff]
    simp only [Bool.or_eq_true, decide_eq_true_eq] at h
    omega
  · rename_i h
    simp only [Option.isSome_some, true_iff]
    simp only [Bool.or_eq_true, decide_eq_true_eq, not_or] at h
    push_neg at h
    omega

theorem getD_take2_0 (s : List Nat) : (s.take 2).getD 0 0 = s.getD 0 0 := by
  cases s <;> simp

theorem getD_take2_1 (s : List Nat) : (s.take 2).getD 1 0 = s.getD 1 0 := by
  cases s with
  | nil => simp
  | cons a t => cases t <;> simp

theorem getD_drop2_take2_0 (s : List Nat) : ((s.drop 2).take 2).getD 0 0 = s.getD 2 0 := by
  cases s with
  | nil => simp
  | cons a t =>
    cases t with
    | nil => simp
    | cons b u => simp [getD_take2_0]

theorem getD_drop2_take2_1 (s : List Nat) : ((s.drop 2).take 2).getD 1 0 = s.getD 3 0 := by
  cases s with
  | nil => simp
  | cons a t =>
    cases t with
    | nil => simp
    | cons b u => simp [getD_take2_1]

/-- C8 (amended): `ParseMove` returns the null move 0 without error on the
exact input "0000"; on any other ASCII input it succeeds if and only if the
length is 4 or 5, characters 0-1 and 2-3 each denote a valid square with
the file letter accepted case-insensitively (the parser lowercases
characters 0 and 2) and the rank in 1-8, and a fifth character, when
present, is one of n, b, r, q (lowercase only). -/
theorem claim_C8 :
    ParseMove [48, 48, 48, 48] = some 0 ∧
    ∀ s : List Nat, (∀ c ∈ s, c < 128) → s ≠ [48, 48, 48, 48] →
      ((ParseMove s).isSome = true ↔
        ((s.length = 4 ∨ s.length = 5) ∧
         squareCharsOk (s.getD 0 0) (s.getD 1 0) ∧
         squareCharsOk (s.getD 2 0) (s.getD 3 0) ∧
         (s.length = 5 → s.getD 4 0 ∈ [110, 98, 114, 113]))) := by
  constructor
  · rfl
  · intro s _ hne
    unfold ParseMove
    rw [if_neg hne]
    by_cases hlen : s.length < 4 ∨ 5 < s.length
    · have hcond : (decide (s.length < 4) || decide (5 < s.length)) = true := by
        rcases hlen with h | h <;> simp [h]
      rw [if_pos hcond]
      simp only [Option.isSome_none, Bool.false_eq_true, false_iff]
      intro hcontra
      rcases hcontra.1 with h4 | h5 <;> omega
    · push_neg at hlen
      have hcond : (decide (s.length < 4) || decide (5 < s.length)) = false := by
        simp
        omega
      rw [if_neg (by simp [hcond])]
      have hlen45 : s.length = 4 ∨ s.length = 5 := by omega
      cases hA1 : AlgebraicToIndex (s.take 2) with
      | none =>
        have : ¬squareCharsOk (s.getD 0 0) (s.getD 1 0) := by
          rw [← getD_take2_0 s, ← getD_take2_1 s]
          rw [← AlgebraicToIndex_isSome]
          simp [hA1]
        simp only [Option.isSome_none, Bool.false_eq_true, false_iff]
        intro hcontra
        exact this hcontra.2.1
      | some f =>
        cases hA2 : AlgebraicToIndex ((s.drop 2).take 2) with
        | none =>
          have : ¬squareCharsOk (s.getD 2 0) (s.getD 3 0) := by
            rw [← getD_drop2_take2_0 s, ← getD_drop2_take2_1 s]
            rw [← AlgebraicToIndex_isSome]
            simp [hA2]
          simp only [Option.isSome_none, Bool.false_eq_true, false_iff]
          intro hcontra
          exact this hcontra.2.2.1
        | some t =>
          have hsq1 : squareCharsOk (s.getD 0 0) (s.getD 1 0) := by
            rw [← getD_take2_0 s, ← getD_take2_1 s, ← AlgebraicToIndex_isSome]
            simp [hA1]
          have hsq2 : squareCharsOk (s.getD 2 0) (s.getD 3 0) := by
            rw [← getD_drop2_take2_0 s, ← getD_drop2_take2_1 s, ← AlgebraicToIndex_isSome]
            simp [hA2]
          by_cases h5 : s.length = 5
          · have h5' : (s.length == 5) = true := by simp [h5]
            simp only [h5', if_true]
            by_cases hp : s.getD 4 0 ∈ [110, 98, 114, 113]
            · constructor
              · intro _
                exact ⟨hlen45, hsq1, hsq2, fun _ => hp⟩
              · intro _
                simp at hp
                rcases hp with h | h | h | h <;> simp [h]
            · simp at hp
              obtain ⟨hn, hb, hr, hq⟩ := hp
              have e1 : (s.getD 4 0 == 110) = false := by simp [hn]
              have e2 : (s.getD 4 0 == 98) = false := by simp [hb]
              have e3 : (s.getD 4 0 == 113) = false := by simp [hq]
              have e4 : (s.getD 4 0 == 114) = false := by simp [hr]
              simp only [e1, e2, e3, e4, Bool.false_eq_true, if_false]
              simp only [Option.isSome_none, Bool.false_eq_true, false_iff]
              intro hcontra
              have := hcontra.2.2.2 h5
              simp at this
              tauto
          · have h4 : s.length = 4 := by omega
            have h5' : (s.length == 5) = false := by simp [h5]
            simp only [h5', Bool.false_eq_true, if_false]
            simp only [Option.isSome_some, true_iff]
            exact ⟨hlen45, hsq1, hsq2, fun h => absurd h h5⟩

/-- C8 counterexample: the input "E2e4" (first byte 69, an uppercase file
letter outside a-h) parses successfully, refuting the claim that parsing
succeeds only when characters 0-1 and 2-3 use files a-h. -/
theorem claim_C8_counterexample :
    (ParseMove [69, 50, 101, 52]).isSome = true ∧ ¬(97 ≤ 69 ∧ 69 ≤ 104) :=
  ⟨by decide, by decide⟩

/-- Witness for the amended C8 at the concrete ASCII input "e2e4". -/
theorem claim_C8_witness :
    (ParseMove [101, 50, 101, 52]).isSome = true ↔
      (([101, 50, 101, 52] : List Nat).length = 4 ∨ ([101, 50, 101, 52] : List Nat).length = 5) ∧
      squareCharsOk 101 50 ∧ squareCharsOk 101 52 ∧
      (([101, 50, 101, 52] : List Nat).length = 5 → (101 : Nat) ∈ [110, 98, 114, 113]) := by
  have h := claim_C8.2 [101, 50, 101, 52] (by decide) (by decide)
  simpa using h


/-! ## Consistency extraction lemmas -/

theorem consistent_parts {b : Board} (h : consistentB b = true) :
    b.bbW.okB = true ∧ b.bbB.okB = true ∧ b.bbW.BAll &&& b.bbB.BAll = 0 ∧
    b.pieces.length = 64 ∧ (∀ i ∈ List.range 64, pieceSquareOkB b i = true) ∧
    epOkB b = true ∧ castleOkB b = true ∧ b.castleW < 4 ∧ b.castleB < 4 ∧
    b.enpassant < 256 ∧ b.Halfmoveclock < 256 ∧ b.Fullmoveno < 65536 ∧ b.hash < U64 := by
  simp only [consistentB, Bool.and_eq_true, beq_iff_eq, decide_eq_true_eq,
    List.all_eq_true] at h
  tauto

theorem okB_parts {bb : Bitboards} (h : bb.okB = true) :
    bb.BNothing = 0 ∧ bb.Pawns < U64 ∧ bb.Knights < U64 ∧ bb.Bishops < U64 ∧
    bb.Rooks < U64 ∧ bb.Queens < U64 ∧ bb.Kings < U64 ∧ bb.BAll < U64 ∧
    bb.BAll = (bb.Pawns ||| bb.Knights ||| bb.Bishops ||| bb.Rooks ||| bb.Queens ||| bb.Kings) ∧
    bb.disjointKinds = true ∧ popCount64 bb.Kings = 1 := by
  simp only [Bitboards.okB, Bool.and_eq_true, beq_iff_eq, decide_eq_true_eq] at h
  tauto

theorem popCount_one_ne_zero {x : Nat} (h : popCount64 x = 1) : x ≠ 0 := by
  intro h0
  rw [h0] at h
  exact absurd h (by decide)

theorem consistent_bbs_ok {b : Board} (h : consistentB b = true) (c : ColorT) :
    (b.bbs c).okB = true := by
  have hp := consistent_parts h
  cases c
  · simpa [Board.bbs] using hp.1
  · simpa [Board.bbs] using hp.2.1

/-- The king square of the side to move, on a consistent board. -/
theorem kingLoc_facts {b : Board} (h : consistentB b = true) :
    lowestSetBit ((b.bbs b.Colortomove).Kings) < 64 ∧
    ((b.bbs b.Colortomove).Kings).testBit (lowestSetBit ((b.bbs b.Colortomove).Kings)) = true := by
  have hok := okB_parts (consistent_bbs_ok h b.Colortomove)
  have h1 : popCount64 ((b.bbs b.Colortomove).Kings) = 1 := hok.2.2.2.2.2.2.2.2.2.2
  have hlt : (b.bbs b.Colortomove).Kings < U64 := hok.2.2.2.2.2.2.1
  exact lowestSetBit_mem (popCount_one_ne_zero h1) hlt

/-! ## The early-abort attack count versus the full count -/

/-- `countAttacks` with threshold 2 reports at least 2 attackers exactly when
the abort-free count is at least 2. -/
theorem two_le_countAttacks_iff (b : Board) (byBlack : Bool) (origin : Nat) :
    2 ≤ (countAttacks b byBlack origin 2).1 ↔ 2 ≤ attackCount b byBlack origin := by
  unfold attackCount countAttacks
  lift_lets
  extract_lets a1 a2 a3 a4 a5 a6 a7 a8 a9 a10 a11 a12 a13 a14 a15 a16 a17 a18 a19 a20
  have e8 : a8 = a4 + popCount64 a7 := rfl
  have e13 : a13 = a8 + popCount64 a12 := rfl
  have e17 : a17 = a13 + popCount64 a16 := rfl
  have eU : U64 = 18446744073709551616 := rfl
  rw [eU]
  split_ifs <;> dsimp only <;> omega

/-! ## King-push emission -/

theorem kingPushes_moves (b : Board) (allowDest : Nat) :
    (kingPushes b allowDest).1 =
      (bitIndices (kingMasks (lowestSetBit ((b.bbs b.Colortomove).Kings)) &&&
          compl64 ((b.bbs b.Colortomove).BAll) &&& allowDest)).filterMap
        (fun t => if (kingDangerBoard b).UnderDirectAttack (b.Colortomove == White) t then none
          else some (mkMoveFT (lowestSetBit ((b.bbs b.Colortomove).Kings)) t)) := rfl

theorem mem_kingPushes {b : Board} {allowDest : Nat} {m : Move}
    (hm : m ∈ (kingPushes b allowDest).1) :
    ∃ t, t < 64 ∧
      (kingMasks (lowestSetBit ((b.bbs b.Colortomove).Kings))).testBit t = true ∧
      ((b.bbs b.Colortomove).BAll).testBit t = false ∧
      allowDest.testBit t = true ∧
      (kingDangerBoard b).UnderDirectAttack (b.Colortomove == White) t = false ∧
      m = mkMoveFT (lowestSetBit ((b.bbs b.Colortomove).Kings)) t := by
  rw [kingPushes_moves] at hm
  rw [List.mem_filterMap] at hm
  obtain ⟨t, ht, hf⟩ := hm
  rw [mem_bitIndices] at ht
  obtain ⟨ht64, htb⟩ := ht
  rw [Nat.testBit_and, Nat.testBit_and, testBit_compl64] at htb
  simp only [Bool.and_eq_true] at htb
  by_cases ha : (kingDangerBoard b).UnderDirectAttack (b.Colortomove == White) t = true
  · rw [if_pos ha] at hf
    exact absurd hf (by simp)
  · rw [if_neg ha] at hf
    refine ⟨t, ht64, htb.1.1, ?_, htb.2, by simpa using ha, by simpa using hf.symm⟩
    have h2 := htb.1.2
    rw [decide_eq_true ht64] at h2
    cases hb : ((b.bbs b.Colortomove).BAll).testBit t
    · rfl
    · rw [hb] at h2
      exact absurd h2 (by decide)

/-- In double check `GenerateLegalMoves2` takes the first branch: king
pushes over all destinations, in-check true. -/
theorem GenerateLegalMoves2_doubleCheck {b : Board} {o : Bool}
    (h2 : 2 ≤ (countAttacks b (b.Colortomove == White)
        (lowestSetBit ((b.bbs b.Colortomove).Kings)) 2).1) :
    GenerateLegalMoves2 b o = ⟨(kingPushes b everything).1, true, (kingPushes b everything).2⟩ := by
  unfold GenerateLegalMoves2
  lift_lets
  extract_lets c1 c2 c3 c4 c5 c6 c7 c8 c9 c10 c11 c12 c13 c14 c15 c16 c17 c18 c19 c20 c21 c22
    c23 c24 c25 biMoves qMoves km
  rw [if_pos (show 2 ≤ c5 from h2)]

/-- C4: in double check (the side to move's king attacked by at least two
enemy pieces), every generated move is a non-castle king move from the
king's square to an adjacent square not attacked once the king has left its
current square, and the in-check flag is reported true. -/
theorem claim_C4 (b : Board) (h : consistentB b = true)
    (hdc : 2 ≤ attackCount b (b.Colortomove == White)
        (lowestSetBit ((b.bbs b.Colortomove).Kings))) :
    (GenerateLegalMoves2 b false).incheck = true ∧
    ∀ m ∈ (GenerateLegalMoves2 b false).moves,
      m.Src = lowestSetBit ((b.bbs b.Colortomove).Kings) ∧
      m.IsSimple = false ∧
      m.Promote = Nothing ∧
      (kingMasks (lowestSetBit ((b.bbs b.Colortomove).Kings))).testBit m.To = true ∧
      ((b.bbs b.Colortomove).BAll).testBit m.To = false ∧
      (kingDangerBoard b).UnderDirectAttack (b.Colortomove == White) m.To = false := by
  have h2 := (two_le_countAttacks_iff b (b.Colortomove == White)
    (lowestSetBit ((b.bbs b.Colortomove).Kings))).mpr hdc
  rw [GenerateLegalMoves2_doubleCheck h2]
  refine ⟨rfl, ?_⟩
  intro m hm
  obtain ⟨t, ht64, hmask, hall, _, hatt, hmeq⟩ := mem_kingPushes hm
  have hloc := (kingLoc_facts h).1
  subst hmeq
  rw [mkMoveFT_Src hloc ht64, mkMoveFT_To hloc ht64]
  exact ⟨rfl, mkMoveFT_IsSimple hloc ht64, mkMoveFT_Promote hloc ht64, hmask, hall, hatt⟩

/-- Witness for C4 at the concrete double-check position `doubleCheckBoard`. -/
theorem claim_C4_witness :
    consistentB doubleCheckBoard = true ∧
    2 ≤ attackCount doubleCheckBoard (doubleCheckBoard.Colortomove == White)
      (lowestSetBit ((doubleCheckBoard.bbs doubleCheckBoard.Colortomove).Kings)) ∧
    ((GenerateLegalMoves2 doubleCheckBoard false).incheck = true ∧
     ∀ m ∈ (GenerateLegalMoves2 doubleCheckBoard false).moves,
      m.Src = lowestSetBit ((doubleCheckBoard.bbs doubleCheckBoard.Colortomove).Kings) ∧
      m.IsSimple = false ∧
      m.Promote = Nothing ∧
      (kingMasks (lowestSetBit ((doubleCheckBoard.bbs doubleCheckBoard.Colortomove).Kings))).testBit m.To = true ∧
      ((doubleCheckBoard.bbs doubleCheckBoard.Colortomove).BAll).testBit m.To = false ∧
      (kingDangerBoard doubleCheckBoard).UnderDirectAttack
        (doubleCheckBoard.Colortomove == White) m.To = false) :=
  ⟨by decide, by decide, claim_C4 doubleCheckBoard (by decide) (by decide)⟩


/-! ## Bit roundtrips for the generator's mutate-and-revert edits -/

theorem bit_roundtrip_clear_set {x e : Nat} (hx : x < U64) (he : e < 64)
    (hxe : x.testBit e = true) :
    (x &&& compl64 (bitU e)) ||| bitU e = x := by
  apply Nat.eq_of_testBit_eq
  intro i
  simp only [Nat.testBit_or, Nat.testBit_and, testBit_compl64, testBit_bitU]
  rcases lt_or_ge i 64 with hi | hi
  · by_cases hei : e = i
    · subst hei
      simp [hxe, hi]
    · simp [hei, hi]
  · simp [testBit_of_lt_U64 hx hi, Nat.not_lt.mpr hi]

theorem bit_roundtrip_move {P f t : Nat} (hP : P < U64) (hf : f < 64) (ht : t < 64)
    (hft : f ≠ t) (hPf : P.testBit f = true) (hPt : P.testBit t = false) :
    (((P &&& compl64 (bitU f)) ||| bitU t) ||| bitU f) &&& compl64 (bitU t) = P := by
  apply Nat.eq_of_testBit_eq
  intro i
  simp only [Nat.testBit_and, Nat.testBit_or, testBit_compl64, testBit_bitU]
  rcases lt_or_ge i 64 with hi | hi
  · by_cases hit : t = i
    · subst hit
      simp [hPt, hi]
    · by_cases hif : f = i
      · subst hif
        simp [hPf, hi, hit]
      · simp [hit, hif, hi]
  · simp [testBit_of_lt_U64 hP hi, Nat.not_lt.mpr hi]

/-- The provisional en-passant edit of `pawnCaptures` is reverted exactly,
given that the bitboards really hold a friendly pawn on the origin, empty
target square, and an enemy pawn on the captured square. -/
theorem epRevert_epEdit {b : Board} {f t e : Nat}
    (hf : f < 64) (ht : t < 64) (he : e < 64) (hft : f ≠ t)
    (hPU : b.bb b.Colortomove Pawn < U64)
    (hAU : b.bb b.Colortomove AllPieces < U64)
    (hoPU : b.bb (oppColor b.Colortomove) Pawn < U64)
    (hoAU : b.bb (oppColor b.Colortomove) AllPieces < U64)
    (hPf : (b.bb b.Colortomove Pawn).testBit f = true)
    (hAf : (b.bb b.Colortomove AllPieces).testBit f = true)
    (hPt : (b.bb b.Colortomove Pawn).testBit t = false)
    (hAt : (b.bb b.Colortomove AllPieces).testBit t = false)
    (hoPe : (b.bb (oppColor b.Colortomove) Pawn).testBit e = true)
    (hoAe : (b.bb (oppColor b.Colortomove) AllPieces).testBit e = true) :
    epRevert (epEdit b f t e) f t e = b := by
  cases b with
  | mk ctm ep hm cw cb fn bw bb pieces hsh =>
    cases bw
    cases bb
    cases ctm
    · simp only [epEdit, epRevert, Board.setBb, Board.setBbs, Board.bbs, Board.bb,
        Bitboards.set, Bitboards.get, oppColor] at *
      simp only [Board.mk.injEq, Bitboards.mk.injEq, true_and, and_true]
      and_intros <;>
        first
          | exact bit_roundtrip_move hPU hf ht hft hPf hPt
          | exact bit_roundtrip_move hAU hf ht hft hAf hAt
          | exact bit_roundtrip_clear_set hoPU he hoPe
          | exact bit_roundtrip_clear_set hoAU he hoAe
    · simp only [epEdit, epRevert, Board.setBb, Board.setBbs, Board.bbs, Board.bb,
        Bitboards.set, Bitboards.get, oppColor] at *
      simp only [Board.mk.injEq, Bitboards.mk.injEq, true_and, and_true]
      and_intros <;>
        first
          | exact bit_roundtrip_move hPU hf ht hft hPf hPt
          | exact bit_roundtrip_move hAU hf ht hft hAf hAt
          | exact bit_roundtrip_clear_set hoPU he hoPe
          | exact bit_roundtrip_clear_set hoAU he hoAe

/-- `kingPushes` writes the king and the friendly occupancy back exactly. -/
theorem kingPushes_board {b : Board} {ad : Nat} (h : consistentB b = true) :
    (kingPushes b ad).2 = b := by
  have hok := okB_parts (consistent_bbs_ok h b.Colortomove)
  have hKU : (b.bbs b.Colortomove).Kings < U64 := hok.2.2.2.2.2.2.1
  have hAU : (b.bbs b.Colortomove).BAll < U64 := hok.2.2.2.2.2.2.2.1
  have hloc := kingLoc_facts h
  have hAloc : ((b.bbs b.Colortomove).BAll).testBit
      (lowestSetBit ((b.bbs b.Colortomove).Kings)) = true := by
    rw [hok.2.2.2.2.2.2.2.2.1]
    simp only [Nat.testBit_or, hloc.2, Bool.or_true]
  cases b with
  | mk ctm ep hm cw cb fn bw bb pieces hsh =>
    cases bw
    cases bb
    cases ctm
    · simp only [kingPushes, kingDangerBoard, Board.setBb, Board.setBbs, Board.bbs, Board.bb,
        Bitboards.set, Bitboards.get] at *
      simp only [Board.mk.injEq, Bitboards.mk.injEq, true_and, and_true]
      and_intros <;> first | rfl | exact bit_roundtrip_clear_set hAU hloc.1 hAloc
    · simp only [kingPushes, kingDangerBoard, Board.setBb, Board.setBbs, Board.bbs, Board.bb,
        Bitboards.set, Bitboards.get] at *
      simp only [Board.mk.injEq, Bitboards.mk.injEq, true_and, and_true]
      and_intros <;> first | rfl | exact bit_roundtrip_clear_set hAU hloc.1 hAloc


/-- The origin square of a pawn-capture candidate, as computed in
`pawnCaptures` (direction 0/1, two's-complement uint8 arithmetic). -/
def capFromSq (c : ColorT) (dir target : Nat) : Nat :=
  match c with
  | White => u8ofInt ((target : Int) - (9 - dir * 2))
  | Black => u8ofInt ((target : Int) + (9 - dir * 2))

/-- The captured-pawn square of an en-passant candidate. -/
def capEnemySq (c : ColorT) (target : Nat) : Nat :=
  u8ofInt ((target : Int) + oneRankBacks c)

theorem pawnCapStep_board {d : Nat} {b : Board} {ms : List Move} {t : Nat}
    (hrev : (t == b.enpassant && b.enpassant != 0) = true →
      epRevert (epEdit b (capFromSq b.Colortomove d t) t (capEnemySq b.Colortomove t))
        (capFromSq b.Colortomove d t) t (capEnemySq b.Colortomove t) = b) :
    (pawnCapStep d (ms, b) t).2 = b := by
  unfold pawnCapStep
  lift_lets
  extract_lets bb0 fromSq canPromote mv enemySq bEdited kingInCheck bReverted
  split_ifs with h1 h2 h3 h4
  · exact hrev h1
  · exact hrev h1
  · exact hrev h1
  · rfl
  · rfl

theorem pawnCapStep_foldl_board {d : Nat} {l : List Nat} {ms : List Move} {b : Board}
    (h : ∀ t ∈ l, ∀ ms' : List Move, (pawnCapStep d (ms', b) t).2 = b) :
    (l.foldl (pawnCapStep d) (ms, b)).2 = b := by
  induction l generalizing ms with
  | nil => rfl
  | cons t l ih =>
    simp only [List.foldl_cons]
    have hstep := h t (by simp) ms
    cases hp : pawnCapStep d (ms, b) t with
    | mk ms2 b2 =>
      rw [hp] at hstep
      dsimp only at hstep
      subst hstep
      exact ih (fun t' ht' ms' => h t' (by simp [ht']) ms')

theorem testBit_lt_64 {x i : Nat} (hx : x < U64) (h : x.testBit i = true) : i < 64 := by
  by_contra hc
  rw [testBit_of_lt_U64 hx (Nat.not_lt.mp hc)] at h
  exact absurd h (by simp)

theorem pawns_subset_all {bb : Bitboards} (hok : bb.okB = true) {i : Nat}
    (h : bb.Pawns.testBit i = true) : bb.BAll.testBit i = true := by
  rw [(okB_parts hok).2.2.2.2.2.2.2.2.1]
  simp [Nat.testBit_or, h]

theorem all_false_pawns {bb : Bitboards} (hok : bb.okB = true) {i : Nat}
    (h : bb.BAll.testBit i = false) : bb.Pawns.testBit i = false := by
  cases hP : bb.Pawns.testBit i
  · rfl
  · simp [pawns_subset_all hok hP] at h

theorem epOk_white {b : Board} (h : consistentB b = true) (hc : b.Colortomove = White)
    (hep : b.enpassant ≠ 0) :
    40 ≤ b.enpassant ∧ b.enpassant ≤ 47 ∧
    b.bbB.Pawns.testBit (b.enpassant - 8) = true ∧
    b.bbW.BAll.testBit b.enpassant = false ∧ b.bbB.BAll.testBit b.enpassant = false := by
  have he := (consistent_parts h).2.2.2.2.2.1
  unfold epOkB at he
  rw [hc] at he
  simp only [Bool.or_eq_true, beq_iff_eq, Bool.and_eq_true, decide_eq_true_eq,
    Bool.not_eq_true'] at he
  rcases he with he0 | ⟨⟨⟨h1, h2⟩, h3⟩, h4⟩
  · exact absurd he0 hep
  · rw [Nat.testBit_or] at h4
    refine ⟨h1, h2, h3, ?_, ?_⟩
    · cases hW : b.bbW.BAll.testBit b.enpassant
      · rfl
      · rw [hW] at h4
        simp at h4
    · cases hB : b.bbB.BAll.testBit b.enpassant
      · rfl
      · rw [hB] at h4
        simp at h4

theorem epOk_black {b : Board} (h : consistentB b = true) (hc : b.Colortomove = Black)
    (hep : b.enpassant ≠ 0) :
    16 ≤ b.enpassant ∧ b.enpassant ≤ 23 ∧
    b.bbW.Pawns.testBit (b.enpassant + 8) = true ∧
    b.bbW.BAll.testBit b.enpassant = false ∧ b.bbB.BAll.testBit b.enpassant = false := by
  have he := (consistent_parts h).2.2.2.2.2.1
  unfold epOkB at he
  rw [hc] at he
  simp only [Bool.or_eq_true, beq_iff_eq, Bool.and_eq_true, decide_eq_true_eq,
    Bool.not_eq_true'] at he
  rcases he with he0 | ⟨⟨⟨h1, h2⟩, h3⟩, h4⟩
  · exact absurd he0 hep
  · rw [Nat.testBit_or] at h4
    refine ⟨h1, h2, h3, ?_, ?_⟩
    · cases hW : b.bbW.BAll.testBit b.enpassant
      · rfl
      · rw [hW] at h4
        simp at h4
    · cases hB : b.bbB.BAll.testBit b.enpassant
      · rfl
      · rw [hB] at h4
        simp at h4

theorem shl_mod_testBit {x n t : Nat} (ht : t < 64) (h : ((x <<< n) % U64).testBit t = true) :
    n ≤ t ∧ x.testBit (t - n) = true := by
  rw [U64_eq, Nat.testBit_mod_two_pow, Nat.testBit_shiftLeft] at h
  simp only [Bool.and_eq_true, decide_eq_true_eq] at h
  exact ⟨h.2.1, h.2.2⟩

theorem shr_testBit {x n t : Nat} (h : (x >>> n).testBit t = true) :
    x.testBit (t + n) = true := by
  rw [Nat.testBit_shiftRight] at h
  rw [Nat.add_comm]
  exact h

theorem capFromSq_white0 {t : Nat} (h9 : 9 ≤ t) (ht : t < 256) :
    capFromSq White 0 t = t - 9 := by
  simp only [capFromSq]
  unfold u8ofInt
  omega

theorem capFromSq_white1 {t : Nat} (h7 : 7 ≤ t) (ht : t < 256) :
    capFromSq White 1 t = t - 7 := by
  simp only [capFromSq]
  unfold u8ofInt
  omega

theorem capFromSq_black0 {t : Nat} (ht : t + 9 < 256) :
    capFromSq Black 0 t = t + 9 := by
  simp only [capFromSq]
  unfold u8ofInt
  omega

theorem capFromSq_black1 {t : Nat} (ht : t + 7 < 256) :
    capFromSq Black 1 t = t + 7 := by
  simp only [capFromSq]
  unfold u8ofInt
  omega

theorem capEnemySq_white {t : Nat} (h8 : 8 ≤ t) (ht : t < 256) :
    capEnemySq White t = t - 8 := by
  simp only [capEnemySq, oneRankBacks]
  unfold u8ofInt
  omega

theorem capEnemySq_black {t : Nat} (ht : t + 8 < 256) :
    capEnemySq Black t = t + 8 := by
  simp only [capEnemySq, oneRankBacks]
  unfold u8ofInt
  omega

/-- The provisional en-passant test inside `pawnCapStep` restores the board,
provided the candidate square really carries a friendly pawn whenever the
en-passant branch fires; all the other preconditions follow from
consistency. -/
theorem pawnCapStep_board_of_pawn {d : Nat} {b : Board} {ms : List Move} {t : Nat}
    (h : consistentB b = true)
    (hpf : (t == b.enpassant && b.enpassant != 0) = true →
      (b.bbs b.Colortomove).Pawns.testBit (capFromSq b.Colortomove d t) = true ∧
      capFromSq b.Colortomove d t < 64) :
    (pawnCapStep d (ms, b) t).2 = b := by
  apply pawnCapStep_board
  intro hep
  obtain ⟨hpawn, hflt⟩ := hpf hep
  have hokW := okB_parts (consistent_bbs_ok h White)
  have hokB := okB_parts (consistent_bbs_ok h Black)
  simp only [Bool.and_eq_true, beq_iff_eq, bne_iff_ne, ne_eq] at hep
  obtain ⟨het, hne⟩ := hep
  subst het
  cases hc : b.Colortomove with
  | White =>
    obtain ⟨h40, h47, hoP, hWAll, hBAll⟩ := epOk_white h hc hne
    rw [hc] at hpawn hflt
    refine epRevert_epEdit ?_ ?_ ?_ ?_ ?_ ?_ ?_ ?_ ?_ ?_ ?_ ?_ ?_ ?_ <;> (try rw [hc])
    · exact hflt
    · omega
    · rw [capEnemySq_white (by omega) (by omega)]
      omega
    · simp only [capFromSq]
      unfold u8ofInt
      intro hq
      omega
    · exact hokW.2.1
    · exact hokW.2.2.2.2.2.2.2.1
    · exact hokB.2.1
    · exact hokB.2.2.2.2.2.2.2.1
    · exact hpawn
    · exact pawns_subset_all (consistent_bbs_ok h White) hpawn
    · exact all_false_pawns (consistent_bbs_ok h White) hWAll
    · exact hWAll
    · rw [capEnemySq_white (by omega) (by omega)]
      exact hoP
    · rw [capEnemySq_white (by omega) (by omega)]
      exact pawns_subset_all (consistent_bbs_ok h Black) hoP
  | Black =>
    obtain ⟨h16, h23, hoP, hWAll, hBAll⟩ := epOk_black h hc hne
    rw [hc] at hpawn hflt
    refine epRevert_epEdit ?_ ?_ ?_ ?_ ?_ ?_ ?_ ?_ ?_ ?_ ?_ ?_ ?_ ?_ <;> (try rw [hc])
    · exact hflt
    · omega
    · rw [capEnemySq_black (by omega)]
      omega
    · simp only [capFromSq]
      unfold u8ofInt
      intro hq
      omega
    · exact hokB.2.1
    · exact hokB.2.2.2.2.2.2.2.1
    · exact hokW.2.1
    · exact hokW.2.2.2.2.2.2.2.1
    · exact hpawn
    · exact pawns_subset_all (consistent_bbs_ok h Black) hpawn
    · exact all_false_pawns (consistent_bbs_ok h Black) hBAll
    · exact hBAll
    · rw [capEnemySq_black (by omega)]
      exact hoP
    · rw [capEnemySq_black (by omega)]
      exact pawns_subset_all (consistent_bbs_ok h White) hoP

theorem pawnCapStep_foldl_board' {d : Nat} {l : List Nat} {st : List Move × Board} {b : Board}
    (hst : st.2 = b)
    (h : ∀ t ∈ l, ∀ ms' : List Move, (pawnCapStep d (ms', b) t).2 = b) :
    (l.foldl (pawnCapStep d) st).2 = b := by
  obtain ⟨ms, b2⟩ := st
  dsimp only at hst
  subst hst
  exact pawnCapStep_foldl_board h

/-- `pawnCaptures` returns the input board: every provisional en-passant
edit is reverted exactly. -/
theorem pawnCaptures_board {b : Board} {np ad : Nat} (h : consistentB b = true) :
    (pawnCaptures b np ad).2 = b := by
  cases hc : b.Colortomove with
  | White =>
    simp only [pawnCaptures, pawnCaptureBitboards, Board.bbs, oppColor, hc]
    rw [List.foldl_cons, List.foldl_cons, List.foldl_nil]
    apply pawnCapStep_foldl_board'
    · apply pawnCapStep_foldl_board'
      · rfl
      · intro t ht ms'
        rw [mem_bitIndices] at ht
        obtain ⟨ht64, hbit⟩ := ht
        simp only [Nat.testBit_and, Bool.and_eq_true] at hbit
        obtain ⟨h9, hp⟩ := shl_mod_testBit ht64 hbit.1.1.1
        rw [Nat.testBit_and, Bool.and_eq_true] at hp
        apply pawnCapStep_board_of_pawn h
        intro _
        rw [hc, capFromSq_white0 h9 (by omega)]
        exact ⟨hp.1, by omega⟩
    · intro t ht ms'
      rw [mem_bitIndices] at ht
      obtain ⟨ht64, hbit⟩ := ht
      simp only [Nat.testBit_and, Bool.and_eq_true] at hbit
      obtain ⟨h7, hp⟩ := shl_mod_testBit ht64 hbit.1.1.1
      rw [Nat.testBit_and, Bool.and_eq_true] at hp
      apply pawnCapStep_board_of_pawn h
      intro _
      rw [hc, capFromSq_white1 h7 (by omega)]
      exact ⟨hp.1, by omega⟩
  | Black =>
    simp only [pawnCaptures, pawnCaptureBitboards, Board.bbs, oppColor, hc]
    rw [List.foldl_cons, List.foldl_cons, List.foldl_nil]
    apply pawnCapStep_foldl_board'
    · apply pawnCapStep_foldl_board'
      · rfl
      · intro t ht ms'
        rw [mem_bitIndices] at ht
        obtain ⟨ht64, hbit⟩ := ht
        simp only [Nat.testBit_and, Bool.and_eq_true] at hbit
        have hp := shr_testBit hbit.1.1.1
        rw [Nat.testBit_and, Bool.and_eq_true] at hp
        have hlt : t + 9 < 64 := testBit_lt_64 (okB_parts (consistent_bbs_ok h Black)).2.1 hp.1
        apply pawnCapStep_board_of_pawn h
        intro _
        rw [hc, capFromSq_black0 (by omega)]
        exact ⟨hp.1, hlt⟩
    · intro t ht ms'
      rw [mem_bitIndices] at ht
      obtain ⟨ht64, hbit⟩ := ht
      simp only [Nat.testBit_and, Bool.and_eq_true] at hbit
      have hp := shr_testBit hbit.1.1.1
      rw [Nat.testBit_and, Bool.and_eq_true] at hp
      have hlt : t + 7 < 64 := testBit_lt_64 (okB_parts (consistent_bbs_ok h Black)).2.1 hp.1
      apply pawnCapStep_board_of_pawn h
      intro _
      rw [hc, capFromSq_black1 (by omega)]
      exact ⟨hp.1, hlt⟩

/-- `kingMoves` threads the board of `kingPushes` through unchanged. -/
theorem kingMoves_board (b : Board) (ad : Nat) (inc : Bool) :
    (kingMoves b ad inc).2 = (kingPushes b ad).2 := rfl

/-- C10: `GenerateLegalMoves2` returns the board it was given — the
mutate-and-revert edits (king removal for danger squares, provisional
en-passant captures) restore every field — so a second call on the returned
board produces the same move list. -/
theorem claim_C10 (b : Board) (o : Bool) (h : consistentB b = true) :
    (GenerateLegalMoves2 b o).board = b ∧
    (GenerateLegalMoves2 (GenerateLegalMoves2 b o).board o).moves =
      (GenerateLegalMoves2 b o).moves := by
  have hboard : (GenerateLegalMoves2 b o).board = b := by
    unfold GenerateLegalMoves2
    lift_lets
    extract_lets c1 c2 c3 c4 c5 c6 c7 c8 c9 c10 c11 c12 c13 c14 c15 c16 c17 c18 c19 c20 c21 c22
      c23 c24 c25 biMoves qMoves km
    split_ifs with h1 h2
    · show c7.2 = b
      exact kingPushes_board h
    · show c16.2 = b
      have hc11 : c11.2 = b := pawnCaptures_board h
      show (kingPushes c11.2 everything).2 = b
      rw [hc11]
      exact kingPushes_board h
    · show km.2 = b
      have hc23 : c23.2 = b := pawnCaptures_board h
      show (kingMoves c23.2 c18 !o).2 = b
      rw [kingMoves_board, hc23]
      exact kingPushes_board h
  exact ⟨hboard, by rw [hboard]⟩

/-- Witness for C10 at the initial position. -/
theorem claim_C10_witness :
    consistentB startBoard = true ∧
    ((GenerateLegalMoves2 startBoard false).board = startBoard ∧
     (GenerateLegalMoves2 (GenerateLegalMoves2 startBoard false).board false).moves =
       (GenerateLegalMoves2 startBoard false).moves) :=
  ⟨by decide, claim_C10 startBoard false (by decide)⟩


/-! ## Piece identification from the bitboards -/

theorem bit_false_of_and_zero {x y : Nat} {i : Nat} (h : x &&& y = 0)
    (hx : x.testBit i = true) : y.testBit i = false := by
  cases hy : y.testBit i
  · rfl
  · have hb : (x &&& y).testBit i = true := by
      rw [Nat.testBit_and, hx, hy]
      rfl
    rw [h] at hb
    simpa using hb

theorem bit_false_of_and_zero' {x y : Nat} {i : Nat} (h : x &&& y = 0)
    (hy : y.testBit i = true) : x.testBit i = false :=
  bit_false_of_and_zero (by rw [Nat.and_comm]; exact h) hy

/-- A real piece kind: not `Nothing` and not the `All` slot. -/
def realKind (k : Piece) : Prop := k ≠ Nothing ∧ k ≠ AllPieces

theorem get_subset_all {bb : Bitboards} (hok : bb.okB = true) {k : Piece}
    (hk : realKind k) {i : Nat} (h : (bb.get k).testBit i = true) :
    bb.BAll.testBit i = true := by
  rw [(okB_parts hok).2.2.2.2.2.2.2.2.1]
  simp only [Nat.testBit_or, Bool.or_eq_true]
  cases k
  · exact absurd rfl hk.1
  · simp only [Bitboards.get] at h
    tauto
  · simp only [Bitboards.get] at h
    tauto
  · simp only [Bitboards.get] at h
    tauto
  · simp only [Bitboards.get] at h
    tauto
  · simp only [Bitboards.get] at h
    tauto
  · simp only [Bitboards.get] at h
    tauto
  · exact absurd rfl hk.2

theorem all_false_get {bb : Bitboards} (hok : bb.okB = true) {k : Piece}
    (hk : realKind k) {i : Nat} (h : bb.BAll.testBit i = false) :
    (bb.get k).testBit i = false := by
  cases hb : (bb.get k).testBit i
  · rfl
  · simp [get_subset_all hok hk hb] at h

theorem kinds_disjoint {bb : Bitboards} (hok : bb.okB = true) {k1 k2 : Piece}
    (h1 : realKind k1) (h2 : realKind k2) (hne : k1 ≠ k2) {i : Nat}
    (hb : (bb.get k1).testBit i = true) : (bb.get k2).testBit i = false := by
  have hd := (okB_parts hok).2.2.2.2.2.2.2.2.2.1
  simp only [Bitboards.disjointKinds, Bool.and_eq_true, beq_iff_eq] at hd
  obtain ⟨⟨⟨⟨⟨⟨⟨⟨⟨⟨⟨⟨⟨⟨d1, d2⟩, d3⟩, d4⟩, d5⟩, d6⟩, d7⟩, d8⟩, d9⟩, d10⟩, d11⟩, d12⟩, d13⟩, d14⟩, d15⟩ := hd
  cases k1 <;> first
    | exact absurd rfl h1.1
    | exact absurd rfl h1.2
    | (cases k2 <;> first
        | exact absurd rfl h2.1
        | exact absurd rfl h2.2
        | exact absurd rfl hne
        | exact bit_false_of_and_zero d1 hb
        | exact bit_false_of_and_zero d2 hb
        | exact bit_false_of_and_zero d3 hb
        | exact bit_false_of_and_zero d4 hb
        | exact bit_false_of_and_zero d5 hb
        | exact bit_false_of_and_zero d6 hb
        | exact bit_false_of_and_zero d7 hb
        | exact bit_false_of_and_zero d8 hb
        | exact bit_false_of_and_zero d9 hb
        | exact bit_false_of_and_zero d10 hb
        | exact bit_false_of_and_zero d11 hb
        | exact bit_false_of_and_zero d12 hb
        | exact bit_false_of_and_zero d13 hb
        | exact bit_false_of_and_zero d14 hb
        | exact bit_false_of_and_zero d15 hb
        | exact bit_false_of_and_zero' d1 hb
        | exact bit_false_of_and_zero' d2 hb
        | exact bit_false_of_and_zero' d3 hb
        | exact bit_false_of_and_zero' d4 hb
        | exact bit_false_of_and_zero' d5 hb
        | exact bit_false_of_and_zero' d6 hb
        | exact bit_false_of_and_zero' d7 hb
        | exact bit_false_of_and_zero' d8 hb
        | exact bit_false_of_and_zero' d9 hb
        | exact bit_false_of_and_zero' d10 hb
        | exact bit_false_of_and_zero' d11 hb
        | exact bit_false_of_and_zero' d12 hb
        | exact bit_false_of_and_zero' d13 hb
        | exact bit_false_of_and_zero' d14 hb
        | exact bit_false_of_and_zero' d15 hb)

theorem colors_disjoint {b : Board} (h : consistentB b = true) {i : Nat}
    (hW : b.bbW.BAll.testBit i = true) : b.bbB.BAll.testBit i = false :=
  bit_false_of_and_zero (consistent_parts h).2.2.1 hW

theorem pieceSquareOk_at {b : Board} (h : consistentB b = true) {i : Nat} (hi : i < 64) :
    pieceSquareOkB b i = true :=
  (consistent_parts h).2.2.2.2.1 i (List.mem_range.mpr hi)

/-- Each square's array entry is `Nothing`, or a real kind backed by a set
bit of that kind on one of the two colors. -/
theorem pieceAt_cases {b : Board} (h : consistentB b = true) {i : Nat} (hi : i < 64) :
    b.PieceAt i = Nothing ∨
    (realKind (b.PieceAt i) ∧
     ((b.bbW.get (b.PieceAt i)).testBit i = true ∨ (b.bbB.get (b.PieceAt i)).testBit i = true)) := by
  have hp := pieceSquareOk_at h hi
  unfold pieceSquareOkB at hp
  cases heq : b.PieceAt i <;> rw [heq] at hp
  case Nothing =>
    left
    rfl
  case AllPieces =>
    simp at hp
  all_goals
    right
    refine ⟨⟨by simp, by simp⟩, ?_⟩
    simpa [Nat.testBit_or, Bool.or_eq_true] using hp

theorem empty_of_pieceAt_nothing {b : Board} (h : consistentB b = true) {i : Nat} (hi : i < 64)
    (hN : b.PieceAt i = Nothing) :
    b.bbW.BAll.testBit i = false ∧ b.bbB.BAll.testBit i = false := by
  have hp := pieceSquareOk_at h hi
  unfold pieceSquareOkB at hp
  rw [hN] at hp
  simpa only [Bool.not_eq_true', Nat.testBit_or, Bool.or_eq_false_iff] using hp

theorem pieceAt_nothing_of_empty {b : Board} (h : consistentB b = true) {i : Nat} (hi : i < 64)
    (hW : b.bbW.BAll.testBit i = false) (hB : b.bbB.BAll.testBit i = false) :
    b.PieceAt i = Nothing := by
  rcases pieceAt_cases h hi with hN | ⟨hr, hor⟩
  · exact hN
  · exfalso
    rcases hor with hx | hx
    · have hT : (b.bbs White).BAll.testBit i = true :=
        get_subset_all (consistent_bbs_ok h White) hr hx
      simp only [Board.bbs] at hT
      simp [hT] at hW
    · have hT : (b.bbs Black).BAll.testBit i = true :=
        get_subset_all (consistent_bbs_ok h Black) hr hx
      simp only [Board.bbs] at hT
      simp [hT] at hB

theorem bit_of_pieceAt {b : Board} (h : consistentB b = true) {i : Nat} {k : Piece}
    (hi : i < 64) (hk : b.PieceAt i = k) (hr : realKind k) :
    (b.bbW.get k).testBit i = true ∨ (b.bbB.get k).testBit i = true := by
  rcases pieceAt_cases h hi with hN | ⟨_, hor⟩
  · rw [hN] at hk
    exact absurd hk.symm hr.1
  · rw [hk] at hor
    exact hor

/-- A set kind bit identifies the array entry (consistency invariants 1-4). -/
theorem pieceAt_of_bit {b : Board} (h : consistentB b = true) {c : ColorT} {k : Piece} {i : Nat}
    (hi : i < 64) (hr : realKind k) (hbit : ((b.bbs c).get k).testBit i = true) :
    b.PieceAt i = k := by
  have hCall : ((b.bbs c).BAll).testBit i = true :=
    get_subset_all (consistent_bbs_ok h c) hr hbit
  rcases pieceAt_cases h hi with hN | ⟨hr', hor⟩
  · obtain ⟨hW, hB⟩ := empty_of_pieceAt_nothing h hi hN
    cases c
    · simp only [Board.bbs] at hCall
      simp [hCall] at hW
    · simp only [Board.bbs] at hCall
      simp [hCall] at hB
  · by_cases hkk : b.PieceAt i = k
    · exact hkk
    · exfalso
      rcases hor with hx | hx
      · cases c
        · have hf := kinds_disjoint (consistent_bbs_ok h White) hr' hr hkk hx
          simp only [Board.bbs] at hbit hf
          simp [hbit] at hf
        · have hWA := get_subset_all (consistent_bbs_ok h White) hr' hx
          have hBA := colors_disjoint h hWA
          simp only [Board.bbs] at hCall
          simp [hCall] at hBA
      · cases c
        · have hBA := get_subset_all (consistent_bbs_ok h Black) hr' hx
          have hWA := bit_false_of_and_zero' (consistent_parts h).2.2.1 hBA
          simp only [Board.bbs] at hCall
          simp [hCall] at hWA
        · have hf := kinds_disjoint (consistent_bbs_ok h Black) hr' hr hkk hx
          simp only [Board.bbs] at hbit hf
          simp [hbit] at hf


/-! ## Emission lemmas for the sub-generators -/

theorem right_le_or (x y : Nat) : y ≤ x ||| y := by
  have h : (x ||| y) &&& y = y := by
    apply Nat.eq_of_testBit_eq
    intro i
    rw [Nat.testBit_and, Nat.testBit_or]
    cases y.testBit i <;> simp
  calc y = (x ||| y) &&& y := h.symm
    _ ≤ x ||| y := Nat.and_le_left

theorem Setpromote_ge {mv : Nat} {p : Piece} (hp : 1 ≤ pieceVal p) :
    4096 ≤ Move.Setpromote mv p := by
  unfold Move.Setpromote
  calc (4096 : Nat) ≤ pieceVal p <<< 12 := by
        rw [Nat.shiftLeft_eq]
        calc (4096 : Nat) = 1 * 2 ^ 12 := by norm_num
          _ ≤ pieceVal p * 2 ^ 12 := Nat.mul_le_mul_right _ hp
    _ ≤ (mv &&& 0x8FFF) ||| (pieceVal p <<< 12) := right_le_or _ _

theorem mem_genMovesFromTargets {origin targets : Nat} {m : Move} :
    m ∈ genMovesFromTargets origin targets ↔
      ∃ t, t < 64 ∧ targets.testBit t = true ∧ m = mkMoveFT origin t := by
  simp only [genMovesFromTargets, List.mem_map]
  constructor
  · rintro ⟨t, ht, hm⟩
    rw [mem_bitIndices] at ht
    exact ⟨t, ht.1, ht.2, hm.symm⟩
  · rintro ⟨t, h1, h2, h3⟩
    exact ⟨t, mem_bitIndices.mpr ⟨h1, h2⟩, h3.symm⟩

/-- Emission shape of `pawnPushes`: a promotion (value at least 4096), or a
single or double push whose origin sits one or two ranks behind an empty
target. -/
theorem mem_pawnPushes {b : Board} {np ad : Nat} {m : Move}
    (hm : m ∈ pawnPushes b np ad) :
    4096 ≤ m ∨
    ∃ t : Nat, t < 64 ∧
      (m = mkMoveFT (u8ofInt ((t : Int) + oneRankBacks b.Colortomove)) t ∨
       m = mkMoveFT (u8ofInt ((t : Int) + 2 * oneRankBacks b.Colortomove)) t) := by
  unfold pawnPushes at hm
  lift_lets at hm
  extract_lets td oneRankBack targets doubleTargets singles doubles at hm
  rw [List.mem_append] at hm
  rcases hm with hm | hm
  · have hs : m ∈ (bitIndices targets).flatMap (fun target =>
        let canPromote : Bool := match b.Colortomove with
          | White => decide (56 ≤ target)
          | Black => decide (target ≤ 7)
        let mv := mkMoveFT (u8ofInt ((target : Int) + oneRankBack)) target
        if canPromote then [Knight, Bishop, Rook, Queen].map (fun p => mv.Setpromote p)
        else [mv]) := hm
    rw [List.mem_flatMap] at hs
    obtain ⟨t, ht, hmem⟩ := hs
    rw [mem_bitIndices] at ht
    dsimp only at hmem
    split at hmem
    · left
      simp only [List.mem_map] at hmem
      obtain ⟨p, hp, hmp⟩ := hmem
      have hpv : 1 ≤ pieceVal p := by
        simp only [List.mem_cons, List.not_mem_nil, or_false] at hp
        rcases hp with h | h | h | h <;> subst h <;> decide
      rw [← hmp]
      exact Setpromote_ge hpv
    · right
      rw [List.mem_singleton] at hmem
      exact ⟨t, ht.1, Or.inl hmem⟩
  · have hs : m ∈ (bitIndices doubleTargets).map (fun t2 =>
        mkMoveFT (u8ofInt (Int.ofNat t2 + 2 * oneRankBack)) t2) := hm
    rw [List.mem_map] at hs
    obtain ⟨t, ht, hmp⟩ := hs
    rw [mem_bitIndices] at ht
    right
    exact ⟨t, ht.1, Or.inr hmp.symm⟩

/-- Emission shape of `knightMoves`: origin holds one of our knights. -/
theorem mem_knightMoves {b : Board} {np ad : Nat} {m : Move}
    (hm : m ∈ knightMoves b np ad) :
    ∃ s t, s < 64 ∧ t < 64 ∧ ((b.bbs b.Colortomove).Knights).testBit s = true ∧
      m = mkMoveFT s t := by
  unfold knightMoves at hm
  rw [List.mem_flatMap] at hm
  obtain ⟨s, hs, hmem⟩ := hm
  rw [mem_bitIndices] at hs
  obtain ⟨t, ht, _, hmt⟩ := mem_genMovesFromTargets.mp hmem
  rw [Nat.testBit_and, Bool.and_eq_true] at hs
  · exact ⟨s, t, hs.1, ht, hs.2.1, hmt⟩

/-- Emission shape of `rookMoves`. -/
theorem mem_rookMoves {b : Board} {np ad : Nat} {m : Move}
    (hm : m ∈ rookMoves b np ad) :
    ∃ s t, s < 64 ∧ t < 64 ∧ ((b.bbs b.Colortomove).Rooks).testBit s = true ∧
      m = mkMoveFT s t := by
  unfold rookMoves at hm
  rw [List.mem_flatMap] at hm
  obtain ⟨s, hs, hmem⟩ := hm
  rw [mem_bitIndices] at hs
  obtain ⟨t, ht, _, hmt⟩ := mem_genMovesFromTargets.mp hmem
  rw [Nat.testBit_and, Bool.and_eq_true] at hs
  exact ⟨s, t, hs.1, ht, hs.2.1, hmt⟩

/-- Emission shape of `bishopMoves`. -/
theorem mem_bishopMoves {b : Board} {np ad : Nat} {m : Move}
    (hm : m ∈ bishopMoves b np ad) :
    ∃ s t, s < 64 ∧ t < 64 ∧ ((b.bbs b.Colortomove).Bishops).testBit s = true ∧
      m = mkMoveFT s t := by
  unfold bishopMoves at hm
  rw [List.mem_flatMap] at hm
  obtain ⟨s, hs, hmem⟩ := hm
  rw [mem_bitIndices] at hs
  obtain ⟨t, ht, _, hmt⟩ := mem_genMovesFromTargets.mp hmem
  rw [Nat.testBit_and, Bool.and_eq_true] at hs
  exact ⟨s, t, hs.1, ht, hs.2.1, hmt⟩

/-- Emission shape of `queenMoves`. -/
theorem mem_queenMoves {b : Board} {np ad : Nat} {m : Move}
    (hm : m ∈ queenMoves b np ad) :
    ∃ s t, s < 64 ∧ t < 64 ∧ ((b.bbs b.Colortomove).Queens).testBit s = true ∧
      m = mkMoveFT s t := by
  unfold queenMoves at hm
  rw [List.mem_flatMap] at hm
  obtain ⟨s, hs, hmem⟩ := hm
  rw [mem_bitIndices] at hs
  rw [List.mem_append] at hmem
  rw [Nat.testBit_and, Bool.and_eq_true] at hs
  rcases hmem with hmem | hmem <;>
    obtain ⟨t, ht, _, hmt⟩ := mem_genMovesFromTargets.mp hmem <;>
    exact ⟨s, t, hs.1, ht, hs.2.1, hmt⟩

/-! ## Emission shape of the pinned-move generator -/

theorem foldl_mem_fact {step : (List Move × Nat) → Nat → List Move × Nat}
    {P : Nat → Move → Prop} :
    ∀ (l : List Nat), (∀ st c m, c ∈ l → m ∈ (step st c).1 → m ∈ st.1 ∨ P c m) →
    ∀ st m, m ∈ (l.foldl step st).1 → m ∈ st.1 ∨ ∃ c ∈ l, P c m := by
  intro l
  induction l with
  | nil =>
    intro _ st m hm
    exact Or.inl hm
  | cons c l ih =>
    intro hstep st m hm
    rw [List.foldl_cons] at hm
    rcases ih (fun st' c' m' hc' hm' => hstep st' c' m' (by simp [hc']) hm') (step st c) m hm with
      hin | ⟨c', hc', hP⟩
    · rcases hstep st c m (by simp) hin with hin' | hP
      · exact Or.inl hin'
      · exact Or.inr ⟨c, by simp, hP⟩
    · exact Or.inr ⟨c', by simp [hc'], hP⟩

theorem testBit_of_bitU_and {x y t : Nat} (h : ((bitU x &&& y).testBit t) = true) : x = t := by
  rw [Nat.testBit_and, Bool.and_eq_true, testBit_bitU, Bool.and_eq_true] at h
  exact of_decide_eq_true h.1.2

/-- One orthogonal pin step emits only pinned pawn pushes (one or two ranks
forward) or moves of a non-pawn. -/
theorem pinOrthoStep_shape {b : Board} {ad kidx kO ap : Nat} {st : List Move × Nat} {c : Nat}
    {m : Move} (h : consistentB b = true)
    (hm : m ∈ (pinOrthoStep b ad kidx kO ap st c).1) :
    m ∈ st.1 ∨
    ∃ s t : Nat, m = mkMoveFT s t ∧ s < 64 ∧ t < 64 ∧
      (t = u8ofInt ((s : Int) + 8 * pawnPushDirections b.Colortomove) ∨
       t = u8ofInt ((s : Int) + 16 * pawnPushDirections b.Colortomove) ∨
       ((b.bbs b.Colortomove).Pawns).testBit s = false) := by
  have hAllU : ((b.bbs b.Colortomove).BAll) < U64 :=
    (okB_parts (consistent_bbs_ok h b.Colortomove)).2.2.2.2.2.2.2.1
  unfold pinOrthoStep at hm
  lift_lets at hm
  extract_lets ourPieces oppPieces rookTargets pinnedPiece pinnedPieceIdx sameRank sameFile
    pinnedAcc dir t0 t1 pinnedPieceAllMoves pinnedTargets at hm
  have hPP : pinnedPiece < U64 := and_lt_U64 _ hAllU
  split_ifs at hm with c1 c2 c3 c4 c5
  · exact Or.inl hm
  · exact Or.inl hm
  · -- pinned pawn on the king's file: pushes
    rw [List.mem_append] at hm
    rcases hm with hm | hm
    · exact Or.inl hm
    · right
      obtain ⟨t, ht, htb, hmt⟩ := mem_genMovesFromTargets.mp hm
      have hne : pinnedPiece ≠ 0 := by simpa using c1
      have hidx := lowestSetBit_mem hne hPP
      refine ⟨pinnedPieceIdx, t, hmt, hidx.1, ht, ?_⟩
      rw [Nat.testBit_and, Bool.and_eq_true] at htb
      have ht1 : t1 = if t0 != 0 then
          t0 ||| (bitU (u8ofInt ((pinnedPieceIdx : Int) + 16 * dir)) &&&
            compl64 ap &&& doublePushRankBBs b.Colortomove)
        else t0 := rfl
      have ht0 : t0 = bitU (u8ofInt ((pinnedPieceIdx : Int) + 8 * dir)) &&& compl64 ap := rfl
      have hdir : dir = pawnPushDirections b.Colortomove := rfl
      rcases hq : (t0 != 0) with hv | hv
      · rw [hq] at ht1
        simp only [Bool.false_eq_true, if_false] at ht1
        rw [ht1, ht0] at htb
        rw [← hdir]
        exact Or.inl (testBit_of_bitU_and htb.1).symm
      · rw [hq] at ht1
        simp only [if_true] at ht1
        rw [ht1] at htb
        rw [Nat.testBit_or, Bool.or_eq_true] at htb
        rcases htb.1 with hx | hx
        · rw [ht0] at hx
          rw [← hdir]
          exact Or.inl (testBit_of_bitU_and hx).symm
        · rw [show bitU (u8ofInt ((pinnedPieceIdx : Int) + 16 * dir)) &&&
              compl64 ap &&& doublePushRankBBs b.Colortomove =
              bitU (u8ofInt ((pinnedPieceIdx : Int) + 16 * dir)) &&&
              (compl64 ap &&& doublePushRankBBs b.Colortomove) from Nat.and_assoc _ _ _] at hx
          rw [← hdir]
          exact Or.inr (Or.inl (testBit_of_bitU_and hx).symm)
  · exact Or.inl hm
  · exact Or.inl hm
  · -- pinned rook or queen: slider moves, no pawn on the origin
    rw [List.mem_append] at hm
    rcases hm with hm | hm
    · exact Or.inl hm
    · right
      obtain ⟨t, ht, htb, hmt⟩ := mem_genMovesFromTargets.mp hm
      have hne : pinnedPiece ≠ 0 := by simpa using c1
      have hidx := lowestSetBit_mem hne hPP
      refine ⟨pinnedPieceIdx, t, hmt, hidx.1, ht, Or.inr (Or.inr ?_)⟩
      have hc3' : (pinnedPiece &&& (b.bbs b.Colortomove).Pawns) = 0 := by
        simpa using c3
      exact bit_false_of_and_zero hc3' hidx.2

/-- One diagonal pin step emits only promotions, pinned pawn captures of the
slider on `c`, or moves of a non-pawn. -/
theorem pinDiagStep_shape {b : Board} {ad kidx kD ap : Nat} {st : List Move × Nat} {c : Nat}
    {m : Move} (h : consistentB b = true)
    (hm : m ∈ (pinDiagStep b ad kidx kD ap st c).1) :
    m ∈ st.1 ∨ 4096 ≤ m ∨
    (∃ s : Nat, s < 64 ∧ m = mkMoveFT s c) ∨
    (∃ s t : Nat, s < 64 ∧ t < 64 ∧ m = mkMoveFT s t ∧
      ((b.bbs b.Colortomove).Pawns).testBit s = false) := by
  have hAllU : ((b.bbs b.Colortomove).BAll) < U64 :=
    (okB_parts (consistent_bbs_ok h b.Colortomove)).2.2.2.2.2.2.2.1
  unfold pinDiagStep at hm
  lift_lets at hm
  extract_lets ourPieces oppPieces bishopTargets pinnedPiece pinnedPieceIdx pinnedAcc
    pinnedPieceAllMoves pinnedTargets at hm
  have hPP : pinnedPiece < U64 := and_lt_U64 _ hAllU
  split_ifs at hm with c1 c2 c3 c4 c5 c6 c7
  · exact Or.inl hm
  · exact Or.inl hm
  · -- promotion captures of the slider
    rw [List.mem_append] at hm
    rcases hm with hm | hm
    · exact Or.inl hm
    · right
      left
      rw [List.mem_map] at hm
      obtain ⟨p, hp, hmp⟩ := hm
      have hpv : 1 ≤ pieceVal p := by
        simp only [List.mem_cons, List.not_mem_nil, or_false] at hp
        rcases hp with hq | hq | hq | hq <;> subst hq <;> decide
      rw [← hmp]
      unfold mkMoveFTP
      exact Setpromote_ge hpv
  · -- plain capture of the slider
    rw [List.mem_append] at hm
    rcases hm with hm | hm
    · exact Or.inl hm
    · have hne : pinnedPiece ≠ 0 := by simpa using c1
      have hidx := lowestSetBit_mem hne hPP
      rw [List.mem_singleton] at hm
      exact Or.inr (Or.inr (Or.inl ⟨pinnedPieceIdx, hidx.1, hm⟩))
  · exact Or.inl hm
  · exact Or.inl hm
  · exact Or.inl hm
  · -- pinned bishop or queen: slider moves, no pawn on the origin
    rw [List.mem_append] at hm
    rcases hm with hm | hm
    · exact Or.inl hm
    · right
      right
      right
      obtain ⟨t, ht, htb, hmt⟩ := mem_genMovesFromTargets.mp hm
      have hne : pinnedPiece ≠ 0 := by simpa using c1
      have hidx := lowestSetBit_mem hne hPP
      have hc3' : (pinnedPiece &&& (b.bbs b.Colortomove).Pawns) = 0 := by
        simpa using c3
      exact ⟨pinnedPieceIdx, t, hidx.1, ht, hmt, bit_false_of_and_zero hc3' hidx.2⟩

/-- Emission shape of `generatePinnedMoves`: every emitted move is a
promotion, a pinned pawn push, a capture of a diagonal slider, or a move of
a piece that is not one of our pawns. -/
theorem mem_generatePinnedMoves {b : Board} {ad : Nat} {m : Move} (h : consistentB b = true)
    (hm : m ∈ (generatePinnedMoves b ad).1) :
    4096 ≤ m ∨
    ∃ s t : Nat, m = mkMoveFT s t ∧ s < 64 ∧ t < 64 ∧
      (t = u8ofInt ((s : Int) + 8 * pawnPushDirections b.Colortomove) ∨
       t = u8ofInt ((s : Int) + 16 * pawnPushDirections b.Colortomove) ∨
       ((b.bbs (oppColor b.Colortomove)).Bishops |||
         (b.bbs (oppColor b.Colortomove)).Queens).testBit t = true ∨
       ((b.bbs b.Colortomove).Pawns).testBit s = false) := by
  unfold generatePinnedMoves at hm
  lift_lets at hm
  extract_lets ourPieces oppPieces ourKingIdx allPieces kingOrthoTargets stO kingDiagTargets
    at hm
  have hD := @foldl_mem_fact _ (fun c m' => 4096 ≤ m' ∨
      (∃ s : Nat, s < 64 ∧ m' = mkMoveFT s c) ∨
      (∃ s t : Nat, s < 64 ∧ t < 64 ∧ m' = mkMoveFT s t ∧
        ((b.bbs b.Colortomove).Pawns).testBit s = false))
    (bitIndices (oppPieces.Bishops ||| oppPieces.Queens))
    (fun st c m' _ hm' => by
      rcases pinDiagStep_shape h hm' with h1 | h1 | h1 | h1
      · exact Or.inl h1
      · exact Or.inr (Or.inl h1)
      · exact Or.inr (Or.inr (Or.inl h1))
      · exact Or.inr (Or.inr (Or.inr h1)))
    stO m hm
  rcases hD with hD | ⟨c, hc, hP⟩
  · have hO := @foldl_mem_fact _ (fun _ m' =>
        ∃ s t : Nat, m' = mkMoveFT s t ∧ s < 64 ∧ t < 64 ∧
          (t = u8ofInt ((s : Int) + 8 * pawnPushDirections b.Colortomove) ∨
           t = u8ofInt ((s : Int) + 16 * pawnPushDirections b.Colortomove) ∨
           ((b.bbs b.Colortomove).Pawns).testBit s = false))
      (bitIndices (oppPieces.Rooks ||| oppPieces.Queens))
      (fun st c m' _ hm' => pinOrthoStep_shape h hm')
      ([], 0) m hD
    rcases hO with hO | ⟨_, _, s, t, hmt, hs, ht, hd⟩
    · simp at hO
    · right
      refine ⟨s, t, hmt, hs, ht, ?_⟩
      rcases hd with hd | hd | hd
      · exact Or.inl hd
      · exact Or.inr (Or.inl hd)
      · exact Or.inr (Or.inr (Or.inr hd))
  · rcases hP with hP | ⟨s, hs, hmc⟩ | ⟨s, t, hs, ht, hmt, hps⟩
    · exact Or.inl hP
    · right
      rw [mem_bitIndices] at hc
      exact ⟨s, c, hmc, hs, hc.1, Or.inr (Or.inr (Or.inl hc.2))⟩
    · exact Or.inr ⟨s, t, hmt, hs, ht, Or.inr (Or.inr (Or.inr hps))⟩

/-! ## King-move emission (castles and pushes) -/

/-- The squares that must be empty for a kingside castle. -/
def kingsideClearMask : ColorT → Nat
  | White => bitU 5 ||| bitU 6
  | Black => bitU 61 ||| bitU 62

/-- The squares that must be empty for a queenside castle. -/
def queensideClearMask : ColorT → Nat
  | White => bitU 3 ||| bitU 2 ||| bitU 1
  | Black => bitU 57 ||| bitU 58 ||| bitU 59

/-- Emission shape of `kingMoves`: a king push, or a castle move two files
sideways with the corresponding right held and path squares empty. -/
theorem mem_kingMoves {b : Board} {ad : Nat} {inc : Bool} {m : Move}
    (hm : m ∈ (kingMoves b ad inc).1) :
    m ∈ (kingPushes b ad).1 ∨
    (inc = true ∧
      ((m = mkMoveFT (lowestSetBit ((b.bbs b.Colortomove).Kings))
          ((lowestSetBit ((b.bbs b.Colortomove).Kings) + 2) % 256) ∧
        b.canCastle b.Colortomove Kingside = true ∧
        (b.bbW.BAll ||| b.bbB.BAll) &&& kingsideClearMask b.Colortomove = 0) ∨
       (m = mkMoveFT (lowestSetBit ((b.bbs b.Colortomove).Kings))
          ((lowestSetBit ((b.bbs b.Colortomove).Kings) + 254) % 256) ∧
        b.canCastle b.Colortomove Queenside = true ∧
        (b.bbW.BAll ||| b.bbB.BAll) &&& queensideClearMask b.Colortomove = 0))) := by
  unfold kingMoves at hm
  lift_lets at hm
  extract_lets ourBbs kl ap ksW qsW ksB qsB canQK castleMoves pk at hm
  have hmm : m ∈ castleMoves ++ pk.1 := hm
  rw [List.mem_append] at hmm
  rcases hmm with hcastle | hpush
  swap
  · exact Or.inl hpush
  · right
    have hcm : castleMoves = if inc = true then
        ((if canQK.2 = true then [mkMoveFT kl ((kl + 2) % 256)] else []) ++
         (if canQK.1 = true then [mkMoveFT kl ((kl + 254) % 256)] else []))
      else [] := rfl
    rw [hcm] at hcastle
    by_cases h1 : inc = true
    swap
    · rw [if_neg h1] at hcastle
      exact absurd hcastle (by simp)
    rw [if_pos h1] at hcastle
    refine ⟨h1, ?_⟩
    have hqkW : b.Colortomove = White → canQK =
        (b.canCastle White Queenside && qsW && !(b.anyUnderDirectAttack true [2, 3]),
         b.canCastle White Kingside && ksW && !(b.anyUnderDirectAttack true [5, 6])) := by
      intro hc
      show (match b.Colortomove with
        | White =>
          (b.canCastle White Queenside && qsW && !(b.anyUnderDirectAttack true [2, 3]),
           b.canCastle White Kingside && ksW && !(b.anyUnderDirectAttack true [5, 6]))
        | Black =>
          (b.canCastle Black Queenside && qsB && !(b.anyUnderDirectAttack false [58, 59]),
           b.canCastle Black Kingside && ksB && !(b.anyUnderDirectAttack false [61, 62]))) = _
      rw [hc]
    have hqkB : b.Colortomove = Black → canQK =
        (b.canCastle Black Queenside && qsB && !(b.anyUnderDirectAttack false [58, 59]),
         b.canCastle Black Kingside && ksB && !(b.anyUnderDirectAttack false [61, 62])) := by
      intro hc
      show (match b.Colortomove with
        | White =>
          (b.canCastle White Queenside && qsW && !(b.anyUnderDirectAttack true [2, 3]),
           b.canCastle White Kingside && ksW && !(b.anyUnderDirectAttack true [5, 6]))
        | Black =>
          (b.canCastle Black Queenside && qsB && !(b.anyUnderDirectAttack false [58, 59]),
           b.canCastle Black Kingside && ksB && !(b.anyUnderDirectAttack false [61, 62]))) = _
      rw [hc]
    rw [List.mem_append] at hcastle
    rcases hcastle with hside | hside
    · by_cases h2 : canQK.2 = true
      swap
      · rw [if_neg h2] at hside
        exact absurd hside (by simp)
      rw [if_pos h2, List.mem_singleton] at hside
      left
      refine ⟨hside, ?_⟩
      cases hc : b.Colortomove
      · rw [hqkW hc] at h2
        dsimp only at h2
        simp only [Bool.and_eq_true, beq_iff_eq] at h2
        refine ⟨h2.1.1, ?_⟩
        have h3 : (ap &&& (bitU 5 ||| bitU 6) == 0) = true := h2.1.2
        simpa [kingsideClearMask] using h3
      · rw [hqkB hc] at h2
        dsimp only at h2
        simp only [Bool.and_eq_true, beq_iff_eq] at h2
        refine ⟨h2.1.1, ?_⟩
        have h3 : (ap &&& (bitU 61 ||| bitU 62) == 0) = true := h2.1.2
        simpa [kingsideClearMask] using h3
    · by_cases h2 : canQK.1 = true
      swap
      · rw [if_neg h2] at hside
        exact absurd hside (by simp)
      rw [if_pos h2, List.mem_singleton] at hside
      right
      refine ⟨hside, ?_⟩
      cases hc : b.Colortomove
      · rw [hqkW hc] at h2
        dsimp only at h2
        simp only [Bool.and_eq_true, beq_iff_eq] at h2
        refine ⟨h2.1.1, ?_⟩
        have h3 : (ap &&& (bitU 3 ||| bitU 2 ||| bitU 1) == 0) = true := h2.1.2
        simpa [queensideClearMask] using h3
      · rw [hqkB hc] at h2
        dsimp only at h2
        simp only [Bool.and_eq_true, beq_iff_eq] at h2
        refine ⟨h2.1.1, ?_⟩
        have h3 : (ap &&& (bitU 57 ||| bitU 58 ||| bitU 59) == 0) = true := h2.1.2
        simpa [queensideClearMask] using h3

/-! ## Generic accessor values of constructed moves -/

theorem shiftLeft_and_distrib (a b n : Nat) : (a &&& b) <<< n = (a <<< n) &&& (b <<< n) := by
  apply Nat.eq_of_testBit_eq
  intro i
  simp only [Nat.testBit_shiftLeft, Nat.testBit_and]
  rcases le_or_lt n i with h | h
  · simp [h]
  · simp [Nat.not_le.mpr h]

theorem and_or_distrib_right (a b c : Nat) : (a ||| b) &&& c = (a &&& c) ||| (b &&& c) := by
  rw [Nat.and_comm, Nat.and_or_distrib_left, Nat.and_comm c a, Nat.and_comm c b]

theorem mkMoveFT_To_any {s : Nat} {t : Nat} (ht : t < 64) : (mkMoveFT s t).To = t := by
  unfold mkMoveFT Move.Setfrom Move.Setto Move.To
  rw [Nat.zero_and, Nat.zero_or, and_or_distrib_right, Nat.and_assoc]
  have h1 : (0xFFC0 : Nat) &&& 0x3F = 0 := by decide
  rw [h1, Nat.and_zero]
  have h2 : (0x3F : Nat) = 2 ^ 6 - 1 := by decide
  rw [h2, Nat.zero_or, and_mask_of_lt ht (le_refl 6)]

theorem mkMoveFT_Src_small {s t : Nat} (hs : s < 256) (ht : t < 64) :
    (mkMoveFT s t).Src = s % 64 := by
  unfold mkMoveFT Move.Setfrom Move.Setto Move.Src
  rw [Nat.zero_and, Nat.zero_or, and_or_distrib_right]
  have ht0 : t &&& 0xFC0 = 0 := by
    have e : (0xFC0 : Nat) = (2 ^ 6 - 1) <<< 6 := by decide
    rw [e]
    exact and_shiftLeft_of_lt ht
  rw [ht0, Nat.or_zero, Nat.and_assoc]
  have e2 : (0xFFC0 : Nat) &&& 0xFC0 = 0x3F <<< 6 := by decide
  rw [e2]
  have e3 : (0x3F : Nat) <<< 6 = (0x3F <<< 6) := rfl
  rw [show s <<< 6 &&& 0x3F <<< 6 = (s &&& 0x3F) <<< 6 from (shiftLeft_and_distrib s 0x3F 6).symm]
  rw [Nat.shiftLeft_shiftRight]
  have e4 : (0x3F : Nat) = 2 ^ 6 - 1 := by decide
  rw [e4, Nat.and_pow_two_sub_one_eq_mod]

/-! ## Full characterization of `pawnCaptures` -/

/-- The candidate bitboard scanned for direction `d` (0 or 1), as computed
inside `pawnCaptures`. -/
def pawnCapTargets (b : Board) (np ad0 : Nat) (d : Nat) : Nat :=
  let ew := pawnCaptureBitboards b np
  let allowDest := if 0 < b.enpassant then ad0 ||| bitU b.enpassant else ad0
  match b.Colortomove, d with
  | White, 0 => ew.1 &&& allowDest
  | White, _ => ew.2 &&& allowDest
  | Black, 0 => ew.2 &&& allowDest
  | Black, _ => ew.1 &&& allowDest

/-- The moves emitted for one candidate target square of one direction. -/
def capEmitted (d : Nat) (b : Board) (target : Nat) : List Move :=
  let fromSq := capFromSq b.Colortomove d target
  let canPromote : Bool := match b.Colortomove with
    | White => decide (56 ≤ target)
    | Black => decide (target ≤ 7)
  let mv := mkMoveFT fromSq target
  if target == b.enpassant && b.enpassant != 0 then
    if (epEdit b fromSq target (capEnemySq b.Colortomove target)).OurKingInCheck then []
    else if canPromote then [Knight, Bishop, Rook, Queen].map (fun p => mv.Setpromote p)
    else [mv]
  else
    if canPromote then [Knight, Bishop, Rook, Queen].map (fun p => mv.Setpromote p)
    else [mv]

theorem pawnCapStep_full {d : Nat} {b : Board} {ms : List Move} {t : Nat}
    (hrev : (t == b.enpassant && b.enpassant != 0) = true →
      epRevert (epEdit b (capFromSq b.Colortomove d t) t (capEnemySq b.Colortomove t))
        (capFromSq b.Colortomove d t) t (capEnemySq b.Colortomove t) = b) :
    pawnCapStep d (ms, b) t = (ms ++ capEmitted d b t, b) := by
  simp only [pawnCapStep, capEmitted, capFromSq, capEnemySq]
  split_ifs with h1 h2 h3
  · rw [Prod.mk.injEq]
    exact ⟨by simp, hrev h1⟩
  · rw [Prod.mk.injEq]
    exact ⟨rfl, hrev h1⟩
  · rw [Prod.mk.injEq]
    exact ⟨rfl, hrev h1⟩
  · rfl
  · rfl

theorem pawnCapStep_foldl_full {d : Nat} {l : List Nat} {ms : List Move} {b : Board}
    (h : ∀ t ∈ l, (t == b.enpassant && b.enpassant != 0) = true →
      epRevert (epEdit b (capFromSq b.Colortomove d t) t (capEnemySq b.Colortomove t))
        (capFromSq b.Colortomove d t) t (capEnemySq b.Colortomove t) = b) :
    l.foldl (pawnCapStep d) (ms, b) = (ms ++ l.flatMap (capEmitted d b), b) := by
  induction l generalizing ms with
  | nil => simp
  | cons t l ih =>
    rw [List.foldl_cons, pawnCapStep_full (h t (by simp))]
    rw [ih (fun t' ht' => h t' (by simp [ht']))]
    simp

theorem epRevert_of_pawnAt {d : Nat} {b : Board} {t : Nat} (h : consistentB b = true)
    (hpf : (b.bbs b.Colortomove).Pawns.testBit (capFromSq b.Colortomove d t) = true)
    (hflt : capFromSq b.Colortomove d t < 64)
    (hep : (t == b.enpassant && b.enpassant != 0) = true) :
    epRevert (epEdit b (capFromSq b.Colortomove d t) t (capEnemySq b.Colortomove t))
      (capFromSq b.Colortomove d t) t (capEnemySq b.Colortomove t) = b := by
  have hokW := okB_parts (consistent_bbs_ok h White)
  have hokB := okB_parts (consistent_bbs_ok h Black)
  simp only [Bool.and_eq_true, beq_iff_eq, bne_iff_ne, ne_eq] at hep
  obtain ⟨het, hne⟩ := hep
  subst het
  cases hc : b.Colortomove with
  | White =>
    obtain ⟨h40, h47, hoP, hWAll, hBAll⟩ := epOk_white h hc hne
    rw [hc] at hpf hflt
    refine epRevert_epEdit ?_ ?_ ?_ ?_ ?_ ?_ ?_ ?_ ?_ ?_ ?_ ?_ ?_ ?_ <;> (try rw [hc])
    · exact hflt
    · omega
    · rw [capEnemySq_white (by omega) (by omega)]
      omega
    · simp only [capFromSq]
      unfold u8ofInt
      intro hq
      omega
    · exact hokW.2.1
    · exact hokW.2.2.2.2.2.2.2.1
    · exact hokB.2.1
    · exact hokB.2.2.2.2.2.2.2.1
    · exact hpf
    · exact pawns_subset_all (consistent_bbs_ok h White) hpf
    · exact all_false_pawns (consistent_bbs_ok h White) hWAll
    · exact hWAll
    · rw [capEnemySq_white (by omega) (by omega)]
      exact hoP
    · rw [capEnemySq_white (by omega) (by omega)]
      exact pawns_subset_all (consistent_bbs_ok h Black) hoP
  | Black =>
    obtain ⟨h16, h23, hoP, hWAll, hBAll⟩ := epOk_black h hc hne
    rw [hc] at hpf hflt
    refine epRevert_epEdit ?_ ?_ ?_ ?_ ?_ ?_ ?_ ?_ ?_ ?_ ?_ ?_ ?_ ?_ <;> (try rw [hc])
    · exact hflt
    · omega
    · rw [capEnemySq_black (by omega)]
      omega
    · simp only [capFromSq]
      unfold u8ofInt
      intro hq
      omega
    · exact hokB.2.1
    · exact hokB.2.2.2.2.2.2.2.1
    · exact hokW.2.1
    · exact hokW.2.2.2.2.2.2.2.1
    · exact hpf
    · exact pawns_subset_all (consistent_bbs_ok h Black) hpf
    · exact all_false_pawns (consistent_bbs_ok h Black) hBAll
    · exact hBAll
    · rw [capEnemySq_black (by omega)]
      exact hoP
    · rw [capEnemySq_black (by omega)]
      exact pawns_subset_all (consistent_bbs_ok h White) hoP

/-- `pawnCaptures` in closed form: the per-direction candidate scans
concatenated, with the board returned unchanged. -/
theorem pawnCaptures_eq {b : Board} {np ad0 : Nat} (h : consistentB b = true) :
    pawnCaptures b np ad0 =
      ((bitIndices (pawnCapTargets b np ad0 0)).flatMap (capEmitted 0 b) ++
       (bitIndices (pawnCapTargets b np ad0 1)).flatMap (capEmitted 1 b), b) := by
  cases hc : b.Colortomove with
  | White =>
    have hob0 : ∀ t ∈ bitIndices ((((b.bbW.Pawns &&& np) <<< 9) % U64 &&& 0xFEFEFEFEFEFEFEFE &&&
          (if 0 < b.enpassant then b.bbB.BAll ||| bitU b.enpassant else b.bbB.BAll)) &&&
          (if 0 < b.enpassant then ad0 ||| bitU b.enpassant else ad0)),
        (t == b.enpassant && b.enpassant != 0) = true →
        epRevert (epEdit b (capFromSq b.Colortomove 0 t) t (capEnemySq b.Colortomove t))
          (capFromSq b.Colortomove 0 t) t (capEnemySq b.Colortomove t) = b := by
      intro t ht hept
      rw [mem_bitIndices] at ht
      obtain ⟨ht64, hbit⟩ := ht
      simp only [Nat.testBit_and, Bool.and_eq_true] at hbit
      obtain ⟨h9, hp⟩ := shl_mod_testBit ht64 hbit.1.1.1
      rw [Nat.testBit_and, Bool.and_eq_true] at hp
      have hpf : (b.bbs b.Colortomove).Pawns.testBit (capFromSq b.Colortomove 0 t) = true := by
        rw [hc, capFromSq_white0 h9 (by omega)]
        exact hp.1
      refine epRevert_of_pawnAt h hpf ?_ hept
      rw [hc, capFromSq_white0 h9 (by omega)]
      omega
    have hob1 : ∀ t ∈ bitIndices ((((b.bbW.Pawns &&& np) <<< 7) % U64 &&& 0x7F7F7F7F7F7F7F7F &&&
          (if 0 < b.enpassant then b.bbB.BAll ||| bitU b.enpassant else b.bbB.BAll)) &&&
          (if 0 < b.enpassant then ad0 ||| bitU b.enpassant else ad0)),
        (t == b.enpassant && b.enpassant != 0) = true →
        epRevert (epEdit b (capFromSq b.Colortomove 1 t) t (capEnemySq b.Colortomove t))
          (capFromSq b.Colortomove 1 t) t (capEnemySq b.Colortomove t) = b := by
      intro t ht hept
      rw [mem_bitIndices] at ht
      obtain ⟨ht64, hbit⟩ := ht
      simp only [Nat.testBit_and, Bool.and_eq_true] at hbit
      obtain ⟨h7, hp⟩ := shl_mod_testBit ht64 hbit.1.1.1
      rw [Nat.testBit_and, Bool.and_eq_true] at hp
      have hpf : (b.bbs b.Colortomove).Pawns.testBit (capFromSq b.Colortomove 1 t) = true := by
        rw [hc, capFromSq_white1 h7 (by omega)]
        exact hp.1
      refine epRevert_of_pawnAt h hpf ?_ hept
      rw [hc, capFromSq_white1 h7 (by omega)]
      omega
    simp only [pawnCaptures, pawnCaptureBitboards, Board.bbs, oppColor, hc]
    rw [List.foldl_cons, List.foldl_cons, List.foldl_nil]
    dsimp only
    rw [pawnCapStep_foldl_full hob0, pawnCapStep_foldl_full hob1]
    simp only [pawnCapTargets, pawnCaptureBitboards, Board.bbs, oppColor, hc]
    simp
  | Black =>
    have hob0 : ∀ t ∈ bitIndices ((((b.bbB.Pawns &&& np) >>> 9) &&& 0x7F7F7F7F7F7F7F7F &&&
          (if 0 < b.enpassant then b.bbW.BAll ||| bitU b.enpassant else b.bbW.BAll)) &&&
          (if 0 < b.enpassant then ad0 ||| bitU b.enpassant else ad0)),
        (t == b.enpassant && b.enpassant != 0) = true →
        epRevert (epEdit b (capFromSq b.Colortomove 0 t) t (capEnemySq b.Colortomove t))
          (capFromSq b.Colortomove 0 t) t (capEnemySq b.Colortomove t) = b := by
      intro t ht hept
      rw [mem_bitIndices] at ht
      obtain ⟨ht64, hbit⟩ := ht
      simp only [Nat.testBit_and, Bool.and_eq_true] at hbit
      have hp := shr_testBit hbit.1.1.1
      rw [Nat.testBit_and, Bool.and_eq_true] at hp
      have hlt : t + 9 < 64 := testBit_lt_64 (okB_parts (consistent_bbs_ok h Black)).2.1 hp.1
      have hpf : (b.bbs b.Colortomove).Pawns.testBit (capFromSq b.Colortomove 0 t) = true := by
        rw [hc, capFromSq_black0 (by omega)]
        exact hp.1
      refine epRevert_of_pawnAt h hpf ?_ hept
      rw [hc, capFromSq_black0 (by omega)]
      omega
    have hob1 : ∀ t ∈ bitIndices ((((b.bbB.Pawns &&& np) >>> 7) &&& 0xFEFEFEFEFEFEFEFE &&&
          (if 0 < b.enpassant then b.bbW.BAll ||| bitU b.enpassant else b.bbW.BAll)) &&&
          (if 0 < b.enpassant then ad0 ||| bitU b.enpassant else ad0)),
        (t == b.enpassant && b.enpassant != 0) = true →
        epRevert (epEdit b (capFromSq b.Colortomove 1 t) t (capEnemySq b.Colortomove t))
          (capFromSq b.Colortomove 1 t) t (capEnemySq b.Colortomove t) = b := by
      intro t ht hept
      rw [mem_bitIndices] at ht
      obtain ⟨ht64, hbit⟩ := ht
      simp only [Nat.testBit_and, Bool.and_eq_true] at hbit
      have hp := shr_testBit hbit.1.1.1
      rw [Nat.testBit_and, Bool.and_eq_true] at hp
      have hlt : t + 7 < 64 := testBit_lt_64 (okB_parts (consistent_bbs_ok h Black)).2.1 hp.1
      have hpf : (b.bbs b.Colortomove).Pawns.testBit (capFromSq b.Colortomove 1 t) = true := by
        rw [hc, capFromSq_black1 (by omega)]
        exact hp.1
      refine epRevert_of_pawnAt h hpf ?_ hept
      rw [hc, capFromSq_black1 (by omega)]
      omega
    simp only [pawnCaptures, pawnCaptureBitboards, Board.bbs, oppColor, hc]
    rw [List.foldl_cons, List.foldl_cons, List.foldl_nil]
    dsimp only
    rw [pawnCapStep_foldl_full hob0, pawnCapStep_foldl_full hob1]
    simp only [pawnCapTargets, pawnCaptureBitboards, Board.bbs, oppColor, hc]
    simp

/-- The destination mask of the not-in-check branch of
`GenerateLegalMoves2`. -/
def nocheckAllowDest (b : Board) (o : Bool) : Nat :=
  if o then (b.bbs (oppColor b.Colortomove)).BAll else everything

/-- The non-pinned mask of the not-in-check branch. -/
def nocheckNonpinned (b : Board) (o : Bool) : Nat :=
  compl64 (generatePinnedMoves b (nocheckAllowDest b o)).2

/-- `GenerateLegalMoves2` in the branch without check: all sub-generators
run on the unchanged input board, in-check is false, and the board is
returned unchanged. -/
theorem GenerateLegalMoves2_nocheck {b : Board} {o : Bool} (h : consistentB b = true)
    (h0 : (countAttacks b (b.Colortomove == White)
        (lowestSetBit ((b.bbs b.Colortomove).Kings)) 2).1 = 0) :
    GenerateLegalMoves2 b o =
      ⟨(generatePinnedMoves b (nocheckAllowDest b o)).1 ++
        pawnPushes b (nocheckNonpinned b o)
          (nocheckAllowDest b o ||| promoRankBbs b.Colortomove) ++
        (pawnCaptures b (nocheckNonpinned b o) (nocheckAllowDest b o)).1 ++
        knightMoves b (nocheckNonpinned b o) (nocheckAllowDest b o) ++
        rookMoves b (nocheckNonpinned b o) (nocheckAllowDest b o) ++
        bishopMoves b (nocheckNonpinned b o) (nocheckAllowDest b o) ++
        queenMoves b (nocheckNonpinned b o) (nocheckAllowDest b o) ++
        (kingMoves b (nocheckAllowDest b o) (!o)).1,
       false, b⟩ := by
  unfold GenerateLegalMoves2
  lift_lets
  extract_lets c1 c2 c3 c4 c5 c6 c7 c8 c9 c10 c11 c12 c13 c14 c15 c16 c17 c18 c19 c20 c21 c22 c23
  dsimp only
  have hc5 : c5 = 0 := h0
  rw [if_neg (by omega : ¬ 2 ≤ c5)]
  rw [if_neg (by simp [hc5] : ¬ (c5 == 1) = true)]
  have hpc : (pawnCaptures b c20 c18).2 = b := pawnCaptures_board h
  rw [hpc, kingMoves_board, kingPushes_board h]
  rfl

/-! ## Helpers for the en-passant capture claim -/

theorem notAFile_bit {t : Nat} (ht : t < 64) :
    (0xFEFEFEFEFEFEFEFE : Nat).testBit t = !(t % 8 == 0) := by
  have h : ∀ u ∈ List.range 64, (0xFEFEFEFEFEFEFEFE : Nat).testBit u = !(u % 8 == 0) := by decide
  exact h t (List.mem_range.mpr ht)

theorem notHFile_bit {t : Nat} (ht : t < 64) :
    (0x7F7F7F7F7F7F7F7F : Nat).testBit t = !(t % 8 == 7) := by
  have h : ∀ u ∈ List.range 64, (0x7F7F7F7F7F7F7F7F : Nat).testBit u = !(u % 8 == 7) := by decide
  exact h t (List.mem_range.mpr ht)

theorem everything_bit {t : Nat} (ht : t < 64) : everything.testBit t = true := by
  have h : everything = 2 ^ 64 - 1 := by
    unfold everything
    rw [U64_eq]
  rw [h, Nat.testBit_two_pow_sub_one]
  simpa using ht

theorem u8ofInt_lt (i : Int) : u8ofInt i < 256 := by
  unfold u8ofInt
  omega

theorem mkMoveFT_inj {s t f e : Nat} (hs : s < 64) (ht : t < 64) (hf : f < 64) (he : e < 64)
    (h : mkMoveFT s t = mkMoveFT f e) : s = f ∧ t = e := by
  constructor
  · have h2 := congrArg Move.Src h
    rwa [mkMoveFT_Src hs ht, mkMoveFT_Src hf he] at h2
  · have h2 := congrArg Move.To h
    rwa [mkMoveFT_To hs ht, mkMoveFT_To hf he] at h2

theorem shl_mod_bit_intro {x n t : Nat} (ht : t < 64) (hn : n ≤ t)
    (hx : x.testBit (t - n) = true) : ((x <<< n) % U64).testBit t = true := by
  rw [U64_eq, Nat.testBit_mod_two_pow, Nat.testBit_shiftLeft]
  simp [ht, hn, hx]

/-- The candidate square `t` of direction `d` always carries one of our
pawns on its capture origin, inside the board. -/
theorem capTargets_fromSq_facts {b : Board} {np ad0 d t : Nat} (h : consistentB b = true)
    (hd : d = 0 ∨ d = 1) (htb : (pawnCapTargets b np ad0 d).testBit t = true) (ht64 : t < 64) :
    ((b.bbs b.Colortomove).Pawns &&& np).testBit (capFromSq b.Colortomove d t) = true ∧
    capFromSq b.Colortomove d t < 64 := by
  cases hc : b.Colortomove with
  | White =>
    rcases hd with hd | hd <;> subst hd
    · have he : pawnCapTargets b np ad0 0 =
          ((((b.bbW.Pawns &&& np) <<< 9) % U64) &&& 0xFEFEFEFEFEFEFEFE &&&
            (if 0 < b.enpassant then b.bbB.BAll ||| bitU b.enpassant else b.bbB.BAll)) &&&
          (if 0 < b.enpassant then ad0 ||| bitU b.enpassant else ad0) := by
        simp only [pawnCapTargets, pawnCaptureBitboards, Board.bbs, oppColor, hc]
      rw [he] at htb
      simp only [Nat.testBit_and, Bool.and_eq_true] at htb
      obtain ⟨h9, hp⟩ := shl_mod_testBit ht64 htb.1.1.1
      rw [capFromSq_white0 h9 (by omega)]
      refine ⟨?_, by omega⟩
      show (b.bbW.Pawns &&& np).testBit (t - 9) = true
      exact hp
    · have he : pawnCapTargets b np ad0 1 =
          ((((b.bbW.Pawns &&& np) <<< 7) % U64) &&& 0x7F7F7F7F7F7F7F7F &&&
            (if 0 < b.enpassant then b.bbB.BAll ||| bitU b.enpassant else b.bbB.BAll)) &&&
          (if 0 < b.enpassant then ad0 ||| bitU b.enpassant else ad0) := by
        simp only [pawnCapTargets, pawnCaptureBitboards, Board.bbs, oppColor, hc]
      rw [he] at htb
      simp only [Nat.testBit_and, Bool.and_eq_true] at htb
      obtain ⟨h7, hp⟩ := shl_mod_testBit ht64 htb.1.1.1
      rw [capFromSq_white1 h7 (by omega)]
      refine ⟨?_, by omega⟩
      show (b.bbW.Pawns &&& np).testBit (t - 7) = true
      exact hp
  | Black =>
    have hPU : b.bbB.Pawns < U64 := (okB_parts (consistent_bbs_ok h Black)).2.1
    rcases hd with hd | hd <;> subst hd
    · have he : pawnCapTargets b np ad0 0 =
          (((b.bbB.Pawns &&& np) >>> 9) &&& 0x7F7F7F7F7F7F7F7F &&&
            (if 0 < b.enpassant then b.bbW.BAll ||| bitU b.enpassant else b.bbW.BAll)) &&&
          (if 0 < b.enpassant then ad0 ||| bitU b.enpassant else ad0) := by
        simp only [pawnCapTargets, pawnCaptureBitboards, Board.bbs, oppColor, hc]
      rw [he] at htb
      simp only [Nat.testBit_and, Bool.and_eq_true] at htb
      have hp := shr_testBit htb.1.1.1
      have hlt : t + 9 < 64 := testBit_lt_64 (lt_of_le_of_lt Nat.and_le_left hPU) hp
      rw [capFromSq_black0 (by omega)]
      exact ⟨hp, hlt⟩
    · have he : pawnCapTargets b np ad0 1 =
          (((b.bbB.Pawns &&& np) >>> 7) &&& 0xFEFEFEFEFEFEFEFE &&&
            (if 0 < b.enpassant then b.bbW.BAll ||| bitU b.enpassant else b.bbW.BAll)) &&&
          (if 0 < b.enpassant then ad0 ||| bitU b.enpassant else ad0) := by
        simp only [pawnCapTargets, pawnCaptureBitboards, Board.bbs, oppColor, hc]
      rw [he] at htb
      simp only [Nat.testBit_and, Bool.and_eq_true] at htb
      have hp := shr_testBit htb.1.1.1
      have hlt : t + 7 < 64 := testBit_lt_64 (lt_of_le_of_lt Nat.and_le_left hPU) hp
      rw [capFromSq_black1 (by omega)]
      exact ⟨hp, hlt⟩

end Dragontooth

namespace Dragontooth
open ColorT CastleRightsT Piece

/-! ## Castle-rights home squares -/

theorem castleOk_parts {b : Board} (h : consistentB b = true) :
    (b.canCastle White Kingside = true →
      b.bbW.Kings.testBit 4 = true ∧ b.bbW.Rooks.testBit 7 = true) ∧
    (b.canCastle White Queenside = true →
      b.bbW.Kings.testBit 4 = true ∧ b.bbW.Rooks.testBit 0 = true) ∧
    (b.canCastle Black Kingside = true →
      b.bbB.Kings.testBit 60 = true ∧ b.bbB.Rooks.testBit 63 = true) ∧
    (b.canCastle Black Queenside = true →
      b.bbB.Kings.testBit 60 = true ∧ b.bbB.Rooks.testBit 56 = true) := by
  have hco := (consistent_parts h).2.2.2.2.2.2.1
  simp only [castleOkB, Bool.and_eq_true, Bool.or_eq_true, Bool.not_eq_true',
    Bool.and_eq_true] at hco
  obtain ⟨⟨⟨h1, h2⟩, h3⟩, h4⟩ := hco
  refine ⟨?_, ?_, ?_, ?_⟩ <;> intro hcc
  · rcases h1 with hx | hx
    · simp [hcc] at hx
    · exact hx
  · rcases h2 with hx | hx
    · simp [hcc] at hx
    · exact hx
  · rcases h3 with hx | hx
    · simp [hcc] at hx
    · exact hx
  · rcases h4 with hx | hx
    · simp [hcc] at hx
    · exact hx

theorem kingLoc_eq_of_bit {b : Board} (h : consistentB b = true) {i : Nat}
    (hbit : ((b.bbs b.Colortomove).Kings).testBit i = true) :
    lowestSetBit ((b.bbs b.Colortomove).Kings) = i := by
  have hok := okB_parts (consistent_bbs_ok h b.Colortomove)
  obtain ⟨heq, hlt⟩ := single_bit_eq hok.2.2.2.2.2.2.1 hok.2.2.2.2.2.2.2.2.2.2
  rw [heq, testBit_bitU] at hbit
  simp only [Bool.and_eq_true, decide_eq_true_eq] at hbit
  exact hbit.2

/-! ## The en-passant capture membership characterization -/

/-- A geometric en-passant capture candidate: one of our pawns a capture
step away from the nonzero en-passant target square. -/
def epCaptureCandidate (b : Board) (f : Nat) : Prop :=
  ((b.bbs b.Colortomove).Pawns).testBit f = true ∧ b.enpassant ≠ 0 ∧
  (match b.Colortomove with
   | White => (f + 9 = b.enpassant ∧ b.enpassant % 8 ≠ 0) ∨
              (f + 7 = b.enpassant ∧ b.enpassant % 8 ≠ 7)
   | Black => (f = b.enpassant + 9 ∧ b.enpassant % 8 ≠ 7) ∨
              (f = b.enpassant + 7 ∧ b.enpassant % 8 ≠ 0))

instance (b : Board) (f : Nat) : Decidable (epCaptureCandidate b f) := by
  unfold epCaptureCandidate
  cases b.Colortomove <;> infer_instance

/-- The direction index scanned for a candidate `f`: the one whose
capture-origin formula recovers `f`. -/
theorem candidate_fromSq {b : Board} {f : Nat} (h : consistentB b = true)
    (hcand : epCaptureCandidate b f) :
    ∃ d, (d = 0 ∨ d = 1) ∧ capFromSq b.Colortomove d b.enpassant = f ∧ f < 64 := by
  obtain ⟨hpawn, hep0, hgeo⟩ := hcand
  have hf64 : f < 64 :=
    testBit_lt_64 (okB_parts (consistent_bbs_ok h b.Colortomove)).2.1 hpawn
  cases hc : b.Colortomove with
  | White =>
    obtain ⟨h40, h47, _, _, _⟩ := epOk_white h hc hep0
    rw [hc] at hgeo
    dsimp only at hgeo
    rcases hgeo with ⟨hd, _⟩ | ⟨hd, _⟩
    · refine ⟨0, Or.inl rfl, ?_, hf64⟩
      rw [capFromSq_white0 (by omega) (by omega)]
      omega
    · refine ⟨1, Or.inr rfl, ?_, hf64⟩
      rw [capFromSq_white1 (by omega) (by omega)]
      omega
  | Black =>
    obtain ⟨h16, h23, _, _, _⟩ := epOk_black h hc hep0
    rw [hc] at hgeo
    dsimp only at hgeo
    rcases hgeo with ⟨hd, _⟩ | ⟨hd, _⟩
    · refine ⟨0, Or.inl rfl, ?_, hf64⟩
      rw [capFromSq_black0 (by omega)]
      omega
    · refine ⟨1, Or.inr rfl, ?_, hf64⟩
      rw [capFromSq_black1 (by omega)]
      omega

theorem ep_bounds {b : Board} (h : consistentB b = true) (hep0 : b.enpassant ≠ 0) :
    b.enpassant < 64 ∧ 7 < b.enpassant ∧ b.enpassant < 56 := by
  cases hc : b.Colortomove with
  | White =>
    obtain ⟨h40, h47, _, _, _⟩ := epOk_white h hc hep0
    omega
  | Black =>
    obtain ⟨h16, h23, _, _, _⟩ := epOk_black h hc hep0
    omega


/-! ## The pinned-piece mask does not depend on the destination mask -/

theorem pinOrthoStep_snd_eq {b : Board} {ad ad' kidx kO ap : Nat} {st st' : List Move × Nat}
    (h2 : st.2 = st'.2) (c : Nat) :
    (pinOrthoStep b ad kidx kO ap st c).2 = (pinOrthoStep b ad' kidx kO ap st' c).2 := by
  simp only [pinOrthoStep]
  split_ifs <;> simp [h2]

theorem pinDiagStep_snd_eq {b : Board} {ad ad' kidx kD ap : Nat} {st st' : List Move × Nat}
    (h2 : st.2 = st'.2) (c : Nat) :
    (pinDiagStep b ad kidx kD ap st c).2 = (pinDiagStep b ad' kidx kD ap st' c).2 := by
  simp only [pinDiagStep]
  split_ifs <;> simp [h2]

theorem pinOrtho_foldl_snd_eq {b : Board} {ad ad' kidx kO ap : Nat} (l : List Nat) :
    ∀ {st st' : List Move × Nat}, st.2 = st'.2 →
    (l.foldl (pinOrthoStep b ad kidx kO ap) st).2 =
      (l.foldl (pinOrthoStep b ad' kidx kO ap) st').2 := by
  induction l with
  | nil => intro st st' h2; exact h2
  | cons c l ih =>
    intro st st' h2
    rw [List.foldl_cons, List.foldl_cons]
    exact ih (pinOrthoStep_snd_eq h2 c)

theorem pinDiag_foldl_snd_eq {b : Board} {ad ad' kidx kD ap : Nat} (l : List Nat) :
    ∀ {st st' : List Move × Nat}, st.2 = st'.2 →
    (l.foldl (pinDiagStep b ad kidx kD ap) st).2 =
      (l.foldl (pinDiagStep b ad' kidx kD ap) st').2 := by
  induction l with
  | nil => intro st st' h2; exact h2
  | cons c l ih =>
    intro st st' h2
    rw [List.foldl_cons, List.foldl_cons]
    exact ih (pinDiagStep_snd_eq h2 c)

/-- The bitboard of pinned pieces computed by `generatePinnedMoves` is the
same for every destination mask: the mask only filters the emitted moves. -/
theorem generatePinnedMoves_snd_eq (b : Board) (ad ad' : Nat) :
    (generatePinnedMoves b ad).2 = (generatePinnedMoves b ad').2 := by
  unfold generatePinnedMoves
  dsimp only
  exact pinDiag_foldl_snd_eq _ (pinOrtho_foldl_snd_eq _ rfl)

/-- `kingMoves` with castling disabled is exactly `kingPushes` on the move
list. -/
theorem kingMoves_false_moves (b : Board) (ad : Nat) :
    (kingMoves b ad false).1 = (kingPushes b ad).1 := rfl

set_option maxHeartbeats 1000000 in
/-- The en-passant capture move of a candidate non-pinned pawn lies in the
concatenation of the eight sub-generator outputs (for any destination masks)
exactly when the provisional capture leaves our king out of check. -/
theorem epCapture_mem_components_iff {b : Board} {f np adpin adpp adpc adkn adrk adbi adqu
    adkg : Nat} {inck : Bool} (h : consistentB b = true)
    (hcand : epCaptureCandidate b f)
    (hnp : np.testBit f = true) :
    mkMoveFT f b.enpassant ∈
      (generatePinnedMoves b adpin).1 ++ pawnPushes b np adpp ++ (pawnCaptures b np adpc).1 ++
      knightMoves b np adkn ++ rookMoves b np adrk ++ bishopMoves b np adbi ++
      queenMoves b np adqu ++ (kingMoves b adkg inck).1 ↔
      (epEdit b f b.enpassant (capEnemySq b.Colortomove b.enpassant)).OurKingInCheck = false := by
  obtain ⟨hpawn, hep0, hgeo⟩ := hcand
  obtain ⟨d, hd01, hfrom, hf64⟩ := candidate_fromSq h ⟨hpawn, hep0, hgeo⟩
  obtain ⟨hep64, hep7, hep56⟩ := ep_bounds h hep0
  have hval : mkMoveFT f b.enpassant < 4096 := mkMoveFT_lt hf64 hep64
  have hoppBQ : ((b.bbs (oppColor b.Colortomove)).Bishops |||
      (b.bbs (oppColor b.Colortomove)).Queens).testBit b.enpassant = false := by
    cases hc : b.Colortomove with
    | White =>
      obtain ⟨_, _, _, _, hBAll⟩ := epOk_white h hc hep0
      rw [Nat.testBit_or]
      have hB : (b.bbB.get Bishop).testBit b.enpassant = false :=
        all_false_get (consistent_bbs_ok h Black) ⟨by simp, by simp⟩ hBAll
      have hQ : (b.bbB.get Queen).testBit b.enpassant = false :=
        all_false_get (consistent_bbs_ok h Black) ⟨by simp, by simp⟩ hBAll
      show ((b.bbB.get Bishop).testBit b.enpassant ||
        (b.bbB.get Queen).testBit b.enpassant) = false
      rw [hB, hQ]
      rfl
    | Black =>
      obtain ⟨_, _, _, hWAll, _⟩ := epOk_black h hc hep0
      rw [Nat.testBit_or]
      have hB : (b.bbW.get Bishop).testBit b.enpassant = false :=
        all_false_get (consistent_bbs_ok h White) ⟨by simp, by simp⟩ hWAll
      have hQ : (b.bbW.get Queen).testBit b.enpassant = false :=
        all_false_get (consistent_bbs_ok h White) ⟨by simp, by simp⟩ hWAll
      show ((b.bbW.get Bishop).testBit b.enpassant ||
        (b.bbW.get Queen).testBit b.enpassant) = false
      rw [hB, hQ]
      rfl
  simp only [List.mem_append]
  constructor
  · intro hm
    rcases hm with (((((((hm | hm) | hm) | hm) | hm) | hm) | hm) | hm)
    · -- pinned moves
      rcases mem_generatePinnedMoves h hm with hbig | ⟨s, t, hmst, hs, ht, hdis⟩
      · exfalso
        rw [mkMoveFT_eq hf64 hep64] at hbig
        have hb2 : (4096 : Nat) ≤ f * 64 + b.enpassant := hbig
        omega
      · obtain ⟨hsf, hte⟩ := mkMoveFT_inj hf64 hep64 hs ht hmst
        subst hsf
        rcases hdis with hx | hx | hx | hx
        · exfalso
          rw [← hte] at hx
          cases hc : b.Colortomove with
          | White =>
            rw [hc] at hx hgeo
            simp only [pawnPushDirections] at hx
            unfold u8ofInt at hx
            dsimp only at hgeo
            omega
          | Black =>
            rw [hc] at hx hgeo
            simp only [pawnPushDirections] at hx
            unfold u8ofInt at hx
            dsimp only at hgeo
            omega
        · exfalso
          rw [← hte] at hx
          cases hc : b.Colortomove with
          | White =>
            rw [hc] at hx hgeo
            simp only [pawnPushDirections] at hx
            unfold u8ofInt at hx
            dsimp only at hgeo
            omega
          | Black =>
            rw [hc] at hx hgeo
            simp only [pawnPushDirections] at hx
            unfold u8ofInt at hx
            dsimp only at hgeo
            omega
        · rw [← hte] at hx
          rw [hx] at hoppBQ
          exact absurd hoppBQ (by simp)
        · rw [hx] at hpawn
          exact absurd hpawn (by simp)
    · -- pawn pushes
      rcases mem_pawnPushes hm with hbig | ⟨t, ht64, hx | hx⟩
      · exfalso
        rw [mkMoveFT_eq hf64 hep64] at hbig
        have hb2 : (4096 : Nat) ≤ f * 64 + b.enpassant := hbig
        omega
      · have hTo := congrArg Move.To hx
        rw [mkMoveFT_To hf64 hep64, mkMoveFT_To_any ht64] at hTo
        have hSrc := congrArg Move.Src hx
        rw [mkMoveFT_Src hf64 hep64, mkMoveFT_Src_small (u8ofInt_lt _) ht64] at hSrc
        exfalso
        cases hc : b.Colortomove with
        | White =>
          rw [hc] at hSrc hgeo
          simp only [oneRankBacks] at hSrc
          unfold u8ofInt at hSrc
          dsimp only at hgeo
          omega
        | Black =>
          rw [hc] at hSrc hgeo
          simp only [oneRankBacks] at hSrc
          unfold u8ofInt at hSrc
          dsimp only at hgeo
          omega
      · have hTo := congrArg Move.To hx
        rw [mkMoveFT_To hf64 hep64, mkMoveFT_To_any ht64] at hTo
        have hSrc := congrArg Move.Src hx
        rw [mkMoveFT_Src hf64 hep64, mkMoveFT_Src_small (u8ofInt_lt _) ht64] at hSrc
        exfalso
        cases hc : b.Colortomove with
        | White =>
          rw [hc] at hSrc hgeo
          simp only [oneRankBacks] at hSrc
          unfold u8ofInt at hSrc
          dsimp only at hgeo
          omega
        | Black =>
          rw [hc] at hSrc hgeo
          simp only [oneRankBacks] at hSrc
          unfold u8ofInt at hSrc
          dsimp only at hgeo
          omega
    · -- pawn captures: the real source
      rw [pawnCaptures_eq h] at hm
      dsimp only at hm
      rw [List.mem_append] at hm
      have hstep : ∀ d', (d' = 0 ∨ d' = 1) →
          mkMoveFT f b.enpassant ∈
            (bitIndices (pawnCapTargets b np adpc d')).flatMap (capEmitted d' b) →
          (epEdit b f b.enpassant
            (capEnemySq b.Colortomove b.enpassant)).OurKingInCheck = false := by
        intro d' hd' hmem
        rw [List.mem_flatMap] at hmem
        obtain ⟨t, htmem, hem⟩ := hmem
        rw [mem_bitIndices] at htmem
        obtain ⟨ht64, htb⟩ := htmem
        obtain ⟨hpnp, hfl⟩ := capTargets_fromSq_facts h hd' htb ht64
        simp only [capEmitted] at hem
        by_cases hbr : (t == b.enpassant && b.enpassant != 0) = true
        · rw [if_pos hbr] at hem
          have hteq : t = b.enpassant := by
            simp only [Bool.and_eq_true, beq_iff_eq] at hbr
            exact hbr.1
          subst hteq
          by_cases hkc : (epEdit b (capFromSq b.Colortomove d' b.enpassant) b.enpassant
              (capEnemySq b.Colortomove b.enpassant)).OurKingInCheck = true
          · rw [if_pos hkc] at hem
            exact absurd hem (by simp)
          · rw [if_neg hkc] at hem
            have hfeq : capFromSq b.Colortomove d' b.enpassant = f := by
              split_ifs at hem with hpr
              · exfalso
                rw [List.mem_map] at hem
                obtain ⟨p, hp, hmp⟩ := hem
                have hpv : 1 ≤ pieceVal p := by
                  simp only [List.mem_cons, List.not_mem_nil, or_false] at hp
                  rcases hp with hq | hq | hq | hq <;> subst hq <;> decide
                have hge := @Setpromote_ge
                  (mkMoveFT (capFromSq b.Colortomove d' b.enpassant) b.enpassant) p hpv
                rw [hmp, mkMoveFT_eq hf64 hep64] at hge
                have hb2 : (4096 : Nat) ≤ f * 64 + b.enpassant := hge
                omega
              · rw [List.mem_singleton] at hem
                exact ((mkMoveFT_inj hf64 hep64 hfl ht64 hem).1).symm
            rw [hfeq] at hkc
            simpa using hkc
        · rw [if_neg hbr] at hem
          exfalso
          split_ifs at hem with hpr
          · rw [List.mem_map] at hem
            obtain ⟨p, hp, hmp⟩ := hem
            have hpv : 1 ≤ pieceVal p := by
              simp only [List.mem_cons, List.not_mem_nil, or_false] at hp
              rcases hp with hq | hq | hq | hq <;> subst hq <;> decide
            have hge := @Setpromote_ge (mkMoveFT (capFromSq b.Colortomove d' t) t) p hpv
            rw [hmp, mkMoveFT_eq hf64 hep64] at hge
            have hb2 : (4096 : Nat) ≤ f * 64 + b.enpassant := hge
            omega
          · rw [List.mem_singleton] at hem
            have hTo := congrArg Move.To hem
            rw [mkMoveFT_To hf64 hep64, mkMoveFT_To_any ht64] at hTo
            rw [← hTo] at hbr
            simp [hep0] at hbr
      rcases hm with hm | hm
      · exact hstep 0 (Or.inl rfl) hm
      · exact hstep 1 (Or.inr rfl) hm
    · -- knight moves
      obtain ⟨s, t, hs, ht, hkn, hmst⟩ := mem_knightMoves hm
      obtain ⟨hsf, _⟩ := mkMoveFT_inj hf64 hep64 hs ht hmst
      subst hsf
      have := kinds_disjoint (consistent_bbs_ok h b.Colortomove)
        ⟨by simp, by simp⟩ ⟨by simp, by simp⟩ (by simp : Pawn ≠ Knight) hpawn
      rw [show ((b.bbs b.Colortomove).get Knight) = (b.bbs b.Colortomove).Knights from rfl] at this
      rw [hkn] at this
      exact absurd this (by simp)
    · obtain ⟨s, t, hs, ht, hkn, hmst⟩ := mem_rookMoves hm
      obtain ⟨hsf, _⟩ := mkMoveFT_inj hf64 hep64 hs ht hmst
      subst hsf
      have := kinds_disjoint (consistent_bbs_ok h b.Colortomove)
        ⟨by simp, by simp⟩ ⟨by simp, by simp⟩ (by simp : Pawn ≠ Rook) hpawn
      rw [show ((b.bbs b.Colortomove).get Rook) = (b.bbs b.Colortomove).Rooks from rfl] at this
      rw [hkn] at this
      exact absurd this (by simp)
    · obtain ⟨s, t, hs, ht, hkn, hmst⟩ := mem_bishopMoves hm
      obtain ⟨hsf, _⟩ := mkMoveFT_inj hf64 hep64 hs ht hmst
      subst hsf
      have := kinds_disjoint (consistent_bbs_ok h b.Colortomove)
        ⟨by simp, by simp⟩ ⟨by simp, by simp⟩ (by simp : Pawn ≠ Bishop) hpawn
      rw [show ((b.bbs b.Colortomove).get Bishop) = (b.bbs b.Colortomove).Bishops from rfl] at this
      rw [hkn] at this
      exact absurd this (by simp)
    · obtain ⟨s, t, hs, ht, hkn, hmst⟩ := mem_queenMoves hm
      obtain ⟨hsf, _⟩ := mkMoveFT_inj hf64 hep64 hs ht hmst
      subst hsf
      have := kinds_disjoint (consistent_bbs_ok h b.Colortomove)
        ⟨by simp, by simp⟩ ⟨by simp, by simp⟩ (by simp : Pawn ≠ Queen) hpawn
      rw [show ((b.bbs b.Colortomove).get Queen) = (b.bbs b.Colortomove).Queens from rfl] at this
      rw [hkn] at this
      exact absurd this (by simp)
    · -- king moves
      have hkdis := kinds_disjoint (consistent_bbs_ok h b.Colortomove)
        ⟨by simp, by simp⟩ ⟨by simp, by simp⟩ (by simp : Pawn ≠ King) hpawn
      rw [show ((b.bbs b.Colortomove).get King) = (b.bbs b.Colortomove).Kings from rfl] at hkdis
      rcases mem_kingMoves hm with hm | ⟨_, ⟨hmk, hcc, _⟩ | ⟨hmk, hcc, _⟩⟩
      · obtain ⟨t, ht64, _, _, _, _, hmt⟩ := mem_kingPushes hm
        have hkl := (kingLoc_facts h).1
        obtain ⟨hsf, _⟩ := mkMoveFT_inj hf64 hep64 hkl ht64 hmt
        rw [hsf] at hkdis
        rw [(kingLoc_facts h).2] at hkdis
        exact absurd hkdis (by simp)
      · exfalso
        have hco := castleOk_parts h
        have hhome : ((b.bbs b.Colortomove).Kings).testBit
            (if b.Colortomove = White then 4 else 60) = true := by
          cases hc : b.Colortomove
          · rw [hc] at hcc
            simpa using (hco.1 hcc).1
          · rw [hc] at hcc
            simpa using (hco.2.2.1 hcc).1
        have hkl := kingLoc_eq_of_bit h hhome
        rw [hkl] at hmk
        have hlt2 : (if b.Colortomove = White then 4 else 60) + 2 < 64 := by
          split_ifs <;> omega
        have h64b : ((if b.Colortomove = White then 4 else 60) + 2) % 256 < 64 := by
          split_ifs <;> simp
        obtain ⟨hsf, _⟩ := mkMoveFT_inj hf64 hep64 (by split_ifs <;> omega) h64b hmk
        rw [hsf] at hkdis
        rw [hhome] at hkdis
        exact absurd hkdis (by simp)
      · exfalso
        have hco := castleOk_parts h
        have hhome : ((b.bbs b.Colortomove).Kings).testBit
            (if b.Colortomove = White then 4 else 60) = true := by
          cases hc : b.Colortomove
          · rw [hc] at hcc
            simpa using (hco.2.1 hcc).1
          · rw [hc] at hcc
            simpa using (hco.2.2.2 hcc).1
        have hkl := kingLoc_eq_of_bit h hhome
        rw [hkl] at hmk
        have h64b : ((if b.Colortomove = White then 4 else 60) + 254) % 256 < 64 := by
          split_ifs <;> simp
        obtain ⟨hsf, _⟩ := mkMoveFT_inj hf64 hep64 (by split_ifs <;> omega) h64b hmk
        rw [hsf] at hkdis
        rw [hhome] at hkdis
        exact absurd hkdis (by simp)
  · intro hkc
    refine Or.inl (Or.inl (Or.inl (Or.inl (Or.inl (Or.inr ?_)))))
    rw [pawnCaptures_eq h]
    dsimp only
    rw [List.mem_append]
    have hadbit : (if 0 < b.enpassant then
        adpc ||| bitU b.enpassant
      else adpc).testBit b.enpassant = true := by
      split_ifs with hq
      · rw [Nat.testBit_or, testBit_bitU]
        simp [hep64]
      · omega
    have hnpand : ((b.bbs b.Colortomove).Pawns &&& np).testBit f = true := by
      rw [Nat.testBit_and, hpawn, hnp]
      rfl
    have hememit : mkMoveFT f b.enpassant ∈ capEmitted d b b.enpassant := by
      simp only [capEmitted]
      rw [if_pos (by simp [hep0])]
      rw [hfrom]
      rw [if_neg (by simp [hkc])]
      rw [if_neg ?hcp]
      case hcp =>
        cases hc : b.Colortomove
        · simp only
          simp only [decide_eq_true_eq]
          omega
        · simp only
          simp only [decide_eq_true_eq]
          omega
      simp
    rcases hd01 with hd | hd <;> subst hd
    · left
      rw [List.mem_flatMap]
      refine ⟨b.enpassant, mem_bitIndices.mpr ⟨hep64, ?_⟩, hememit⟩
      cases hc : b.Colortomove with
      | White =>
        have he : pawnCapTargets b (np) adpc 0 =
            ((((b.bbW.Pawns &&& np) <<< 9) % U64) &&&
              0xFEFEFEFEFEFEFEFE &&&
              (if 0 < b.enpassant then b.bbB.BAll ||| bitU b.enpassant else b.bbB.BAll)) &&&
            (if 0 < b.enpassant then adpc ||| bitU b.enpassant
              else adpc) := by
          simp only [pawnCapTargets, pawnCaptureBitboards, Board.bbs, oppColor, hc]
        rw [he]
        obtain ⟨hep40, hep47, -, -, -⟩ := epOk_white h hc hep0
        rw [hc] at hgeo
        dsimp only at hgeo
        have hgeo0 : f + 9 = b.enpassant ∧ b.enpassant % 8 ≠ 0 := by
          rcases hgeo with hg | hg
          · exact hg
          · exfalso
            rw [hc] at hfrom
            rw [@capFromSq_white0 b.enpassant (by omega) (by omega)] at hfrom
            omega
        have hpos : 0 < b.enpassant := by omega
        have hnpW : (b.bbW.Pawns &&& np).testBit f = true := by
          rw [hc] at hnpand
          exact hnpand
        have hsh : (((b.bbW.Pawns &&& np) <<< 9) % U64).testBit
            b.enpassant = true := by
          refine shl_mod_bit_intro hep64 (by omega) ?_
          rw [show b.enpassant - 9 = f by omega]
          exact hnpW
        simp only [if_pos hpos, Nat.testBit_and, Nat.testBit_or, testBit_bitU,
          notAFile_bit hep64, hsh]
        simp [hgeo0.2, hep64]
      | Black =>
        have he : pawnCapTargets b (np) adpc 0 =
            (((b.bbB.Pawns &&& np) >>> 9) &&& 0x7F7F7F7F7F7F7F7F &&&
              (if 0 < b.enpassant then b.bbW.BAll ||| bitU b.enpassant else b.bbW.BAll)) &&&
            (if 0 < b.enpassant then adpc ||| bitU b.enpassant
              else adpc) := by
          simp only [pawnCapTargets, pawnCaptureBitboards, Board.bbs, oppColor, hc]
        rw [he]
        obtain ⟨hep16, hep23, -, -, -⟩ := epOk_black h hc hep0
        rw [hc] at hgeo
        dsimp only at hgeo
        have hgeo0 : f = b.enpassant + 9 ∧ b.enpassant % 8 ≠ 7 := by
          rcases hgeo with hg | hg
          · exact hg
          · exfalso
            rw [hc] at hfrom
            rw [@capFromSq_black0 b.enpassant (by omega)] at hfrom
            omega
        have hpos : 0 < b.enpassant := by omega
        have hnpB : (b.bbB.Pawns &&& np).testBit f = true := by
          rw [hc] at hnpand
          exact hnpand
        have hsh : ((b.bbB.Pawns &&& np) >>> 9).testBit
            b.enpassant = true := by
          rw [Nat.testBit_shiftRight]
          rw [show 9 + b.enpassant = f by omega]
          exact hnpB
        simp only [if_pos hpos, Nat.testBit_and, Nat.testBit_or, testBit_bitU,
          notHFile_bit hep64, hsh]
        simp [hgeo0.2, hep64]
    · right
      rw [List.mem_flatMap]
      refine ⟨b.enpassant, mem_bitIndices.mpr ⟨hep64, ?_⟩, hememit⟩
      cases hc : b.Colortomove with
      | White =>
        have he : pawnCapTargets b (np) adpc 1 =
            ((((b.bbW.Pawns &&& np) <<< 7) % U64) &&&
              0x7F7F7F7F7F7F7F7F &&&
              (if 0 < b.enpassant then b.bbB.BAll ||| bitU b.enpassant else b.bbB.BAll)) &&&
            (if 0 < b.enpassant then adpc ||| bitU b.enpassant
              else adpc) := by
          simp only [pawnCapTargets, pawnCaptureBitboards, Board.bbs, oppColor, hc]
        rw [he]
        obtain ⟨hep40, hep47, -, -, -⟩ := epOk_white h hc hep0
        rw [hc] at hgeo
        dsimp only at hgeo
        have hgeo0 : f + 7 = b.enpassant ∧ b.enpassant % 8 ≠ 7 := by
          rcases hgeo with hg | hg
          · exfalso
            rw [hc] at hfrom
            rw [@capFromSq_white1 b.enpassant (by omega) (by omega)] at hfrom
            omega
          · exact hg
        have hpos : 0 < b.enpassant := by omega
        have hnpW : (b.bbW.Pawns &&& np).testBit f = true := by
          rw [hc] at hnpand
          exact hnpand
        have hsh : (((b.bbW.Pawns &&& np) <<< 7) % U64).testBit
            b.enpassant = true := by
          refine shl_mod_bit_intro hep64 (by omega) ?_
          rw [show b.enpassant - 7 = f by omega]
          exact hnpW
        simp only [if_pos hpos, Nat.testBit_and, Nat.testBit_or, testBit_bitU,
          notHFile_bit hep64, hsh]
        simp [hgeo0.2, hep64]
      | Black =>
        have he : pawnCapTargets b (np) adpc 1 =
            (((b.bbB.Pawns &&& np) >>> 7) &&& 0xFEFEFEFEFEFEFEFE &&&
              (if 0 < b.enpassant then b.bbW.BAll ||| bitU b.enpassant else b.bbW.BAll)) &&&
            (if 0 < b.enpassant then adpc ||| bitU b.enpassant
              else adpc) := by
          simp only [pawnCapTargets, pawnCaptureBitboards, Board.bbs, oppColor, hc]
        rw [he]
        obtain ⟨hep16, hep23, -, -, -⟩ := epOk_black h hc hep0
        rw [hc] at hgeo
        dsimp only at hgeo
        have hgeo0 : f = b.enpassant + 7 ∧ b.enpassant % 8 ≠ 0 := by
          rcases hgeo with hg | hg
          · exfalso
            rw [hc] at hfrom
            rw [@capFromSq_black1 b.enpassant (by omega)] at hfrom
            omega
          · exact hg
        have hpos : 0 < b.enpassant := by omega
        have hnpB : (b.bbB.Pawns &&& np).testBit f = true := by
          rw [hc] at hnpand
          exact hnpand
        have hsh : ((b.bbB.Pawns &&& np) >>> 7).testBit
            b.enpassant = true := by
          rw [Nat.testBit_shiftRight]
          rw [show 7 + b.enpassant = f by omega]
          exact hnpB
        simp only [if_pos hpos, Nat.testBit_and, Nat.testBit_or, testBit_bitU,
          notAFile_bit hep64, hsh]
        simp [hgeo0.2, hep64]



theorem GenerateLegalMoves2_singlecheck {b : Board} {o : Bool} (h : consistentB b = true)
    (h1 : (countAttacks b (b.Colortomove == White)
        (lowestSetBit ((b.bbs b.Colortomove).Kings)) 2).1 = 1) :
    GenerateLegalMoves2 b o =
      ⟨(generatePinnedMoves b (countAttacks b (b.Colortomove == White)
          (lowestSetBit ((b.bbs b.Colortomove).Kings)) 2).2).1 ++
        pawnPushes b (compl64 (generatePinnedMoves b (countAttacks b
            (b.Colortomove == White)
            (lowestSetBit ((b.bbs b.Colortomove).Kings)) 2).2).2)
          (countAttacks b (b.Colortomove == White)
            (lowestSetBit ((b.bbs b.Colortomove).Kings)) 2).2 ++
        (pawnCaptures b (compl64 (generatePinnedMoves b (countAttacks b
            (b.Colortomove == White)
            (lowestSetBit ((b.bbs b.Colortomove).Kings)) 2).2).2)
          (countAttacks b (b.Colortomove == White)
            (lowestSetBit ((b.bbs b.Colortomove).Kings)) 2).2).1 ++
        knightMoves b (compl64 (generatePinnedMoves b (countAttacks b
            (b.Colortomove == White)
            (lowestSetBit ((b.bbs b.Colortomove).Kings)) 2).2).2)
          (countAttacks b (b.Colortomove == White)
            (lowestSetBit ((b.bbs b.Colortomove).Kings)) 2).2 ++
        rookMoves b (compl64 (generatePinnedMoves b (countAttacks b
            (b.Colortomove == White)
            (lowestSetBit ((b.bbs b.Colortomove).Kings)) 2).2).2)
          (countAttacks b (b.Colortomove == White)
            (lowestSetBit ((b.bbs b.Colortomove).Kings)) 2).2 ++
        bishopMoves b (compl64 (generatePinnedMoves b (countAttacks b
            (b.Colortomove == White)
            (lowestSetBit ((b.bbs b.Colortomove).Kings)) 2).2).2)
          (countAttacks b (b.Colortomove == White)
            (lowestSetBit ((b.bbs b.Colortomove).Kings)) 2).2 ++
        queenMoves b (compl64 (generatePinnedMoves b (countAttacks b
            (b.Colortomove == White)
            (lowestSetBit ((b.bbs b.Colortomove).Kings)) 2).2).2)
          (countAttacks b (b.Colortomove == White)
            (lowestSetBit ((b.bbs b.Colortomove).Kings)) 2).2 ++
        (kingPushes b everything).1,
       true, b⟩ := by
  unfold GenerateLegalMoves2
  lift_lets
  extract_lets c1 c2 c3 c4 c5 c6 c7 c8 c9 c10 c11 c12 c13 c14 c15 c16 c17 c18 c19 c20 c21 c22
    c23
  dsimp only
  have hc5 : c5 = 1 := h1
  rw [if_neg (by omega : ¬ 2 ≤ c5)]
  rw [if_pos (by simp [hc5] : (c5 == 1) = true)]
  unfold_let c16 c15 c14 c13 c12
  have hpc : c11.2 = b := pawnCaptures_board h
  rw [hpc, kingPushes_board h]

set_option maxHeartbeats 1000000 in
/-- The en-passant capture of a candidate non-pinned pawn is generated
exactly when the provisional edit leaves the king out of check and the king
is not in double check, over every branch of the generator. -/
theorem epCapture_mem_iff_all {b : Board} {f : Nat} (h : consistentB b = true)
    (hcand : epCaptureCandidate b f)
    (hnp : (nocheckNonpinned b false).testBit f = true) :
    mkMoveFT f b.enpassant ∈ GenerateLegalMoves b ↔
      ((epEdit b f b.enpassant
          (capEnemySq b.Colortomove b.enpassant)).OurKingInCheck = false ∧
       (countAttacks b (b.Colortomove == White)
         (lowestSetBit ((b.bbs b.Colortomove).Kings)) 2).1 < 2) := by
  by_cases h2 : 2 ≤ (countAttacks b (b.Colortomove == White)
      (lowestSetBit ((b.bbs b.Colortomove).Kings)) 2).1
  · unfold GenerateLegalMoves
    rw [GenerateLegalMoves2_doubleCheck h2]
    dsimp only
    constructor
    · intro hm
      exfalso
      obtain ⟨hpawn, hep0, hgeo⟩ := hcand
      obtain ⟨d, hd01, hfrom, hf64⟩ := candidate_fromSq h ⟨hpawn, hep0, hgeo⟩
      obtain ⟨hep64, hep7, hep56⟩ := ep_bounds h hep0
      obtain ⟨t, ht64, _, _, _, _, hmt⟩ := mem_kingPushes hm
      have hkl := (kingLoc_facts h).1
      obtain ⟨hsf, _⟩ := mkMoveFT_inj hf64 hep64 hkl ht64 hmt
      have hkdis := kinds_disjoint (consistent_bbs_ok h b.Colortomove)
        ⟨by simp, by simp⟩ ⟨by simp, by simp⟩ (by simp : Pawn ≠ King) hpawn
      rw [show ((b.bbs b.Colortomove).get King) =
        (b.bbs b.Colortomove).Kings from rfl] at hkdis
      rw [hsf] at hkdis
      rw [(kingLoc_facts h).2] at hkdis
      exact absurd hkdis (by simp)
    · rintro ⟨_, hlt⟩
      omega
  · have hlt2 : (countAttacks b (b.Colortomove == White)
        (lowestSetBit ((b.bbs b.Colortomove).Kings)) 2).1 < 2 := by omega
    by_cases h1 : (countAttacks b (b.Colortomove == White)
        (lowestSetBit ((b.bbs b.Colortomove).Kings)) 2).1 = 1
    · unfold GenerateLegalMoves
      rw [GenerateLegalMoves2_singlecheck h h1]
      dsimp only
      have hnp2 : (compl64 (generatePinnedMoves b
          (countAttacks b (b.Colortomove == White)
            (lowestSetBit ((b.bbs b.Colortomove).Kings)) 2).2).2).testBit f = true := by
        rw [generatePinnedMoves_snd_eq b
          (countAttacks b (b.Colortomove == White)
            (lowestSetBit ((b.bbs b.Colortomove).Kings)) 2).2
          (nocheckAllowDest b false)]
        exact hnp
      rw [show (kingPushes b everything).1 = (kingMoves b everything false).1 from
        (kingMoves_false_moves b everything).symm]
      constructor
      · intro hm
        exact ⟨(epCapture_mem_components_iff h hcand hnp2).mp hm, hlt2⟩
      · rintro ⟨hk, _⟩
        exact (epCapture_mem_components_iff h hcand hnp2).mpr hk
    · have h0 : (countAttacks b (b.Colortomove == White)
          (lowestSetBit ((b.bbs b.Colortomove).Kings)) 2).1 = 0 := by omega
      unfold GenerateLegalMoves
      rw [GenerateLegalMoves2_nocheck h h0]
      dsimp only
      constructor
      · intro hm
        exact ⟨(epCapture_mem_components_iff h hcand hnp).mp hm, hlt2⟩
      · rintro ⟨hk, _⟩
        exact (epCapture_mem_components_iff h hcand hnp).mpr hk

/-- A single-check position: white king e4 checked by the black pawn that
just double-pushed d7-d5 (en-passant target d6), white pawn on e5. -/
def singleCheckEpBoard : Board := {
  Colortomove := White
  enpassant := 43
  Halfmoveclock := 0
  castleW := 0
  castleB := 0
  Fullmoveno := 2
  bbW := {
    BNothing := 0
    Pawns := 0x1000000000
    Knights := 0
    Bishops := 0
    Rooks := 0
    Queens := 0
    Kings := 0x10000000
    BAll := 0x1010000000 }
  bbB := {
    BNothing := 0
    Pawns := 0x800000000
    Knights := 0
    Bishops := 0
    Rooks := 0
    Queens := 0
    Kings := 0x8000000000000000
    BAll := 0x8000000800000000 }
  pieces :=
    [Nothing, Nothing, Nothing, Nothing, Nothing, Nothing, Nothing, Nothing,
     Nothing, Nothing, Nothing, Nothing, Nothing, Nothing, Nothing, Nothing,
     Nothing, Nothing, Nothing, Nothing, Nothing, Nothing, Nothing, Nothing,
     Nothing, Nothing, Nothing, Nothing, King, Nothing, Nothing, Nothing,
     Nothing, Nothing, Nothing, Pawn, Pawn, Nothing, Nothing, Nothing,
     Nothing, Nothing, Nothing, Nothing, Nothing, Nothing, Nothing, Nothing,
     Nothing, Nothing, Nothing, Nothing, Nothing, Nothing, Nothing, Nothing,
     Nothing, Nothing, Nothing, Nothing, Nothing, Nothing, Nothing, King]
  hash := 0 }

/-- C5 (amended): for a consistent position where a candidate pawn is not
marked pinned, the capture onto the en-passant square is generated iff the
provisional bitboard edit (remove capturer from origin, remove captured pawn
behind the target, add capturer on the target) leaves the mover's king out
of check and the king is not in double check; the provisional edit is
reverted exactly; and from the position 8/8/8/K2pP2r/8/8/8/7k w - d6, the
move e5d6 is not generated. -/
theorem claim_C5 :
    (∀ (b : Board) (f : Nat), consistentB b = true →
      epCaptureCandidate b f →
      (nocheckNonpinned b false).testBit f = true →
      (mkMoveFT f b.enpassant ∈ GenerateLegalMoves b ↔
        ((epEdit b f b.enpassant
            (capEnemySq b.Colortomove b.enpassant)).OurKingInCheck = false ∧
         (countAttacks b (b.Colortomove == White)
           (lowestSetBit ((b.bbs b.Colortomove).Kings)) 2).1 < 2))) ∧
    (∀ (b : Board) (f : Nat), consistentB b = true → epCaptureCandidate b f →
      epRevert (epEdit b f b.enpassant (capEnemySq b.Colortomove b.enpassant))
        f b.enpassant (capEnemySq b.Colortomove b.enpassant) = b) ∧
    mkMoveFT 36 43 ∉ GenerateLegalMoves epPinBoard := by
  refine ⟨fun b f h hcand hnp => epCapture_mem_iff_all h hcand hnp,
    fun b f h hcand => ?_, by decide⟩
  obtain ⟨d, hd01, hfrom, hf64⟩ := candidate_fromSq h hcand
  obtain ⟨hpawn, hep0, -⟩ := hcand
  rw [← hfrom]
  exact epRevert_of_pawnAt h (by rw [hfrom]; exact hpawn) (by rw [hfrom]; exact hf64)
    (by simp [hep0])

/-- C5 counterexample: in the position with the white king on f4, a white pawn
on e5 diagonally pinned by a black bishop on c7, and a black pawn having just
double-pushed to d5 (en-passant target d6), the provisional en-passant edit
leaves the king out of check, yet e5d6 is not generated, because the pinned
pawn's moves are produced by the pinned-piece generator, which never emits
en-passant captures. -/
theorem claim_C5_counterexample :
    consistentB diagPinEpBoard = true ∧
    epCaptureCandidate diagPinEpBoard 36 ∧
    (epEdit diagPinEpBoard 36 diagPinEpBoard.enpassant
      (capEnemySq diagPinEpBoard.Colortomove
        diagPinEpBoard.enpassant)).OurKingInCheck = false ∧
    mkMoveFT 36 diagPinEpBoard.enpassant ∉ GenerateLegalMoves diagPinEpBoard :=
  ⟨by decide, by decide, by decide, by decide⟩

/-- C5 witness: a legal en-passant capture generated in a position without
check, and another generated as a check evasion in a single-check position. -/
theorem claim_C5_witness :
    (consistentB epLegalBoard = true ∧
     epCaptureCandidate epLegalBoard 36 ∧
     (nocheckNonpinned epLegalBoard false).testBit 36 = true ∧
     mkMoveFT 36 epLegalBoard.enpassant ∈ GenerateLegalMoves epLegalBoard) ∧
    (consistentB singleCheckEpBoard = true ∧
     (countAttacks singleCheckEpBoard (singleCheckEpBoard.Colortomove == White)
       (lowestSetBit ((singleCheckEpBoard.bbs
         singleCheckEpBoard.Colortomove).Kings)) 2).1 = 1 ∧
     epCaptureCandidate singleCheckEpBoard 36 ∧
     (nocheckNonpinned singleCheckEpBoard false).testBit 36 = true ∧
     mkMoveFT 36 singleCheckEpBoard.enpassant ∈ GenerateLegalMoves singleCheckEpBoard) :=
  ⟨⟨by decide, by decide, by decide,
    (claim_C5.1 epLegalBoard 36 (by decide) (by decide)
      (by decide)).mpr ⟨by decide, by decide⟩⟩,
   ⟨by decide, by decide, by decide, by decide,
    (claim_C5.1 singleCheckEpBoard 36 (by decide) (by decide)
      (by decide)).mpr ⟨by decide, by decide⟩⟩⟩

end Dragontooth

namespace Dragontooth
open ColorT CastleRightsT Piece

set_option maxRecDepth 100000 in
set_option maxHeartbeats 2000000 in
/-- On a diagonal of `c`, the float slope takes one of two exact values:
9/8 on the northeast-southwest diagonal and -7/8 on the other. -/
theorem slope_on_diag :
    ∀ c < 64, ∀ p < 64, p ≠ c →
      ((((p / 8 : Nat) : Int) - ((c / 8 : Nat) : Int) =
          ((p % 8 : Nat) : Int) - ((c % 8 : Nat) : Int) →
        slopeF32 p c = F32.val false 9437184 (-23)) ∧
       (((p / 8 : Nat) : Int) - ((c / 8 : Nat) : Int) =
          -(((p % 8 : Nat) : Int) - ((c % 8 : Nat) : Int)) →
        slopeF32 p c = F32.val true 14680064 (-24))) := by
  decide

set_option maxRecDepth 100000 in
set_option maxHeartbeats 2000000 in
/-- Exactly the integer points of the 9/8 line through the origin give the
float value 9/8, over the bounded slope domain of the pin test. -/
theorem feq_val9_char :
    ∀ (a : Nat), a < 127 → ∀ (e : Nat), e < 15 →
      F32.feq (F32.val false 9437184 (-23))
          (f32divInt (((a : Nat) : Int) - 63) (8 * (((e : Nat) : Int) - 7))) =
        (decide (((a : Nat) : Int) - 63 = 9 * (((e : Nat) : Int) - 7)) &&
         decide (((a : Nat) : Int) ≠ 63)) := by
  decide

set_option maxRecDepth 100000 in
set_option maxHeartbeats 2000000 in
/-- Exactly the integer points of the -7/8 line through the origin give the
float value -7/8, over the bounded slope domain of the pin test. -/
theorem feq_val7_char :
    ∀ (a : Nat), a < 127 → ∀ (e : Nat), e < 15 →
      F32.feq (F32.val true 14680064 (-24))
          (f32divInt (((a : Nat) : Int) - 63) (8 * (((e : Nat) : Int) - 7))) =
        (decide (((a : Nat) : Int) - 63 = -7 * (((e : Nat) : Int) - 7)) &&
         decide (((a : Nat) : Int) ≠ 63)) := by
  decide

/-- The float slope comparison of the diagonal pin test agrees with exact
integer collinearity whenever the tested piece lies on a true diagonal of
the slider, as it always does for magic-bitboard attack squares. -/
theorem slope_feq_exact :
    ∀ (c : Nat), c < 64 → ∀ (p : Nat), p < 64 → ∀ (k : Nat), k < 64 → p ≠ c →
      ((((p / 8 : Nat) : Int) - ((c / 8 : Nat) : Int)).natAbs =
        (((p % 8 : Nat) : Int) - ((c % 8 : Nat) : Int)).natAbs) →
      F32.feq (slopeF32 p c) (slopeF32 k c) =
        (decide (k ≠ c) &&
         decide (((k : Int) - (c : Int)) * (((p % 8 : Nat) : Int) - ((c % 8 : Nat) : Int)) =
           ((p : Int) - (c : Int)) * (((k % 8 : Nat) : Int) - ((c % 8 : Nat) : Int)))) := by
  intro c hc p hp k hk hpc habs
  have hA : (k + 63 - c : Nat) < 127 := by omega
  have hE : (k % 8 + 7 - c % 8 : Nat) < 15 := by omega
  have hAv : (((k + 63 - c : Nat) : Nat) : Int) - 63 = (k : Int) - (c : Int) := by omega
  have hEv : (((k % 8 + 7 - c % 8 : Nat) : Nat) : Int) - 7 =
      ((k % 8 : Nat) : Int) - ((c % 8 : Nat) : Int) := by omega
  have hkslope : slopeF32 k c =
      f32divInt ((k : Int) - (c : Int))
        (8 * (((k % 8 : Nat) : Int) - ((c % 8 : Nat) : Int))) := rfl
  have hdf0 : ((p % 8 : Nat) : Int) - ((c % 8 : Nat) : Int) ≠ 0 ∨
      ((p / 8 : Nat) : Int) - ((c / 8 : Nat) : Int) ≠ 0 := by omega
  rcases Int.natAbs_eq_natAbs_iff.mp habs with hdr | hdr
  · have hdf : ((p % 8 : Nat) : Int) - ((c % 8 : Nat) : Int) ≠ 0 := by omega
    have hpc9 : (p : Int) - (c : Int) =
        9 * (((p % 8 : Nat) : Int) - ((c % 8 : Nat) : Int)) := by omega
    rw [(slope_on_diag c hc p hp hpc).1 hdr]
    have h9 := feq_val9_char (k + 63 - c) hA (k % 8 + 7 - c % 8) hE
    rw [hAv, hEv] at h9
    rw [hkslope, h9]
    have e2 : (decide ((((k + 63 - c : Nat) : Nat) : Int) ≠ 63)) = (decide (k ≠ c)) := by
      rw [decide_eq_decide]
      constructor <;> intro hx <;> omega
    have e1 : (decide ((k : Int) - (c : Int) =
          9 * (((k % 8 : Nat) : Int) - ((c % 8 : Nat) : Int)))) =
        (decide (((k : Int) - (c : Int)) * (((p % 8 : Nat) : Int) - ((c % 8 : Nat) : Int)) =
          ((p : Int) - (c : Int)) * (((k % 8 : Nat) : Int) - ((c % 8 : Nat) : Int)))) := by
      rw [decide_eq_decide]
      constructor
      · intro hx
        rw [hx, hpc9]
        ring
      · intro hx
        have h2 : (((k : Int) - (c : Int))) * (((p % 8 : Nat) : Int) - ((c % 8 : Nat) : Int)) =
            (9 * (((k % 8 : Nat) : Int) - ((c % 8 : Nat) : Int))) *
              (((p % 8 : Nat) : Int) - ((c % 8 : Nat) : Int)) := by
          rw [hx, hpc9]
          ring
        exact mul_right_cancel₀ hdf h2
    rw [e1, e2, Bool.and_comm]
  · have hdf : ((p % 8 : Nat) : Int) - ((c % 8 : Nat) : Int) ≠ 0 := by omega
    have hpc7 : (p : Int) - (c : Int) =
        -7 * (((p % 8 : Nat) : Int) - ((c % 8 : Nat) : Int)) := by omega
    rw [(slope_on_diag c hc p hp hpc).2 hdr]
    have h7 := feq_val7_char (k + 63 - c) hA (k % 8 + 7 - c % 8) hE
    rw [hAv, hEv] at h7
    rw [hkslope, h7]
    have e2 : (decide ((((k + 63 - c : Nat) : Nat) : Int) ≠ 63)) = (decide (k ≠ c)) := by
      rw [decide_eq_decide]
      constructor <;> intro hx <;> omega
    have e1 : (decide ((k : Int) - (c : Int) =
          -7 * (((k % 8 : Nat) : Int) - ((c % 8 : Nat) : Int)))) =
        (decide (((k : Int) - (c : Int)) * (((p % 8 : Nat) : Int) - ((c % 8 : Nat) : Int)) =
          ((p : Int) - (c : Int)) * (((k % 8 : Nat) : Int) - ((c % 8 : Nat) : Int)))) := by
      rw [decide_eq_decide]
      constructor
      · intro hx
        rw [hx, hpc7]
        ring
      · intro hx
        have h2 : (((k : Int) - (c : Int))) * (((p % 8 : Nat) : Int) - ((c % 8 : Nat) : Int)) =
            (-7 * (((k % 8 : Nat) : Int) - ((c % 8 : Nat) : Int))) *
              (((p % 8 : Nat) : Int) - ((c % 8 : Nat) : Int)) := by
          rw [hx, hpc7]
          ring
        exact mul_right_cancel₀ hdf h2
    rw [e1, e2, Bool.and_comm]

/-- A piece newly marked by one step of the diagonal pin loop is a
magic-attack square of the slider not holding an opposing piece, lies among
the king's diagonal attack squares, holds one of our pieces, and passes the
float slope test. -/
theorem pinDiag_mark_shape {b : Board} {ad kidx kD ap : Nat} {st : List Move × Nat} {c p : Nat}
    (h : consistentB b = true)
    (hm : ((pinDiagStep b ad kidx kD ap st c).2).testBit p = true) :
    st.2.testBit p = true ∨
    ((CalculateBishopMoveBitboard c ap).testBit p = true ∧
     ((b.bbs (oppColor b.Colortomove)).BAll).testBit p = false ∧
     kD.testBit p = true ∧
     ((b.bbs b.Colortomove).BAll).testBit p = true ∧
     F32.feq (slopeF32 (lowestSetBit (CalculateBishopMoveBitboard c ap &&&
         compl64 ((b.bbs (oppColor b.Colortomove)).BAll) &&& kD &&&
         ((b.bbs b.Colortomove).BAll))) c)
       (slopeF32 kidx c) = true) := by
  unfold pinDiagStep at hm
  lift_lets at hm
  extract_lets a1 a2 a3 a4 a5 a6 a7 a8 at hm
  split_ifs at hm with c1 c2 c3 c4 c5 c6 c7
  all_goals try exact Or.inl hm
  all_goals
    (have key : (st.2 ||| a4).testBit p = true := hm
     rw [Nat.testBit_or] at key
     simp only [Bool.or_eq_true] at key
     rcases key with hst | hp4
     · exact Or.inl hst
     · have hAllU : a1.BAll < U64 :=
         (okB_parts (consistent_bbs_ok h b.Colortomove)).2.2.2.2.2.2.2.1
       have hp64 : p < 64 := testBit_lt_64 (and_lt_U64 _ hAllU) hp4
       have h4 : (((CalculateBishopMoveBitboard c ap &&& compl64 a2.BAll) &&& kD) &&&
           a1.BAll).testBit p = true := hp4
       simp only [Nat.testBit_and, Bool.and_eq_true] at h4
       obtain ⟨⟨⟨hCalc, hcompl⟩, hkD2⟩, hAll⟩ := h4
       have hopp : ((b.bbs (oppColor b.Colortomove)).BAll).testBit p = false := by
         have hc2 : (compl64 a2.BAll).testBit p = true := hcompl
         rw [testBit_compl64] at hc2
         cases hb2 : (a2.BAll).testBit p
         · rfl
         · rw [hb2] at hc2
           simp [hp64] at hc2
       have hfeq : F32.feq (slopeF32 a5 c) (slopeF32 kidx c) = true := by
         cases hx : F32.feq (slopeF32 a5 c) (slopeF32 kidx c)
         · exact absurd (by simp [hx]) c2
         · rfl
       exact Or.inr ⟨hCalc, hopp, hkD2, hAll, hfeq⟩)

end Dragontooth

namespace Dragontooth
open ColorT CastleRightsT Piece

/-- C6: the float32 slope comparison used by the diagonal pin detector is
exact integer diagonal collinearity whenever the candidate lies on a true
diagonal of the slider (no square triple in that domain is misclassified by
rounding); however a piece is marked diagonally pinned only when it is a
magic-attack square of both the slider and the king, i.e. when the diagonal
between them is unobstructed, not for bare collinearity-with-betweenness; a
genuinely pinned pawn, for example, is marked. -/
theorem claim_C6 :
    (∀ (c : Nat), c < 64 → ∀ (p : Nat), p < 64 → ∀ (k : Nat), k < 64 → p ≠ c →
      ((((p / 8 : Nat) : Int) - ((c / 8 : Nat) : Int)).natAbs =
        (((p % 8 : Nat) : Int) - ((c % 8 : Nat) : Int)).natAbs) →
      F32.feq (slopeF32 p c) (slopeF32 k c) =
        (decide (k ≠ c) &&
         decide (((k : Int) - (c : Int)) * (((p % 8 : Nat) : Int) - ((c % 8 : Nat) : Int)) =
           ((p : Int) - (c : Int)) * (((k % 8 : Nat) : Int) - ((c % 8 : Nat) : Int))))) ∧
    (∀ (b : Board) (ad kidx kD ap : Nat) (st : List Move × Nat) (c p : Nat),
      consistentB b = true →
      ((pinDiagStep b ad kidx kD ap st c).2).testBit p = true →
      st.2.testBit p = true ∨
      ((CalculateBishopMoveBitboard c ap).testBit p = true ∧
       ((b.bbs (oppColor b.Colortomove)).BAll).testBit p = false ∧
       kD.testBit p = true ∧
       ((b.bbs b.Colortomove).BAll).testBit p = true ∧
       F32.feq (slopeF32 (lowestSetBit (CalculateBishopMoveBitboard c ap &&&
           compl64 ((b.bbs (oppColor b.Colortomove)).BAll) &&& kD &&&
           ((b.bbs b.Colortomove).BAll))) c)
         (slopeF32 kidx c) = true)) ∧
    (generatePinnedMoves diagPinEpBoard everything).2.testBit 36 = true :=
  ⟨slope_feq_exact,
   fun _ _ _ _ _ _ _ _ h hm => pinDiag_mark_shape h hm,
   by decide⟩

/-- C6 counterexample: in a consistent position with the white king on a1,
a black bishop on d4 and white pawns on b2 and c3, the king, the pawn c3
and the bishop are diagonally collinear with the pawn strictly between,
yet the pawn is not marked pinned (the other pawn blocks the diagonal), so
classification is not determined by the 64x64x64 square geometry alone. -/
theorem claim_C6_counterexample :
    consistentB diagBlockBoard = true ∧
    lowestSetBit ((diagBlockBoard.bbs diagBlockBoard.Colortomove).Kings) = 0 ∧
    (diagBlockBoard.bbs (oppColor diagBlockBoard.Colortomove)).Bishops.testBit 27 = true ∧
    ((diagBlockBoard.bbs diagBlockBoard.Colortomove).BAll).testBit 18 = true ∧
    (((18 / 8 : Nat) : Int) - ((27 / 8 : Nat) : Int)).natAbs =
      (((18 % 8 : Nat) : Int) - ((27 % 8 : Nat) : Int)).natAbs ∧
    (((0 / 8 : Nat) : Int) - ((27 / 8 : Nat) : Int)).natAbs =
      (((0 % 8 : Nat) : Int) - ((27 % 8 : Nat) : Int)).natAbs ∧
    ((0 : Nat) < 18 ∧ (18 : Nat) < 27) ∧
    (generatePinnedMoves diagBlockBoard everything).2.testBit 18 = false := by
  decide

/-- C6 witness: the slope comparison at slider d4, piece c3, king a1
evaluates to true, matching exact collinearity. -/
theorem claim_C6_witness :
    F32.feq (slopeF32 18 27) (slopeF32 0 27) =
      (decide ((0 : Nat) ≠ 27) &&
       decide ((((0 : Nat) : Int) - ((27 : Nat) : Int)) *
           (((18 % 8 : Nat) : Int) - ((27 % 8 : Nat) : Int)) =
         (((18 : Nat) : Int) - ((27 : Nat) : Int)) *
           (((0 % 8 : Nat) : Int) - ((27 % 8 : Nat) : Int)))) :=
  claim_C6.1 27 (by decide) 18 (by decide) 0 (by decide) (by decide) (by decide)

end Dragontooth

namespace Dragontooth
open ColorT CastleRightsT Piece

/-! ## Claim C1 infrastructure: extensionality and frame lemmas -/

theorem Board.ext10 {b1 b2 : Board} (h1 : b1.Colortomove = b2.Colortomove)
    (h2 : b1.enpassant = b2.enpassant) (h3 : b1.Halfmoveclock = b2.Halfmoveclock)
    (h4 : b1.castleW = b2.castleW) (h5 : b1.castleB = b2.castleB)
    (h6 : b1.Fullmoveno = b2.Fullmoveno) (h7 : b1.bbW = b2.bbW) (h8 : b1.bbB = b2.bbB)
    (h9 : b1.pieces = b2.pieces) (h10 : b1.hash = b2.hash) : b1 = b2 := by
  cases b1
  cases b2
  simp_all

theorem Bitboards.ext_get {bb1 bb2 : Bitboards} (h : ∀ q, bb1.get q = bb2.get q) :
    bb1 = bb2 := by
  cases bb1
  cases bb2
  have h0 := h Nothing
  have h1 := h Pawn
  have h2 := h Knight
  have h3 := h Bishop
  have h4 := h Rook
  have h5 := h Queen
  have h6 := h King
  have h7 := h AllPieces
  simp only [Bitboards.get] at h0 h1 h2 h3 h4 h5 h6 h7
  simp_all

theorem List.set_getD_self {l : List Piece} {n : Nat} (h : n < l.length) (d : Piece) :
    l.set n (l.getD n d) = l := by
  apply List.ext_getElem
  · simp
  · intro i h1 h2
    rw [List.getElem_set]
    split_ifs with he
    · subst he
      rw [List.getD_eq_getElem l d h]
    · rfl

@[simp] theorem Board.Colortomove_applyHalfmoveClock (b : Board) (m : Move) (p : Piece) :
    (applyHalfmoveClock b m p).Colortomove = b.Colortomove := by
  unfold applyHalfmoveClock
  split_ifs <;> rfl

@[simp] theorem Board.enpassant_applyHalfmoveClock (b : Board) (m : Move) (p : Piece) :
    (applyHalfmoveClock b m p).enpassant = b.enpassant := by
  unfold applyHalfmoveClock
  split_ifs <;> rfl

@[simp] theorem Board.Fullmoveno_applyHalfmoveClock (b : Board) (m : Move) (p : Piece) :
    (applyHalfmoveClock b m p).Fullmoveno = b.Fullmoveno := by
  unfold applyHalfmoveClock
  split_ifs <;> rfl

@[simp] theorem Board.bbs_applyHalfmoveClock (b : Board) (m : Move) (p : Piece) (c : ColorT) :
    (applyHalfmoveClock b m p).bbs c = b.bbs c := by
  unfold applyHalfmoveClock
  split_ifs <;> cases c <;> rfl

@[simp] theorem Board.pieces_applyHalfmoveClock (b : Board) (m : Move) (p : Piece) :
    (applyHalfmoveClock b m p).pieces = b.pieces := by
  unfold applyHalfmoveClock
  split_ifs <;> rfl

@[simp] theorem Board.Colortomove_applyEpSquare (b : Board) (p : Piece) (f t : Nat) :
    (applyEpSquare b p f t).Colortomove = b.Colortomove := by
  unfold applyEpSquare
  lift_lets
  extract_lets d
  split_ifs <;> rfl

@[simp] theorem Board.Halfmoveclock_applyEpSquare (b : Board) (p : Piece) (f t : Nat) :
    (applyEpSquare b p f t).Halfmoveclock = b.Halfmoveclock := by
  unfold applyEpSquare
  lift_lets
  extract_lets d
  split_ifs <;> rfl

@[simp] theorem Board.Fullmoveno_applyEpSquare (b : Board) (p : Piece) (f t : Nat) :
    (applyEpSquare b p f t).Fullmoveno = b.Fullmoveno := by
  unfold applyEpSquare
  lift_lets
  extract_lets d
  split_ifs <;> rfl

@[simp] theorem Board.bbs_applyEpSquare (b : Board) (p : Piece) (f t : Nat) (c : ColorT) :
    (applyEpSquare b p f t).bbs c = b.bbs c := by
  unfold applyEpSquare
  lift_lets
  extract_lets d
  split_ifs <;> cases c <;> rfl

@[simp] theorem Board.pieces_applyEpSquare (b : Board) (p : Piece) (f t : Nat) :
    (applyEpSquare b p f t).pieces = b.pieces := by
  unfold applyEpSquare
  lift_lets
  extract_lets d
  split_ifs <;> rfl

@[simp] theorem Board.hash_applyEpSquare (b : Board) (p : Piece) (f t : Nat) :
    (applyEpSquare b p f t).hash = b.hash := by
  unfold applyEpSquare
  lift_lets
  extract_lets d
  split_ifs <;> rfl

@[simp] theorem Board.bbs_stripKingRights (b : Board) (c : ColorT) :
    (stripKingRights b).bbs c = b.bbs c := by
  unfold stripKingRights
  lift_lets
  extract_lets x
  have hx : x.bbs c = b.bbs c := by
    unfold_let x
    split_ifs <;> simp [Board.flipOurCastleRights]
  split_ifs <;> simp [Board.flipOurCastleRights, hx]

@[simp] theorem Board.bbs_stripRookRights (b : Board) (fb : Nat) (c : ColorT) :
    (stripRookRights b fb).bbs c = b.bbs c := by
  unfold stripRookRights
  lift_lets
  extract_lets y
  split_ifs <;> simp [Board.flipOurCastleRights]

@[simp] theorem Board.bbs_stripCapturedRookRights (b : Board) (t u : Nat) (c : ColorT) :
    (stripCapturedRookRights b t u).bbs c = b.bbs c := by
  unfold stripCapturedRookRights
  lift_lets
  extract_lets y
  split_ifs <;> simp [Board.flipOppCastleRights]

@[simp] theorem Board.Colortomove_removeCapturedPiece (b : Board) (p : Piece) (t : Nat) :
    (removeCapturedPiece b p t).Colortomove = b.Colortomove := by
  unfold removeCapturedPiece
  simp

@[simp] theorem Board.enpassant_removeCapturedPiece (b : Board) (p : Piece) (t : Nat) :
    (removeCapturedPiece b p t).enpassant = b.enpassant := by
  unfold removeCapturedPiece
  simp

@[simp] theorem Board.Halfmoveclock_removeCapturedPiece (b : Board) (p : Piece) (t : Nat) :
    (removeCapturedPiece b p t).Halfmoveclock = b.Halfmoveclock := by
  unfold removeCapturedPiece
  simp

@[simp] theorem Board.Fullmoveno_removeCapturedPiece (b : Board) (p : Piece) (t : Nat) :
    (removeCapturedPiece b p t).Fullmoveno = b.Fullmoveno := by
  unfold removeCapturedPiece
  simp

@[simp] theorem Board.pieces_removeCapturedPiece (b : Board) (p : Piece) (t : Nat) :
    (removeCapturedPiece b p t).pieces = b.pieces.set t Nothing := by
  unfold removeCapturedPiece Board.removePieceAt
  simp [Board.setPieceAt]

@[simp] theorem Board.Colortomove_applyPieceMove (b : Board) (p q : Piece) (f t : Nat) :
    (applyPieceMove b p q f t).Colortomove = b.Colortomove := by
  unfold applyPieceMove Board.movePieceAt
  simp

@[simp] theorem Board.enpassant_applyPieceMove (b : Board) (p q : Piece) (f t : Nat) :
    (applyPieceMove b p q f t).enpassant = b.enpassant := by
  unfold applyPieceMove Board.movePieceAt
  simp

@[simp] theorem Board.Halfmoveclock_applyPieceMove (b : Board) (p q : Piece) (f t : Nat) :
    (applyPieceMove b p q f t).Halfmoveclock = b.Halfmoveclock := by
  unfold applyPieceMove Board.movePieceAt
  simp

@[simp] theorem Board.Fullmoveno_applyPieceMove (b : Board) (p q : Piece) (f t : Nat) :
    (applyPieceMove b p q f t).Fullmoveno = b.Fullmoveno := by
  unfold applyPieceMove Board.movePieceAt
  simp

@[simp] theorem Board.pieces_applyPieceMove (b : Board) (p q : Piece) (f t : Nat) :
    (applyPieceMove b p q f t).pieces = (b.pieces.set f Nothing).set t q := by
  unfold applyPieceMove Board.movePieceAt Board.removePieceAt Board.addPieceAt
  simp [Board.setPieceAt]

@[simp] theorem Board.pieces_setPieceAt (b : Board) (i : Nat) (p : Piece) :
    (b.setPieceAt i p).pieces = b.pieces.set i p := rfl

@[simp] theorem Board.bbs_setBb (b : Board) (c : ColorT) (p : Piece) (v : Nat) (c' : ColorT) :
    (b.setBb c p v).bbs c' = if c = c' then (b.bbs c).set p v else b.bbs c' := by
  unfold Board.setBb
  rw [Board.bbs_setBbs]

theorem removeCapturedPiece_bbs_our {b : Board} {p : Piece} {t : Nat} {c' : ColorT}
    (hc : c' ≠ oppColor b.Colortomove) :
    (removeCapturedPiece b p t).bbs c' = b.bbs c' := by
  unfold removeCapturedPiece Board.removePieceAt
  have h1 : ∀ (x : Board) (h : Nat), ({ x with hash := h } : Board).bbs c' = x.bbs c' :=
    fun x h => rfl
  have h2 : ∀ (x : Board) (i : Nat) (z : Piece), (x.setPieceAt i z).bbs c' = x.bbs c' :=
    fun x i z => rfl
  simp only [h1, h2, Board.bbs_setBb]
  simp [Ne.symm hc]

theorem applyPieceMove_bbs_opp {b : Board} {p q : Piece} {f t : Nat} {c' : ColorT}
    (hc : c' ≠ b.Colortomove) :
    (applyPieceMove b p q f t).bbs c' = b.bbs c' := by
  unfold applyPieceMove Board.movePieceAt Board.removePieceAt Board.addPieceAt
  have h1 : ∀ (x : Board) (h : Nat), ({ x with hash := h } : Board).bbs c' = x.bbs c' :=
    fun x h => rfl
  have h2 : ∀ (x : Board) (i : Nat) (z : Piece), (x.setPieceAt i z).bbs c' = x.bbs c' :=
    fun x i z => rfl
  simp only [h1, h2, Board.bbs_setBb]
  simp [Ne.symm hc]

theorem removeCapturedPiece_bb_untouched {b : Board} {p : Piece} {t : Nat} {c' : ColorT}
    {s : Piece} (hs1 : s ≠ p) (hs3 : s ≠ AllPieces) :
    (removeCapturedPiece b p t).bb c' s = b.bb c' s := by
  unfold removeCapturedPiece Board.removePieceAt
  have h1 : ∀ (x : Board) (h : Nat), ({ x with hash := h } : Board).bb c' s = x.bb c' s :=
    fun x h => rfl
  have h2 : ∀ (x : Board) (i : Nat) (z : Piece), (x.setPieceAt i z).bb c' s = x.bb c' s :=
    fun x i z => rfl
  simp only [h1, h2, Board.bb_setBb]
  simp [Ne.symm hs1, Ne.symm hs3]

theorem applyPieceMove_bb_untouched {b : Board} {p q : Piece} {f t : Nat} {c' : ColorT}
    {s : Piece} (hs1 : s ≠ p) (hs2 : s ≠ q) (hs3 : s ≠ AllPieces) :
    (applyPieceMove b p q f t).bb c' s = b.bb c' s := by
  unfold applyPieceMove Board.movePieceAt Board.removePieceAt Board.addPieceAt
  have h1 : ∀ (x : Board) (h : Nat), ({ x with hash := h } : Board).bb c' s = x.bb c' s :=
    fun x h => rfl
  have h2 : ∀ (x : Board) (i : Nat) (z : Piece), (x.setPieceAt i z).bb c' s = x.bb c' s :=
    fun x i z => rfl
  simp only [h1, h2, Board.bb_setBb]
  simp [Ne.symm hs1, Ne.symm hs2, Ne.symm hs3]

theorem oppColor_oppColor (c : ColorT) : oppColor (oppColor c) = c := by
  cases c <;> rfl

theorem oppColor_ne (c : ColorT) : c ≠ oppColor c := by
  cases c <;> decide

set_option maxHeartbeats 1000000 in
theorem Restore_writes {B b : Board} {bs : BoardSaveT}
    (hc : B.Colortomove = oppColor b.Colortomove)
    (hF : b.Fullmoveno < 65536)
    (hBF : B.Fullmoveno = (b.Fullmoveno + colorVal b.Colortomove) % 65536)
    (hep : bs.Enpassant = b.enpassant) (hhm : bs.Halfmoveclock = b.Halfmoveclock)
    (hcw : bs.CastlerightsW = b.castleW) (hcb : bs.CastlerightsB = b.castleB)
    (hhash : bs.Hash = b.hash)
    (hourbbs : ((((B.bbs b.Colortomove).set bs.ToPiece bs.ToBb).set bs.FromPiece
        bs.FromBb).set Rook bs.OurRookBb).set AllPieces bs.OurAllBb = b.bbs b.Colortomove)
    (hoppbbs : ((B.bbs (oppColor b.Colortomove)).set bs.CapturePiece bs.CaptureBb).set
        AllPieces bs.OppAllBb = b.bbs (oppColor b.Colortomove))
    (hpieces : ∀ q3, q3 = ((B.pieces.set bs.ToLoc Nothing).set bs.CaptureLoc
        bs.CapturePiece).set bs.FromLoc bs.FromPiece →
      (q3.set bs.OurRookTo Nothing).set bs.OurRookFrom (q3.getD bs.OurRookTo Nothing) =
        b.pieces) :
    Restore B bs = b := by
  unfold Restore
  lift_lets
  extract_lets oppC ourC rb1 rb2 rb3 rb4 rb5 maybeRook rb6 rb7
  have hoppC : oppC = oppColor b.Colortomove := hc
  have hourC : ourC = b.Colortomove := by
    show oppColor oppC = _
    rw [hoppC, oppColor_oppColor]
  have hhb : ∀ (x : Board) (h : Nat) (c' : ColorT),
      ({ x with hash := h } : Board).bbs c' = x.bbs c' := fun _ _ _ => rfl
  have hx1 : ∀ (x : Board) (h : Nat), ({ x with hash := h } : Board).Colortomove =
      x.Colortomove := fun _ _ => rfl
  have hx2 : ∀ (x : Board) (h : Nat), ({ x with hash := h } : Board).enpassant =
      x.enpassant := fun _ _ => rfl
  have hx3 : ∀ (x : Board) (h : Nat), ({ x with hash := h } : Board).Halfmoveclock =
      x.Halfmoveclock := fun _ _ => rfl
  have hx4 : ∀ (x : Board) (h : Nat), ({ x with hash := h } : Board).castleW =
      x.castleW := fun _ _ => rfl
  have hx5 : ∀ (x : Board) (h : Nat), ({ x with hash := h } : Board).castleB =
      x.castleB := fun _ _ => rfl
  have hx6 : ∀ (x : Board) (h : Nat), ({ x with hash := h } : Board).Fullmoveno =
      x.Fullmoveno := fun _ _ => rfl
  apply Board.ext10
  · unfold_let rb7 rb6 rb5 rb4 rb3 rb2 rb1
    simp only [hx1, Board.Colortomove_setBb, Board.Colortomove_setPieceAt]
    exact hourC
  · unfold_let rb7 rb6 rb5 rb4 rb3 rb2 rb1
    simp only [hx2, Board.enpassant_setBb, Board.enpassant_setPieceAt]
    exact hep
  · unfold_let rb7 rb6 rb5 rb4 rb3 rb2 rb1
    simp only [hx3, Board.Halfmoveclock_setBb, Board.Halfmoveclock_setPieceAt]
    exact hhm
  · unfold_let rb7 rb6 rb5 rb4 rb3 rb2 rb1
    simp only [hx4, Board.castleW_setBb, Board.castleW_setPieceAt]
    exact hcw
  · unfold_let rb7 rb6 rb5 rb4 rb3 rb2 rb1
    simp only [hx5, Board.castleB_setBb, Board.castleB_setPieceAt]
    exact hcb
  · unfold_let rb7 rb6 rb5 rb4 rb3 rb2 rb1
    simp only [hx6, Board.Fullmoveno_setBb, Board.Fullmoveno_setPieceAt]
    show (B.Fullmoveno + 65536 - colorVal ourC) % 65536 = b.Fullmoveno
    rw [hBF, hourC]
    cases b.Colortomove <;> simp only [colorVal] <;> omega
  · show ({ rb7 with hash := bs.Hash } : Board).bbs White = b.bbs White
    cases hcol : b.Colortomove
    · rw [hcol] at hourbbs
      unfold_let rb7 rb6 rb5 rb4 rb3 rb2 rb1
      rw [show ourC = White from hourC.trans hcol, show oppC = Black from by
        rw [hoppC, hcol]; rfl]
      simp only [hhb, Board.bbs_setBb, Board.bbs_setPieceAt]
      exact hourbbs
    · rw [hcol] at hoppbbs
      simp only [show oppColor Black = White from rfl] at hoppbbs
      unfold_let rb7 rb6 rb5 rb4 rb3 rb2 rb1
      rw [show ourC = Black from hourC.trans hcol, show oppC = White from by
        rw [hoppC, hcol]; rfl]
      simp only [hhb, Board.bbs_setBb, Board.bbs_setPieceAt]
      exact hoppbbs
  · show ({ rb7 with hash := bs.Hash } : Board).bbs Black = b.bbs Black
    cases hcol : b.Colortomove
    · rw [hcol] at hoppbbs
      simp only [show oppColor White = Black from rfl] at hoppbbs
      unfold_let rb7 rb6 rb5 rb4 rb3 rb2 rb1
      rw [show ourC = White from hourC.trans hcol, show oppC = Black from by
        rw [hoppC, hcol]; rfl]
      simp only [hhb, Board.bbs_setBb, Board.bbs_setPieceAt]
      exact hoppbbs
    · rw [hcol] at hourbbs
      unfold_let rb7 rb6 rb5 rb4 rb3 rb2 rb1
      rw [show ourC = Black from hourC.trans hcol, show oppC = White from by
        rw [hoppC, hcol]; rfl]
      simp only [hhb, Board.bbs_setBb, Board.bbs_setPieceAt]
      exact hourbbs
  · unfold_let maybeRook rb7 rb6 rb5 rb4 rb3 rb2 rb1
    have hPA : ∀ (x : Board) (i : Nat), x.PieceAt i = x.pieces.getD i Nothing :=
      fun _ _ => rfl
    simp only [hPA, Board.pieces_setBb, Board.pieces_setPieceAt]
    apply hpieces
    rfl
  · show bs.Hash = b.hash
    exact hhash

set_option maxHeartbeats 2000000 in
theorem Restore_MakeSpecialMove_normal {b : Board} {m : Move}
    (hcs : castleStatusOf (b.PieceAt m.Src) m.Src m.To = 0)
    (hep : (b.PieceAt m.Src == Pawn && m.To == b.enpassant && b.enpassant != 0) = false)
    (hF : b.Fullmoveno < 65536)
    (hN : (b.bbs (oppColor b.Colortomove)).BNothing = 0)
    (hlen : b.pieces.length = 64) :
    Restore (MakeSpecialMove b m).1 (MakeSpecialMove b m).2 = b := by
  unfold MakeSpecialMove
  lift_lets
  extract_lets ourCol oppCol epDelta fromLoc toLoc fromBitboard toBitboard pieceType b1 b2
    cs oldRookLoc newRookLoc b3 b4 b5 oldEp isEp epLoc b6 b7 promoted captured b8 b10 b11
    b12 b13 bs
  have hcs0 : cs = 0 := hcs
  have hb5 : b5 = b4 := by
    show applyCastleRook b4 cs oldRookLoc newRookLoc = b4
    rw [hcs0]
    rfl
  have hb4c : b4.Colortomove = b.Colortomove := by
    unfold_let b4 b3 b2 b1
    split_ifs <;> simp
  have hb4ep : b4.enpassant = b.enpassant := by
    unfold_let b4 b3 b2 b1
    split_ifs <;> simp
  have hb4bbs : ∀ c', b4.bbs c' = b.bbs c' := by
    intro c'
    unfold_let b4 b3 b2 b1
    split_ifs <;>
      (simp only [Board.bbs_stripRookRights, Board.bbs_stripKingRights,
        Board.bbs_applyHalfmoveClock]
       cases c' <;> rfl)
  have hb4p : b4.pieces = b.pieces := by
    unfold_let b4 b3 b2 b1
    split_ifs <;> simp
  have hb4F : b4.Fullmoveno = (b.Fullmoveno + colorVal ourCol) % 65536 := by
    unfold_let b4 b3 b2 b1
    split_ifs <;> simp
  have hoep : oldEp = b.enpassant := by
    show b5.enpassant = b.enpassant
    rw [hb5, hb4ep]
  have hisEp : isEp = false := by
    show (pieceType == Pawn && toLoc == oldEp && oldEp != 0) = false
    rw [hoep]
    exact hep
  have hb6 : b6 = b5 := by
    show applyEpCapture b5 isEp epLoc = b5
    rw [hisEp]
    rfl
  have hb7bbs : ∀ c', b7.bbs c' = b.bbs c' := by
    intro c'
    show (applyEpSquare b6 pieceType fromLoc toLoc).bbs c' = _
    rw [Board.bbs_applyEpSquare, hb6, hb5, hb4bbs]
  have hb7p : b7.pieces = b.pieces := by
    show (applyEpSquare b6 pieceType fromLoc toLoc).pieces = _
    rw [Board.pieces_applyEpSquare, hb6, hb5, hb4p]
  have hb7c : b7.Colortomove = b.Colortomove := by
    show (applyEpSquare b6 pieceType fromLoc toLoc).Colortomove = _
    rw [Board.Colortomove_applyEpSquare, hb6, hb5, hb4c]
  have hb7F : b7.Fullmoveno = (b.Fullmoveno + colorVal ourCol) % 65536 := by
    show (applyEpSquare b6 pieceType fromLoc toLoc).Fullmoveno = _
    rw [Board.Fullmoveno_applyEpSquare, hb6, hb5, hb4F]
  have hcap : captured = b.PieceAt toLoc := by
    show b7.PieceAt toLoc = _
    show b7.pieces.getD toLoc Nothing = b.pieces.getD toLoc Nothing
    rw [hb7p]
  have hb7bb : ∀ c' s, b7.bb c' s = b.bb c' s := by
    intro c' s
    show (b7.bbs c').get s = (b.bbs c').get s
    rw [hb7bbs]
  have hb8c : b8.Colortomove = b.Colortomove := by
    unfold_let b8
    split_ifs <;> simp [hb7c]
  have hb10c : b10.Colortomove = b.Colortomove := by
    show (applyPieceMove b8 pieceType promoted fromLoc toLoc).Colortomove = _
    simp [hb8c]
  have hb11c : b11.Colortomove = b.Colortomove := by
    unfold_let b11
    split_ifs <;> simp [hb10c]
  have hb8F : b8.Fullmoveno = (b.Fullmoveno + colorVal ourCol) % 65536 := by
    unfold_let b8
    split_ifs <;> simp [hb7F]
  have hb11F : b11.Fullmoveno = (b.Fullmoveno + colorVal ourCol) % 65536 := by
    unfold_let b11 b10
    split_ifs <;>
      simp only [Board.Fullmoveno_stripCapturedRookRights, Board.Fullmoveno_applyPieceMove,
        hb8F]
  have h1312 : ∀ c', b13.bbs c' = b11.bbs c' := by
    intro c'
    cases c' <;> rfl
  have hb11bbs : ∀ c', b11.bbs c' = b10.bbs c' := by
    intro c'
    unfold_let b11
    split_ifs <;> simp
  have h1312p : b13.pieces = b11.pieces := rfl
  have hb13p : b13.pieces = (b8.pieces.set fromLoc Nothing).set toLoc promoted := by
    rw [h1312p]
    unfold_let b11 b10
    split_ifs <;> simp
  have hb8our : b8.bbs b.Colortomove = b.bbs b.Colortomove := by
    unfold_let b8
    split_ifs with hcap2
    · rw [removeCapturedPiece_bbs_our (by rw [hb7c]; exact oppColor_ne b.Colortomove)]
      exact hb7bbs _
    · exact hb7bbs _
  have hneop : oppColor b.Colortomove ≠ b.Colortomove := (oppColor_ne b.Colortomove).symm
  show Restore b13 bs = b
  refine Restore_writes ?hc hF ?hBF rfl rfl rfl rfl rfl ?hour ?hopp ?hpieces
  case hc =>
    show oppColor b11.Colortomove = oppColor b.Colortomove
    rw [hb11c]
  case hBF =>
    show b11.Fullmoveno = _
    rw [hb11F]
  case hour =>
    apply Bitboards.ext_get
    intro q
    simp only [Bitboards.get_set]
    split_ifs with hq1 hq2 hq3 hq4
    · subst hq1
      rfl
    · subst hq2
      rfl
    · subst hq3
      rfl
    · subst hq4
      show b7.bb ourCol promoted = (b.bbs b.Colortomove).get bs.ToPiece
      rw [hb7bb]
      rfl
    · rw [h1312, hb11bbs]
      have h10 := @applyPieceMove_bb_untouched b8 pieceType promoted fromLoc toLoc
        b.Colortomove q (Ne.symm hq3) (Ne.symm hq4) (Ne.symm hq1)
      show (b10.bbs b.Colortomove).get q = _
      rw [show (b10.bbs b.Colortomove).get q = b10.bb b.Colortomove q from rfl, h10,
        show b8.bb b.Colortomove q = (b8.bbs b.Colortomove).get q from rfl, hb8our]
  case hopp =>
    by_cases hcapn : (captured != Nothing) = true
    · have hCP : bs.CapturePiece = captured := by
        show (if (captured != Nothing) = true then captured
          else if isEp = true then Pawn else Nothing) = captured
        rw [if_pos hcapn]
      have hCB : bs.CaptureBb = b7.bb oppCol captured := by
        show (if (captured != Nothing) = true then b7.bb oppCol captured
          else if isEp = true then b5.bb oppCol Pawn else 0) = _
        rw [if_pos hcapn]
      rw [hCP, hCB]
      apply Bitboards.ext_get
      intro q
      simp only [Bitboards.get_set]
      split_ifs with hq1 hq2
      · subst hq1
        rfl
      · subst hq2
        rw [hb7bb]
        rfl
      · rw [h1312, hb11bbs]
        have hob : oppColor b.Colortomove ≠ b8.Colortomove := by
          rw [hb8c]
          exact hneop
        show (b10.bbs (oppColor b.Colortomove)).get q = _
        rw [show b10.bbs (oppColor b.Colortomove) =
            (applyPieceMove b8 pieceType promoted fromLoc toLoc).bbs (oppColor b.Colortomove)
          from rfl]
        rw [applyPieceMove_bbs_opp hob]
        unfold_let b8
        rw [if_pos hcapn]
        have := @removeCapturedPiece_bb_untouched b7 captured toLoc
          (oppColor b.Colortomove) q (Ne.symm hq2) (Ne.symm hq1)
        rw [show ((removeCapturedPiece b7 captured toLoc).bbs (oppColor b.Colortomove)).get q =
            (removeCapturedPiece b7 captured toLoc).bb (oppColor b.Colortomove) q from rfl,
          this, hb7bb]
        rfl
    · have hCP : bs.CapturePiece = Nothing := by
        show (if (captured != Nothing) = true then captured
          else if isEp = true then Pawn else Nothing) = Nothing
        rw [if_neg hcapn, hisEp]
        rfl
      have hCB : bs.CaptureBb = 0 := by
        show (if (captured != Nothing) = true then b7.bb oppCol captured
          else if isEp = true then b5.bb oppCol Pawn else 0) = 0
        rw [if_neg hcapn, hisEp]
        rfl
      have hb8 : b8 = b7 := by
        show (if (captured != Nothing) = true then removeCapturedPiece b7 captured toLoc
          else b7) = b7
        rw [if_neg hcapn]
      rw [hCP, hCB]
      apply Bitboards.ext_get
      intro q
      simp only [Bitboards.get_set]
      split_ifs with hq1 hq2
      · subst hq1
        rfl
      · subst hq2
        show (0 : Nat) = (b.bbs (oppColor b.Colortomove)).get Nothing
        show (0 : Nat) = (b.bbs (oppColor b.Colortomove)).BNothing
        rw [hN]
      · rw [h1312, hb11bbs]
        have hob : oppColor b.Colortomove ≠ b8.Colortomove := by
          rw [hb8c]
          exact hneop
        show (b10.bbs (oppColor b.Colortomove)).get q = _
        rw [show b10.bbs (oppColor b.Colortomove) =
            (applyPieceMove b8 pieceType promoted fromLoc toLoc).bbs (oppColor b.Colortomove)
          from rfl]
        rw [applyPieceMove_bbs_opp hob, hb8, hb7bbs]
  case hpieces =>
    intro q3 hq3
    have hRT : bs.OurRookTo = 0 := by
      show (if (cs != 0) = true then newRookLoc else 0) = 0
      rw [hcs0]
      rfl
    have hRF : bs.OurRookFrom = 0 := by
      show (if (cs != 0) = true then oldRookLoc else 0) = 0
      rw [hcs0]
      rfl
    have hCL : bs.CaptureLoc = toLoc := by
      show (if isEp = true then epLoc else toLoc) = toLoc
      rw [hisEp]
      rfl
    have hCPval : bs.CapturePiece = b.PieceAt toLoc := by
      show (if (captured != Nothing) = true then captured
        else if isEp = true then Pawn else Nothing) = _
      rw [hisEp]
      split_ifs with hcap2 hfalse
      · exact hcap
      · exact absurd hfalse (by simp)
      · simp only [bne_iff_ne, ne_eq, not_not] at hcap2
        rw [← hcap2]
        exact hcap
    rw [hCL, hCPval] at hq3
    by_cases hcapn : (captured != Nothing) = true
    · have hb8p : b8.pieces = b.pieces.set toLoc Nothing := by
        unfold_let b8
        rw [if_pos hcapn]
        simp [hb7p]
      have hq3len : q3.length = 64 := by
        rw [hq3]
        simp only [List.length_set]
        show b13.pieces.length = 64
        rw [hb13p, hb8p]
        simp [hlen]
      rw [hRT, hRF, List.set_set, List.set_getD_self (by omega) Nothing]
      rw [hq3, hb13p, hb8p]
      apply List.ext_getElem
      · simp [hlen]
      · intro i h1 h2
        simp only [List.getElem_set]
        split_ifs with c1 c2 <;> try rfl
        · subst c1
          show b.PieceAt fromLoc = _
          show b.pieces.getD fromLoc Nothing = _
          rw [List.getD_eq_getElem b.pieces Nothing (by simpa using h2)]
        · subst c2
          show b.PieceAt toLoc = _
          show b.pieces.getD toLoc Nothing = _
          rw [List.getD_eq_getElem b.pieces Nothing (by simpa using h2)]
    · have hb8p : b8.pieces = b.pieces := by
        unfold_let b8
        rw [if_neg hcapn]
        exact hb7p
      have hq3len : q3.length = 64 := by
        rw [hq3]
        simp only [List.length_set]
        show b13.pieces.length = 64
        rw [hb13p, hb8p]
        simp [hlen]
      rw [hRT, hRF, List.set_set, List.set_getD_self (by omega) Nothing]
      rw [hq3, hb13p, hb8p]
      apply List.ext_getElem
      · simp [hlen]
      · intro i h1 h2
        simp only [List.getElem_set]
        split_ifs with c1 c2 <;> try rfl
        · subst c1
          show b.PieceAt fromLoc = _
          show b.pieces.getD fromLoc Nothing = _
          rw [List.getD_eq_getElem b.pieces Nothing (by simpa using h2)]
        · subst c2
          show b.PieceAt toLoc = _
          show b.pieces.getD toLoc Nothing = _
          rw [List.getD_eq_getElem b.pieces Nothing (by simpa using h2)]

end Dragontooth

namespace Dragontooth
open ColorT CastleRightsT Piece

@[simp] theorem Board.Colortomove_applyEpCapture (b : Board) (e : Bool) (l : Nat) :
    (applyEpCapture b e l).Colortomove = b.Colortomove := by
  unfold applyEpCapture Board.removePieceAt
  split_ifs <;> simp

@[simp] theorem Board.enpassant_applyEpCapture (b : Board) (e : Bool) (l : Nat) :
    (applyEpCapture b e l).enpassant = b.enpassant := by
  unfold applyEpCapture Board.removePieceAt
  split_ifs <;> simp

@[simp] theorem Board.Fullmoveno_applyEpCapture (b : Board) (e : Bool) (l : Nat) :
    (applyEpCapture b e l).Fullmoveno = b.Fullmoveno := by
  unfold applyEpCapture Board.removePieceAt
  split_ifs <;> simp

theorem Board.pieces_applyEpCapture_true (b : Board) (l : Nat) :
    (applyEpCapture b true l).pieces = b.pieces.set l Nothing := by
  unfold applyEpCapture Board.removePieceAt
  simp [Board.setPieceAt]

theorem applyEpCapture_bbs_our {b : Board} {e : Bool} {l : Nat} {c' : ColorT}
    (hc : c' ≠ oppColor b.Colortomove) :
    (applyEpCapture b e l).bbs c' = b.bbs c' := by
  unfold applyEpCapture Board.removePieceAt
  have h1 : ∀ (x : Board) (h : Nat), ({ x with hash := h } : Board).bbs c' = x.bbs c' :=
    fun x h => rfl
  have h2 : ∀ (x : Board) (i : Nat) (z : Piece), (x.setPieceAt i z).bbs c' = x.bbs c' :=
    fun x i z => rfl
  split_ifs
  · simp only [h1, h2, Board.bbs_setBb]
    simp [Ne.symm hc]
  · rfl

theorem applyEpCapture_bb_untouched {b : Board} {e : Bool} {l : Nat} {c' : ColorT}
    {s : Piece} (hs1 : s ≠ Pawn) (hs3 : s ≠ AllPieces) :
    (applyEpCapture b e l).bb c' s = b.bb c' s := by
  unfold applyEpCapture Board.removePieceAt
  have h1 : ∀ (x : Board) (h : Nat), ({ x with hash := h } : Board).bb c' s = x.bb c' s :=
    fun x h => rfl
  have h2 : ∀ (x : Board) (i : Nat) (z : Piece), (x.setPieceAt i z).bb c' s = x.bb c' s :=
    fun x i z => rfl
  split_ifs
  · simp only [h1, h2, Board.bb_setBb]
    simp [Ne.symm hs1, Ne.symm hs3]
  · rfl

theorem Board.PieceAt_hashUpdate (x : Board) (h : Nat) (i : Nat) :
    ({ x with hash := h } : Board).PieceAt i = x.PieceAt i := rfl

set_option maxHeartbeats 2000000 in
theorem Restore_MakeSpecialMove_ep {b : Board} {m : Move}
    (hpt : b.PieceAt m.Src = Pawn)
    (hise : m.To = b.enpassant)
    (hep0 : b.enpassant ≠ 0)
    (hto : b.PieceAt m.To = Nothing)
    (hepl : b.PieceAt (u8ofInt ((b.enpassant : Int) + epDeltas b.Colortomove)) = Pawn)
    (hF : b.Fullmoveno < 65536)
    (hlen : b.pieces.length = 64) :
    Restore (MakeSpecialMove b m).1 (MakeSpecialMove b m).2 = b := by
  unfold MakeSpecialMove
  lift_lets
  extract_lets ourCol oppCol epDelta fromLoc toLoc fromBitboard toBitboard pieceType b1 b2
    cs oldRookLoc newRookLoc b3 b4 b5 oldEp isEp epLoc b6 b7 promoted captured b8 b10 b11
    b12 b13 bs
  have hpt' : pieceType = Pawn := hpt
  have hcs0 : cs = 0 := by
    show castleStatusOf pieceType fromLoc toLoc = 0
    rw [hpt']
    rfl
  have hb5 : b5 = b4 := by
    show applyCastleRook b4 cs oldRookLoc newRookLoc = b4
    rw [hcs0]
    rfl
  have hb4c : b4.Colortomove = b.Colortomove := by
    unfold_let b4 b3 b2 b1
    split_ifs <;> simp
  have hb4ep : b4.enpassant = b.enpassant := by
    unfold_let b4 b3 b2 b1
    split_ifs <;> simp
  have hb4bbs : ∀ c', b4.bbs c' = b.bbs c' := by
    intro c'
    unfold_let b4 b3 b2 b1
    split_ifs <;>
      (simp only [Board.bbs_stripRookRights, Board.bbs_stripKingRights,
        Board.bbs_applyHalfmoveClock]
       cases c' <;> rfl)
  have hb4p : b4.pieces = b.pieces := by
    unfold_let b4 b3 b2 b1
    split_ifs <;> simp
  have hb4F : b4.Fullmoveno = (b.Fullmoveno + colorVal ourCol) % 65536 := by
    unfold_let b4 b3 b2 b1
    split_ifs <;> simp
  have hoep : oldEp = b.enpassant := by
    show b5.enpassant = b.enpassant
    rw [hb5, hb4ep]
  have hisEp : isEp = true := by
    show (pieceType == Pawn && toLoc == oldEp && oldEp != 0) = true
    rw [hpt', hoep, show toLoc = b.enpassant from hise]
    simp [hep0]
  have hb6 : b6 = applyEpCapture b5 true epLoc := by
    show applyEpCapture b5 isEp epLoc = _
    rw [hisEp]
  have hb5c : b5.Colortomove = b.Colortomove := by rw [hb5, hb4c]
  have hb6our : b6.bbs b.Colortomove = b.bbs b.Colortomove := by
    rw [hb6, applyEpCapture_bbs_our (by rw [hb5c]; exact oppColor_ne b.Colortomove)]
    rw [hb5, hb4bbs]
  have hb6un : ∀ s, s ≠ Pawn → s ≠ AllPieces →
      ∀ c', (b6.bbs c').get s = (b.bbs c').get s := by
    intro s h1 h3 c'
    rw [hb6]
    rw [show ((applyEpCapture b5 true epLoc).bbs c').get s =
      (applyEpCapture b5 true epLoc).bb c' s from rfl]
    rw [applyEpCapture_bb_untouched h1 h3]
    rw [show b5.bb c' s = (b5.bbs c').get s from rfl, hb5, hb4bbs]
  have hb6p : b6.pieces = b.pieces.set epLoc Nothing := by
    rw [hb6, Board.pieces_applyEpCapture_true, hb5, hb4p]
  have hb7bbsour : b7.bbs b.Colortomove = b.bbs b.Colortomove := by
    show (applyEpSquare b6 pieceType fromLoc toLoc).bbs b.Colortomove = _
    rw [Board.bbs_applyEpSquare, hb6our]
  have hb7un : ∀ s, s ≠ Pawn → s ≠ AllPieces →
      ∀ c', (b7.bbs c').get s = (b.bbs c').get s := by
    intro s h1 h3 c'
    show ((applyEpSquare b6 pieceType fromLoc toLoc).bbs c').get s = _
    rw [Board.bbs_applyEpSquare]
    exact hb6un s h1 h3 c'
  have hb7p : b7.pieces = b.pieces.set epLoc Nothing := by
    show (applyEpSquare b6 pieceType fromLoc toLoc).pieces = _
    rw [Board.pieces_applyEpSquare, hb6p]
  have hb7c : b7.Colortomove = b.Colortomove := by
    show (applyEpSquare b6 pieceType fromLoc toLoc).Colortomove = _
    rw [Board.Colortomove_applyEpSquare, hb6, Board.Colortomove_applyEpCapture, hb5c]
  have hb7F : b7.Fullmoveno = (b.Fullmoveno + colorVal ourCol) % 65536 := by
    show (applyEpSquare b6 pieceType fromLoc toLoc).Fullmoveno = _
    rw [Board.Fullmoveno_applyEpSquare, hb6, Board.Fullmoveno_applyEpCapture, hb5, hb4F]
  have hcapn : captured = Nothing := by
    show b7.PieceAt toLoc = Nothing
    show b7.pieces.getD toLoc Nothing = Nothing
    rw [hb7p]
    by_cases hel : epLoc = toLoc ∧ epLoc < b.pieces.length
    · obtain ⟨he1, he2⟩ := hel
      rw [he1] at he2 ⊢
      rw [List.getD_eq_getElem _ _ (by simpa using he2)]
      rw [List.getElem_set]
      simp
    · rw [show (b.pieces.set epLoc Nothing).getD toLoc Nothing =
          (b.setPieceAt epLoc Nothing).PieceAt toLoc from rfl]
      rw [Board.PieceAt_setPieceAt, if_neg hel]
      exact hto
  have hcapn' : (captured != Nothing) = false := by
    rw [hcapn]
    rfl
  have hb8 : b8 = b7 := by
    show (if (captured != Nothing) = true then removeCapturedPiece b7 captured toLoc
      else b7) = b7
    rw [hcapn']
    rfl
  have hb8c : b8.Colortomove = b.Colortomove := by rw [hb8, hb7c]
  have hb10c : b10.Colortomove = b.Colortomove := by
    show (applyPieceMove b8 pieceType promoted fromLoc toLoc).Colortomove = _
    simp [hb8c]
  have hb11 : b11 = b10 := by
    show (if (captured == Rook) = true then stripCapturedRookRights b10 toLoc toBitboard
      else b10) = b10
    rw [hcapn]
    rfl
  have hb11c : b11.Colortomove = b.Colortomove := by rw [hb11, hb10c]
  have hb8F : b8.Fullmoveno = (b.Fullmoveno + colorVal ourCol) % 65536 := by
    rw [hb8, hb7F]
  have hb11F : b11.Fullmoveno = (b.Fullmoveno + colorVal ourCol) % 65536 := by
    rw [hb11]
    show (applyPieceMove b8 pieceType promoted fromLoc toLoc).Fullmoveno = _
    simp [hb8F]
  have h1312 : ∀ c', b13.bbs c' = b11.bbs c' := by
    intro c'
    cases c' <;> rfl
  have h1312p : b13.pieces = b11.pieces := rfl
  have hb13p : b13.pieces = ((b.pieces.set epLoc Nothing).set fromLoc Nothing).set toLoc
      promoted := by
    rw [h1312p, hb11]
    show (applyPieceMove b8 pieceType promoted fromLoc toLoc).pieces = _
    rw [Board.pieces_applyPieceMove, hb8, hb7p]
  show Restore b13 bs = b
  refine Restore_writes ?hc hF ?hBF rfl rfl rfl rfl rfl ?hour ?hopp ?hpieces
  case hc =>
    show oppColor b11.Colortomove = oppColor b.Colortomove
    rw [hb11c]
  case hBF =>
    show b11.Fullmoveno = _
    rw [hb11F]
  case hour =>
    apply Bitboards.ext_get
    intro q
    simp only [Bitboards.get_set]
    split_ifs with hq1 hq2 hq3 hq4
    · subst hq1
      rfl
    · subst hq2
      rfl
    · subst hq3
      rfl
    · subst hq4
      show b7.bb ourCol promoted = (b.bbs b.Colortomove).get bs.ToPiece
      rw [show b7.bb ourCol promoted = (b7.bbs b.Colortomove).get promoted from rfl,
        hb7bbsour]
    · rw [h1312, hb11]
      have h10 := @applyPieceMove_bb_untouched b8 pieceType promoted fromLoc toLoc
        b.Colortomove q (Ne.symm hq3) (Ne.symm hq4) (Ne.symm hq1)
      show (b10.bbs b.Colortomove).get q = _
      rw [show (b10.bbs b.Colortomove).get q = b10.bb b.Colortomove q from rfl, h10,
        show b8.bb b.Colortomove q = (b8.bbs b.Colortomove).get q from rfl, hb8,
        hb7bbsour]
  case hopp =>
    have hCP : bs.CapturePiece = Pawn := by
      show (if (captured != Nothing) = true then captured
        else if isEp = true then Pawn else Nothing) = Pawn
      rw [hcapn', hisEp]
      rfl
    have hCB : bs.CaptureBb = b5.bb oppCol Pawn := by
      show (if (captured != Nothing) = true then b7.bb oppCol captured
        else if isEp = true then b5.bb oppCol Pawn else 0) = _
      rw [hcapn', hisEp]
      rfl
    rw [hCP, hCB]
    apply Bitboards.ext_get
    intro q
    simp only [Bitboards.get_set]
    split_ifs with hq1 hq2
    · subst hq1
      rfl
    · subst hq2
      show b5.bb oppCol Pawn = (b.bbs (oppColor b.Colortomove)).get Pawn
      rw [show b5.bb oppCol Pawn = (b5.bbs (oppColor b.Colortomove)).get Pawn from rfl,
        hb5, hb4bbs]
    · rw [h1312, hb11]
      have hob : oppColor b.Colortomove ≠ b8.Colortomove := by
        rw [hb8c]
        exact (oppColor_ne b.Colortomove).symm
      show (b10.bbs (oppColor b.Colortomove)).get q = _
      rw [show b10.bbs (oppColor b.Colortomove) =
          (applyPieceMove b8 pieceType promoted fromLoc toLoc).bbs (oppColor b.Colortomove)
        from rfl]
      rw [applyPieceMove_bbs_opp hob, hb8]
      exact hb7un q (Ne.symm hq2) (Ne.symm hq1) _
  case hpieces =>
    intro q3 hq3
    have hepLoc : epLoc = u8ofInt ((b.enpassant : Int) + epDeltas b.Colortomove) := by
      show u8ofInt ((oldEp : Int) + epDelta) = _
      rw [hoep]
    have heplv : b.PieceAt epLoc = Pawn := by
      rw [hepLoc]
      exact hepl
    have hRT : bs.OurRookTo = 0 := by
      show (if (cs != 0) = true then newRookLoc else 0) = 0
      rw [hcs0]
      rfl
    have hRF : bs.OurRookFrom = 0 := by
      show (if (cs != 0) = true then oldRookLoc else 0) = 0
      rw [hcs0]
      rfl
    have hCL : bs.CaptureLoc = epLoc := by
      show (if isEp = true then epLoc else toLoc) = epLoc
      rw [hisEp]
      rfl
    have hCP : bs.CapturePiece = Pawn := by
      show (if (captured != Nothing) = true then captured
        else if isEp = true then Pawn else Nothing) = Pawn
      rw [hcapn', hisEp]
      rfl
    rw [hCL, hCP] at hq3
    have hq3len : q3.length = 64 := by
      rw [hq3]
      simp only [List.length_set]
      show b13.pieces.length = 64
      rw [hb13p]
      simp [hlen]
    rw [hRT, hRF, List.set_set, List.set_getD_self (by omega) Nothing]
    rw [hq3, hb13p]
    apply List.ext_getElem
    · simp [hlen]
    · intro i h1 h2
      simp only [List.getElem_set]
      split_ifs with c1 c2 c3 <;> try rfl
      · subst c1
        show b.PieceAt fromLoc = _
        show b.pieces.getD fromLoc Nothing = _
        rw [List.getD_eq_getElem b.pieces Nothing (by simpa using h2)]
      · subst c2
        rw [show (Pawn : Piece) = b.PieceAt epLoc from heplv.symm]
        show b.pieces.getD epLoc Nothing = _
        rw [List.getD_eq_getElem b.pieces Nothing (by simpa using h2)]
      · subst c3
        rw [show (Nothing : Piece) = b.PieceAt toLoc from hto.symm]
        show b.pieces.getD toLoc Nothing = _
        rw [List.getD_eq_getElem b.pieces Nothing (by simpa using h2)]

end Dragontooth

namespace Dragontooth
open ColorT CastleRightsT Piece

@[simp] theorem Board.Colortomove_applyCastleRook (b : Board) (cs o n : Nat) :
    (applyCastleRook b cs o n).Colortomove = b.Colortomove := by
  unfold applyCastleRook Board.movePieceAt Board.removePieceAt Board.addPieceAt
  split_ifs <;> simp

@[simp] theorem Board.enpassant_applyCastleRook (b : Board) (cs o n : Nat) :
    (applyCastleRook b cs o n).enpassant = b.enpassant := by
  unfold applyCastleRook Board.movePieceAt Board.removePieceAt Board.addPieceAt
  split_ifs <;> simp

@[simp] theorem Board.Fullmoveno_applyCastleRook (b : Board) (cs o n : Nat) :
    (applyCastleRook b cs o n).Fullmoveno = b.Fullmoveno := by
  unfold applyCastleRook Board.movePieceAt Board.removePieceAt Board.addPieceAt
  split_ifs <;> simp

theorem Board.pieces_applyCastleRook {b : Board} {cs o n : Nat} (h : (cs != 0) = true) :
    (applyCastleRook b cs o n).pieces = (b.pieces.set o Nothing).set n Rook := by
  unfold applyCastleRook Board.movePieceAt Board.removePieceAt Board.addPieceAt
  rw [if_pos h]
  simp [Board.setPieceAt]

theorem applyCastleRook_bbs_opp {b : Board} {cs o n : Nat} {c' : ColorT}
    (hc : c' ≠ b.Colortomove) :
    (applyCastleRook b cs o n).bbs c' = b.bbs c' := by
  unfold applyCastleRook Board.movePieceAt Board.removePieceAt Board.addPieceAt
  have h1 : ∀ (x : Board) (h : Nat), ({ x with hash := h } : Board).bbs c' = x.bbs c' :=
    fun x h => rfl
  have h2 : ∀ (x : Board) (i : Nat) (z : Piece), (x.setPieceAt i z).bbs c' = x.bbs c' :=
    fun x i z => rfl
  split_ifs
  · simp only [h1, h2, Board.bbs_setBb]
    simp [Ne.symm hc]
  · rfl

theorem applyCastleRook_bb_untouched {b : Board} {cs o n : Nat} {c' : ColorT}
    {s : Piece} (hs1 : s ≠ Rook) (hs3 : s ≠ AllPieces) :
    (applyCastleRook b cs o n).bb c' s = b.bb c' s := by
  unfold applyCastleRook Board.movePieceAt Board.removePieceAt Board.addPieceAt
  have h1 : ∀ (x : Board) (h : Nat), ({ x with hash := h } : Board).bb c' s = x.bb c' s :=
    fun x h => rfl
  have h2 : ∀ (x : Board) (i : Nat) (z : Piece), (x.setPieceAt i z).bb c' s = x.bb c' s :=
    fun x i z => rfl
  split_ifs
  · simp only [h1, h2, Board.bb_setBb]
    simp [Ne.symm hs1, Ne.symm hs3]
  · rfl

theorem List.getD_set_pp (l : List Piece) (j : Nat) (v : Piece) (i : Nat) (d : Piece) :
    (l.set j v).getD i d = if j = i ∧ j < l.length then v else l.getD i d := by
  have h := Board.PieceAt_setPieceAt ⟨White, 0, 0, 0, 0, 0,
    ⟨0,0,0,0,0,0,0,0⟩, ⟨0,0,0,0,0,0,0,0⟩, l, 0⟩ j v i
  by_cases hc : j = i ∧ j < l.length
  · rw [if_pos hc]
    obtain ⟨h1, h2⟩ := hc
    subst h1
    rw [List.getD_eq_getElem _ _ (by simpa using h2), List.getElem_set]
    simp
  · rw [if_neg hc]
    rcases Decidable.not_and_iff_or_not.mp hc with hx | hx
    · by_cases hj : j < l.length
      · rcases Nat.lt_or_ge i l.length with hi | hi
        · rw [List.getD_eq_getElem _ _ (by simpa using hi),
            List.getD_eq_getElem _ _ hi, List.getElem_set, if_neg hx]
        · rw [List.getD_eq_default _ _ (by simpa using hi), List.getD_eq_default _ _ hi]
      · rw [List.set_eq_of_length_le (by omega)]
    · rw [List.set_eq_of_length_le (by omega)]

set_option maxHeartbeats 4000000 in
theorem Restore_MakeSpecialMove_castle {b : Board} {m : Move} {f t oldR newR : Nat}
    (hf : m.Src = f) (ht : m.To = t)
    (hgeom : (f = 4 ∧ t = 6 ∧ oldR = 7 ∧ newR = 5) ∨
             (f = 4 ∧ t = 2 ∧ oldR = 0 ∧ newR = 3) ∨
             (f = 60 ∧ t = 62 ∧ oldR = 63 ∧ newR = 61) ∨
             (f = 60 ∧ t = 58 ∧ oldR = 56 ∧ newR = 59))
    (hpt : b.PieceAt m.Src = King)
    (hto : b.PieceAt m.To = Nothing)
    (hnew : b.PieceAt newR = Nothing)
    (hold : b.PieceAt oldR = Rook)
    (hF : b.Fullmoveno < 65536)
    (hN : (b.bbs (oppColor b.Colortomove)).BNothing = 0)
    (hlen : b.pieces.length = 64) :
    Restore (MakeSpecialMove b m).1 (MakeSpecialMove b m).2 = b := by
  unfold MakeSpecialMove
  lift_lets
  extract_lets ourCol oppCol epDelta fromLoc toLoc fromBitboard toBitboard pieceType b1 b2
    cs oldRookLoc newRookLoc b3 b4 b5 oldEp isEp epLoc b6 b7 promoted captured b8 b10 b11
    b12 b13 bs
  have hpt' : pieceType = King := hpt
  have hfrom : fromLoc = f := hf
  have htl : toLoc = t := ht
  rcases hgeom with ⟨h1, h2, h3, h4⟩ | ⟨h1, h2, h3, h4⟩ | ⟨h1, h2, h3, h4⟩ |
    ⟨h1, h2, h3, h4⟩ <;>
    subst h1 <;> subst h2 <;> subst h3 <;> subst h4 <;>
    (first
      | have hcs' : cs = 1 := by
          show castleStatusOf pieceType fromLoc toLoc = 1
          rw [hpt', hfrom, htl]
          rfl
      | have hcs' : cs = 2 := by
          show castleStatusOf pieceType fromLoc toLoc = 2
          rw [hpt', hfrom, htl]
          rfl) <;>
    (first
      | have hor : oldRookLoc = fromLoc + 3 := by
          show (if (cs == 1) = true then (toLoc + 1) % 256 else
            if (cs == 2) = true then (toLoc + 254) % 256 else 0) = _
          rw [hcs', htl, hfrom]
          rfl
      | have hor : oldRookLoc = fromLoc - 4 := by
          show (if (cs == 1) = true then (toLoc + 1) % 256 else
            if (cs == 2) = true then (toLoc + 254) % 256 else 0) = _
          rw [hcs', htl, hfrom]
          rfl) <;>
    (first
      | have hnr : newRookLoc = fromLoc + 1 := by
          show (if (cs == 1) = true then (toLoc + 255) % 256 else
            if (cs == 2) = true then (toLoc + 1) % 256 else 0) = _
          rw [hcs', htl, hfrom]
          rfl
      | have hnr : newRookLoc = fromLoc - 1 := by
          show (if (cs == 1) = true then (toLoc + 255) % 256 else
            if (cs == 2) = true then (toLoc + 1) % 256 else 0) = _
          rw [hcs', htl, hfrom]
          rfl) <;>
    (have hcsne : (cs != 0) = true := by rw [hcs']; rfl
     have hb4c : b4.Colortomove = b.Colortomove := by
       unfold_let b4 b3 b2 b1
       split_ifs <;> simp
     have hb4ep : b4.enpassant = b.enpassant := by
       unfold_let b4 b3 b2 b1
       split_ifs <;> simp
     have hb4bbs : ∀ c', b4.bbs c' = b.bbs c' := by
       intro c'
       unfold_let b4 b3 b2 b1
       split_ifs <;>
         (simp only [Board.bbs_stripRookRights, Board.bbs_stripKingRights,
           Board.bbs_applyHalfmoveClock]
          cases c' <;> rfl)
     have hb4p : b4.pieces = b.pieces := by
       unfold_let b4 b3 b2 b1
       split_ifs <;> simp
     have hb4F : b4.Fullmoveno = (b.Fullmoveno + colorVal ourCol) % 65536 := by
       unfold_let b4 b3 b2 b1
       split_ifs <;> simp
     have hb5p : b5.pieces = (b.pieces.set oldRookLoc Nothing).set newRookLoc Rook := by
       show (applyCastleRook b4 cs oldRookLoc newRookLoc).pieces = _
       rw [Board.pieces_applyCastleRook hcsne, hb4p]
     have hb5c : b5.Colortomove = b.Colortomove := by
       show (applyCastleRook b4 cs oldRookLoc newRookLoc).Colortomove = _
       rw [Board.Colortomove_applyCastleRook, hb4c]
     have hb5ep : b5.enpassant = b.enpassant := by
       show (applyCastleRook b4 cs oldRookLoc newRookLoc).enpassant = _
       rw [Board.enpassant_applyCastleRook, hb4ep]
     have hb5F : b5.Fullmoveno = (b.Fullmoveno + colorVal ourCol) % 65536 := by
       show (applyCastleRook b4 cs oldRookLoc newRookLoc).Fullmoveno = _
       rw [Board.Fullmoveno_applyCastleRook, hb4F]
     have hb5opp : b5.bbs (oppColor b.Colortomove) = b.bbs (oppColor b.Colortomove) := by
       show (applyCastleRook b4 cs oldRookLoc newRookLoc).bbs _ = _
       rw [applyCastleRook_bbs_opp (by rw [hb4c]; exact (oppColor_ne _).symm), hb4bbs]
     have hb5un : ∀ s, s ≠ Rook → s ≠ AllPieces →
         ∀ c', (b5.bbs c').get s = (b.bbs c').get s := by
       intro s hs1 hs3 c'
       show ((applyCastleRook b4 cs oldRookLoc newRookLoc).bbs c').get s = _
       rw [show ((applyCastleRook b4 cs oldRookLoc newRookLoc).bbs c').get s =
           (applyCastleRook b4 cs oldRookLoc newRookLoc).bb c' s from rfl,
         applyCastleRook_bb_untouched hs1 hs3,
         show b4.bb c' s = (b4.bbs c').get s from rfl, hb4bbs]
     have hoep : oldEp = b.enpassant := hb5ep
     have hisEp : isEp = false := by
       show (pieceType == Pawn && toLoc == oldEp && oldEp != 0) = false
       rw [hpt']
       rfl
     have hb6 : b6 = b5 := by
       show applyEpCapture b5 isEp epLoc = b5
       rw [hisEp]
       rfl
     have hb7p : b7.pieces = (b.pieces.set oldRookLoc Nothing).set newRookLoc Rook := by
       show (applyEpSquare b6 pieceType fromLoc toLoc).pieces = _
       rw [Board.pieces_applyEpSquare, hb6, hb5p]
     have hb7c : b7.Colortomove = b.Colortomove := by
       show (applyEpSquare b6 pieceType fromLoc toLoc).Colortomove = _
       rw [Board.Colortomove_applyEpSquare, hb6, hb5c]
     have hb7F : b7.Fullmoveno = (b.Fullmoveno + colorVal ourCol) % 65536 := by
       show (applyEpSquare b6 pieceType fromLoc toLoc).Fullmoveno = _
       rw [Board.Fullmoveno_applyEpSquare, hb6, hb5F]
     have hb7opp : b7.bbs (oppColor b.Colortomove) = b.bbs (oppColor b.Colortomove) := by
       show (applyEpSquare b6 pieceType fromLoc toLoc).bbs _ = _
       rw [Board.bbs_applyEpSquare, hb6, hb5opp]
     have hb7un : ∀ s, s ≠ Rook → s ≠ AllPieces →
         ∀ c', (b7.bbs c').get s = (b.bbs c').get s := by
       intro s hs1 hs3 c'
       show ((applyEpSquare b6 pieceType fromLoc toLoc).bbs c').get s = _
       rw [Board.bbs_applyEpSquare, hb6]
       exact hb5un s hs1 hs3 c'
     have hcapn : captured = Nothing := by
       show b7.PieceAt toLoc = Nothing
       show b7.pieces.getD toLoc Nothing = Nothing
       rw [hb7p, List.getD_set_pp, if_neg (by rw [hnr, htl, hfrom]; simp),
         List.getD_set_pp, if_neg (by rw [hor, htl, hfrom]; simp)]
       exact hto
     have hcapn' : (captured != Nothing) = false := by
       rw [hcapn]
       rfl
     have hb8 : b8 = b7 := by
       show (if (captured != Nothing) = true then removeCapturedPiece b7 captured toLoc
         else b7) = b7
       rw [hcapn']
       rfl
     have hb8c : b8.Colortomove = b.Colortomove := by rw [hb8, hb7c]
     have hb10c : b10.Colortomove = b.Colortomove := by
       show (applyPieceMove b8 pieceType promoted fromLoc toLoc).Colortomove = _
       simp [hb8c]
     have hb11 : b11 = b10 := by
       show (if (captured == Rook) = true then stripCapturedRookRights b10 toLoc toBitboard
         else b10) = b10
       rw [hcapn]
       rfl
     have hb11c : b11.Colortomove = b.Colortomove := by rw [hb11, hb10c]
     have hb11F : b11.Fullmoveno = (b.Fullmoveno + colorVal ourCol) % 65536 := by
       rw [hb11]
       show (applyPieceMove b8 pieceType promoted fromLoc toLoc).Fullmoveno = _
       rw [Board.Fullmoveno_applyPieceMove, hb8, hb7F]
     have h1312 : ∀ c', b13.bbs c' = b11.bbs c' := by
       intro c'
       cases c' <;> rfl
     have h1312p : b13.pieces = b11.pieces := rfl
     have hb13p : b13.pieces = ((((b.pieces.set oldRookLoc Nothing).set newRookLoc
         Rook).set fromLoc Nothing).set toLoc promoted) := by
       rw [h1312p, hb11]
       show (applyPieceMove b8 pieceType promoted fromLoc toLoc).pieces = _
       rw [Board.pieces_applyPieceMove, hb8, hb7p]
     have hb13opp : b13.bbs (oppColor b.Colortomove) = b.bbs (oppColor b.Colortomove) := by
       rw [h1312, hb11]
       show (applyPieceMove b8 pieceType promoted fromLoc toLoc).bbs _ = _
       rw [applyPieceMove_bbs_opp (by rw [hb8c]; exact (oppColor_ne _).symm), hb8, hb7opp]
     show Restore b13 bs = b
     refine Restore_writes ?hc hF ?hBF rfl rfl rfl rfl rfl ?hour ?hopp ?hpieces
     case hc =>
       show oppColor b11.Colortomove = oppColor b.Colortomove
       rw [hb11c]
     case hBF =>
       show b11.Fullmoveno = _
       rw [hb11F]
     case hour =>
       apply Bitboards.ext_get
       intro q
       simp only [Bitboards.get_set]
       split_ifs with hq1 hq2 hq3 hq4
       · subst hq1
         rfl
       · subst hq2
         rfl
       · subst hq3
         rfl
       · subst hq4
         show b7.bb ourCol promoted = (b.bbs b.Colortomove).get bs.ToPiece
         have hp1 : promoted ≠ Rook := Ne.symm hq2
         have hp3 : promoted ≠ AllPieces := Ne.symm hq1
         rw [show b7.bb ourCol promoted = (b7.bbs b.Colortomove).get promoted from rfl,
           hb7un promoted hp1 hp3]
       · rw [h1312, hb11]
         have h10 := @applyPieceMove_bb_untouched b8 pieceType promoted fromLoc toLoc
           b.Colortomove q (Ne.symm hq3) (Ne.symm hq4) (Ne.symm hq1)
         show (b10.bbs b.Colortomove).get q = _
         rw [show (b10.bbs b.Colortomove).get q = b10.bb b.Colortomove q from rfl, h10,
           show b8.bb b.Colortomove q = (b8.bbs b.Colortomove).get q from rfl, hb8]
         exact hb7un q (Ne.symm hq2) (Ne.symm hq1) _
     case hopp =>
       have hCP : bs.CapturePiece = Nothing := by
         show (if (captured != Nothing) = true then captured
           else if isEp = true then Pawn else Nothing) = Nothing
         rw [hcapn', hisEp]
         rfl
       have hCB : bs.CaptureBb = 0 := by
         show (if (captured != Nothing) = true then b7.bb oppCol captured
           else if isEp = true then b5.bb oppCol Pawn else 0) = 0
         rw [hcapn', hisEp]
         rfl
       rw [hCP, hCB]
       apply Bitboards.ext_get
       intro q
       simp only [Bitboards.get_set]
       split_ifs with hq1 hq2
       · subst hq1
         rfl
       · subst hq2
         show (0 : Nat) = (b.bbs (oppColor b.Colortomove)).get Nothing
         show (0 : Nat) = (b.bbs (oppColor b.Colortomove)).BNothing
         rw [hN]
       · rw [hb13opp]
     case hpieces =>
       intro q3 hq3
       have hRT : bs.OurRookTo = newRookLoc := by
         show (if (cs != 0) = true then newRookLoc else 0) = _
         rw [hcsne]
         rfl
       have hRF : bs.OurRookFrom = oldRookLoc := by
         show (if (cs != 0) = true then oldRookLoc else 0) = _
         rw [hcsne]
         rfl
       have hCL : bs.CaptureLoc = toLoc := by
         show (if isEp = true then epLoc else toLoc) = _
         rw [hisEp]
         rfl
       have hCP : bs.CapturePiece = Nothing := by
         show (if (captured != Nothing) = true then captured
           else if isEp = true then Pawn else Nothing) = Nothing
         rw [hcapn', hisEp]
         rfl
       have hTL : bs.ToLoc = toLoc := rfl
       have hFL : bs.FromLoc = fromLoc := rfl
       have hFP : bs.FromPiece = pieceType := rfl
       rw [hCL, hCP, hTL, hFL, hFP] at hq3
       rw [hRT, hRF]
       have holdv : b.PieceAt oldRookLoc = Rook := by
         rw [hor, hfrom]
         exact hold
       have hnewv : b.PieceAt newRookLoc = Nothing := by
         rw [hnr, hfrom]
         exact hnew
       have hmr : q3.getD newRookLoc Nothing = Rook := by
         rw [hq3, hb13p]
         rw [List.getD_set_pp, if_neg (by rw [hnr, hfrom]; simp),
           List.getD_set_pp, if_neg (by rw [hnr, htl, hfrom]; simp),
           List.getD_set_pp, if_neg (by rw [hnr, htl, hfrom]; simp),
           List.getD_set_pp, if_neg (by rw [hnr, htl, hfrom]; simp),
           List.getD_set_pp, if_neg (by rw [hnr, hfrom]; simp),
           List.getD_set_pp,
           if_pos ⟨rfl, by rw [hnr, hfrom]; simp [hlen]⟩]
       rw [hmr, hq3, hb13p]
       apply List.ext_getElem
       · simp [hlen]
       · intro i hi1 hi2
         simp only [List.getElem_set]
         split_ifs with c1 c2 c3 c4 <;> try rfl
         · subst c1
           rw [show (Rook : Piece) = b.PieceAt oldRookLoc from holdv.symm]
           show b.pieces.getD oldRookLoc Nothing = _
           rw [List.getD_eq_getElem b.pieces Nothing (by simpa using hi2)]
         · subst c2
           rw [show (Nothing : Piece) = b.PieceAt newRookLoc from hnewv.symm]
           show b.pieces.getD newRookLoc Nothing = _
           rw [List.getD_eq_getElem b.pieces Nothing (by simpa using hi2)]
         · subst c3
           show b.PieceAt fromLoc = _
           show b.pieces.getD fromLoc Nothing = _
           rw [List.getD_eq_getElem b.pieces Nothing (by simpa using hi2)]
         · subst c4
           rw [show (Nothing : Piece) = b.PieceAt toLoc from hto.symm]
           show b.pieces.getD toLoc Nothing = _
           rw [List.getD_eq_getElem b.pieces Nothing (by simpa using hi2)])



theorem mem_GenerateLegalMoves_parts {b : Board} {m : Move} (h : consistentB b = true)
    (hm : m ∈ GenerateLegalMoves b) :
    (∃ ad, m ∈ (kingPushes b ad).1) ∨
    (∃ ad, m ∈ (generatePinnedMoves b ad).1) ∨
    (∃ np ad, m ∈ pawnPushes b np ad) ∨
    (∃ np ad, m ∈ (pawnCaptures b np ad).1) ∨
    (∃ np ad, m ∈ knightMoves b np ad) ∨
    (∃ np ad, m ∈ rookMoves b np ad) ∨
    (∃ np ad, m ∈ bishopMoves b np ad) ∨
    (∃ np ad, m ∈ queenMoves b np ad) ∨
    (∃ ad inc, m ∈ (kingMoves b ad inc).1) := by
  unfold GenerateLegalMoves at hm
  by_cases h2 : 2 ≤ (countAttacks b (b.Colortomove == White)
      (lowestSetBit ((b.bbs b.Colortomove).Kings)) 2).1
  · rw [GenerateLegalMoves2_doubleCheck h2] at hm
    exact Or.inl ⟨everything, hm⟩
  · by_cases hone : (countAttacks b (b.Colortomove == White)
        (lowestSetBit ((b.bbs b.Colortomove).Kings)) 2).1 = 1
    · rw [GenerateLegalMoves2_singlecheck h hone] at hm
      dsimp only at hm
      simp only [List.mem_append] at hm
      rcases hm with (((((((hm | hm) | hm) | hm) | hm) | hm) | hm) | hm)
      · exact Or.inr (Or.inl ⟨_, hm⟩)
      · exact Or.inr (Or.inr (Or.inl ⟨_, _, hm⟩))
      · exact Or.inr (Or.inr (Or.inr (Or.inl ⟨_, _, hm⟩)))
      · exact Or.inr (Or.inr (Or.inr (Or.inr (Or.inl ⟨_, _, hm⟩))))
      · exact Or.inr (Or.inr (Or.inr (Or.inr (Or.inr (Or.inl ⟨_, _, hm⟩)))))
      · exact Or.inr (Or.inr (Or.inr (Or.inr (Or.inr (Or.inr (Or.inl ⟨_, _, hm⟩))))))
      · exact Or.inr (Or.inr (Or.inr (Or.inr (Or.inr (Or.inr (Or.inr (Or.inl ⟨_, _, hm⟩)))))))
      · exact Or.inl ⟨everything, hm⟩
    · have h0 : (countAttacks b (b.Colortomove == White)
          (lowestSetBit ((b.bbs b.Colortomove).Kings)) 2).1 = 0 := by omega
      rw [GenerateLegalMoves2_nocheck h h0] at hm
      dsimp only at hm
      simp only [List.mem_append] at hm
      rcases hm with (((((((hm | hm) | hm) | hm) | hm) | hm) | hm) | hm)
      · exact Or.inr (Or.inl ⟨_, hm⟩)
      · exact Or.inr (Or.inr (Or.inl ⟨_, _, hm⟩))
      · exact Or.inr (Or.inr (Or.inr (Or.inl ⟨_, _, hm⟩)))
      · exact Or.inr (Or.inr (Or.inr (Or.inr (Or.inl ⟨_, _, hm⟩))))
      · exact Or.inr (Or.inr (Or.inr (Or.inr (Or.inr (Or.inl ⟨_, _, hm⟩)))))
      · exact Or.inr (Or.inr (Or.inr (Or.inr (Or.inr (Or.inr (Or.inl ⟨_, _, hm⟩))))))
      · exact Or.inr (Or.inr (Or.inr (Or.inr (Or.inr (Or.inr (Or.inr (Or.inl ⟨_, _, hm⟩)))))))
      · exact Or.inr (Or.inr (Or.inr (Or.inr (Or.inr (Or.inr (Or.inr (Or.inr ⟨_, _, hm⟩)))))))


/-! ## Misc facts feeding the make/unmake dispatch -/

theorem IsSimple_false_of_lt {m : Move} (h : m < 32768) : Move.IsSimple m = false := by
  unfold Move.IsSimple
  have h0 : m &&& 0x8000 = 0 := by
    apply Nat.eq_of_testBit_eq
    intro i
    rw [Nat.testBit_and, Nat.zero_testBit]
    rcases eq_or_ne i 15 with hi | hi
    · subst hi
      have hm : m.testBit 15 = false := by
        have h15 : m < 2 ^ 15 := by
          have e : (2 : Nat) ^ 15 = 32768 := by norm_num
          rw [e]
          exact h
        exact Nat.testBit_lt_two_pow h15
      rw [hm]
      rfl
    · have h2 : (0x8000 : Nat).testBit i = false := by
        have e : (0x8000 : Nat) = 2 ^ 15 := by norm_num
        rw [e, Nat.testBit_two_pow]
        simpa using fun hx => hi hx.symm
      rw [h2]
      simp
  rw [h0]
  rfl

theorem mkMoveFT_lt_small {f t : Nat} (hf : f < 256) (ht : t < 64) :
    mkMoveFT f t < 32768 := by
  unfold mkMoveFT Move.Setfrom Move.Setto
  rw [Nat.zero_and, Nat.zero_or]
  have ha : (f <<< 6) &&& 0xFFC0 < 2 ^ 15 := by
    refine lt_of_le_of_lt (Nat.and_le_left) ?_
    rw [Nat.shiftLeft_eq]
    norm_num
    omega
  have hb : t < 2 ^ 15 := by omega
  have := Nat.or_lt_two_pow ha hb
  simpa using this

theorem Setpromote_lt15 {mv : Nat} (h : mv < 32768) (p : Piece) :
    Move.Setpromote mv p < 32768 := by
  unfold Move.Setpromote
  have ha : mv &&& 0x8FFF < 2 ^ 15 := lt_of_le_of_lt (Nat.and_le_left) (by omega)
  have hb : pieceVal p <<< 12 < 2 ^ 15 := by
    have := pieceVal_le p
    rw [Nat.shiftLeft_eq]
    omega
  have := Nat.or_lt_two_pow ha hb
  simpa using this

theorem castleStatusOf_ne_king {p : Piece} (h : p ≠ King) (f t : Nat) :
    castleStatusOf p f t = 0 := by
  unfold castleStatusOf
  rw [if_neg]
  simpa using h

theorem castleStatusOf_king_far {f t : Nat} (hf : f < 64) (ht : t < 64)
    (h1 : t ≠ f + 2) (h2 : f ≠ t + 2) : castleStatusOf King f t = 0 := by
  unfold castleStatusOf
  rw [if_pos (by simp)]
  rw [if_neg, if_neg]
  · simp only [beq_iff_eq]
    omega
  · simp only [beq_iff_eq]
    omega

theorem onlyRank3_bit {t : Nat} (ht : t < 64) :
    (onlyRank 3).testBit t = decide (24 ≤ t ∧ t < 32) := by
  have h : ∀ u ∈ List.range 64, (onlyRank 3).testBit u = decide (24 ≤ u ∧ u < 32) := by decide
  exact h t (List.mem_range.mpr ht)

theorem onlyRank4_bit {t : Nat} (ht : t < 64) :
    (onlyRank 4).testBit t = decide (32 ≤ t ∧ t < 40) := by
  have h : ∀ u ∈ List.range 64, (onlyRank 4).testBit u = decide (32 ≤ u ∧ u < 40) := by decide
  exact h t (List.mem_range.mpr ht)

set_option maxRecDepth 8000 in
theorem kingMasks_not_two {kl t : Nat} (hkl : kl < 64) (ht : t < 64)
    (hb : (kingMasks kl).testBit t = true) : t ≠ kl + 2 ∧ kl ≠ t + 2 := by
  have h : ∀ k ∈ List.range 64, ∀ u ∈ List.range 64,
      (kingMasks k).testBit u = true → u ≠ k + 2 ∧ k ≠ u + 2 := by decide
  exact h kl (List.mem_range.mpr hkl) t (List.mem_range.mpr ht) hb

/-! ## Rays exclude their origin -/

theorem mem_of_testBit_bitsOf {l : List Nat} {i : Nat}
    (h : (bitsOf l).testBit i = true) : i ∈ l := by
  induction l with
  | nil => simpa [bitsOf] using h
  | cons x xs ih =>
    have hx : (bitsOf (x :: xs)) = bitU x ||| bitsOf xs := rfl
    rw [hx, Nat.testBit_or, Bool.or_eq_true] at h
    rcases h with h | h
    · rw [testBit_bitU] at h
      simp only [Bool.and_eq_true, decide_eq_true_eq] at h
      simp [h.2]
    · simp [ih h]

theorem mem_of_mem_upToBlocker {occ : Nat} {l : List Nat} {x : Nat}
    (h : x ∈ upToBlocker occ l) : x ∈ l := by
  induction l with
  | nil => simpa [upToBlocker] using h
  | cons y ys ih =>
    unfold upToBlocker at h
    split_ifs at h with hocc
    · simp only [List.mem_singleton] at h
      simp [h]
    · rw [List.mem_cons] at h
      rcases h with h | h
      · simp [h]
      · simp [ih h]

theorem raySquares_ne_self {s : Nat} {df dr : Int} (h8 : 8 * dr + df ≠ 0) {t : Nat}
    (ht : t ∈ raySquares s df dr) : t ≠ s := by
  unfold raySquares at ht
  rw [List.mem_filterMap] at ht
  obtain ⟨j, _, hoff⟩ := ht
  unfold offsetSquare at hoff
  dsimp only at hoff
  split_ifs at hoff with hcond
  simp only [Option.some.injEq] at hoff
  intro hts
  have hts' := hoff.trans hts
  obtain ⟨hf0, hf7, hr0, hr7⟩ := hcond
  have hz : 8 * (dr * ((j + 1 : Nat) : Int)) + df * ((j + 1 : Nat) : Int) = 0 := by
    omega
  have hz2 : (8 * dr + df) * ((j + 1 : Nat) : Int) = 0 := by linear_combination hz
  rcases mul_eq_zero.mp hz2 with hz3 | hz3
  · exact h8 hz3
  · have hj : (j + 1 : Nat) = 0 := by exact_mod_cast hz3
    omega

theorem rayAttack_origin {s : Nat} {df dr : Int} (h8 : 8 * dr + df ≠ 0) (occ : Nat) :
    (rayAttack s df dr occ).testBit s = false := by
  cases hb : (rayAttack s df dr occ).testBit s
  · rfl
  · exfalso
    unfold rayAttack at hb
    have hmem := mem_of_mem_upToBlocker (mem_of_testBit_bitsOf hb)
    exact raySquares_ne_self h8 hmem rfl

theorem CalculateRook_origin (s occ : Nat) :
    (CalculateRookMoveBitboard s occ).testBit s = false := by
  unfold CalculateRookMoveBitboard
  simp only [Nat.testBit_or, Bool.or_eq_false_iff]
  refine ⟨⟨⟨?_, ?_⟩, ?_⟩, ?_⟩ <;>
    exact rayAttack_origin (by norm_num) occ

theorem CalculateBishop_origin (s occ : Nat) :
    (CalculateBishopMoveBitboard s occ).testBit s = false := by
  unfold CalculateBishopMoveBitboard
  simp only [Nat.testBit_or, Bool.or_eq_false_iff]
  refine ⟨⟨⟨?_, ?_⟩, ?_⟩, ?_⟩ <;>
    exact rayAttack_origin (by norm_num) occ

/-! ## Kind identification of our pieces -/

theorem ourKind_of_pieceAt {b : Board} {s : Nat} {k : Piece} (h : consistentB b = true)
    (hs : s < 64) (hr : realKind k)
    (hAll : ((b.bbs b.Colortomove).BAll).testBit s = true)
    (hk : b.PieceAt s = k) :
    ((b.bbs b.Colortomove).get k).testBit s = true := by
  rcases bit_of_pieceAt h hs hk hr with hx | hx
  · cases hc : b.Colortomove
    · exact hx
    · exfalso
      have hWA : b.bbW.BAll.testBit s = true :=
        get_subset_all (consistent_bbs_ok h White) hr hx
      have hBA := colors_disjoint h hWA
      rw [hc] at hAll
      simp only [Board.bbs] at hAll
      rw [hAll] at hBA
      exact absurd hBA (by simp)
  · cases hc : b.Colortomove
    · exfalso
      have hBA : b.bbB.BAll.testBit s = true :=
        get_subset_all (consistent_bbs_ok h Black) hr hx
      rw [hc] at hAll
      simp only [Board.bbs] at hAll
      have hWA := bit_false_of_and_zero' (consistent_parts h).2.2.1 hBA
      rw [hAll] at hWA
      exact absurd hWA (by simp)
    · exact hx

theorem not_king_on_ray {b : Board} {s : Nat} (h : consistentB b = true) (hs : s < 64)
    (hAll : ((b.bbs b.Colortomove).BAll).testBit s = true)
    (hray : (CalculateRookMoveBitboard (lowestSetBit ((b.bbs b.Colortomove).Kings))
        ((b.bbs (oppColor b.Colortomove)).BAll ||| (b.bbs b.Colortomove).BAll)).testBit s = true ∨
      (CalculateBishopMoveBitboard (lowestSetBit ((b.bbs b.Colortomove).Kings))
        ((b.bbs (oppColor b.Colortomove)).BAll ||| (b.bbs b.Colortomove).BAll)).testBit s = true) :
    b.PieceAt s ≠ King := by
  intro hK
  have hkb : ((b.bbs b.Colortomove).Kings).testBit s = true :=
    ourKind_of_pieceAt h hs ⟨by simp, by simp⟩ hAll hK
  have hkl := kingLoc_eq_of_bit h hkb
  rcases hray with hx | hx
  · rw [hkl] at hx
    rw [CalculateRook_origin] at hx
    exact absurd hx (by simp)
  · rw [hkl] at hx
    rw [CalculateBishop_origin] at hx
    exact absurd hx (by simp)

/-! ## The en-passant square is incompatible with push and capture targets -/

theorem push_target_ne_ep {b : Board} {s t : Nat} (h : consistentB b = true)
    (hs64 : s < 64) (ht64 : t < 64)
    (hpbit : ((b.bbs b.Colortomove).Pawns).testBit s = true)
    (hsh : t = u8ofInt ((s : Int) + 8 * pawnPushDirections b.Colortomove) ∨
           (t = u8ofInt ((s : Int) + 16 * pawnPushDirections b.Colortomove) ∧
            (doublePushRankBBs b.Colortomove).testBit t = true))
    (hep0 : b.enpassant ≠ 0) : t ≠ b.enpassant := by
  intro hte
  cases hc : b.Colortomove with
  | White =>
    obtain ⟨h40, h47, hoP, _, _⟩ := epOk_white h hc hep0
    rw [hc] at hsh hpbit
    simp only [pawnPushDirections, doublePushRankBBs] at hsh
    rcases hsh with hsh | ⟨hsh, hdb⟩
    · have ht8 : t = s + 8 := by
        unfold u8ofInt at hsh
        omega
      have hsep : s = b.enpassant - 8 := by omega
      rw [← hsep] at hoP
      have hBA : b.bbB.BAll.testBit s = true :=
        pawns_subset_all (consistent_bbs_ok h Black) hoP
      have hWA : b.bbW.BAll.testBit s = true := by
        have := pawns_subset_all (consistent_bbs_ok h White) hpbit
        exact this
      have := colors_disjoint h hWA
      rw [hBA] at this
      exact absurd this (by simp)
    · rw [onlyRank3_bit ht64] at hdb
      have := of_decide_eq_true hdb
      omega
  | Black =>
    obtain ⟨h16, h23, hoP, _, _⟩ := epOk_black h hc hep0
    rw [hc] at hsh hpbit
    simp only [pawnPushDirections, doublePushRankBBs] at hsh
    rcases hsh with hsh | ⟨hsh, hdb⟩
    · have ht8 : s = t + 8 := by
        unfold u8ofInt at hsh
        omega
      have hsep : s = b.enpassant + 8 := by omega
      rw [← hsep] at hoP
      have hWA : b.bbW.BAll.testBit s = true :=
        pawns_subset_all (consistent_bbs_ok h White) hoP
      have hBA : b.bbB.BAll.testBit s = true :=
        pawns_subset_all (consistent_bbs_ok h Black) hpbit
      have := colors_disjoint h hWA
      rw [hBA] at this
      exact absurd this (by simp)
    · rw [onlyRank4_bit ht64] at hdb
      have := of_decide_eq_true hdb
      omega

theorem occupied_ne_ep {b : Board} {c : Nat} (h : consistentB b = true)
    (hocc : ((b.bbs (oppColor b.Colortomove)).BAll).testBit c = true)
    (hep0 : b.enpassant ≠ 0) : c ≠ b.enpassant := by
  intro hce
  subst hce
  cases hc : b.Colortomove with
  | White =>
    obtain ⟨_, _, _, _, hBAll⟩ := epOk_white h hc hep0
    rw [hc] at hocc
    simp only [oppColor, Board.bbs] at hocc
    rw [hocc] at hBAll
    exact absurd hBAll (by simp)
  | Black =>
    obtain ⟨_, _, _, hWAll, _⟩ := epOk_black h hc hep0
    rw [hc] at hocc
    simp only [oppColor, Board.bbs] at hocc
    rw [hocc] at hWAll
    exact absurd hWAll (by simp)

/-! ## Boolean packaging of the no-en-passant side condition -/

theorem hepFalse_of_not_pawn {b : Board} {m : Move} (h : b.PieceAt m.Src ≠ Pawn) :
    (b.PieceAt m.Src == Pawn && m.To == b.enpassant && b.enpassant != 0) = false := by
  have hb : (b.PieceAt m.Src == Pawn) = false := by
    simpa using h
  rw [hb]
  rfl

theorem hepFalse_of_ne_ep {b : Board} {m : Move} (hne : m.To ≠ b.enpassant) :
    (b.PieceAt m.Src == Pawn && m.To == b.enpassant && b.enpassant != 0) = false := by
  have hb : (m.To == b.enpassant) = false := by simpa using hne
  rw [hb, Bool.and_false, Bool.false_and]

theorem hepFalse_of_ep0 {b : Board} {m : Move} (h0 : b.enpassant = 0) :
    (b.PieceAt m.Src == Pawn && m.To == b.enpassant && b.enpassant != 0) = false := by
  rw [h0]
  simp

/-! ## The three `MakeMove`-level unmake scenarios -/

theorem Restore_MakeMove_normal {b : Board} {m : Move} (h : consistentB b = true)
    (hlt : m < 32768)
    (hcs : castleStatusOf (b.PieceAt m.Src) m.Src m.To = 0)
    (hep : (b.PieceAt m.Src == Pawn && m.To == b.enpassant && b.enpassant != 0) = false) :
    Restore (MakeMove b m).1 (MakeMove b m).2 = b := by
  have hns := IsSimple_false_of_lt hlt
  unfold MakeMove
  rw [if_neg (by rw [hns]; exact fun hx => absurd hx (by simp))]
  exact Restore_MakeSpecialMove_normal hcs hep (consistent_parts h).2.2.2.2.2.2.2.2.2.2.2.1
    (okB_parts (consistent_bbs_ok h (oppColor b.Colortomove))).1
    (consistent_parts h).2.2.2.1

theorem Restore_MakeMove_ep {b : Board} {m : Move} (h : consistentB b = true)
    (hlt : m < 32768)
    (hpt : b.PieceAt m.Src = Pawn) (hise : m.To = b.enpassant) (hep0 : b.enpassant ≠ 0)
    (hto : b.PieceAt m.To = Nothing)
    (hepl : b.PieceAt (u8ofInt ((b.enpassant : Int) + epDeltas b.Colortomove)) = Pawn) :
    Restore (MakeMove b m).1 (MakeMove b m).2 = b := by
  have hns := IsSimple_false_of_lt hlt
  unfold MakeMove
  rw [if_neg (by rw [hns]; exact fun hx => absurd hx (by simp))]
  exact Restore_MakeSpecialMove_ep hpt hise hep0 hto hepl
    (consistent_parts h).2.2.2.2.2.2.2.2.2.2.2.1 (consistent_parts h).2.2.2.1

theorem Restore_MakeMove_castle {b : Board} {m : Move} {f t oldR newR : Nat}
    (h : consistentB b = true) (hlt : m < 32768)
    (hf : m.Src = f) (ht : m.To = t)
    (hgeom : (f = 4 ∧ t = 6 ∧ oldR = 7 ∧ newR = 5) ∨ (f = 4 ∧ t = 2 ∧ oldR = 0 ∧ newR = 3) ∨
             (f = 60 ∧ t = 62 ∧ oldR = 63 ∧ newR = 61) ∨
             (f = 60 ∧ t = 58 ∧ oldR = 56 ∧ newR = 59))
    (hpt : b.PieceAt m.Src = King) (hto : b.PieceAt m.To = Nothing)
    (hnew : b.PieceAt newR = Nothing) (hold : b.PieceAt oldR = Rook) :
    Restore (MakeMove b m).1 (MakeMove b m).2 = b := by
  have hns := IsSimple_false_of_lt hlt
  unfold MakeMove
  rw [if_neg (by rw [hns]; exact fun hx => absurd hx (by simp))]
  exact Restore_MakeSpecialMove_castle hf ht hgeom hpt hto hnew hold
    (consistent_parts h).2.2.2.2.2.2.2.2.2.2.2.1
    (okB_parts (consistent_bbs_ok h (oppColor b.Colortomove))).1
    (consistent_parts h).2.2.2.1


/-! ## Strengthened emission shape of the pin steps -/

theorem pinOrthoStep_full {b : Board} {ad kidx kO ap : Nat} {st : List Move × Nat} {c : Nat}
    {m : Move} (h : consistentB b = true)
    (hm : m ∈ (pinOrthoStep b ad kidx kO ap st c).1) :
    m ∈ st.1 ∨
    ∃ s t : Nat, m = mkMoveFT s t ∧ s < 64 ∧ t < 64 ∧
      ((b.bbs b.Colortomove).BAll).testBit s = true ∧ kO.testBit s = true ∧
      ((t = u8ofInt ((s : Int) + 8 * pawnPushDirections b.Colortomove) ∨
        (t = u8ofInt ((s : Int) + 16 * pawnPushDirections b.Colortomove) ∧
         (doublePushRankBBs b.Colortomove).testBit t = true)) ∨
       ((b.bbs b.Colortomove).Pawns).testBit s = false) := by
  have hAllU : ((b.bbs b.Colortomove).BAll) < U64 :=
    (okB_parts (consistent_bbs_ok h b.Colortomove)).2.2.2.2.2.2.2.1
  unfold pinOrthoStep at hm
  lift_lets at hm
  extract_lets ourPieces oppPieces rookTargets pinnedPiece pinnedPieceIdx sameRank sameFile
    pinnedAcc dir t0 t1 pinnedPieceAllMoves pinnedTargets at hm
  have hPP : pinnedPiece < U64 := and_lt_U64 _ hAllU
  split_ifs at hm with c1 c2 c3 c4 c5
  · exact Or.inl hm
  · exact Or.inl hm
  · -- pinned pawn on the king's file: pushes
    rw [List.mem_append] at hm
    rcases hm with hm | hm
    · exact Or.inl hm
    · right
      obtain ⟨t, ht, htb, hmt⟩ := mem_genMovesFromTargets.mp hm
      have hne : pinnedPiece ≠ 0 := by simpa using c1
      have hidx := lowestSetBit_mem hne hPP
      have hdec : (rookTargets &&& kO &&& ourPieces.BAll).testBit pinnedPieceIdx = true :=
        hidx.2
      rw [Nat.testBit_and, Nat.testBit_and, Bool.and_eq_true, Bool.and_eq_true] at hdec
      refine ⟨pinnedPieceIdx, t, hmt, hidx.1, ht, hdec.2, hdec.1.2, ?_⟩
      rw [Nat.testBit_and, Bool.and_eq_true] at htb
      have ht1 : t1 = if t0 != 0 then
          t0 ||| (bitU (u8ofInt ((pinnedPieceIdx : Int) + 16 * dir)) &&&
            compl64 ap &&& doublePushRankBBs b.Colortomove)
        else t0 := rfl
      have ht0 : t0 = bitU (u8ofInt ((pinnedPieceIdx : Int) + 8 * dir)) &&& compl64 ap := rfl
      have hdir : dir = pawnPushDirections b.Colortomove := rfl
      rcases hq : (t0 != 0) with hv | hv
      · rw [hq] at ht1
        simp only [Bool.false_eq_true, if_false] at ht1
        rw [ht1, ht0] at htb
        rw [← hdir]
        exact Or.inl (Or.inl (testBit_of_bitU_and htb.1).symm)
      · rw [hq] at ht1
        simp only [if_true] at ht1
        rw [ht1] at htb
        rw [Nat.testBit_or, Bool.or_eq_true] at htb
        rcases htb.1 with hx | hx
        · rw [ht0] at hx
          rw [← hdir]
          exact Or.inl (Or.inl (testBit_of_bitU_and hx).symm)
        · rw [show bitU (u8ofInt ((pinnedPieceIdx : Int) + 16 * dir)) &&&
              compl64 ap &&& doublePushRankBBs b.Colortomove =
              bitU (u8ofInt ((pinnedPieceIdx : Int) + 16 * dir)) &&&
              (compl64 ap &&& doublePushRankBBs b.Colortomove) from Nat.and_assoc _ _ _] at hx
          have hx2 := hx
          rw [Nat.testBit_and, Bool.and_eq_true, Nat.testBit_and, Bool.and_eq_true] at hx2
          rw [← hdir]
          exact Or.inl (Or.inr ⟨(testBit_of_bitU_and hx).symm, hx2.2.2⟩)
  · exact Or.inl hm
  · exact Or.inl hm
  · -- pinned rook or queen: slider moves, no pawn on the origin
    rw [List.mem_append] at hm
    rcases hm with hm | hm
    · exact Or.inl hm
    · right
      obtain ⟨t, ht, htb, hmt⟩ := mem_genMovesFromTargets.mp hm
      have hne : pinnedPiece ≠ 0 := by simpa using c1
      have hidx := lowestSetBit_mem hne hPP
      have hdec : (rookTargets &&& kO &&& ourPieces.BAll).testBit pinnedPieceIdx = true :=
        hidx.2
      rw [Nat.testBit_and, Nat.testBit_and, Bool.and_eq_true, Bool.and_eq_true] at hdec
      refine ⟨pinnedPieceIdx, t, hmt, hidx.1, ht, hdec.2, hdec.1.2, Or.inr ?_⟩
      have hc3' : (pinnedPiece &&& (b.bbs b.Colortomove).Pawns) = 0 := by
        simpa using c3
      exact bit_false_of_and_zero hc3' hidx.2

theorem pinDiagStep_full {b : Board} {ad kidx kD ap : Nat} {st : List Move × Nat} {c : Nat}
    {m : Move} (h : consistentB b = true)
    (hm : m ∈ (pinDiagStep b ad kidx kD ap st c).1) :
    m ∈ st.1 ∨
    ∃ s : Nat, s < 64 ∧
      ((b.bbs b.Colortomove).BAll).testBit s = true ∧ kD.testBit s = true ∧
      ((∃ t, t < 64 ∧ m = mkMoveFT s t ∧ ((b.bbs b.Colortomove).Pawns).testBit s = false) ∨
       (m = mkMoveFT s c ∨
        ∃ p ∈ ([Knight, Bishop, Rook, Queen] : List Piece), m = mkMoveFTP s c p)) := by
  have hAllU : ((b.bbs b.Colortomove).BAll) < U64 :=
    (okB_parts (consistent_bbs_ok h b.Colortomove)).2.2.2.2.2.2.2.1
  unfold pinDiagStep at hm
  lift_lets at hm
  extract_lets ourPieces oppPieces bishopTargets pinnedPiece pinnedPieceIdx pinnedAcc
    pinnedPieceAllMoves pinnedTargets at hm
  have hPP : pinnedPiece < U64 := and_lt_U64 _ hAllU
  split_ifs at hm with c1 c2 c3 c4 c5 c6 c7
  · exact Or.inl hm
  · exact Or.inl hm
  · -- promotion captures of the slider
    rw [List.mem_append] at hm
    rcases hm with hm | hm
    · exact Or.inl hm
    · right
      rw [List.mem_map] at hm
      obtain ⟨p, hp, hmp⟩ := hm
      have hne : pinnedPiece ≠ 0 := by simpa using c1
      have hidx := lowestSetBit_mem hne hPP
      have hdec : (bishopTargets &&& kD &&& ourPieces.BAll).testBit pinnedPieceIdx = true :=
        hidx.2
      rw [Nat.testBit_and, Nat.testBit_and, Bool.and_eq_true, Bool.and_eq_true] at hdec
      exact ⟨pinnedPieceIdx, hidx.1, hdec.2, hdec.1.2, Or.inr (Or.inr ⟨p, hp, hmp.symm⟩)⟩
  · -- plain capture of the slider
    rw [List.mem_append] at hm
    rcases hm with hm | hm
    · exact Or.inl hm
    · have hne : pinnedPiece ≠ 0 := by simpa using c1
      have hidx := lowestSetBit_mem hne hPP
      have hdec : (bishopTargets &&& kD &&& ourPieces.BAll).testBit pinnedPieceIdx = true :=
        hidx.2
      rw [Nat.testBit_and, Nat.testBit_and, Bool.and_eq_true, Bool.and_eq_true] at hdec
      rw [List.mem_singleton] at hm
      exact Or.inr ⟨pinnedPieceIdx, hidx.1, hdec.2, hdec.1.2, Or.inr (Or.inl hm)⟩
  · exact Or.inl hm
  · exact Or.inl hm
  · exact Or.inl hm
  · -- pinned bishop or queen: slider moves, no pawn on the origin
    rw [List.mem_append] at hm
    rcases hm with hm | hm
    · exact Or.inl hm
    · right
      obtain ⟨t, ht, htb, hmt⟩ := mem_genMovesFromTargets.mp hm
      have hne : pinnedPiece ≠ 0 := by simpa using c1
      have hidx := lowestSetBit_mem hne hPP
      have hdec : (bishopTargets &&& kD &&& ourPieces.BAll).testBit pinnedPieceIdx = true :=
        hidx.2
      rw [Nat.testBit_and, Nat.testBit_and, Bool.and_eq_true, Bool.and_eq_true] at hdec
      have hc3' : (pinnedPiece &&& (b.bbs b.Colortomove).Pawns) = 0 := by
        simpa using c3
      exact ⟨pinnedPieceIdx, hidx.1, hdec.2, hdec.1.2,
        Or.inl ⟨t, ht, hmt, bit_false_of_and_zero hc3' hidx.2⟩⟩

/-- Full emission shape of `generatePinnedMoves`: every emitted move starts
on one of our pieces lying on a king ray, and is a pinned pawn push, a move
of a non-pawn, or a (possibly promoting) pawn capture of a diagonal slider. -/
theorem generatePinnedMoves_full {b : Board} {ad : Nat} {m : Move} (h : consistentB b = true)
    (hm : m ∈ (generatePinnedMoves b ad).1) :
    ∃ s, s < 64 ∧ ((b.bbs b.Colortomove).BAll).testBit s = true ∧
      ((CalculateRookMoveBitboard (lowestSetBit ((b.bbs b.Colortomove).Kings))
          ((b.bbs (oppColor b.Colortomove)).BAll |||
            (b.bbs b.Colortomove).BAll)).testBit s = true ∨
       (CalculateBishopMoveBitboard (lowestSetBit ((b.bbs b.Colortomove).Kings))
          ((b.bbs (oppColor b.Colortomove)).BAll |||
            (b.bbs b.Colortomove).BAll)).testBit s = true) ∧
      ((∃ t, t < 64 ∧ m = mkMoveFT s t ∧
          (t = u8ofInt ((s : Int) + 8 * pawnPushDirections b.Colortomove) ∨
           (t = u8ofInt ((s : Int) + 16 * pawnPushDirections b.Colortomove) ∧
            (doublePushRankBBs b.Colortomove).testBit t = true))) ∨
       (∃ t, t < 64 ∧ m = mkMoveFT s t ∧
          ((b.bbs b.Colortomove).Pawns).testBit s = false) ∨
       (∃ c, c < 64 ∧
          (((b.bbs (oppColor b.Colortomove)).Bishops |||
            (b.bbs (oppColor b.Colortomove)).Queens)).testBit c = true ∧
          (m = mkMoveFT s c ∨
           ∃ p ∈ ([Knight, Bishop, Rook, Queen] : List Piece), m = mkMoveFTP s c p))) := by
  unfold generatePinnedMoves at hm
  lift_lets at hm
  extract_lets ourPieces oppPieces ourKingIdx allPieces kingOrthoTargets stO kingDiagTargets
    at hm
  have hD := @foldl_mem_fact _ (fun c m' =>
      ∃ s : Nat, s < 64 ∧ ourPieces.BAll.testBit s = true ∧
        kingDiagTargets.testBit s = true ∧
        ((∃ t, t < 64 ∧ m' = mkMoveFT s t ∧ ourPieces.Pawns.testBit s = false) ∨
         (m' = mkMoveFT s c ∨
          ∃ p ∈ ([Knight, Bishop, Rook, Queen] : List Piece), m' = mkMoveFTP s c p)))
    (bitIndices (oppPieces.Bishops ||| oppPieces.Queens))
    (fun st c m' _ hm' => pinDiagStep_full h hm')
    stO m hm
  rcases hD with hD | ⟨c, hc, s, hs64, hsall, hskD, hinner⟩
  · have hO := @foldl_mem_fact _ (fun _ m' =>
        ∃ s t : Nat, m' = mkMoveFT s t ∧ s < 64 ∧ t < 64 ∧
          ourPieces.BAll.testBit s = true ∧ kingOrthoTargets.testBit s = true ∧
          ((t = u8ofInt ((s : Int) + 8 * pawnPushDirections b.Colortomove) ∨
            (t = u8ofInt ((s : Int) + 16 * pawnPushDirections b.Colortomove) ∧
             (doublePushRankBBs b.Colortomove).testBit t = true)) ∨
           ourPieces.Pawns.testBit s = false))
      (bitIndices (oppPieces.Rooks ||| oppPieces.Queens))
      (fun st c m' _ hm' => by
        rcases pinOrthoStep_full h hm' with h1 | ⟨s, t, hmt, hs, ht, hsall, hskO, hd⟩
        · exact Or.inl h1
        · exact Or.inr ⟨s, t, hmt, hs, ht, hsall, hskO, hd⟩)
      ([], 0) m hD
    rcases hO with hO | ⟨_, _, s, t, hmt, hs, ht, hsall, hskO, hd⟩
    · simp at hO
    · refine ⟨s, hs, hsall, Or.inl hskO, ?_⟩
      rcases hd with hd | hd
      · exact Or.inl ⟨t, ht, hmt, hd⟩
      · exact Or.inr (Or.inl ⟨t, ht, hmt, hd⟩)
  · rw [mem_bitIndices] at hc
    refine ⟨s, hs64, hsall, Or.inr hskD, ?_⟩
    rcases hinner with ⟨t, ht, hmt, hpf⟩ | hcap
    · exact Or.inr (Or.inl ⟨t, ht, hmt, hpf⟩)
    · exact Or.inr (Or.inr ⟨c, hc.1, hc.2, hcap⟩)

/-! ## Full emission shape of `pawnPushes` -/

set_option maxHeartbeats 2000000 in
theorem mem_pawnPushes_full {b : Board} {np ad : Nat} {m : Move} (h : consistentB b = true)
    (hm : m ∈ pawnPushes b np ad) :
    ∃ s t, s < 64 ∧ t < 64 ∧ ((b.bbs b.Colortomove).Pawns).testBit s = true ∧
      (m = mkMoveFT s t ∨
       ∃ p ∈ ([Knight, Bishop, Rook, Queen] : List Piece), m = (mkMoveFT s t).Setpromote p) ∧
      (t = u8ofInt ((s : Int) + 8 * pawnPushDirections b.Colortomove) ∨
       (t = u8ofInt ((s : Int) + 16 * pawnPushDirections b.Colortomove) ∧
        (doublePushRankBBs b.Colortomove).testBit t = true)) := by
  have hPU : ((b.bbs b.Colortomove).Pawns) < U64 :=
    (okB_parts (consistent_bbs_ok h b.Colortomove)).2.1
  unfold pawnPushes at hm
  lift_lets at hm
  extract_lets td oneRankBack targets doubleTargets singles doubles at hm
  have htd : td = pawnPushBitboards b np := rfl
  have horb : oneRankBack = oneRankBacks b.Colortomove := rfl
  rw [List.mem_append] at hm
  rcases hm with hm | hm
  · -- single pushes and promotions
    have hs : m ∈ (bitIndices targets).flatMap (fun target =>
        let canPromote : Bool := match b.Colortomove with
          | White => decide (56 ≤ target)
          | Black => decide (target ≤ 7)
        let mv := mkMoveFT (u8ofInt ((target : Int) + oneRankBack)) target
        if canPromote then [Knight, Bishop, Rook, Queen].map (fun p => mv.Setpromote p)
        else [mv]) := hm
    rw [List.mem_flatMap] at hs
    obtain ⟨t, ht, hmem⟩ := hs
    rw [mem_bitIndices] at ht
    obtain ⟨ht64, htb⟩ := ht
    have htb1 : td.1.testBit t = true := by
      have hx : (td.1 &&& ad).testBit t = true := htb
      rw [Nat.testBit_and, Bool.and_eq_true] at hx
      exact hx.1
    cases hc : b.Colortomove with
    | White =>
      have htd1 : td.1 = ((((b.bbs b.Colortomove).Pawns &&& np) <<< 8) % U64) &&&
          (compl64 b.bbW.BAll &&& compl64 b.bbB.BAll) := by
        rw [htd]
        simp only [pawnPushBitboards, hc]
      rw [htd1, Nat.testBit_and, Bool.and_eq_true] at htb1
      obtain ⟨h8, hp⟩ := shl_mod_testBit ht64 htb1.1
      rw [Nat.testBit_and, Bool.and_eq_true] at hp
      have hsrc : u8ofInt ((t : Int) + oneRankBack) = t - 8 := by
        rw [horb, hc]
        simp only [oneRankBacks]
        unfold u8ofInt
        omega
      have hpb : ((b.bbs White).Pawns).testBit (t - 8) = true := by
        rw [← hc]
        exact hp.1
      refine ⟨t - 8, t, by omega, ht64, hpb, ?_, ?_⟩
      · dsimp only at hmem
        rw [hsrc] at hmem
        split at hmem
        · right
          rw [List.mem_map] at hmem
          obtain ⟨p, hpl, hmp⟩ := hmem
          exact ⟨p, hpl, hmp.symm⟩
        · left
          rw [List.mem_singleton] at hmem
          exact hmem
      · left
        simp only [pawnPushDirections]
        unfold u8ofInt
        omega
    | Black =>
      have htd1 : td.1 = (((b.bbs b.Colortomove).Pawns &&& np) >>> 8) &&&
          (compl64 b.bbW.BAll &&& compl64 b.bbB.BAll) := by
        rw [htd]
        simp only [pawnPushBitboards, hc]
      rw [htd1, Nat.testBit_and, Bool.and_eq_true] at htb1
      have hp := shr_testBit htb1.1
      rw [Nat.testBit_and, Bool.and_eq_true] at hp
      have hs64 : t + 8 < 64 := testBit_lt_64 hPU hp.1
      have hp1 : ((b.bbs Black).Pawns).testBit (t + 8) = true := by
        rw [← hc]
        exact hp.1
      have hsrc : u8ofInt ((t : Int) + oneRankBack) = t + 8 := by
        rw [horb, hc]
        simp only [oneRankBacks]
        unfold u8ofInt
        omega
      refine ⟨t + 8, t, hs64, ht64, hp1, ?_, ?_⟩
      · dsimp only at hmem
        rw [hsrc] at hmem
        split at hmem
        · right
          rw [List.mem_map] at hmem
          obtain ⟨p, hpl, hmp⟩ := hmem
          exact ⟨p, hpl, hmp.symm⟩
        · left
          rw [List.mem_singleton] at hmem
          exact hmem
      · left
        simp only [pawnPushDirections]
        unfold u8ofInt
        omega
  · -- double pushes
    have hs : m ∈ (bitIndices doubleTargets).map (fun t2 =>
        mkMoveFT (u8ofInt (Int.ofNat t2 + 2 * oneRankBack)) t2) := hm
    rw [List.mem_map] at hs
    obtain ⟨t, ht, hmp⟩ := hs
    rw [mem_bitIndices] at ht
    obtain ⟨ht64, htb⟩ := ht
    have htb2 : td.2.testBit t = true := by
      have hx : (td.2 &&& ad).testBit t = true := htb
      rw [Nat.testBit_and, Bool.and_eq_true] at hx
      exact hx.1
    cases hc : b.Colortomove with
    | White =>
      have htd2 : td.2 = ((((((b.bbs b.Colortomove).Pawns &&& np) <<< 8) % U64 &&&
          (compl64 b.bbW.BAll &&& compl64 b.bbB.BAll)) <<< 8) % U64) &&& onlyRank 3 &&&
          (compl64 b.bbW.BAll &&& compl64 b.bbB.BAll) := by
        rw [htd]
        simp only [pawnPushBitboards, hc]
      rw [htd2, Nat.testBit_and, Nat.testBit_and, Bool.and_eq_true, Bool.and_eq_true] at htb2
      obtain ⟨h8, hp1⟩ := shl_mod_testBit ht64 htb2.1.1
      rw [Nat.testBit_and, Bool.and_eq_true] at hp1
      obtain ⟨h82, hp2⟩ := shl_mod_testBit (by omega) hp1.1
      rw [Nat.testBit_and, Bool.and_eq_true] at hp2
      have hpb : ((b.bbs White).Pawns).testBit (t - 16) = true := by
        rw [← hc]
        have hx := hp2.1
        rw [show t - 8 - 8 = t - 16 by omega] at hx
        exact hx
      have hsrc : u8ofInt (Int.ofNat t + 2 * oneRankBack) = t - 16 := by
        rw [horb, hc]
        simp only [oneRankBacks, Int.ofNat_eq_coe]
        unfold u8ofInt
        omega
      rw [hsrc] at hmp
      refine ⟨t - 16, t, by omega, ht64, hpb, Or.inl hmp.symm, Or.inr ⟨?_, ?_⟩⟩
      · simp only [pawnPushDirections]
        unfold u8ofInt
        omega
      · simp only [doublePushRankBBs]
        exact htb2.1.2
    | Black =>
      have htd2 : td.2 = ((((((b.bbs b.Colortomove).Pawns &&& np) >>> 8) &&&
          (compl64 b.bbW.BAll &&& compl64 b.bbB.BAll)) >>> 8)) &&& onlyRank 4 &&&
          (compl64 b.bbW.BAll &&& compl64 b.bbB.BAll) := by
        rw [htd]
        simp only [pawnPushBitboards, hc]
      rw [htd2, Nat.testBit_and, Nat.testBit_and, Bool.and_eq_true, Bool.and_eq_true] at htb2
      have hp1 := shr_testBit htb2.1.1
      rw [Nat.testBit_and, Bool.and_eq_true] at hp1
      have hp2 := shr_testBit hp1.1
      rw [Nat.testBit_and, Bool.and_eq_true] at hp2
      have hs64 : t + 8 + 8 < 64 := testBit_lt_64 hPU hp2.1
      have hpb : ((b.bbs Black).Pawns).testBit (t + 16) = true := by
        rw [← hc]
        have hx := hp2.1
        rw [show t + 8 + 8 = t + 16 by omega] at hx
        exact hx
      have hsrc : u8ofInt (Int.ofNat t + 2 * oneRankBack) = t + 16 := by
        rw [horb, hc]
        simp only [oneRankBacks, Int.ofNat_eq_coe]
        unfold u8ofInt
        omega
      rw [hsrc] at hmp
      refine ⟨t + 16, t, by omega, ht64, hpb, Or.inl hmp.symm, Or.inr ⟨?_, ?_⟩⟩
      · simp only [pawnPushDirections]
        unfold u8ofInt
        omega
      · simp only [doublePushRankBBs]
        exact htb2.1.2


/-! ## Per-component make/unmake dispatch -/

theorem Restore_dispatch_kind {b : Board} {m : Move} {s t : Nat} {k : Piece}
    (h : consistentB b = true) (hk : k = Knight ∨ k = Rook ∨ k = Bishop ∨ k = Queen)
    (hs64 : s < 64) (ht64 : t < 64)
    (hbit : ((b.bbs b.Colortomove).get k).testBit s = true)
    (hm : m = mkMoveFT s t) :
    Restore (MakeMove b m).1 (MakeMove b m).2 = b := by
  subst hm
  have hrk : realKind k := by
    rcases hk with hk | hk | hk | hk <;> subst hk <;> exact ⟨by simp, by simp⟩
  have hpa : b.PieceAt s = k := pieceAt_of_bit h hs64 hrk hbit
  have hsrc : (mkMoveFT s t).Src = s := mkMoveFT_Src hs64 ht64
  have hto : (mkMoveFT s t).To = t := mkMoveFT_To hs64 ht64
  apply Restore_MakeMove_normal h (lt_trans (mkMoveFT_lt hs64 ht64) (by norm_num))
  · rw [hsrc, hto, hpa]
    exact castleStatusOf_ne_king
      (by rcases hk with hk | hk | hk | hk <;> subst hk <;> simp) _ _
  · apply hepFalse_of_not_pawn
    rw [hsrc, hpa]
    rcases hk with hk | hk | hk | hk <;> subst hk <;> simp

theorem Restore_dispatch_kingPush {b : Board} {m : Move} {ad : Nat}
    (h : consistentB b = true) (hm : m ∈ (kingPushes b ad).1) :
    Restore (MakeMove b m).1 (MakeMove b m).2 = b := by
  obtain ⟨t, ht64, hmask, _, _, _, hmt⟩ := mem_kingPushes hm
  obtain ⟨hkl64, hklbit⟩ := kingLoc_facts h
  subst hmt
  have hpa : b.PieceAt (lowestSetBit ((b.bbs b.Colortomove).Kings)) = King :=
    pieceAt_of_bit h hkl64 ⟨by simp, by simp⟩ hklbit
  have hsrc := mkMoveFT_Src hkl64 ht64
  have hto := mkMoveFT_To hkl64 ht64
  have hnt := kingMasks_not_two hkl64 ht64 hmask
  apply Restore_MakeMove_normal h (lt_trans (mkMoveFT_lt hkl64 ht64) (by norm_num))
  · rw [hsrc, hto, hpa]
    exact castleStatusOf_king_far hkl64 ht64 hnt.1 hnt.2
  · apply hepFalse_of_not_pawn
    rw [hsrc, hpa]
    simp

theorem Restore_dispatch_castle {b : Board} {m : Move} (h : consistentB b = true)
    (hcastle :
      (m = mkMoveFT (lowestSetBit ((b.bbs b.Colortomove).Kings))
          ((lowestSetBit ((b.bbs b.Colortomove).Kings) + 2) % 256) ∧
        b.canCastle b.Colortomove Kingside = true ∧
        (b.bbW.BAll ||| b.bbB.BAll) &&& kingsideClearMask b.Colortomove = 0) ∨
      (m = mkMoveFT (lowestSetBit ((b.bbs b.Colortomove).Kings))
          ((lowestSetBit ((b.bbs b.Colortomove).Kings) + 254) % 256) ∧
        b.canCastle b.Colortomove Queenside = true ∧
        (b.bbW.BAll ||| b.bbB.BAll) &&& queensideClearMask b.Colortomove = 0)) :
    Restore (MakeMove b m).1 (MakeMove b m).2 = b := by
  have hco := castleOk_parts h
  have hemp : ∀ {i : Nat}, i < 64 →
      ((b.bbW.BAll ||| b.bbB.BAll).testBit i = false) → b.PieceAt i = Nothing := by
    intro i hi hbit
    rw [Nat.testBit_or, Bool.or_eq_false_iff] at hbit
    exact pieceAt_nothing_of_empty h hi hbit.1 hbit.2
  cases hc : b.Colortomove with
  | White =>
    rw [hc] at hcastle
    rcases hcastle with ⟨hmk, hcc, hclear⟩ | ⟨hmk, hcc, hclear⟩
    · obtain ⟨hK4, hR7⟩ := hco.1 hcc
      have hkl : lowestSetBit ((b.bbs White).Kings) = 4 := by
        have hx := kingLoc_eq_of_bit h
          (show ((b.bbs b.Colortomove).Kings).testBit 4 = true by rw [hc]; exact hK4)
        rwa [hc] at hx
      rw [hkl] at hmk
      have hm6 : m = mkMoveFT 4 6 := by
        rw [hmk]
      have hsrc : m.Src = 4 := by rw [hm6]; exact mkMoveFT_Src (by omega) (by omega)
      have hto : m.To = 6 := by rw [hm6]; exact mkMoveFT_To (by omega) (by omega)
      have hb6 : (b.bbW.BAll ||| b.bbB.BAll).testBit 6 = false :=
        bit_false_of_and_zero' hclear
          (by simp only [kingsideClearMask]; decide :
            (kingsideClearMask White).testBit 6 = true)
      have hb5 : (b.bbW.BAll ||| b.bbB.BAll).testBit 5 = false :=
        bit_false_of_and_zero' hclear
          (by simp only [kingsideClearMask]; decide :
            (kingsideClearMask White).testBit 5 = true)
      apply Restore_MakeMove_castle h
        (lt_of_lt_of_le (by rw [hm6]; exact mkMoveFT_lt (by omega) (by omega)) (by norm_num))
        hsrc hto (Or.inl ⟨rfl, rfl, rfl, rfl⟩)
      · rw [hsrc]
        exact @pieceAt_of_bit b h White King 4 (by omega) ⟨by simp, by simp⟩ hK4
      · rw [hto]
        exact hemp (by omega) hb6
      · exact hemp (by omega) hb5
      · exact @pieceAt_of_bit b h White Rook 7 (by omega) ⟨by simp, by simp⟩ hR7
    · obtain ⟨hK4, hR0⟩ := hco.2.1 hcc
      have hkl : lowestSetBit ((b.bbs White).Kings) = 4 := by
        have hx := kingLoc_eq_of_bit h
          (show ((b.bbs b.Colortomove).Kings).testBit 4 = true by rw [hc]; exact hK4)
        rwa [hc] at hx
      rw [hkl] at hmk
      have hm6 : m = mkMoveFT 4 2 := by
        rw [hmk]
      have hsrc : m.Src = 4 := by rw [hm6]; exact mkMoveFT_Src (by omega) (by omega)
      have hto : m.To = 2 := by rw [hm6]; exact mkMoveFT_To (by omega) (by omega)
      have hb2 : (b.bbW.BAll ||| b.bbB.BAll).testBit 2 = false :=
        bit_false_of_and_zero' hclear
          (by simp only [queensideClearMask]; decide :
            (queensideClearMask White).testBit 2 = true)
      have hb3 : (b.bbW.BAll ||| b.bbB.BAll).testBit 3 = false :=
        bit_false_of_and_zero' hclear
          (by simp only [queensideClearMask]; decide :
            (queensideClearMask White).testBit 3 = true)
      apply Restore_MakeMove_castle h
        (lt_of_lt_of_le (by rw [hm6]; exact mkMoveFT_lt (by omega) (by omega)) (by norm_num))
        hsrc hto (Or.inr (Or.inl ⟨rfl, rfl, rfl, rfl⟩))
      · rw [hsrc]
        exact @pieceAt_of_bit b h White King 4 (by omega) ⟨by simp, by simp⟩ hK4
      · rw [hto]
        exact hemp (by omega) hb2
      · exact hemp (by omega) hb3
      · exact @pieceAt_of_bit b h White Rook 0 (by omega) ⟨by simp, by simp⟩ hR0
  | Black =>
    rw [hc] at hcastle
    rcases hcastle with ⟨hmk, hcc, hclear⟩ | ⟨hmk, hcc, hclear⟩
    · obtain ⟨hK60, hR63⟩ := hco.2.2.1 hcc
      have hkl : lowestSetBit ((b.bbs Black).Kings) = 60 := by
        have hx := kingLoc_eq_of_bit h
          (show ((b.bbs b.Colortomove).Kings).testBit 60 = true by rw [hc]; exact hK60)
        rwa [hc] at hx
      rw [hkl] at hmk
      have hm6 : m = mkMoveFT 60 62 := by
        rw [hmk]
      have hsrc : m.Src = 60 := by rw [hm6]; exact mkMoveFT_Src (by omega) (by omega)
      have hto : m.To = 62 := by rw [hm6]; exact mkMoveFT_To (by omega) (by omega)
      have hb62 : (b.bbW.BAll ||| b.bbB.BAll).testBit 62 = false :=
        bit_false_of_and_zero' hclear
          (by simp only [kingsideClearMask]; decide :
            (kingsideClearMask Black).testBit 62 = true)
      have hb61 : (b.bbW.BAll ||| b.bbB.BAll).testBit 61 = false :=
        bit_false_of_and_zero' hclear
          (by simp only [kingsideClearMask]; decide :
            (kingsideClearMask Black).testBit 61 = true)
      apply Restore_MakeMove_castle h
        (lt_of_lt_of_le (by rw [hm6]; exact mkMoveFT_lt (by omega) (by omega)) (by norm_num))
        hsrc hto (Or.inr (Or.inr (Or.inl ⟨rfl, rfl, rfl, rfl⟩)))
      · rw [hsrc]
        exact @pieceAt_of_bit b h Black King 60 (by omega) ⟨by simp, by simp⟩ hK60
      · rw [hto]
        exact hemp (by omega) hb62
      · exact hemp (by omega) hb61
      · exact @pieceAt_of_bit b h Black Rook 63 (by omega) ⟨by simp, by simp⟩ hR63
    · obtain ⟨hK60, hR56⟩ := hco.2.2.2 hcc
      have hkl : lowestSetBit ((b.bbs Black).Kings) = 60 := by
        have hx := kingLoc_eq_of_bit h
          (show ((b.bbs b.Colortomove).Kings).testBit 60 = true by rw [hc]; exact hK60)
        rwa [hc] at hx
      rw [hkl] at hmk
      have hm6 : m = mkMoveFT 60 58 := by
        rw [hmk]
      have hsrc : m.Src = 60 := by rw [hm6]; exact mkMoveFT_Src (by omega) (by omega)
      have hto : m.To = 58 := by rw [hm6]; exact mkMoveFT_To (by omega) (by omega)
      have hb58 : (b.bbW.BAll ||| b.bbB.BAll).testBit 58 = false :=
        bit_false_of_and_zero' hclear
          (by simp only [queensideClearMask]; decide :
            (queensideClearMask Black).testBit 58 = true)
      have hb59 : (b.bbW.BAll ||| b.bbB.BAll).testBit 59 = false :=
        bit_false_of_and_zero' hclear
          (by simp only [queensideClearMask]; decide :
            (queensideClearMask Black).testBit 59 = true)
      apply Restore_MakeMove_castle h
        (lt_of_lt_of_le (by rw [hm6]; exact mkMoveFT_lt (by omega) (by omega)) (by norm_num))
        hsrc hto (Or.inr (Or.inr (Or.inr ⟨rfl, rfl, rfl, rfl⟩)))
      · rw [hsrc]
        exact @pieceAt_of_bit b h Black King 60 (by omega) ⟨by simp, by simp⟩ hK60
      · rw [hto]
        exact hemp (by omega) hb58
      · exact hemp (by omega) hb59
      · exact @pieceAt_of_bit b h Black Rook 56 (by omega) ⟨by simp, by simp⟩ hR56

theorem Restore_dispatch_pinned {b : Board} {m : Move} {ad : Nat}
    (h : consistentB b = true) (hm : m ∈ (generatePinnedMoves b ad).1) :
    Restore (MakeMove b m).1 (MakeMove b m).2 = b := by
  obtain ⟨s, hs64, hsall, hray, hcases⟩ := generatePinnedMoves_full h hm
  have hnk : b.PieceAt s ≠ King := not_king_on_ray h hs64 hsall hray
  rcases hcases with ⟨t, ht64, hmt, hsh⟩ | ⟨t, ht64, hmt, hpf⟩ | ⟨c, hc64, hcbit, hforms⟩
  · -- pinned pawn push shape
    subst hmt
    have hsrc := mkMoveFT_Src hs64 ht64
    have hto := mkMoveFT_To hs64 ht64
    apply Restore_MakeMove_normal h (lt_trans (mkMoveFT_lt hs64 ht64) (by norm_num))
    · rw [hsrc, hto]
      exact castleStatusOf_ne_king hnk _ _
    · by_cases hP : b.PieceAt s = Pawn
      · by_cases hep0 : b.enpassant = 0
        · exact hepFalse_of_ep0 hep0
        · apply hepFalse_of_ne_ep
          rw [hto]
          have hpb : ((b.bbs b.Colortomove).Pawns).testBit s = true :=
            ourKind_of_pieceAt h hs64 ⟨by simp, by simp⟩ hsall hP
          exact push_target_ne_ep h hs64 ht64 hpb hsh hep0
      · apply hepFalse_of_not_pawn
        rw [hsrc]
        exact hP
  · -- pinned non-pawn slider move
    subst hmt
    have hsrc := mkMoveFT_Src hs64 ht64
    have hto := mkMoveFT_To hs64 ht64
    apply Restore_MakeMove_normal h (lt_trans (mkMoveFT_lt hs64 ht64) (by norm_num))
    · rw [hsrc, hto]
      exact castleStatusOf_ne_king hnk _ _
    · apply hepFalse_of_not_pawn
      rw [hsrc]
      intro hP
      have hpb : ((b.bbs b.Colortomove).Pawns).testBit s = true :=
        ourKind_of_pieceAt h hs64 ⟨by simp, by simp⟩ hsall hP
      rw [hpb] at hpf
      exact absurd hpf (by simp)
  · -- pinned pawn capture of the diagonal slider (possibly promoting)
    have hoppAll : ((b.bbs (oppColor b.Colortomove)).BAll).testBit c = true := by
      rw [Nat.testBit_or, Bool.or_eq_true] at hcbit
      rcases hcbit with hx | hx
      · exact get_subset_all (consistent_bbs_ok h (oppColor b.Colortomove))
          ⟨by simp, by simp⟩
          (show ((b.bbs (oppColor b.Colortomove)).get Bishop).testBit c = true from hx)
      · exact get_subset_all (consistent_bbs_ok h (oppColor b.Colortomove))
          ⟨by simp, by simp⟩
          (show ((b.bbs (oppColor b.Colortomove)).get Queen).testBit c = true from hx)
    have hepcase : ∀ m' : Move, m'.Src = s → m'.To = c → m' < 32768 →
        Restore (MakeMove b m').1 (MakeMove b m').2 = b := by
      intro m' hsrc hto hlt
      apply Restore_MakeMove_normal h hlt
      · rw [hsrc, hto]
        exact castleStatusOf_ne_king hnk _ _
      · by_cases hep0 : b.enpassant = 0
        · exact hepFalse_of_ep0 hep0
        · apply hepFalse_of_ne_ep
          rw [hto]
          exact occupied_ne_ep h hoppAll hep0
    rcases hforms with hmt | ⟨p, hp, hmt⟩
    · subst hmt
      exact hepcase _ (mkMoveFT_Src hs64 hc64) (mkMoveFT_To hs64 hc64)
        (lt_trans (mkMoveFT_lt hs64 hc64) (by norm_num))
    · subst hmt
      refine hepcase _ (mkMoveFTP_Src hs64 hc64 p) (mkMoveFTP_To hs64 hc64 p) ?_
      show mkMoveFTP s c p < 32768
      unfold mkMoveFTP
      exact Setpromote_lt15 (lt_trans (mkMoveFT_lt hs64 hc64) (by norm_num)) p

theorem Restore_dispatch_pawnPushes {b : Board} {m : Move} {np ad : Nat}
    (h : consistentB b = true) (hm : m ∈ pawnPushes b np ad) :
    Restore (MakeMove b m).1 (MakeMove b m).2 = b := by
  obtain ⟨s, t, hs64, ht64, hpb, hform, hsh⟩ := mem_pawnPushes_full h hm
  have hpa : b.PieceAt s = Pawn := pieceAt_of_bit h hs64 ⟨by simp, by simp⟩ hpb
  have hepcase : ∀ m' : Move, m'.Src = s → m'.To = t → m' < 32768 →
      Restore (MakeMove b m').1 (MakeMove b m').2 = b := by
    intro m' hsrc hto hlt
    apply Restore_MakeMove_normal h hlt
    · rw [hsrc, hto, hpa]
      exact castleStatusOf_ne_king (by simp) _ _
    · by_cases hep0 : b.enpassant = 0
      · exact hepFalse_of_ep0 hep0
      · apply hepFalse_of_ne_ep
        rw [hto]
        exact push_target_ne_ep h hs64 ht64 hpb hsh hep0
  rcases hform with hmt | ⟨p, hp, hmt⟩
  · subst hmt
    exact hepcase _ (mkMoveFT_Src hs64 ht64) (mkMoveFT_To hs64 ht64)
      (lt_trans (mkMoveFT_lt hs64 ht64) (by norm_num))
  · subst hmt
    refine hepcase _ (mkMoveFTP_Src hs64 ht64 p) (mkMoveFTP_To hs64 ht64 p) ?_
    show mkMoveFTP s t p < 32768
    unfold mkMoveFTP
    exact Setpromote_lt15 (lt_trans (mkMoveFT_lt hs64 ht64) (by norm_num)) p


theorem hepFalse_of_pair {b : Board} {m : Move}
    (hbr : (m.To == b.enpassant && b.enpassant != 0) = false) :
    (b.PieceAt m.Src == Pawn && m.To == b.enpassant && b.enpassant != 0) = false := by
  cases hA : (b.PieceAt m.Src == Pawn) <;> cases hB : (m.To == b.enpassant) <;>
    cases hC : (b.enpassant != 0) <;> simp_all

set_option maxHeartbeats 1000000 in
theorem Restore_dispatch_pawnCaptures {b : Board} {m : Move} {np ad : Nat}
    (h : consistentB b = true) (hm : m ∈ (pawnCaptures b np ad).1) :
    Restore (MakeMove b m).1 (MakeMove b m).2 = b := by
  rw [pawnCaptures_eq h] at hm
  dsimp only at hm
  rw [List.mem_append] at hm
  have hstep : ∀ d, (d = 0 ∨ d = 1) →
      m ∈ (bitIndices (pawnCapTargets b np ad d)).flatMap (capEmitted d b) →
      Restore (MakeMove b m).1 (MakeMove b m).2 = b := by
    intro d hd hmem
    rw [List.mem_flatMap] at hmem
    obtain ⟨t, htmem, hem⟩ := hmem
    rw [mem_bitIndices] at htmem
    obtain ⟨ht64, htb⟩ := htmem
    obtain ⟨hpnp, hfl⟩ := capTargets_fromSq_facts h hd htb ht64
    have hpb : ((b.bbs b.Colortomove).Pawns).testBit (capFromSq b.Colortomove d t) = true := by
      rw [Nat.testBit_and, Bool.and_eq_true] at hpnp
      exact hpnp.1
    have hpa : b.PieceAt (capFromSq b.Colortomove d t) = Pawn :=
      pieceAt_of_bit h hfl ⟨by simp, by simp⟩ hpb
    simp only [capEmitted] at hem
    by_cases hbr : (t == b.enpassant && b.enpassant != 0) = true
    · rw [if_pos hbr] at hem
      have hbr' := hbr
      simp only [Bool.and_eq_true, beq_iff_eq, bne_iff_ne, ne_eq] at hbr'
      obtain ⟨hte, hepn⟩ := hbr'
      subst hte
      obtain ⟨hep64, hep7, hep56⟩ := ep_bounds h hepn
      by_cases hkc : (epEdit b (capFromSq b.Colortomove d b.enpassant) b.enpassant
          (capEnemySq b.Colortomove b.enpassant)).OurKingInCheck = true
      · rw [if_pos hkc] at hem
        exact absurd hem (by simp)
      · rw [if_neg hkc] at hem
        rw [if_neg ?hcp] at hem
        case hcp =>
          cases hc : b.Colortomove
          · simp only
            simp only [decide_eq_true_eq]
            omega
          · simp only
            simp only [decide_eq_true_eq]
            omega
        rw [List.mem_singleton] at hem
        subst hem
        have hsrc := mkMoveFT_Src hfl hep64
        have hto := mkMoveFT_To hfl hep64
        apply Restore_MakeMove_ep h (lt_trans (mkMoveFT_lt hfl hep64) (by norm_num))
        · rw [hsrc]
          exact hpa
        · rw [hto]
        · exact hepn
        · rw [hto]
          cases hc : b.Colortomove
          · obtain ⟨_, _, _, hW, hB⟩ := epOk_white h hc hepn
            exact pieceAt_nothing_of_empty h hep64 hW hB
          · obtain ⟨_, _, _, hW, hB⟩ := epOk_black h hc hepn
            exact pieceAt_nothing_of_empty h hep64 hW hB
        · cases hc : b.Colortomove
          · obtain ⟨h40, h47, hoP, _, _⟩ := epOk_white h hc hepn
            have he : u8ofInt ((b.enpassant : Int) + epDeltas White) = b.enpassant - 8 := by
              simp only [epDeltas]
              unfold u8ofInt
              omega
            rw [he]
            exact @pieceAt_of_bit b h Black Pawn (b.enpassant - 8) (by omega)
              ⟨by simp, by simp⟩ hoP
          · obtain ⟨h16, h23, hoP, _, _⟩ := epOk_black h hc hepn
            have he : u8ofInt ((b.enpassant : Int) + epDeltas Black) = b.enpassant + 8 := by
              simp only [epDeltas]
              unfold u8ofInt
              omega
            rw [he]
            exact @pieceAt_of_bit b h White Pawn (b.enpassant + 8) (by omega)
              ⟨by simp, by simp⟩ hoP
    · rw [if_neg hbr] at hem
      have hepF : ∀ m' : Move, m'.Src = capFromSq b.Colortomove d t → m'.To = t →
          m' < 32768 → Restore (MakeMove b m').1 (MakeMove b m').2 = b := by
        intro m' hsrc hto hlt
        apply Restore_MakeMove_normal h hlt
        · rw [hsrc, hto, hpa]
          exact castleStatusOf_ne_king (by simp) _ _
        · apply hepFalse_of_pair
          rw [hto]
          simpa using hbr
      split_ifs at hem with hpr
      · rw [List.mem_map] at hem
        obtain ⟨p, hpl, hmp⟩ := hem
        subst hmp
        exact hepF _ (mkMoveFTP_Src hfl ht64 p) (mkMoveFTP_To hfl ht64 p)
          (Setpromote_lt15 (lt_trans (mkMoveFT_lt hfl ht64) (by norm_num)) p)
      · rw [List.mem_singleton] at hem
        subst hem
        exact hepF _ (mkMoveFT_Src hfl ht64) (mkMoveFT_To hfl ht64)
          (lt_trans (mkMoveFT_lt hfl ht64) (by norm_num))
  rcases hm with hm | hm
  · exact hstep 0 (Or.inl rfl) hm
  · exact hstep 1 (Or.inr rfl) hm

theorem Restore_dispatch_kingMoves {b : Board} {m : Move} {ad : Nat} {inc : Bool}
    (h : consistentB b = true) (hm : m ∈ (kingMoves b ad inc).1) :
    Restore (MakeMove b m).1 (MakeMove b m).2 = b := by
  rcases mem_kingMoves hm with hp | ⟨_, hcastle⟩
  · exact Restore_dispatch_kingPush h hp
  · exact Restore_dispatch_castle h hcastle

/-- Make followed by restore is the identity on every generated move. -/
theorem Restore_MakeMove_of_generated {b : Board} {m : Move} (h : consistentB b = true)
    (hm : m ∈ GenerateLegalMoves b) :
    Restore (MakeMove b m).1 (MakeMove b m).2 = b := by
  rcases mem_GenerateLegalMoves_parts h hm with
    ⟨ad, hx⟩ | ⟨ad, hx⟩ | ⟨np, ad, hx⟩ | ⟨np, ad, hx⟩ | ⟨np, ad, hx⟩ | ⟨np, ad, hx⟩ |
    ⟨np, ad, hx⟩ | ⟨np, ad, hx⟩ | ⟨ad, inc, hx⟩
  · exact Restore_dispatch_kingPush h hx
  · exact Restore_dispatch_pinned h hx
  · exact Restore_dispatch_pawnPushes h hx
  · exact Restore_dispatch_pawnCaptures h hx
  · obtain ⟨s, t, hs, ht, hbit, hmt⟩ := mem_knightMoves hx
    exact Restore_dispatch_kind h (Or.inl rfl) hs ht hbit hmt
  · obtain ⟨s, t, hs, ht, hbit, hmt⟩ := mem_rookMoves hx
    exact Restore_dispatch_kind h (Or.inr (Or.inl rfl)) hs ht hbit hmt
  · obtain ⟨s, t, hs, ht, hbit, hmt⟩ := mem_bishopMoves hx
    exact Restore_dispatch_kind h (Or.inr (Or.inr (Or.inl rfl))) hs ht hbit hmt
  · obtain ⟨s, t, hs, ht, hbit, hmt⟩ := mem_queenMoves hx
    exact Restore_dispatch_kind h (Or.inr (Or.inr (Or.inr rfl))) hs ht hbit hmt
  · exact Restore_dispatch_kingMoves h hx

/-- C1: on a consistent board, making any generated legal move with
`MakeMove` and then applying `Restore` to the returned save record restores
the board bit-for-bit: both colors' piece and All bitboards, the pieces
array, side to move, en-passant square, castle rights, halfmove clock,
fullmove number and Zobrist hash all equal their pre-move values. -/
theorem claim_C1 (b : Board) (m : Move) (h : consistentB b = true)
    (hm : m ∈ GenerateLegalMoves b) :
    Restore (MakeMove b m).1 (MakeMove b m).2 = b :=
  Restore_MakeMove_of_generated h hm

/-- C1 witness: the double pawn push e2e4 on the start position is
generated, and make followed by restore returns the start position. -/
theorem claim_C1_witness :
    consistentB startBoard = true ∧
    mkMoveFT 12 28 ∈ GenerateLegalMoves startBoard ∧
    Restore (MakeMove startBoard (mkMoveFT 12 28)).1
      (MakeMove startBoard (mkMoveFT 12 28)).2 = startBoard :=
  ⟨by decide, by decide, claim_C1 startBoard (mkMoveFT 12 28) (by decide) (by decide)⟩


/-! ## XOR toolkit -/

theorem xor_lcomm (a b c : Nat) : a ^^^ (b ^^^ c) = b ^^^ (a ^^^ c) := by
  rw [← Nat.xor_assoc, Nat.xor_comm a b, Nat.xor_assoc]

theorem xor_cancel_left (a b : Nat) : a ^^^ (a ^^^ b) = b := by
  rw [← Nat.xor_assoc, Nat.xor_self, Nat.zero_xor]

/-! ## The from-scratch hash as an XOR of parts -/

/-- XOR of `f` over a list of squares. -/
def foldXor (f : Nat → Nat) (l : List Nat) : Nat := l.foldr (fun i acc => f i ^^^ acc) 0

/-- The piece-square part of `recomputeBoardHash`. -/
def pieceFold (b : Board) : Nat := foldXor (squareHash b) (List.range 64)

/-- One castle-right term of `recomputeBoardHash`. -/
def crTerm (b : Board) (c : ColorT) (s : CastleRightsT) : Nat :=
  if b.canCastle c s then castleRightsZobristC c s else 0

/-- The side-to-move term of `recomputeBoardHash`. -/
def wtmTerm (b : Board) : Nat :=
  if b.Colortomove = White then whiteToMoveZobristC else 0

/-- The from-scratch hash without the en-passant contribution. -/
def coreHash (b : Board) : Nat :=
  pieceFold b ^^^ crTerm b White Kingside ^^^ crTerm b White Queenside ^^^
    crTerm b Black Kingside ^^^ crTerm b Black Queenside ^^^ wtmTerm b

theorem foldr_xor_init (f : Nat → Nat) (a : Nat) (l : List Nat) :
    l.foldr (fun i acc => f i ^^^ acc) a = foldXor f l ^^^ a := by
  induction l with
  | nil => simp [foldXor]
  | cons x xs ih =>
    rw [List.foldr_cons, ih]
    show f x ^^^ (foldXor f xs ^^^ a) = foldXor f (x :: xs) ^^^ a
    have hc : foldXor f (x :: xs) = f x ^^^ foldXor f xs := rfl
    rw [hc, Nat.xor_assoc]

theorem recompute_eq_core (b : Board) :
    recomputeBoardHash b = coreHash b ^^^ b.enpassant := by
  unfold recomputeBoardHash coreHash crTerm wtmTerm pieceFold
  rw [foldr_xor_init]
  split_ifs <;>
    simp [Nat.xor_assoc, Nat.xor_comm, xor_lcomm, xor_cancel_left]

theorem and_bitU_ne_zero {x i : Nat} (hi : i < 64) : (x &&& bitU i != 0) = x.testBit i := by
  cases hxb : x.testBit i
  · have h0 : x &&& bitU i = 0 := by
      apply Nat.eq_of_testBit_eq
      intro j
      rw [Nat.testBit_and, Nat.zero_testBit, testBit_bitU]
      rcases eq_or_ne i j with rfl | hij
      · rw [hxb]
        rfl
      · have : decide (i = j) = false := by simpa using hij
        rw [this]
        simp
    rw [h0]
    rfl
  · have hbit : (x &&& bitU i).testBit i = true := by
      rw [Nat.testBit_and, hxb, testBit_bitU]
      simp [hi]
    have hne : x &&& bitU i ≠ 0 := by
      intro h0
      rw [h0, Nat.zero_testBit] at hbit
      exact absurd hbit (by simp)
    simpa using hne

theorem squareHash_congr_bit {b1 b2 : Board} {i : Nat} (hi : i < 64)
    (hW : b1.bbW.BAll.testBit i = b2.bbW.BAll.testBit i)
    (hB : b1.bbB.BAll.testBit i = b2.bbB.BAll.testBit i)
    (hp : b1.PieceAt i = b2.PieceAt i) :
    squareHash b1 i = squareHash b2 i := by
  unfold squareHash Board.isWhitePieceAt Board.isBlackPieceAt
  rw [and_bitU_ne_zero hi, and_bitU_ne_zero hi, and_bitU_ne_zero hi, and_bitU_ne_zero hi,
    hW, hB, hp]

theorem foldXor_congr {f g : Nat → Nat} :
    ∀ {l : List Nat}, (∀ i ∈ l, f i = g i) → foldXor f l = foldXor g l := by
  intro l
  induction l with
  | nil => intro _; rfl
  | cons x xs ih =>
    intro h
    have hc1 : foldXor f (x :: xs) = f x ^^^ foldXor f xs := rfl
    have hc2 : foldXor g (x :: xs) = g x ^^^ foldXor g xs := rfl
    rw [hc1, hc2, h x (by simp), ih (fun i hi => h i (by simp [hi]))]

theorem foldXor_append (f : Nat → Nat) (l1 l2 : List Nat) :
    foldXor f (l1 ++ l2) = foldXor f l1 ^^^ foldXor f l2 := by
  induction l1 with
  | nil => simp [foldXor]
  | cons x xs ih =>
    have hc1 : foldXor f (x :: (xs ++ l2)) = f x ^^^ foldXor f (xs ++ l2) := rfl
    have hc2 : foldXor f (x :: xs) = f x ^^^ foldXor f xs := rfl
    rw [List.cons_append, hc1, ih, hc2, Nat.xor_assoc]

theorem foldXor_delta {f g : Nat → Nat} {j : Nat} :
    ∀ {n : Nat}, j < n → (∀ i, i < n → i ≠ j → f i = g i) →
    foldXor g (List.range n) = foldXor f (List.range n) ^^^ f j ^^^ g j := by
  intro n
  induction n with
  | zero => omega
  | succ n ih =>
    intro hj h
    rw [List.range_succ, foldXor_append, foldXor_append]
    have hsing : ∀ k : Nat → Nat, foldXor k [n] = k n ^^^ 0 := fun k => rfl
    rw [hsing f, hsing g, Nat.xor_zero, Nat.xor_zero]
    rcases eq_or_ne j n with heq | hjn
    · have hgf : foldXor f (List.range n) = foldXor g (List.range n) :=
        foldXor_congr (fun i hi => h i (by
          rw [List.mem_range] at hi
          omega) (by rw [List.mem_range] at hi; omega))
      rw [hgf, heq]
      simp [Nat.xor_assoc, Nat.xor_comm, xor_lcomm, xor_cancel_left]
    · have hjn' : j < n := by omega
      rw [ih hjn' (fun i hi hij => h i (by omega) hij)]
      rw [h n (by omega) (by omega)]
      simp [Nat.xor_assoc, Nat.xor_comm, xor_lcomm, xor_cancel_left]

theorem pieceFold_delta {b1 b2 : Board} {j : Nat} (hj : j < 64)
    (hW : ∀ i, i < 64 → i ≠ j → b2.bbW.BAll.testBit i = b1.bbW.BAll.testBit i)
    (hB : ∀ i, i < 64 → i ≠ j → b2.bbB.BAll.testBit i = b1.bbB.BAll.testBit i)
    (hp : ∀ i, i < 64 → i ≠ j → b2.PieceAt i = b1.PieceAt i) :
    pieceFold b2 = pieceFold b1 ^^^ squareHash b1 j ^^^ squareHash b2 j :=
  foldXor_delta hj (fun i hi hij =>
    squareHash_congr_bit hi (hW i hi hij).symm (hB i hi hij).symm (hp i hi hij).symm)

theorem pieceFold_congr_eq {b1 b2 : Board} (hW : b1.bbW.BAll = b2.bbW.BAll)
    (hB : b1.bbB.BAll = b2.bbB.BAll) (hp : b1.pieces = b2.pieces) :
    pieceFold b1 = pieceFold b2 :=
  foldXor_congr (fun i hi =>
    squareHash_congr_bit (by rw [List.mem_range] at hi; exact hi)
      (by rw [hW]) (by rw [hB]) (by unfold Board.PieceAt; rw [hp]))

theorem crTerm_congr {b1 b2 : Board} (hcw : b1.castleW = b2.castleW)
    (hcb : b1.castleB = b2.castleB) (c : ColorT) (s : CastleRightsT) :
    crTerm b1 c s = crTerm b2 c s := by
  unfold crTerm Board.canCastle Board.castlerights
  cases c
  · rw [hcw]
  · rw [hcb]

theorem coreHash_congr {b1 b2 : Board} (hc : b1.Colortomove = b2.Colortomove)
    (hcw : b1.castleW = b2.castleW) (hcb : b1.castleB = b2.castleB)
    (hW : b1.bbW.BAll = b2.bbW.BAll) (hB : b1.bbB.BAll = b2.bbB.BAll)
    (hp : b1.pieces = b2.pieces) :
    coreHash b1 = coreHash b2 := by
  unfold coreHash wtmTerm
  rw [pieceFold_congr_eq hW hB hp, crTerm_congr hcw hcb, crTerm_congr hcw hcb,
    crTerm_congr hcw hcb, crTerm_congr hcw hcb, hc]


/-! ## Hash invariance of the castle-rights strips -/

theorem testBit_xor_pow_self (x k : Nat) : (x ^^^ 2 ^ k).testBit k = !x.testBit k := by
  rw [Nat.testBit_xor, Nat.testBit_two_pow]
  simp

theorem testBit_xor_pow_other (x : Nat) {k k' : Nat} (h : k ≠ k') :
    (x ^^^ 2 ^ k).testBit k' = x.testBit k' := by
  rw [Nat.testBit_xor, Nat.testBit_two_pow]
  simp [h]

theorem canCastle_eq_testBit (b : Board) (c : ColorT) (s : CastleRightsT) :
    b.canCastle c s = (b.castlerights c).testBit (sideVal s) := by
  unfold Board.canCastle
  rw [toFlag_eq_pow]
  cases hb : (b.castlerights c).testBit (sideVal s)
  · have h0 : b.castlerights c &&& 2 ^ sideVal s = 0 := by
      rw [Nat.and_two_pow, hb]
      simp
    rw [h0]
    rfl
  · have hpos : b.castlerights c &&& 2 ^ sideVal s = 2 ^ sideVal s := by
      rw [Nat.and_two_pow, hb]
      simp
    rw [hpos]
    have h2 : (2 : Nat) ^ sideVal s ≠ 0 := pow_ne_zero _ (by norm_num)
    simpa using h2

theorem castlerights_flip_self (b : Board) (c : ColorT) (s : CastleRightsT) :
    (b.flipCastleRightsF c s).castlerights c = b.castlerights c ^^^ toFlag s := by
  cases c <;> rfl

theorem castlerights_flip_other (b : Board) {c c' : ColorT} (h : c' ≠ c)
    (s : CastleRightsT) :
    (b.flipCastleRightsF c s).castlerights c' = b.castlerights c' := by
  cases c <;> cases c' <;> first | rfl | exact absurd rfl h

theorem canCastle_flip_self (b : Board) (c : ColorT) (s : CastleRightsT) :
    (b.flipCastleRightsF c s).canCastle c s = !(b.canCastle c s) := by
  rw [canCastle_eq_testBit, canCastle_eq_testBit, castlerights_flip_self,
    toFlag_eq_pow, testBit_xor_pow_self]

theorem canCastle_flip_ne (b : Board) {c c' : ColorT} {s s' : CastleRightsT}
    (h : ¬(c' = c ∧ s' = s)) :
    (b.flipCastleRightsF c s).canCastle c' s' = b.canCastle c' s' := by
  rcases eq_or_ne c' c with rfl | hcc
  · have hss : s' ≠ s := fun hx => h ⟨rfl, hx⟩
    rw [canCastle_eq_testBit, canCastle_eq_testBit, castlerights_flip_self,
      toFlag_eq_pow, testBit_xor_pow_other]
    cases s <;> cases s' <;> first | exact absurd rfl hss | decide
  · rw [canCastle_eq_testBit, canCastle_eq_testBit, castlerights_flip_other b hcc]

theorem flip_frame (b : Board) (c : ColorT) (s : CastleRightsT) :
    (b.flipCastleRightsF c s).Colortomove = b.Colortomove ∧
    (b.flipCastleRightsF c s).enpassant = b.enpassant ∧
    (b.flipCastleRightsF c s).pieces = b.pieces ∧
    (b.flipCastleRightsF c s).bbW = b.bbW ∧
    (b.flipCastleRightsF c s).bbB = b.bbB ∧
    (b.flipCastleRightsF c s).Halfmoveclock = b.Halfmoveclock ∧
    (b.flipCastleRightsF c s).Fullmoveno = b.Fullmoveno ∧
    (b.flipCastleRightsF c s).hash = b.hash ^^^ castleRightsZobristC c s := by
  cases c <;> exact ⟨rfl, rfl, rfl, rfl, rfl, rfl, rfl, rfl⟩

theorem coreHash_flip {b : Board} {c : ColorT} {s : CastleRightsT}
    (hcc : b.canCastle c s = true) :
    coreHash (b.flipCastleRightsF c s) = coreHash b ^^^ castleRightsZobristC c s := by
  obtain ⟨h1, h2, h3, h4, h5, h6, h7, h8⟩ := flip_frame b c s
  have hpf : pieceFold (b.flipCastleRightsF c s) = pieceFold b :=
    pieceFold_congr_eq (by rw [h4]) (by rw [h5]) h3
  have hcrs : ∀ c' s', ¬(c' = c ∧ s' = s) →
      crTerm (b.flipCastleRightsF c s) c' s' = crTerm b c' s' := by
    intro c' s' hne
    unfold crTerm
    rw [canCastle_flip_ne b hne]
  have hcrself : crTerm (b.flipCastleRightsF c s) c s ^^^ castleRightsZobristC c s =
      crTerm b c s := by
    unfold crTerm
    rw [canCastle_flip_self, hcc]
    simp
  unfold coreHash wtmTerm
  rw [hpf, h1]
  cases c <;> cases s
  · rw [hcrs White Kingside (by simp), hcrs Black Queenside (by simp),
      hcrs Black Kingside (by simp), ← hcrself]
    simp [Nat.xor_assoc, Nat.xor_comm, xor_lcomm, xor_cancel_left]
  · rw [hcrs White Queenside (by simp), hcrs Black Queenside (by simp),
      hcrs Black Kingside (by simp), ← hcrself]
    simp [Nat.xor_assoc, Nat.xor_comm, xor_lcomm, xor_cancel_left]
  · rw [hcrs White Kingside (by simp), hcrs White Queenside (by simp),
      hcrs Black Kingside (by simp), ← hcrself]
    simp [Nat.xor_assoc, Nat.xor_comm, xor_lcomm, xor_cancel_left]
  · rw [hcrs White Kingside (by simp), hcrs White Queenside (by simp),
      hcrs Black Queenside (by simp), ← hcrself]
    simp [Nat.xor_assoc, Nat.xor_comm, xor_lcomm, xor_cancel_left]

/-- The chained-hash invariant: the board's incremental hash equals the
ep-free from-scratch hash XOR a fixed en-passant contribution. -/
def hashEq (b : Board) (e0 : Nat) : Prop := b.hash = coreHash b ^^^ e0

theorem hashEq_flip {b : Board} {e0 : Nat} {c : ColorT} {s : CastleRightsT}
    (hb : hashEq b e0) (hcc : b.canCastle c s = true) :
    hashEq (b.flipCastleRightsF c s) e0 := by
  unfold hashEq at hb ⊢
  rw [(flip_frame b c s).2.2.2.2.2.2.2, coreHash_flip hcc, hb]
  simp [Nat.xor_assoc, Nat.xor_comm, xor_lcomm, xor_cancel_left]

theorem hashEq_weFlipIf {b : Board} {e0 : Nat} (s : CastleRightsT) (hb : hashEq b e0) :
    hashEq (if b.weCanCastle s then b.flipOurCastleRights s else b) e0 := by
  unfold Board.flipOurCastleRights Board.weCanCastle
  split_ifs with h
  · exact hashEq_flip hb h
  · exact hb

theorem hashEq_stripKingRights {b : Board} {e0 : Nat} (hb : hashEq b e0) :
    hashEq (stripKingRights b) e0 := by
  simp only [stripKingRights]
  exact hashEq_weFlipIf Queenside (hashEq_weFlipIf Kingside hb)

theorem hashEq_stripRookRights {b : Board} {e0 : Nat} (hb : hashEq b e0) (fb : Nat) :
    hashEq (stripRookRights b fb) e0 := by
  simp only [stripRookRights]
  split_ifs with h1 h2
  · simp only [Bool.and_eq_true] at h1
    exact hashEq_flip hb h1.1.1
  · simp only [Bool.and_eq_true] at h2
    exact hashEq_flip hb h2.1.1
  · exact hb

theorem hashEq_stripCapturedRookRights {b : Board} {e0 : Nat} (hb : hashEq b e0)
    (tl tb : Nat) : hashEq (stripCapturedRookRights b tl tb) e0 := by
  simp only [stripCapturedRookRights]
  split_ifs with h1 h2
  · simp only [Bool.and_eq_true] at h1
    exact hashEq_flip hb h1.2
  · simp only [Bool.and_eq_true] at h2
    exact hashEq_flip hb h2.2
  · exact hb


/-! ## Hash deltas of the piece add/remove primitives -/

theorem testBit_and_compl64_ne {x p i : Nat} (hi : i < 64) (hne : i ≠ p) :
    (x &&& compl64 (bitU p)).testBit i = x.testBit i := by
  rw [Nat.testBit_and, testBit_compl64, testBit_bitU]
  simp [hi, Ne.symm hne]

theorem testBit_and_compl64_self (x p : Nat) (hp : p < 64) :
    (x &&& compl64 (bitU p)).testBit p = false := by
  rw [Nat.testBit_and, testBit_compl64, testBit_bitU]
  simp [hp]

theorem testBit_or_bitU_self {x p : Nat} (hp : p < 64) :
    (x ||| bitU p).testBit p = true := by
  rw [Nat.testBit_or, testBit_bitU]
  simp [hp]

theorem testBit_or_bitU_ne {x p i : Nat} (hne : i ≠ p) :
    (x ||| bitU p).testBit i = x.testBit i := by
  rw [Nat.testBit_or, testBit_bitU]
  simp [Ne.symm hne]

theorem BAll_removePieceAt (b : Board) (pc : Piece) (j : Nat) (c : ColorT) {slot : Piece}
    (hslot : slot ≠ AllPieces) (c' : ColorT) :
    ((b.removePieceAt pc j c slot).bbs c').BAll =
      if c = c' then (b.bbs c).BAll &&& compl64 (bitU j) else (b.bbs c').BAll := by
  cases c <;> cases c' <;> cases slot <;>
    first
      | exact absurd rfl hslot
      | simp [Board.removePieceAt, Board.setBb, Board.setBbs, Board.bbs, Board.bb,
          Bitboards.get, Bitboards.set, Board.setPieceAt]

theorem BAll_addPieceAt (b : Board) (pc : Piece) (j : Nat) (c : ColorT) {slot : Piece}
    (hslot : slot ≠ AllPieces) (c' : ColorT) :
    ((b.addPieceAt pc j c slot).bbs c').BAll =
      if c = c' then (b.bbs c).BAll ||| bitU j else (b.bbs c').BAll := by
  cases c <;> cases c' <;> cases slot <;>
    first
      | exact absurd rfl hslot
      | simp [Board.addPieceAt, Board.setBb, Board.setBbs, Board.bbs, Board.bb,
          Bitboards.get, Bitboards.set, Board.setPieceAt]

theorem PieceAt_removePieceAt (b : Board) (pc : Piece) (j : Nat) (c : ColorT) (slot : Piece)
    (i : Nat) :
    (b.removePieceAt pc j c slot).PieceAt i =
      if j = i ∧ j < b.pieces.length then Nothing else b.PieceAt i := by
  unfold Board.removePieceAt
  rw [Board.PieceAt_setPieceAt]
  simp

theorem PieceAt_addPieceAt (b : Board) (pc : Piece) (j : Nat) (c : ColorT) (slot : Piece)
    (i : Nat) :
    (b.addPieceAt pc j c slot).PieceAt i =
      if j = i ∧ j < b.pieces.length then pc else b.PieceAt i := by
  unfold Board.addPieceAt
  rw [Board.PieceAt_setPieceAt]
  simp

theorem squareHash_empty {b : Board} {j : Nat} (hj : j < 64)
    (hW : b.bbW.BAll.testBit j = false) (hB : b.bbB.BAll.testBit j = false) :
    squareHash b j = 0 := by
  unfold squareHash Board.isWhitePieceAt Board.isBlackPieceAt
  rw [and_bitU_ne_zero hj, and_bitU_ne_zero hj, hW, hB]
  simp

theorem squareHash_of_color {b : Board} {j : Nat} (c : ColorT) (hj : j < 64)
    (hc : ((b.bbs c).BAll).testBit j = true)
    (hopp : ((b.bbs (oppColor c)).BAll).testBit j = false)
    (hv : 1 ≤ pieceVal (b.PieceAt j)) :
    squareHash b j =
      pieceSquareZobristC (piecesPawnZobristIndexes c + (pieceVal (b.PieceAt j) - 1)) j := by
  cases c
  · have hc' : b.bbW.BAll.testBit j = true := hc
    unfold squareHash Board.isWhitePieceAt Board.isBlackPieceAt
    rw [and_bitU_ne_zero hj, and_bitU_ne_zero hj, hc']
    simp [piecesPawnZobristIndexes]
  · have hw' : b.bbW.BAll.testBit j = false := hopp
    have hb' : b.bbB.BAll.testBit j = true := hc
    unfold squareHash Board.isWhitePieceAt Board.isBlackPieceAt
    rw [and_bitU_ne_zero hj, and_bitU_ne_zero hj, hw', hb']
    simp only [piecesPawnZobristIndexes, Bool.false_eq_true, if_false, if_true]
    congr 1
    omega

theorem coreHash_delta_of_fields {b b' : Board} {j : Nat} (hj : j < 64)
    (hc : b'.Colortomove = b.Colortomove)
    (hcw : b'.castleW = b.castleW) (hcb : b'.castleB = b.castleB)
    (hW : ∀ i, i < 64 → i ≠ j → b'.bbW.BAll.testBit i = b.bbW.BAll.testBit i)
    (hB : ∀ i, i < 64 → i ≠ j → b'.bbB.BAll.testBit i = b.bbB.BAll.testBit i)
    (hp : ∀ i, i < 64 → i ≠ j → b'.PieceAt i = b.PieceAt i) :
    coreHash b' = coreHash b ^^^ squareHash b j ^^^ squareHash b' j := by
  unfold coreHash wtmTerm
  rw [pieceFold_delta hj hW hB hp]
  simp only [crTerm_congr hcw hcb, hc]
  simp [Nat.xor_assoc, Nat.xor_comm, xor_lcomm, xor_cancel_left]

theorem coreHash_removePieceAt {b : Board} (pc slot : Piece) (j : Nat) (c : ColorT)
    (hslot : slot ≠ AllPieces) (hj : j < 64)
    (hopp : ((b.bbs (oppColor c)).BAll).testBit j = false) :
    coreHash (b.removePieceAt pc j c slot) = coreHash b ^^^ squareHash b j := by
  have hWf : ∀ i, i < 64 → i ≠ j →
      (b.removePieceAt pc j c slot).bbW.BAll.testBit i = b.bbW.BAll.testBit i := by
    intro i hi hij
    show ((b.removePieceAt pc j c slot).bbs White).BAll.testBit i =
      ((b.bbs White)).BAll.testBit i
    rw [BAll_removePieceAt b pc j c hslot White]
    split_ifs with hcw
    · subst hcw
      exact testBit_and_compl64_ne hi hij
    · rfl
  have hBf : ∀ i, i < 64 → i ≠ j →
      (b.removePieceAt pc j c slot).bbB.BAll.testBit i = b.bbB.BAll.testBit i := by
    intro i hi hij
    show ((b.removePieceAt pc j c slot).bbs Black).BAll.testBit i =
      ((b.bbs Black)).BAll.testBit i
    rw [BAll_removePieceAt b pc j c hslot Black]
    split_ifs with hcb
    · subst hcb
      exact testBit_and_compl64_ne hi hij
    · rfl
  have hpf : ∀ i, i < 64 → i ≠ j →
      (b.removePieceAt pc j c slot).PieceAt i = b.PieceAt i := by
    intro i hi hij
    rw [PieceAt_removePieceAt]
    exact if_neg (fun hcon => hij hcon.1.symm)
  have hsqW : ((b.removePieceAt pc j c slot).bbs White).BAll.testBit j = false := by
    rw [BAll_removePieceAt b pc j c hslot White]
    split_ifs with hcw
    · subst hcw
      exact testBit_and_compl64_self _ j hj
    · cases c
      · exact absurd rfl hcw
      · exact hopp
  have hsqB : ((b.removePieceAt pc j c slot).bbs Black).BAll.testBit j = false := by
    rw [BAll_removePieceAt b pc j c hslot Black]
    split_ifs with hcb
    · subst hcb
      exact testBit_and_compl64_self _ j hj
    · cases c
      · exact hopp
      · exact absurd rfl hcb
  have hsq0 : squareHash (b.removePieceAt pc j c slot) j = 0 :=
    squareHash_empty hj hsqW hsqB
  rw [coreHash_delta_of_fields hj (by simp) (by simp) (by simp) hWf hBf hpf, hsq0,
    Nat.xor_zero]

theorem coreHash_addPieceAt {b : Board} (pc slot : Piece) (j : Nat) (c : ColorT)
    (hslot : slot ≠ AllPieces) (hj : j < 64) (hlen : j < b.pieces.length)
    (hour : ((b.bbs c).BAll).testBit j = false)
    (hopp : ((b.bbs (oppColor c)).BAll).testBit j = false)
    (hv : 1 ≤ pieceVal pc) :
    coreHash (b.addPieceAt pc j c slot) =
      coreHash b ^^^ pieceSquareZobristC (piecesPawnZobristIndexes c + (pieceVal pc - 1)) j := by
  have hWf : ∀ i, i < 64 → i ≠ j →
      (b.addPieceAt pc j c slot).bbW.BAll.testBit i = b.bbW.BAll.testBit i := by
    intro i hi hij
    show ((b.addPieceAt pc j c slot).bbs White).BAll.testBit i = ((b.bbs White)).BAll.testBit i
    rw [BAll_addPieceAt b pc j c hslot White]
    split_ifs with hcw
    · subst hcw
      exact testBit_or_bitU_ne hij
    · rfl
  have hBf : ∀ i, i < 64 → i ≠ j →
      (b.addPieceAt pc j c slot).bbB.BAll.testBit i = b.bbB.BAll.testBit i := by
    intro i hi hij
    show ((b.addPieceAt pc j c slot).bbs Black).BAll.testBit i = ((b.bbs Black)).BAll.testBit i
    rw [BAll_addPieceAt b pc j c hslot Black]
    split_ifs with hcb
    · subst hcb
      exact testBit_or_bitU_ne hij
    · rfl
  have hpf : ∀ i, i < 64 → i ≠ j →
      (b.addPieceAt pc j c slot).PieceAt i = b.PieceAt i := by
    intro i hi hij
    rw [PieceAt_addPieceAt]
    exact if_neg (fun hcon => hij hcon.1.symm)
  have hsq0 : squareHash b j = 0 := by
    apply squareHash_empty hj
    · cases c
      · exact hour
      · exact hopp
    · cases c
      · exact hopp
      · exact hour
  have hself : ((b.addPieceAt pc j c slot).bbs c).BAll.testBit j = true := by
    rw [BAll_addPieceAt b pc j c hslot c, if_pos rfl]
    exact testBit_or_bitU_self hj
  have hoppb : ((b.addPieceAt pc j c slot).bbs (oppColor c)).BAll.testBit j = false := by
    rw [BAll_addPieceAt b pc j c hslot (oppColor c), if_neg (oppColor_ne c)]
    exact hopp
  have hpaj : (b.addPieceAt pc j c slot).PieceAt j = pc := by
    rw [PieceAt_addPieceAt]
    exact if_pos ⟨rfl, hlen⟩
  have hv' : 1 ≤ pieceVal ((b.addPieceAt pc j c slot).PieceAt j) := by
    rw [hpaj]
    exact hv
  have hsq' : squareHash (b.addPieceAt pc j c slot) j =
      pieceSquareZobristC (piecesPawnZobristIndexes c + (pieceVal pc - 1)) j := by
    rw [squareHash_of_color c hj hself hoppb hv', hpaj]
  rw [coreHash_delta_of_fields hj (by simp) (by simp) (by simp) hWf hBf hpf, hsq0, hsq',
    Nat.xor_zero]

theorem coreHash_movePieceAt {b : Board} (pt q : Piece) (f t : Nat) (c : ColorT)
    (hptA : pt ≠ AllPieces) (hqA : q ≠ AllPieces)
    (hf : f < 64) (ht : t < 64) (hlen : t < b.pieces.length)
    (hpa : b.PieceAt f = pt) (hvp : 1 ≤ pieceVal pt) (hvq : 1 ≤ pieceVal q)
    (hourf : ((b.bbs c).BAll).testBit f = true)
    (hoppf : ((b.bbs (oppColor c)).BAll).testBit f = false)
    (hourt : ((b.bbs c).BAll).testBit t = false)
    (hoppt : ((b.bbs (oppColor c)).BAll).testBit t = false) :
    coreHash (b.movePieceAt pt q f t c pt q) =
      coreHash b ^^^ pieceSquareZobristC (piecesPawnZobristIndexes c + (pieceVal pt - 1)) f
        ^^^ pieceSquareZobristC (piecesPawnZobristIndexes c + (pieceVal q - 1)) t := by
  have hft : t ≠ f := by
    intro h
    rw [h] at hourt
    rw [hourf] at hourt
    exact Bool.noConfusion hourt
  have hlen' : t < (b.removePieceAt pt f c pt).pieces.length := by
    simpa using hlen
  have hour' : (((b.removePieceAt pt f c pt).bbs c).BAll).testBit t = false := by
    rw [BAll_removePieceAt b pt f c hptA c, if_pos rfl]
    rw [testBit_and_compl64_ne ht hft]
    exact hourt
  have hopp' : (((b.removePieceAt pt f c pt).bbs (oppColor c)).BAll).testBit t = false := by
    rw [BAll_removePieceAt b pt f c hptA (oppColor c), if_neg (oppColor_ne c)]
    exact hoppt
  have h1 : coreHash (b.movePieceAt pt q f t c pt q) =
      coreHash (b.removePieceAt pt f c pt) ^^^
        pieceSquareZobristC (piecesPawnZobristIndexes c + (pieceVal q - 1)) t :=
    coreHash_addPieceAt q q t c hqA ht hlen' hour' hopp' hvq
  have h2 : coreHash (b.removePieceAt pt f c pt) = coreHash b ^^^ squareHash b f :=
    coreHash_removePieceAt pt pt f c hptA hf hoppf
  have h3 : squareHash b f =
      pieceSquareZobristC (piecesPawnZobristIndexes c + (pieceVal pt - 1)) f := by
    rw [squareHash_of_color c hf hourf hoppf (by rw [hpa]; exact hvp), hpa]
  rw [h1, h2, h3]

theorem coreHash_hashOnly (x : Board) (h : Nat) :
    coreHash ({ x with hash := h }) = coreHash x :=
  coreHash_congr rfl rfl rfl rfl rfl rfl

/-! ## hashEq through the capture/move wrappers of apply.go -/

theorem hashEq_removeCapturedPiece {b : Board} {e0 : Nat} {cpt : Piece} {t : Nat}
    (hb : hashEq b e0) (hA : cpt ≠ AllPieces) (ht : t < 64)
    (hocc : ((b.bbs (oppColor b.Colortomove)).BAll).testBit t = true)
    (hown : ((b.bbs b.Colortomove).BAll).testBit t = false)
    (hpa : b.PieceAt t = cpt) (hv : 1 ≤ pieceVal cpt) :
    hashEq (removeCapturedPiece b cpt t) e0 := by
  have hoppop : ((b.bbs (oppColor (oppColor b.Colortomove))).BAll).testBit t = false := by
    rw [oppColor_oppColor]
    exact hown
  have hcore : coreHash (b.removePieceAt cpt t (oppColor b.Colortomove) cpt) =
      coreHash b ^^^ squareHash b t :=
    coreHash_removePieceAt cpt cpt t (oppColor b.Colortomove) hA ht hoppop
  have hsq : squareHash b t =
      pieceSquareZobristC
        (piecesPawnZobristIndexes (oppColor b.Colortomove) + (pieceVal cpt - 1)) t := by
    rw [squareHash_of_color (oppColor b.Colortomove) ht hocc hoppop (by rw [hpa]; exact hv),
      hpa]
  simp only [removeCapturedPiece]
  unfold hashEq at hb ⊢
  show (b.removePieceAt cpt t (oppColor b.Colortomove) cpt).hash ^^^
      pieceSquareZobristC
        (piecesPawnZobristIndexes (oppColor b.Colortomove) + (pieceVal cpt - 1)) t =
    coreHash ({ b.removePieceAt cpt t (oppColor b.Colortomove) cpt with
      hash := (b.removePieceAt cpt t (oppColor b.Colortomove) cpt).hash ^^^
        pieceSquareZobristC
          (piecesPawnZobristIndexes (oppColor b.Colortomove) + (pieceVal cpt - 1)) t }) ^^^ e0
  rw [coreHash_hashOnly, hcore, hsq, Board.hash_removePieceAt, hb]
  simp [Nat.xor_assoc, Nat.xor_comm, xor_lcomm, xor_cancel_left]

theorem hashEq_applyPieceMove {b : Board} {e0 : Nat} {pt promoted : Piece} {f t : Nat}
    (hb : hashEq b e0) (hptA : pt ≠ AllPieces) (hprA : promoted ≠ AllPieces)
    (hf : f < 64) (ht : t < 64) (hlen : t < b.pieces.length)
    (hpa : b.PieceAt f = pt) (hvp : 1 ≤ pieceVal pt) (hvq : 1 ≤ pieceVal promoted)
    (hourf : ((b.bbs b.Colortomove).BAll).testBit f = true)
    (hoppf : ((b.bbs (oppColor b.Colortomove)).BAll).testBit f = false)
    (hourt : ((b.bbs b.Colortomove).BAll).testBit t = false)
    (hoppt : ((b.bbs (oppColor b.Colortomove)).BAll).testBit t = false) :
    hashEq (applyPieceMove b pt promoted f t) e0 := by
  have hcore := coreHash_movePieceAt pt promoted f t b.Colortomove hptA hprA hf ht hlen
    hpa hvp hvq hourf hoppf hourt hoppt
  simp only [applyPieceMove]
  unfold hashEq at hb ⊢
  show (b.movePieceAt pt promoted f t b.Colortomove pt promoted).hash ^^^
      pieceSquareZobristC (pieceVal pt - 1 + piecesPawnZobristIndexes b.Colortomove) f ^^^
      pieceSquareZobristC (pieceVal promoted - 1 + piecesPawnZobristIndexes b.Colortomove) t =
    coreHash ({ b.movePieceAt pt promoted f t b.Colortomove pt promoted with
      hash := (b.movePieceAt pt promoted f t b.Colortomove pt promoted).hash ^^^
        pieceSquareZobristC (pieceVal pt - 1 + piecesPawnZobristIndexes b.Colortomove) f ^^^
        pieceSquareZobristC (pieceVal promoted - 1 +
          piecesPawnZobristIndexes b.Colortomove) t }) ^^^ e0
  rw [coreHash_hashOnly, hcore, Board.hash_movePieceAt,
    Nat.add_comm (pieceVal pt - 1) (piecesPawnZobristIndexes b.Colortomove),
    Nat.add_comm (pieceVal promoted - 1) (piecesPawnZobristIndexes b.Colortomove), hb]
  simp [Nat.xor_assoc, Nat.xor_comm, xor_lcomm, xor_cancel_left]

theorem hashEq_applyCastleRook {b : Board} {e0 : Nat} {cs o n : Nat}
    (hb : hashEq b e0)
    (hcond : cs ≠ 0 → o < 64 ∧ n < 64 ∧ n < b.pieces.length ∧ b.PieceAt o = Rook ∧
      ((b.bbs b.Colortomove).BAll).testBit o = true ∧
      ((b.bbs (oppColor b.Colortomove)).BAll).testBit o = false ∧
      ((b.bbs b.Colortomove).BAll).testBit n = false ∧
      ((b.bbs (oppColor b.Colortomove)).BAll).testBit n = false) :
    hashEq (applyCastleRook b cs o n) e0 := by
  simp only [applyCastleRook]
  split_ifs with hcs
  · obtain ⟨ho, hn, hlen, hpa, hourf, hoppf, hourt, hoppt⟩ := hcond (by simpa using hcs)
    have hcore := coreHash_movePieceAt Rook Rook o n b.Colortomove (by decide) (by decide)
      ho hn hlen hpa (by decide) (by decide) hourf hoppf hourt hoppt
    unfold hashEq at hb ⊢
    show (b.movePieceAt Rook Rook o n b.Colortomove Rook Rook).hash ^^^
        pieceSquareZobristC (piecesPawnZobristIndexes b.Colortomove + (pieceVal Rook - 1)) o ^^^
        pieceSquareZobristC (piecesPawnZobristIndexes b.Colortomove + (pieceVal Rook - 1)) n =
      coreHash ({ b.movePieceAt Rook Rook o n b.Colortomove Rook Rook with
        hash := (b.movePieceAt Rook Rook o n b.Colortomove Rook Rook).hash ^^^
          pieceSquareZobristC (piecesPawnZobristIndexes b.Colortomove +
            (pieceVal Rook - 1)) o ^^^
          pieceSquareZobristC (piecesPawnZobristIndexes b.Colortomove +
            (pieceVal Rook - 1)) n }) ^^^ e0
    rw [coreHash_hashOnly, hcore, Board.hash_movePieceAt, hb]
    simp [Nat.xor_assoc, Nat.xor_comm, xor_lcomm, xor_cancel_left]
  · exact hb

theorem hashEq_applyEpCapture {b : Board} {e0 : Nat} {isEp : Bool} {l : Nat}
    (hb : hashEq b e0)
    (hcond : isEp = true → l < 64 ∧ b.PieceAt l = Pawn ∧
      ((b.bbs (oppColor b.Colortomove)).BAll).testBit l = true ∧
      ((b.bbs b.Colortomove).BAll).testBit l = false) :
    hashEq (applyEpCapture b isEp l) e0 := by
  simp only [applyEpCapture]
  split_ifs with hep
  · obtain ⟨hl, hpa, hocc, hown⟩ := hcond hep
    have hoppop : ((b.bbs (oppColor (oppColor b.Colortomove))).BAll).testBit l = false := by
      rw [oppColor_oppColor]
      exact hown
    have hcore : coreHash (b.removePieceAt Pawn l (oppColor b.Colortomove) Pawn) =
        coreHash b ^^^ squareHash b l :=
      coreHash_removePieceAt Pawn Pawn l (oppColor b.Colortomove) (by decide) hl hoppop
    have hsq : squareHash b l =
        pieceSquareZobristC (piecesPawnZobristIndexes (oppColor b.Colortomove)) l := by
      rw [squareHash_of_color (oppColor b.Colortomove) hl hocc hoppop
        (by rw [hpa]; decide), hpa]
      simp [pieceVal]
    unfold hashEq at hb ⊢
    show (b.removePieceAt Pawn l (oppColor b.Colortomove) Pawn).hash ^^^
        pieceSquareZobristC (piecesPawnZobristIndexes (oppColor b.Colortomove)) l =
      coreHash ({ b.removePieceAt Pawn l (oppColor b.Colortomove) Pawn with
        hash := (b.removePieceAt Pawn l (oppColor b.Colortomove) Pawn).hash ^^^
          pieceSquareZobristC (piecesPawnZobristIndexes (oppColor b.Colortomove)) l }) ^^^ e0
    rw [coreHash_hashOnly, hcore, hsq, Board.hash_removePieceAt, hb]
    simp [Nat.xor_assoc, Nat.xor_comm, xor_lcomm, xor_cancel_left]
  · exact hb


/-! ## hashEq through the scalar steps of MakeSpecialMove -/

theorem hashEq_setFullmoveno (b : Board) (e0 v : Nat) (hb : hashEq b e0) :
    hashEq ({ b with Fullmoveno := v }) e0 := by
  unfold hashEq at hb ⊢
  rw [show ({ b with Fullmoveno := v } : Board).hash = b.hash from rfl,
    coreHash_congr rfl rfl rfl rfl rfl rfl]
  exact hb

theorem hashEq_applyHalfmoveClock (b : Board) (e0 : Nat) (m : Move) (pt : Piece)
    (hb : hashEq b e0) : hashEq (applyHalfmoveClock b m pt) e0 := by
  unfold applyHalfmoveClock
  split_ifs
  · unfold hashEq at hb ⊢
    rw [show ({ b with Halfmoveclock := 0 } : Board).hash = b.hash from rfl,
      coreHash_congr rfl rfl rfl rfl rfl rfl]
    exact hb
  · unfold hashEq at hb ⊢
    rw [show ({ b with Halfmoveclock := (b.Halfmoveclock + 1) % 256 } : Board).hash = b.hash
      from rfl, coreHash_congr rfl rfl rfl rfl rfl rfl]
    exact hb

theorem hashEq_applyEpSquare (b : Board) (e0 : Nat) (pt : Piece) (f t : Nat)
    (hb : hashEq b e0) : hashEq (applyEpSquare b pt f t) e0 := by
  simp only [applyEpSquare]
  split_ifs
  · unfold hashEq at hb ⊢
    rw [show ({ b with enpassant := u8ofInt ((t : Int) + epDeltas b.Colortomove) } :
      Board).hash = b.hash from rfl, coreHash_congr rfl rfl rfl rfl rfl rfl]
    exact hb
  · unfold hashEq at hb ⊢
    rw [show ({ b with enpassant := 0 } : Board).hash = b.hash from rfl,
      coreHash_congr rfl rfl rfl rfl rfl rfl]
    exact hb

theorem hashEq_flipSideHash (b : Board) (e0 : Nat) (hb : hashEq b e0) :
    hashEq ({ b with
      hash := b.hash ^^^ whiteToMoveZobristC
      Colortomove := oppColor b.Colortomove }) e0 := by
  unfold hashEq at hb ⊢
  have hcore : coreHash ({ b with
      hash := b.hash ^^^ whiteToMoveZobristC
      Colortomove := oppColor b.Colortomove }) = coreHash b ^^^ whiteToMoveZobristC := by
    unfold coreHash wtmTerm
    have hpf : pieceFold ({ b with
        hash := b.hash ^^^ whiteToMoveZobristC
        Colortomove := oppColor b.Colortomove }) = pieceFold b :=
      pieceFold_congr_eq rfl rfl rfl
    have hcr : ∀ c s, crTerm ({ b with
        hash := b.hash ^^^ whiteToMoveZobristC
        Colortomove := oppColor b.Colortomove }) c s = crTerm b c s :=
      fun c s => crTerm_congr rfl rfl c s
    rw [hpf]
    simp only [hcr]
    cases hc : b.Colortomove <;>
      simp [oppColor, hc, Nat.xor_assoc, Nat.xor_comm, xor_lcomm, xor_cancel_left]
  rw [show ({ b with
    hash := b.hash ^^^ whiteToMoveZobristC
    Colortomove := oppColor b.Colortomove } : Board).hash = b.hash ^^^ whiteToMoveZobristC
    from rfl, hcore, hb]
  simp [Nat.xor_assoc, Nat.xor_comm, xor_lcomm, xor_cancel_left]

theorem hash_of_finalEp (b : Board) (e0 : Nat) (hb : hashEq b e0) :
    ({ b with hash := b.hash ^^^ e0 ^^^ b.enpassant } : Board).hash =
      recomputeBoardHash ({ b with hash := b.hash ^^^ e0 ^^^ b.enpassant }) := by
  rw [recompute_eq_core]
  rw [show ({ b with hash := b.hash ^^^ e0 ^^^ b.enpassant } : Board).hash =
    b.hash ^^^ e0 ^^^ b.enpassant from rfl]
  rw [show ({ b with hash := b.hash ^^^ e0 ^^^ b.enpassant } : Board).enpassant =
    b.enpassant from rfl]
  rw [coreHash_hashOnly]
  unfold hashEq at hb
  rw [hb]
  simp [Nat.xor_assoc, Nat.xor_comm, xor_lcomm, xor_cancel_left]

/-! ## Occupancy consequences of consistency -/

theorem realKind_one_le {k : Piece} (hr : realKind k) : 1 ≤ pieceVal k := by
  cases k
  · exact absurd rfl hr.1
  all_goals decide

theorem realKind_of_occ_bit {b : Board} (h : consistentB b = true) {c : ColorT} {i : Nat}
    (hi : i < 64) (hbit : ((b.bbs c).BAll).testBit i = true) :
    realKind (b.PieceAt i) := by
  rcases pieceAt_cases h hi with hN | ⟨hr, _⟩
  · obtain ⟨hW, hB⟩ := empty_of_pieceAt_nothing h hi hN
    exfalso
    cases c
    · have hx : b.bbW.BAll.testBit i = true := hbit
      rw [hW] at hx
      exact Bool.noConfusion hx
    · have hx : b.bbB.BAll.testBit i = true := hbit
      rw [hB] at hx
      exact Bool.noConfusion hx
  · exact hr

theorem opp_bit_false_of_bit {b : Board} (h : consistentB b = true) {c : ColorT} {i : Nat}
    (hbit : ((b.bbs c).BAll).testBit i = true) :
    ((b.bbs (oppColor c)).BAll).testBit i = false := by
  cases c
  · exact colors_disjoint h hbit
  · exact bit_false_of_and_zero' (consistent_parts h).2.2.1 hbit

theorem opp_occupied_of_ne_nothing {b : Board} (h : consistentB b = true) {t : Nat}
    (ht : t < 64) (hourt : ((b.bbs b.Colortomove).BAll).testBit t = false)
    (hne : b.PieceAt t ≠ Nothing) :
    ((b.bbs (oppColor b.Colortomove)).BAll).testBit t = true := by
  rcases pieceAt_cases h ht with hN | ⟨hr, hor⟩
  · exact absurd hN hne
  · rcases hor with hx | hx
    · have hWA : b.bbW.BAll.testBit t = true :=
        get_subset_all (consistent_bbs_ok h White) hr hx
      cases hc : b.Colortomove
      · exfalso
        rw [hc] at hourt
        have hx2 : b.bbW.BAll.testBit t = false := hourt
        rw [hWA] at hx2
        exact Bool.noConfusion hx2
      · exact hWA
    · have hBA : b.bbB.BAll.testBit t = true :=
        get_subset_all (consistent_bbs_ok h Black) hr hx
      cases hc : b.Colortomove
      · exact hBA
      · exfalso
        rw [hc] at hourt
        have hx2 : b.bbB.BAll.testBit t = false := hourt
        rw [hBA] at hx2
        exact Bool.noConfusion hx2

theorem realKind_promotedKind {m : Move} {pt : Piece} (hr : realKind pt) :
    realKind (promotedKind m pt) := by
  unfold promotedKind
  cases m.Promote
  · exact hr
  · exact hr
  · show realKind Knight
    exact ⟨by decide, by decide⟩
  · show realKind Bishop
    exact ⟨by decide, by decide⟩
  · show realKind Rook
    exact ⟨by decide, by decide⟩
  · show realKind Queen
    exact ⟨by decide, by decide⟩
  · exact hr
  · exact hr

theorem BAll_removeCapturedPiece (b : Board) {cpt : Piece} (hA : cpt ≠ AllPieces)
    (t : Nat) (c' : ColorT) :
    ((removeCapturedPiece b cpt t).bbs c').BAll =
      if oppColor b.Colortomove = c' then
        (b.bbs (oppColor b.Colortomove)).BAll &&& compl64 (bitU t)
      else (b.bbs c').BAll := by
  have hx : ∀ (x : Board) (hsh : Nat), (({ x with hash := hsh } : Board).bbs c') = x.bbs c' :=
    fun x hsh => by cases c' <;> rfl
  simp only [removeCapturedPiece]
  rw [hx]
  exact BAll_removePieceAt b cpt t (oppColor b.Colortomove) hA c'

end Dragontooth
